import Mathlib

/-!
# BowFoes physics core

A shallow embedding of the rigid-body core of the BowFoes game library
(`vector.c`, `list.c`, `polygon.c`, `body.c`, `collision.c`, `scene.c` and the
shot velocity of `character.c`) together with theorems about it.

Modelling conventions.

* The functions that compute with doubles are given in two readings.  In the
  exact reading a C `double` is an element of an ordered field `K`: arithmetic
  is exact, there is no rounding, no overflow and no NaN.  Division is the
  division of the field (`x / 0 = 0`), which differs from exact arithmetic only
  at a zero divisor; the statements about a quotient assume a non-zero mass, a
  non-zero signed area or edges of non-zero length.  A theorem of this reading
  is a statement about exact arithmetic, and says so where rounding makes the
  program differ from it.
* In the double reading (the definitions with the suffix `_dbl`) a C `double` is
  an IEEE 754 binary64 value, `double`: every operation rounds its exact result
  to nearest, ties to even, overflows to an infinity and propagates NaN, and
  `sqrt` is correctly rounded.  Every C operation is rounded on its own, the sign
  of a zero is not tracked, and of `cos` and `sin` only the values at 0 are
  given.  The evaluations at given inputs that show where rounding departs from
  exact arithmetic, and the statements about the comparisons of the collision
  sweep and about the division of `polygon_centroid`, are made in this reading.
* The only non-finite double that the library uses on purpose is the mass
  `INFINITY` of static geometry; the mass field is therefore a finite value or
  infinity, and `1.0 / mass` is `0` for the infinite mass, as in IEEE 754.
* The functions of `<math.h>` are a parameter (`Libm`); a theorem of the exact
  reading that depends on the value of `sqrt` assumes that it is exact
  (`sqrt_exact`), which the real square root satisfies.
* `__DBL_MAX__` is the constant `DBL_MAX`, the largest finite double.
* A `list_t` of heap-allocated vectors is a `List`; an in-place update loop over
  all indices is a `map`, an accumulating loop is a `foldl` over the index range.
-/

namespace BowFoes

/-- The functions of the C math library that the core calls. -/
structure Libm (K : Type) where
  sqrt : K → K
  cos : K → K
  sin : K → K
  atan2 : K → K → K

/-! ## vector.c -/

/-- A 2D vector, `vector_t` of `vector.h`. -/
@[ext]
structure vector_t (K : Type) where
  x : K
  y : K
deriving DecidableEq

section Vector

variable {K : Type} [LinearOrderedField K]

/-- The zero vector `VEC_ZERO`. -/
def VEC_ZERO : vector_t K := ⟨0, 0⟩

/-- Componentwise sum, `vec_add`. -/
def vec_add (v1 v2 : vector_t K) : vector_t K :=
  ⟨v1.x + v2.x, v1.y + v2.y⟩

/-- Componentwise difference, `vec_subtract`. -/
def vec_subtract (v1 v2 : vector_t K) : vector_t K :=
  ⟨v1.x - v2.x, v1.y - v2.y⟩

/-- Additive inverse, `vec_negate`. -/
def vec_negate (v : vector_t K) : vector_t K :=
  ⟨-1 * v.x, -1 * v.y⟩

/-- Scalar multiple, `vec_multiply`. -/
def vec_multiply (scalar : K) (v : vector_t K) : vector_t K :=
  ⟨scalar * v.x, scalar * v.y⟩

/-- Dot product, `vec_dot`. -/
def vec_dot (v1 v2 : vector_t K) : K :=
  v1.x * v2.x + v1.y * v2.y

/-- The z-component of the cross product, `vec_cross`. -/
def vec_cross (v1 v2 : vector_t K) : K :=
  v1.x * v2.y - v1.y * v2.x

/-- Rotation about the origin, `vec_rotate`. -/
def vec_rotate (M : Libm K) (v : vector_t K) (angle : K) : vector_t K :=
  ⟨v.x * M.cos angle - v.y * M.sin angle, v.x * M.sin angle + v.y * M.cos angle⟩

/-- Euclidean length, `vec_get_length`. -/
def vec_get_length (M : Libm K) (v : vector_t K) : K :=
  M.sqrt (v.x * v.x + v.y * v.y)

end Vector

/-! ## list.c -/

section ListOps

variable {K : Type} [LinearOrderedField K]

/-- Number of elements, `list_size`. -/
def list_size (l : List (vector_t K)) : Nat := l.length

/-- Element access `list_get` at an index that the enclosing loop keeps below
`list_size` (the source asserts `index < list_size(list)`; the default is never
reached at those call sites). -/
def list_get (l : List (vector_t K)) (index : Nat) : vector_t K :=
  l.getD index VEC_ZERO

end ListOps

/-! ## polygon.c -/

/-- An RGB colour, `rgb_color_t`. -/
structure rgb_color_t (K : Type) where
  r : K
  g : K
  b : K

/-- The polygon record, `struct polygon`. -/
structure polygon_t (K : Type) where
  points : List (vector_t K)
  velocity : vector_t K
  rotation_speed : K
  color : rgb_color_t K
  rotation : K

section Polygon

variable {K : Type} [LinearOrderedField K]

/-- The divisor scale of the centroid formula, `CENTROID_SCALE`. -/
def CENTROID_SCALE : K := 6

/-- Initial rotation angle, `INITIAL_ROTANG`. -/
def INITIAL_ROTANG : K := 0

/-- Constructor `polygon_init`. -/
def polygon_init (points : List (vector_t K)) (initial_velocity : vector_t K)
    (rotation_speed : K) (red green blue : K) : polygon_t K :=
  { points := points, velocity := initial_velocity, rotation_speed := rotation_speed,
    color := ⟨red, green, blue⟩, rotation := INITIAL_ROTANG }

/-- Accessor `polygon_get_points`. -/
def polygon_get_points (polygon : polygon_t K) : List (vector_t K) := polygon.points

/-- Accessor `polygon_get_velocity`. -/
def polygon_get_velocity (polygon : polygon_t K) : vector_t K := polygon.velocity

/-- Accessor `polygon_get_rotation`. -/
def polygon_get_rotation (polygon : polygon_t K) : K := polygon.rotation

/-- Accessor `polygon_get_color`. -/
def polygon_get_color (polygon : polygon_t K) : rgb_color_t K := polygon.color

/-- Mutator `polygon_set_velocity`. -/
def polygon_set_velocity (polygon : polygon_t K) (vel : vector_t K) : polygon_t K :=
  { polygon with velocity := ⟨vel.x, vel.y⟩ }

/-- The accumulating loop shared by the shoelace computations: after the loop the
first component is the sum of the cross products of consecutive vertices and the
second the cross-weighted sum of consecutive vertex sums. -/
def centroid_loop (points : List (vector_t K)) : K × vector_t K :=
  let size := list_size points
  (List.range size).foldl
    (fun (st : K × vector_t K) (i : Nat) =>
      let next_idx := (i + 1) % size
      let current := list_get points next_idx
      let prev := list_get points i
      let cross_prod := vec_cross prev current
      (st.1 + cross_prod,
        ⟨st.2.x + (current.x + prev.x) * cross_prod,
         st.2.y + (current.y + prev.y) * cross_prod⟩))
    (0, ⟨0, 0⟩)

/-- Twice the signed shoelace area is the first loop output; `signed_area` is the
value of the local variable of `polygon_centroid` after `signed_area *= 0.5`. -/
def signed_area (points : List (vector_t K)) : K :=
  (centroid_loop points).1 * (1 / 2)

/-- The centroid `polygon_centroid`, in exact arithmetic.  At a zero divisor the
division of the field gives 0, where the program computes NaN or an infinity:
that case is the subject of `polygon_centroid_dbl`. -/
def polygon_centroid (polygon : polygon_t K) : vector_t K :=
  let acc := centroid_loop polygon.points
  let signed_area := acc.1 * (1 / 2)
  ⟨acc.2.x / (CENTROID_SCALE * signed_area), acc.2.y / (CENTROID_SCALE * signed_area)⟩

/-- The area `polygon_area`. -/
def polygon_area (polygon : polygon_t K) : K :=
  let size := list_size polygon.points
  if size < 3 then 0
  else
    let area := (List.range size).foldl
      (fun (area : K) (i : Nat) =>
        let next_idx := (i + 1) % size
        let p1 := list_get polygon.points i
        let p2 := list_get polygon.points next_idx
        area + vec_cross p1 p2)
      0
    (1 / 2) * |area|

/-- In-place translation `polygon_translate`. -/
def polygon_translate (polygon : polygon_t K) (translation : vector_t K) : polygon_t K :=
  { polygon with points := polygon.points.map (fun vertex => vec_add vertex translation) }

/-- In-place rotation about a point, `polygon_rotate`, in exact arithmetic;
`polygon_rotate_dbl` is the same function with the rounding of every operation. -/
def polygon_rotate (M : Libm K) (polygon : polygon_t K) (angle : K) (point : vector_t K) :
    polygon_t K :=
  let p1 := polygon_translate polygon (vec_negate point)
  let p2 := { p1 with points := p1.points.map (fun vertex => vec_rotate M vertex angle) }
  polygon_translate p2 point

/-- Accessor `polygon_get_center`. -/
def polygon_get_center (polygon : polygon_t K) : vector_t K := polygon_centroid polygon

/-- Mutator `polygon_set_center`. -/
def polygon_set_center (polygon : polygon_t K) (centroid : vector_t K) : polygon_t K :=
  polygon_translate polygon (vec_subtract centroid (polygon_get_center polygon))

/-- Mutator `polygon_set_rotation`. -/
def polygon_set_rotation (M : Libm K) (polygon : polygon_t K) (rot : K) : polygon_t K :=
  let p1 := polygon_rotate M polygon (rot - polygon.rotation) (polygon_get_center polygon)
  { p1 with rotation := rot }

/-- The kinematic step `polygon_move`. -/
def polygon_move (M : Libm K) (polygon : polygon_t K) (time_elapsed : K) : polygon_t K :=
  let displacement := vec_multiply time_elapsed polygon.velocity
  let p1 := polygon_translate polygon displacement
  let p2 := { p1 with rotation := p1.rotation + p1.rotation_speed * time_elapsed }
  polygon_rotate M p2 (polygon_get_rotation p2) (polygon_centroid p2)

end Polygon

/-! ## body.c -/

/-- The `double mass` field of a body: a finite value, or the `INFINITY` that the
game passes for walls, platforms and other static geometry. -/
inductive mass_t (K : Type) where
  | finite (m : K)
  | infinity
deriving DecidableEq

/-- The body record, `struct body`.  The payload pointer `info` is an abstract
handle; its destructor only matters to `body_free`. -/
structure body_t (K : Type) where
  poly : polygon_t K
  mass : mass_t K
  force : vector_t K
  impulse : vector_t K
  removed : Bool
  info : Option Nat
  rotate_with_velocity : Bool

section Body

variable {K : Type} [LinearOrderedField K]

/-- The quotient `1.0 / body->mass` of `get_new_velocity`: the field quotient
for a finite mass and `0` for the infinite one. -/
def mass_reciprocal : mass_t K → K
  | mass_t.finite m => 1 / m
  | mass_t.infinity => 0

/-- Initial rotation speed, `INITIAL_ROTSPEED`. -/
def INITIAL_ROTSPEED : K := 0

/-- The averaging factor `VELOCITY_AVG_FACTOR = 0.5`. -/
def VELOCITY_AVG_FACTOR : K := 1 / 2

/-- Constructor `body_init_with_info`. -/
def body_init_with_info (shape : List (vector_t K)) (mass : mass_t K) (color : rgb_color_t K)
    (info : Option Nat) : body_t K :=
  { poly := polygon_init shape VEC_ZERO INITIAL_ROTSPEED color.r color.g color.b,
    mass := mass, force := VEC_ZERO, impulse := VEC_ZERO, removed := false,
    rotate_with_velocity := false, info := info }

/-- Constructor `body_init`. -/
def body_init (shape : List (vector_t K)) (mass : mass_t K) (color : rgb_color_t K) : body_t K :=
  body_init_with_info shape mass color none

/-- Accessor `body_get_shape`: a copy of the vertex list. -/
def body_get_shape (body : body_t K) : List (vector_t K) :=
  polygon_get_points body.poly

/-- Accessor `body_get_centroid`. -/
def body_get_centroid (body : body_t K) : vector_t K :=
  polygon_get_center body.poly

/-- Accessor `body_get_velocity`. -/
def body_get_velocity (body : body_t K) : vector_t K :=
  polygon_get_velocity body.poly

/-- Accessor `body_get_rotation`. -/
def body_get_rotation (body : body_t K) : K :=
  polygon_get_rotation body.poly

/-- Accessor `body_get_mass`. -/
def body_get_mass (body : body_t K) : mass_t K := body.mass

/-- Mutator `body_set_velocity`. -/
def body_set_velocity (body : body_t K) (v : vector_t K) : body_t K :=
  { body with poly := polygon_set_velocity body.poly v }

/-- Mutator `body_set_rotate_with_velocity`. -/
def body_set_rotate_with_velocity (body : body_t K) (flag : Bool) : body_t K :=
  { body with rotate_with_velocity := flag }

/-- The velocity after the pending force and impulse act for `dt`,
`get_new_velocity`, in exact arithmetic; `get_new_velocity_dbl` is the same
function with the rounding of every operation. -/
def get_new_velocity (body : body_t K) (dt : K) : vector_t K :=
  let acceleration_force := vec_multiply (mass_reciprocal body.mass) body.force
  let velocity_change_impulse := vec_multiply (mass_reciprocal body.mass) body.impulse
  let velocity_change_force := vec_multiply dt acceleration_force
  let velocity_change := vec_add velocity_change_impulse velocity_change_force
  vec_add (body_get_velocity body) velocity_change

/-- The integration step `body_tick`. -/
def body_tick (M : Libm K) (body : body_t K) (dt : K) : body_t K :=
  let new_velocity := get_new_velocity body dt
  let update_velocity :=
    vec_multiply VELOCITY_AVG_FACTOR (vec_add (body_get_velocity body) new_velocity)
  let displacement := vec_multiply dt update_velocity
  let b1 := { body with poly := polygon_translate body.poly displacement }
  let b2 :=
    if b1.rotate_with_velocity then
      { b1 with poly := polygon_set_rotation M b1.poly (M.atan2 new_velocity.y new_velocity.x) }
    else b1
  let b3 := body_set_velocity b2 new_velocity
  { b3 with force := VEC_ZERO, impulse := VEC_ZERO }

/-- Accumulate a force, `body_add_force`. -/
def body_add_force (body : body_t K) (force : vector_t K) : body_t K :=
  { body with force := vec_add body.force force }

/-- Accumulate an impulse, `body_add_impulse`. -/
def body_add_impulse (body : body_t K) (impulse : vector_t K) : body_t K :=
  { body with impulse := vec_add body.impulse impulse }

/-- Tombstone a body, `body_remove`. -/
def body_remove (body : body_t K) : body_t K := { body with removed := true }

/-- Accessor `body_is_removed`. -/
def body_is_removed (body : body_t K) : Bool := body.removed

/-- Drop the pending force and impulse, `body_reset`. -/
def body_reset (body : body_t K) : body_t K :=
  { body with force := VEC_ZERO, impulse := VEC_ZERO }

end Body

/-! ## collision.c -/

/-- The result record `collision_info_t` of `collision.h`. -/
structure collision_info_t (K : Type) where
  collided : Bool
  axis : vector_t K
deriving DecidableEq

section Collision

variable {K : Type} [LinearOrderedField K]

/-- The largest finite double, the compiler constant `__DBL_MAX__`
(`(2 - 2^(-52)) * 2^1023`). -/
def DBL_MAX : K := (2 ^ 53 - 1) * 2 ^ 971

/-- The edge vectors of a shape, `get_edges`: entry `i` is vertex `i` minus its
cyclic successor. -/
def get_edges (shape : List (vector_t K)) : List (vector_t K) :=
  (List.range (list_size shape)).map
    (fun i =>
      vec_subtract (list_get shape (i % list_size shape))
        (list_get shape ((i + 1) % list_size shape)))

/-- The pair (max, min) of the projections of the vertices on an axis,
`get_max_min_projections`.  The unguarded `list_get(shape, 0)` aborts on an empty
shape: the result is then `none`. -/
def get_max_min_projections (shape : List (vector_t K)) (unit_axis : vector_t K) :
    Option (vector_t K) :=
  if list_size shape = 0 then none
  else
    let max_projection := vec_dot (list_get shape 0) unit_axis
    let min_projection := max_projection
    let st := (List.range' 1 (list_size shape - 1)).foldl
      (fun (st : K × K) (i : Nat) =>
        let projection := vec_dot (list_get shape i) unit_axis
        if projection > st.1 then (projection, st.2)
        else if projection < st.2 then (st.1, projection)
        else st)
      (max_projection, min_projection)
    some ⟨st.1, st.2⟩

/-- The loop of `compare_collision` over the remaining edges, with the current
value of `compare` and of `*min_overlap`; it returns the final `compare` and
`*min_overlap`, or `none` when a projection aborts.  The unit axis, the
projections and the overlap are exact here; `compare_collision_loop_dbl` is the
same loop with the rounding, the overflow and the NaN of doubles. -/
def compare_collision_loop (M : Libm K) (shape1 shape2 : List (vector_t K)) :
    List (vector_t K) → collision_info_t K → K → Option (collision_info_t K × K)
  | [], compare, min_overlap => some ({ compare with collided := true }, min_overlap)
  | edge :: rest, compare, min_overlap =>
    let axis : vector_t K := ⟨-edge.y, edge.x⟩
    let unit_axis := vec_multiply (1 / M.sqrt (vec_dot axis axis)) axis
    match get_max_min_projections shape1 unit_axis,
        get_max_min_projections shape2 unit_axis with
    | some max_min_projections_shape1, some max_min_projections_shape2 =>
      let overlap :=
        min max_min_projections_shape1.x max_min_projections_shape2.x -
          max max_min_projections_shape1.y max_min_projections_shape2.y
      if overlap ≤ 0 then some (compare, min_overlap)
      else if overlap < min_overlap then
        compare_collision_loop M shape1 shape2 rest { compare with axis := unit_axis } overlap
      else compare_collision_loop M shape1 shape2 rest compare min_overlap
    | _, _ => none

/-- One sweep of the separating-axis test over the edges of `shape1`,
`compare_collision`. -/
def compare_collision (M : Libm K) (shape1 shape2 : List (vector_t K)) (min_overlap : K) :
    Option (collision_info_t K × K) :=
  let edges1 := get_edges shape1
  let compare : collision_info_t K := { collided := false, axis := VEC_ZERO }
  compare_collision_loop M shape1 shape2 edges1 compare min_overlap

/-- The separating-axis test `find_collision`. -/
def find_collision (M : Libm K) (body1 body2 : body_t K) : Option (collision_info_t K) :=
  let shape1 := body_get_shape body1
  let shape2 := body_get_shape body2
  let c1_overlap : K := DBL_MAX
  let c2_overlap : K := DBL_MAX
  match compare_collision M shape1 shape2 c1_overlap with
  | none => none
  | some (collision1, c1_overlap) =>
    match compare_collision M shape2 shape1 c2_overlap with
    | none => none
    | some (collision2, c2_overlap) =>
      if !collision1.collided then some collision1
      else if !collision2.collided then some collision2
      else if c1_overlap < c2_overlap then some collision1
      else some collision2

end Collision

/-! ## body.c: the remaining accessors and mutators -/

section BodyMutators

variable {K : Type} [LinearOrderedField K]

/-- Accessor `body_get_color`. -/
def body_get_color (body : body_t K) : rgb_color_t K :=
  polygon_get_color body.poly

/-- Mutator `body_set_shape`: a new polygon is built by `polygon_init` from the
new vertex list and the values read from the current polygon, in the argument
order of the source. -/
def body_set_shape (body : body_t K) (shape : List (vector_t K)) : body_t K :=
  let cur_poly := body.poly
  let cur_vel := polygon_get_velocity cur_poly
  let cur_rotation := polygon_get_rotation cur_poly
  let cur_color := polygon_get_color cur_poly
  let new_poly :=
    polygon_init shape cur_vel cur_rotation cur_color.r cur_color.g cur_color.b
  { body with poly := new_poly }

/-- Mutator `body_set_centroid`. -/
def body_set_centroid (body : body_t K) (x : vector_t K) : body_t K :=
  { body with poly := polygon_set_center body.poly x }

/-- Mutator `body_set_rotation`. -/
def body_set_rotation (M : Libm K) (body : body_t K) (angle : K) : body_t K :=
  { body with poly := polygon_set_rotation M body.poly angle }

end BodyMutators

/-! ## list.c and scene.c

The scene owns its bodies: its list holds the address of each body once, and an
entry of the model is the pair of that address and the current value of the body.
Jobs refer to bodies by address.  The functions of `forces.c` are not part of the
sources at hand: the job record follows the specification, and `forces_job_run`
is a parameter that may change the scene and the state behind the `aux`
pointers in any way.  The calls that `scene_tick` makes are recorded, in order,
in a log that the callbacks cannot see. -/

/-- The number of values of a `size_t`. -/
def SIZE_WIDTH : Nat := 2 ^ 64

/-- The decrement `j--` of a `size_t`, which wraps at zero. -/
def size_dec (j : Nat) : Nat := (j + (SIZE_WIDTH - 1)) % SIZE_WIDTH

/-- The increment `j++` of a `size_t`. -/
def size_inc (j : Nat) : Nat := (j + 1) % SIZE_WIDTH

/-- Removal `list_remove` of the element at an index below the size (the source
asserts it): the later elements move one place to the left. -/
def list_remove {α : Type} (l : List α) (index : Nat) : List α :=
  l.eraseIdx index

/-- Modelled from the spec: the job record of `forces.c`, which is not among the
sources: a callback reference, an opaque auxiliary pointer, and the addresses of
the bodies the job is about (what `force_job_get_bodies` returns). -/
structure force_job_t where
  forcer : Nat
  aux : Nat
  bodies : List Nat
deriving DecidableEq

/-- The scene record, `struct scene` (the field `force_creators` is never
initialised nor read). -/
structure scene_t (K : Type) where
  num_bodies : Nat
  bodies : List (Nat × body_t K)
  force_jobs : List force_job_t

/-- Everything a job callback can reach: the scene, and the state behind the
`aux` pointers. -/
structure world_t (K E : Type) where
  scene : scene_t K
  aux : E

/-- A call made by `scene_tick`. -/
inductive event_t where
  | ran_job (job : force_job_t)
  | ticked (body : Nat)
  | freed_job (job : force_job_t)
  | freed_body (body : Nat)
deriving DecidableEq

section Scene

variable {K : Type} [LinearOrderedField K] {E : Type}

/-- Constructor `scene_init`. -/
def scene_init : scene_t K :=
  { num_bodies := 0, bodies := [], force_jobs := [] }

/-- Accessor `scene_bodies`. -/
def scene_bodies (scene : scene_t K) : Nat := scene.num_bodies

/-- Accessor `scene_get_body`; `none` is the failed assertion. -/
def scene_get_body (scene : scene_t K) (index : Nat) : Option (Nat × body_t K) :=
  if index < scene.num_bodies then scene.bodies[index]? else none

/-- Registration `scene_add_body` of the body at an address. -/
def scene_add_body (scene : scene_t K) (body : Nat × body_t K) : scene_t K :=
  { scene with bodies := scene.bodies ++ [body], num_bodies := size_inc scene.num_bodies }

/-- Tombstoning `scene_remove_body`; `none` is the failed assertion of `list_get`. -/
def scene_remove_body (scene : scene_t K) (index : Nat) : Option (scene_t K) :=
  match scene.bodies[index]? with
  | none => none
  | some new => some { scene with bodies := scene.bodies.set index (new.1, body_remove new.2) }

/-- Registration `scene_add_bodies_force_creator` of a job. -/
def scene_add_bodies_force_creator (scene : scene_t K) (forcer aux : Nat) (bodies : List Nat) :
    scene_t K :=
  { scene with force_jobs := scene.force_jobs ++ [{ forcer := forcer, aux := aux, bodies := bodies }] }

/-- Registration `scene_add_force_creator` of a job about no body. -/
def scene_add_force_creator (scene : scene_t K) (forcer aux : Nat) : scene_t K :=
  scene_add_bodies_force_creator scene forcer aux []

/-- The first loop of `scene_tick`: the callback of the job at index `i` runs while
`i` is below the current size of the registry.  The loop has no bound of its own
(a callback may register jobs), so the model counts the callbacks it may still
run; `none` means that the count was used up. -/
def run_jobs (forces_job_run : force_job_t → world_t K E → world_t K E) :
    Nat → Nat → world_t K E → List event_t → Option (world_t K E × List event_t)
  | 0, i, world, log =>
    match world.scene.force_jobs[i]? with
    | none => some (world, log)
    | some _ => none
  | fuel + 1, i, world, log =>
    match world.scene.force_jobs[i]? with
    | none => some (world, log)
    | some job =>
      run_jobs forces_job_run fuel (i + 1) (forces_job_run job world)
        (log ++ [event_t.ran_job job])

/-- The innermost loop of `scene_tick` with its `break`: whether an address of
the job's list equals the address of the body. -/
def job_lists_body : List Nat → Nat → Bool
  | [], _ => false
  | force_body :: rest, body => if force_body = body then true else job_lists_body rest body

/-- The loop of `scene_tick` over the registry for a removed body: a job that
lists the body is taken out by `list_remove`, `j` is decremented and the job is
freed; then `j` is incremented.  The first argument bounds the iterations. -/
def remove_jobs_of (body : Nat) :
    Nat → Nat → List force_job_t → List event_t → Option (List force_job_t × List event_t)
  | 0, j, force_jobs, log =>
    match force_jobs[j]? with
    | none => some (force_jobs, log)
    | some _ => none
  | fuel + 1, j, force_jobs, log =>
    match force_jobs[j]? with
    | none => some (force_jobs, log)
    | some force_job =>
      if job_lists_body force_job.bodies body then
        remove_jobs_of body fuel (size_inc (size_dec j)) (list_remove force_jobs j)
          (log ++ [event_t.freed_job force_job])
      else remove_jobs_of body fuel (size_inc j) force_jobs log

/-- The second loop of `scene_tick`, over the bodies, with the signed index `i`.
The first argument bounds the iterations. -/
def body_loop (M : Libm K) (dt : K) :
    Nat → Int → scene_t K → List event_t → Option (scene_t K × List event_t)
  | 0, i, scene, log =>
    if i < (scene.bodies.length : Int) then none else some (scene, log)
  | fuel + 1, i, scene, log =>
    if i < (scene.bodies.length : Int) then
      match scene.bodies[i.toNat]? with
      | none => none
      | some body =>
        if body_is_removed body.2 then
          match remove_jobs_of body.1 scene.force_jobs.length 0 scene.force_jobs log with
          | none => none
          | some (force_jobs, log1) =>
            body_loop M dt fuel (i - 1 + 1)
              { num_bodies := size_dec scene.num_bodies,
                bodies := list_remove scene.bodies i.toNat,
                force_jobs := force_jobs }
              (log1 ++ [event_t.freed_body body.1])
        else
          body_loop M dt fuel (i + 1)
            { scene with bodies := scene.bodies.set i.toNat (body.1, body_tick M body.2 dt) }
            (log ++ [event_t.ticked body.1])
    else some (scene, log)

/-- The body loop of `scene_tick` from index 0: one iteration per list entry. -/
def scene_body_pass (M : Libm K) (dt : K) (scene : scene_t K) (log : List event_t) :
    Option (scene_t K × List event_t) :=
  body_loop M dt scene.bodies.length 0 scene log

/-- The step `scene_tick`: all callbacks, then the loop over the bodies.  The
argument `fuel` bounds the number of callbacks. -/
def scene_tick (forces_job_run : force_job_t → world_t K E → world_t K E) (M : Libm K)
    (fuel : Nat) (world : world_t K E) (dt : K) : Option (world_t K E × List event_t) :=
  match run_jobs forces_job_run fuel 0 world [] with
  | none => none
  | some (world1, log1) =>
    match scene_body_pass M dt world1.scene log1 with
    | none => none
    | some (scene2, log2) => some ({ world1 with scene := scene2 }, log2)

/-- The bodies that the specification of the cleanup pass names: those not
flagged removed, in their order, each advanced by one `body_tick`. -/
def filter_then_integrate (M : Libm K) (dt : K) (bodies : List (Nat × body_t K)) :
    List (Nat × body_t K) :=
  (bodies.filter (fun body => !body.2.removed)).map
    (fun body => (body.1, body_tick M body.2 dt))

/-- The addresses of the bodies flagged removed, in list order. -/
def removed_bodies (bodies : List (Nat × body_t K)) : List Nat :=
  (bodies.filter (fun body => body.2.removed)).map Prod.fst

/-- The jobs of a registry that list none of the given addresses, in order. -/
def jobs_without (removed : List Nat) (force_jobs : List force_job_t) : List force_job_t :=
  force_jobs.filter (fun job => removed.all (fun body => !job_lists_body job.bodies body))

/-- The calls of the body loop, in order: for a removed body the frees of the jobs
that list it and then its own free, for any other body its tick. -/
def body_pass_events : List force_job_t → List (Nat × body_t K) → List event_t
  | _, [] => []
  | force_jobs, body :: rest =>
    if body.2.removed then
      (force_jobs.filter (fun job => job_lists_body job.bodies body.1)).map event_t.freed_job ++
        [event_t.freed_body body.1] ++
        body_pass_events (force_jobs.filter (fun job => !job_lists_body job.bodies body.1)) rest
    else [event_t.ticked body.1] ++ body_pass_events force_jobs rest

/-- The exact trigonometry of the math library that rotations rely on. -/
def trig_exact (M : Libm K) : Prop :=
  M.cos 0 = 1 ∧ M.sin 0 = 0 ∧
  (∀ x, M.cos x * M.cos x + M.sin x * M.sin x = 1) ∧
  (∀ x y, M.cos (x + y) = M.cos x * M.cos y - M.sin x * M.sin y) ∧
  (∀ x y, M.sin (x + y) = M.sin x * M.cos y + M.cos x * M.sin y)

end Scene

/-! ## Geometry named by the properties -/

section Geometry

variable {K : Type} [LinearOrderedField K]

/-- The square root of the math library is exact on positive arguments. -/
def sqrt_exact (M : Libm K) : Prop :=
  ∀ x : K, 0 < x → 0 < M.sqrt x ∧ M.sqrt x * M.sqrt x = x

/-- The largest projection of the vertices of a shape on an axis. -/
def proj_max (shape : List (vector_t K)) (u : vector_t K) : K :=
  (shape.map (fun v => vec_dot v u)).foldl max (vec_dot (list_get shape 0) u)

/-- The smallest projection of the vertices of a shape on an axis. -/
def proj_min (shape : List (vector_t K)) (u : vector_t K) : K :=
  (shape.map (fun v => vec_dot v u)).foldl min (vec_dot (list_get shape 0) u)

/-- The overlap of the projection intervals of two shapes on an axis,
`min(maxA, maxB) - max(minA, minB)`. -/
def proj_overlap (A B : List (vector_t K)) (u : vector_t K) : K :=
  min (proj_max A u) (proj_max B u) - max (proj_min A u) (proj_min B u)

/-- The edge of a shape that leads from vertex `i` to its cyclic successor. -/
def edge_vector (shape : List (vector_t K)) (i : Nat) : vector_t K :=
  vec_subtract (list_get shape ((i + 1) % list_size shape)) (list_get shape i)

/-- A unit normal of an edge: a vector of length one perpendicular to it. -/
def is_unit_normal (u e : vector_t K) : Prop :=
  vec_dot u u = 1 ∧ vec_dot u e = 0

/-- No edge of the shape has length zero: every vertex differs from its cyclic
successor. -/
def no_zero_length_edge (shape : List (vector_t K)) : Prop :=
  ∀ i, i < list_size shape → list_get shape i ≠ list_get shape ((i + 1) % list_size shape)

/-- A counterclockwise convex ring: every vertex lies on or to the left of every
directed edge. -/
def convex_ccw (shape : List (vector_t K)) : Prop :=
  ∀ i, i < list_size shape → ∀ k, k < list_size shape →
    0 ≤ vec_cross (edge_vector shape i) (vec_subtract (list_get shape k) (list_get shape i))

/-- All vertices of the shape lie on one line. -/
def all_collinear (shape : List (vector_t K)) : Prop :=
  ∃ (m : vector_t K) (c : K), m ≠ VEC_ZERO ∧
    ∀ k, k < list_size shape → vec_dot (list_get shape k) m = c

/-- The point lies on or to the left of every directed edge of the shape. -/
def in_all_halfplanes (shape : List (vector_t K)) (x : vector_t K) : Prop :=
  ∀ i, i < list_size shape →
    0 ≤ vec_cross (edge_vector shape i) (vec_subtract x (list_get shape i))

/-- The axis that the loop of `compare_collision` computes from an entry of
`get_edges`. -/
def edge_unit_axis (M : Libm K) (edge : vector_t K) : vector_t K :=
  vec_multiply (1 / M.sqrt (vec_dot ⟨-edge.y, edge.x⟩ ⟨-edge.y, edge.x⟩)) ⟨-edge.y, edge.x⟩

end Geometry

/-- The filled polygon of a vertex list: the convex hull of its vertices, as a
subset of the real plane. -/
def filled_polygon (shape : List (vector_t ℝ)) : Set (ℝ × ℝ) :=
  convexHull ℝ (Set.image (fun v : vector_t ℝ => (v.x, v.y)) {v | v ∈ shape})

/-- The closed half-plane on the left of the directed edge `i` of a shape. -/
def edge_halfplane (shape : List (vector_t ℝ)) (i : Nat) : Set (ℝ × ℝ) :=
  {q | 0 ≤ vec_cross (edge_vector shape i) (vec_subtract ⟨q.1, q.2⟩ (list_get shape i))}

/-! ## Call sequences named by the properties -/

section Sequences

variable {K : Type} [LinearOrderedField K]

/-- The body after `n` repetitions of `body_add_force(body, F); body_tick(body, dt)`. -/
def force_steps (M : Libm K) (F : vector_t K) (dt : K) (n : Nat) (body : body_t K) : body_t K :=
  (fun b => body_tick M (body_add_force b F) dt)^[n] body

end Sequences

/-! ## Fixtures for evaluating the definitions on rational inputs -/

/-- A math library over the rationals for inputs on which no libm function
contributes to the result: every function returns `0`. -/
def libm_unused : Libm ℚ :=
  { sqrt := fun _ => 0, cos := fun _ => 0, sin := fun _ => 0, atan2 := fun _ _ => 0 }

/-- A white colour. -/
def WHITE : rgb_color_t ℚ := ⟨1, 1, 1⟩

/-- The unit square with corners (0,0) and (1,1), counterclockwise. -/
def unit_square : List (vector_t ℚ) := [⟨0, 0⟩, ⟨1, 0⟩, ⟨1, 1⟩, ⟨0, 1⟩]

/-- A fresh body of mass 2 on the unit square. -/
def square_body : body_t ℚ := body_init unit_square (mass_t.finite 2) WHITE

/-- A fresh body of infinite mass on the unit square. -/
def wall_body : body_t ℚ := body_init unit_square mass_t.infinity WHITE

section GenericFixtures

variable {K : Type} [LinearOrderedField K]

/-- The axis-parallel square with lower left corner `(x, y)` and the given side,
counterclockwise. -/
def square_at (x y side : K) : List (vector_t K) :=
  [⟨x, y⟩, ⟨x + side, y⟩, ⟨x + side, y + side⟩, ⟨x, y + side⟩]

/-- A static body (infinite mass, black) on an axis-parallel square. -/
def static_square (x y side : K) : body_t K :=
  body_init (square_at x y side) mass_t.infinity ⟨0, 0, 0⟩

end GenericFixtures

section SceneSpec

variable {K : Type} [LinearOrderedField K] {E : Type}

/-- The bodies integrated during a run, in order: the addresses of the `ticked`
events of its log. -/
def ticked_bodies : List event_t → List Nat
  | [] => []
  | event_t.ticked body :: rest => body :: ticked_bodies rest
  | event_t.ran_job _ :: rest => ticked_bodies rest
  | event_t.freed_job _ :: rest => ticked_bodies rest
  | event_t.freed_body _ :: rest => ticked_bodies rest

/-- The count invariant of a scene: the counter `num_bodies` is the number of
stored bodies, as a `size_t`. -/
def scene_count_invariant (scene : scene_t K) : Prop :=
  scene.num_bodies = scene.bodies.length % SIZE_WIDTH

/-- The worlds that a client or a job callback reaches from a world by calls of
`scene_add_body`, `scene_remove_body` and `scene_add_bodies_force_creator`, by
writes to a stored body through its pointer, and by writes to its own data. -/
inductive scene_ops : world_t K E → world_t K E → Prop
  | refl (world : world_t K E) : scene_ops world world
  | add_body (world world1 : world_t K E) (body : Nat × body_t K) :
      scene_ops world world1 →
      scene_ops world { world1 with scene := scene_add_body world1.scene body }
  | remove_body (world world1 : world_t K E) (index : Nat) (scene2 : scene_t K) :
      scene_ops world world1 → scene_remove_body world1.scene index = some scene2 →
      scene_ops world { world1 with scene := scene2 }
  | add_bodies_force_creator (world world1 : world_t K E) (forcer aux : Nat)
      (bodies : List Nat) :
      scene_ops world world1 →
      scene_ops world
        { world1 with
          scene := scene_add_bodies_force_creator world1.scene forcer aux bodies }
  | write_body (world world1 : world_t K E) (index : Nat) (old new : body_t K)
      (address : Nat) :
      scene_ops world world1 → world1.scene.bodies[index]? = some (address, old) →
      scene_ops world
        { world1 with
          scene := { world1.scene with
            bodies := world1.scene.bodies.set index (address, new) } }
  | write_aux (world world1 : world_t K E) (aux : E) :
      scene_ops world world1 → scene_ops world { world1 with aux := aux }

/-- The worlds reachable from `scene_init` by the scene operations and by
`scene_tick`, for job callbacks `forces_job_run`. -/
inductive scene_reachable (forces_job_run : force_job_t → world_t K E → world_t K E)
    (M : Libm K) : world_t K E → Prop
  | init (aux : E) : scene_reachable forces_job_run M { scene := scene_init, aux := aux }
  | ops (world world1 : world_t K E) :
      scene_reachable forces_job_run M world → scene_ops world world1 →
      scene_reachable forces_job_run M world1
  | tick (world world1 : world_t K E) (fuel : Nat) (dt : K) (log : List event_t) :
      scene_reachable forces_job_run M world →
      scene_tick forces_job_run M fuel world dt = some (world1, log) →
      scene_reachable forces_job_run M world1

end SceneSpec

/-! ## Scene fixtures -/

/-- A scene of two bodies, the second one flagged removed, and three jobs, two
of which list the removed body. -/
def gc_scene : scene_t ℚ :=
  { num_bodies := 2,
    bodies := [(1, square_body), (2, body_remove square_body)],
    force_jobs := [⟨0, 0, [2]⟩, ⟨0, 0, [1]⟩, ⟨1, 0, [1, 2]⟩] }

/-- A body at address 7 on the unit square, moving with velocity (1, 0). -/
def spawn_body : Nat × body_t ℚ := (7, body_set_velocity square_body ⟨1, 0⟩)

/-- A job callback that adds `spawn_body` to the scene. -/
def spawn_run : force_job_t → world_t ℚ Unit → world_t ℚ Unit :=
  fun _ world => { world with scene := scene_add_body world.scene spawn_body }

/-- An empty scene with one registered job. -/
def spawn_world : world_t ℚ Unit :=
  { scene := scene_add_bodies_force_creator scene_init 0 0 [], aux := () }

/-- A job callback that flags the body at index 0 as removed, if there is one. -/
def flag_run : force_job_t → world_t ℚ Unit → world_t ℚ Unit :=
  fun _ world =>
    match scene_remove_body world.scene 0 with
    | none => world
    | some scene => { world with scene := scene }

/-- A scene with one body, at address 1, and one job bound to it. -/
def flag_world : world_t ℚ Unit :=
  { scene := scene_add_bodies_force_creator (scene_add_body scene_init (1, square_body)) 0 0 [1],
    aux := () }

/-- The world `flag_world` after its job has flagged the body as removed. -/
def flag_world_flagged : world_t ℚ Unit :=
  { scene := { num_bodies := 1, bodies := [(1, body_remove square_body)],
               force_jobs := [⟨0, 0, [1]⟩] },
    aux := () }

/-- The world `spawn_world` when the job phase of a tick ends: the callback has
added `spawn_body`. -/
def spawn_world_added : world_t ℚ Unit :=
  { scene := { num_bodies := 1, bodies := [spawn_body], force_jobs := [⟨0, 0, []⟩] },
    aux := () }

/-- A counterclockwise triangle. -/
def triangle_polygon : polygon_t ℚ := polygon_init [⟨0, 0⟩, ⟨3, 0⟩, ⟨0, 6⟩] ⟨0, 0⟩ 0 1 1 1

/-! ## character.c: the shot velocity -/

section Character

variable {K : Type} [LinearOrderedField K]

/-- Componentwise equality test, `vec_equals`. -/
def vec_equals (v1 v2 : vector_t K) : Bool :=
  decide (v1.x = v2.x) && decide (v1.y = v2.y)

/-- The drag length at which a shot reaches full speed, `MAX_SHOT_MAGNITUDE`. -/
def MAX_SHOT_MAGNITUDE : K := 60

/-- The initial velocity of a shot, `character_shot_velocity`, in exact
arithmetic; `character_shot_velocity_dbl` is the same function with the rounding
of every operation. -/
def character_shot_velocity (M : Libm K) (shot_start_point shot_end_point : vector_t K)
    (max_speed : K) : vector_t K :=
  if vec_equals shot_start_point shot_end_point then VEC_ZERO
  else
    let direction0 := vec_subtract shot_end_point shot_start_point
    let direction : vector_t K := ⟨-1 * direction0.x, direction0.y⟩
    let vec_magnitude0 := vec_get_length M direction
    let shot_unit := vec_multiply (1 / vec_magnitude0) direction
    let vec_magnitude :=
      if vec_magnitude0 > MAX_SHOT_MAGNITUDE then MAX_SHOT_MAGNITUDE else vec_magnitude0
    let magnitude_percentage := vec_magnitude / MAX_SHOT_MAGNITUDE
    let shot_velocity := vec_multiply (max_speed * magnitude_percentage) shot_unit
    shot_velocity

end Character

section FlatFixtures

variable {K : Type} [LinearOrderedField K]

/-- Three vertices on the x axis, cyclically consecutive ones distinct. -/
def flat_shape : List (vector_t K) := [⟨0, 0⟩, ⟨1, 0⟩, ⟨2, 0⟩]

/-- A static body on `flat_shape`. -/
def flat_body : body_t K := body_init flat_shape mass_t.infinity ⟨0, 0, 0⟩

end FlatFixtures

/-! ## IEEE 754 binary64 arithmetic

The second reading of a C `double`: a binary64 number with rounding to
nearest, ties to even, after every operation, with overflow to an infinity and
with NaN.  The definitions with the suffix `_dbl` are the source functions under
this reading; the definitions without suffix are the same functions in exact
arithmetic.  Every C operation is rounded on its own (no fused multiply-add),
and the sign of a zero is not tracked. -/

/-- A C `double`: a finite value, an infinity, or NaN. -/
inductive double where
  | fin (q : ℚ)
  | pinf
  | ninf
  | nan
deriving DecidableEq

/-- The power `2^e` for an integer exponent. -/
def pow2 (e : Int) : ℚ :=
  if 0 ≤ e then ((2 ^ e.toNat : Nat) : ℚ) else 1 / ((2 ^ (-e).toNat : Nat) : ℚ)

/-- The nearest integer, ties to the even one. -/
def round_half_even (q : ℚ) : Int :=
  let f := Rat.floor q
  let r := q - (f : ℚ)
  if r < 1 / 2 then f
  else if 1 / 2 < r then f + 1
  else if f % 2 = 0 then f
  else f + 1

/-- The number of binary digits of a natural number below `2^fuel`. -/
def bit_length : Nat → Nat → Nat
  | 0, _ => 0
  | fuel + 1, n => if n = 0 then 0 else bit_length fuel (n / 2) + 1

/-- The exponent `e` with `2^e <= |q| < 2^(e+1)`, for `q` not zero.  The exact
result of one operation on two doubles has a numerator and a denominator of
fewer than 2200 binary digits, which the fuel 8192 covers. -/
def binade (q : ℚ) : Int :=
  let e0 : Int := (bit_length 8192 q.num.natAbs : Int) - (bit_length 8192 q.den : Int)
  if pow2 e0 ≤ |q| then e0 else e0 - 1

/-- The largest finite binary64 number, `(2 - 2^(-52)) * 2^1023`. -/
def MAX_FINITE : ℚ := (2 ^ 53 - 1) * 2 ^ 971

/-- Rounding of a real result to binary64: to the nearest number with 53
significant bits (with the fixed spacing `2^(-1074)` in the subnormal range),
ties to even; a result beyond the largest finite number becomes an infinity. -/
def round_double (q : ℚ) : double :=
  if q = 0 then double.fin 0
  else
    let e := max (binade q - 52) (-1074)
    let v : ℚ := (round_half_even (q / pow2 e) : ℚ) * pow2 e
    if MAX_FINITE < |v| then (if 0 < q then double.pinf else double.ninf)
    else double.fin v

/-- The double that a decimal constant of the source denotes. -/
def dbl (q : ℚ) : double := round_double q

/-- Unary minus. -/
def dbl_neg : double → double
  | double.fin a => double.fin (-a)
  | double.pinf => double.ninf
  | double.ninf => double.pinf
  | double.nan => double.nan

/-- Addition `a + b`. -/
def dbl_add : double → double → double
  | double.fin a, double.fin b => round_double (a + b)
  | double.nan, _ => double.nan
  | _, double.nan => double.nan
  | double.pinf, double.ninf => double.nan
  | double.ninf, double.pinf => double.nan
  | double.pinf, _ => double.pinf
  | _, double.pinf => double.pinf
  | double.ninf, _ => double.ninf
  | _, double.ninf => double.ninf

/-- Subtraction `a - b`. -/
def dbl_sub (a b : double) : double := dbl_add a (dbl_neg b)

/-- The sign of a double as an integer; NaN has none. -/
def dbl_sign : double → Int
  | double.fin a => if 0 < a then 1 else if a < 0 then -1 else 0
  | double.pinf => 1
  | double.ninf => -1
  | double.nan => 0

/-- The infinity of the given sign; NaN for the sign 0. -/
def dbl_inf (s : Int) : double :=
  if 0 < s then double.pinf else if s < 0 then double.ninf else double.nan

/-- Multiplication `a * b`. -/
def dbl_mul : double → double → double
  | double.fin a, double.fin b => round_double (a * b)
  | double.nan, _ => double.nan
  | _, double.nan => double.nan
  | a, b => dbl_inf (dbl_sign a * dbl_sign b)

/-- Division `a / b`.  A finite non-zero value divided by zero is an infinity
(its sign is that of the dividend, the zero being taken as positive), and `0 / 0`
is NaN. -/
def dbl_div : double → double → double
  | double.fin a, double.fin b =>
    if b = 0 then dbl_inf (dbl_sign (double.fin a)) else round_double (a / b)
  | double.nan, _ => double.nan
  | _, double.nan => double.nan
  | double.fin _, _ => double.fin 0
  | a, double.fin b => dbl_inf (dbl_sign a * (if b < 0 then -1 else 1))
  | _, _ => double.nan

/-- The loop of the integer square root: the bits of the root from the highest
one down. -/
def isqrt_loop : Nat → Nat → Nat → Nat
  | 0, _, r => r
  | bit + 1, x, r =>
    if (r + 2 ^ bit) * (r + 2 ^ bit) ≤ x then isqrt_loop bit x (r + 2 ^ bit)
    else isqrt_loop bit x r

/-- The integer square root, the largest `r` with `r * r <= x`. -/
def isqrt (x : Nat) : Nat := isqrt_loop (bit_length 8192 x / 2 + 1) x 0

/-- The correctly rounded square root of a positive rational: the integer square
root of the argument scaled to more than 120 bits, with a sticky half when the
root is not exact, rounded to binary64. -/
def round_sqrt (q : ℚ) : double :=
  let k : Int := 64 - binade q / 2
  let x : Nat := (Rat.floor (q * pow2 (2 * k))).toNat
  let r : Nat := isqrt x
  let sticky : ℚ := if ((r * r : Nat) : ℚ) = q * pow2 (2 * k) then 0 else 1 / 2
  round_double (((r : ℚ) + sticky) * pow2 (-k))

/-- The function `sqrt` of `<math.h>`, which IEEE 754 requires to be correctly
rounded. -/
def dbl_sqrt : double → double
  | double.fin a => if a < 0 then double.nan else if a = 0 then double.fin 0 else round_sqrt a
  | double.pinf => double.pinf
  | double.ninf => double.nan
  | double.nan => double.nan

/-- The comparison `a < b`; false when an operand is NaN. -/
def dbl_lt : double → double → Bool
  | double.fin a, double.fin b => decide (a < b)
  | double.nan, _ => false
  | _, double.nan => false
  | double.pinf, _ => false
  | _, double.pinf => true
  | _, double.ninf => false
  | double.ninf, _ => true

/-- The comparison `a == b`; false when an operand is NaN. -/
def dbl_eq : double → double → Bool
  | double.nan, _ => false
  | _, double.nan => false
  | a, b => decide (a = b)

/-- The comparison `a <= b`; false when an operand is NaN. -/
def dbl_le (a b : double) : Bool := dbl_lt a b || dbl_eq a b

/-- The function `fmin` of `<math.h>`: a NaN operand is ignored. -/
def dbl_fmin : double → double → double
  | double.nan, b => b
  | a, double.nan => a
  | a, b => if dbl_lt b a then b else a

/-- The function `fmax` of `<math.h>`: a NaN operand is ignored. -/
def dbl_fmax : double → double → double
  | double.nan, b => b
  | a, double.nan => a
  | a, b => if dbl_lt a b then b else a

/-- The function `fabs` of `<math.h>`. -/
def dbl_fabs : double → double
  | double.fin a => double.fin |a|
  | double.pinf => double.pinf
  | double.ninf => double.pinf
  | double.nan => double.nan

/-- The double is a finite number. -/
def dbl_finite : double → Bool
  | double.fin _ => true
  | _ => false

/-- The math library on doubles.  `sqrt` is the correctly rounded square root.
`cos` and `sin` are given at the argument 0, where every implementation returns
1 and 0; at the other arguments, and for `atan2`, the value is left open as NaN
and no theorem evaluates it. -/
def libm_dbl : Libm double :=
  { sqrt := dbl_sqrt,
    cos := fun x => if x = double.fin 0 then double.fin 1 else double.nan,
    sin := fun x => if x = double.fin 0 then double.fin 0 else double.nan,
    atan2 := fun _ _ => double.nan }

/-! ## The source functions on doubles -/

/-- The vector `VEC_ZERO` on doubles. -/
def VEC_ZERO_dbl : vector_t double := ⟨double.fin 0, double.fin 0⟩

/-- The function `vec_equals` on doubles. -/
def vec_equals_dbl (v1 v2 : vector_t double) : Bool :=
  dbl_eq v1.x v2.x && dbl_eq v1.y v2.y

/-- The function `vec_add` on doubles. -/
def vec_add_dbl (v1 v2 : vector_t double) : vector_t double :=
  ⟨dbl_add v1.x v2.x, dbl_add v1.y v2.y⟩

/-- The function `vec_subtract` on doubles. -/
def vec_subtract_dbl (v1 v2 : vector_t double) : vector_t double :=
  ⟨dbl_sub v1.x v2.x, dbl_sub v1.y v2.y⟩

/-- The function `vec_negate` on doubles, `-1 * v.x`. -/
def vec_negate_dbl (v : vector_t double) : vector_t double :=
  ⟨dbl_mul (double.fin (-1)) v.x, dbl_mul (double.fin (-1)) v.y⟩

/-- The function `vec_multiply` on doubles. -/
def vec_multiply_dbl (scalar : double) (v : vector_t double) : vector_t double :=
  ⟨dbl_mul scalar v.x, dbl_mul scalar v.y⟩

/-- The function `vec_dot` on doubles. -/
def vec_dot_dbl (v1 v2 : vector_t double) : double :=
  dbl_add (dbl_mul v1.x v2.x) (dbl_mul v1.y v2.y)

/-- The function `vec_cross` on doubles. -/
def vec_cross_dbl (v1 v2 : vector_t double) : double :=
  dbl_sub (dbl_mul v1.x v2.y) (dbl_mul v1.y v2.x)

/-- The function `vec_rotate` on doubles. -/
def vec_rotate_dbl (M : Libm double) (v : vector_t double) (angle : double) :
    vector_t double :=
  ⟨dbl_sub (dbl_mul v.x (M.cos angle)) (dbl_mul v.y (M.sin angle)),
   dbl_add (dbl_mul v.x (M.sin angle)) (dbl_mul v.y (M.cos angle))⟩

/-- The function `vec_get_length` on doubles. -/
def vec_get_length_dbl (M : Libm double) (v : vector_t double) : double :=
  M.sqrt (dbl_add (dbl_mul v.x v.x) (dbl_mul v.y v.y))

/-- Element access `list_get` on a list of double vectors, at an index that the
enclosing loop keeps below the size. -/
def list_get_dbl (l : List (vector_t double)) (index : Nat) : vector_t double :=
  l.getD index VEC_ZERO_dbl

/-- The function `polygon_init` on doubles. -/
def polygon_init_dbl (points : List (vector_t double)) (initial_velocity : vector_t double)
    (rotation_speed : double) (red green blue : double) : polygon_t double :=
  { points := points, velocity := initial_velocity, rotation_speed := rotation_speed,
    color := ⟨red, green, blue⟩, rotation := double.fin 0 }

/-- The accumulating loop of `polygon_centroid` on doubles: the running
`signed_area` and `centroid`. -/
def centroid_loop_dbl (points : List (vector_t double)) : double × vector_t double :=
  let size := points.length
  (List.range size).foldl
    (fun (st : double × vector_t double) (i : Nat) =>
      let next_idx := (i + 1) % size
      let current := list_get_dbl points next_idx
      let prev := list_get_dbl points i
      let cross_prod := vec_cross_dbl prev current
      (dbl_add st.1 cross_prod,
        ⟨dbl_add st.2.x (dbl_mul (dbl_add current.x prev.x) cross_prod),
         dbl_add st.2.y (dbl_mul (dbl_add current.y prev.y) cross_prod)⟩))
    (double.fin 0, ⟨double.fin 0, double.fin 0⟩)

/-- The divisor `CENTROID_SCALE * signed_area` of the two divisions at the end of
`polygon_centroid`, on doubles. -/
def centroid_divisor_dbl (points : List (vector_t double)) : double :=
  dbl_mul (double.fin 6) (dbl_mul (centroid_loop_dbl points).1 (double.fin (1 / 2)))

/-- The function `polygon_centroid` on doubles. -/
def polygon_centroid_dbl (polygon : polygon_t double) : vector_t double :=
  let acc := centroid_loop_dbl polygon.points
  let signed_area := dbl_mul acc.1 (double.fin (1 / 2))
  ⟨dbl_div acc.2.x (dbl_mul (double.fin 6) signed_area),
   dbl_div acc.2.y (dbl_mul (double.fin 6) signed_area)⟩

/-- The function `polygon_area` on doubles. -/
def polygon_area_dbl (polygon : polygon_t double) : double :=
  let size := polygon.points.length
  if size < 3 then double.fin 0
  else
    let area := (List.range size).foldl
      (fun (area : double) (i : Nat) =>
        let next_idx := (i + 1) % size
        let p1 := list_get_dbl polygon.points i
        let p2 := list_get_dbl polygon.points next_idx
        dbl_add area (vec_cross_dbl p1 p2))
      (double.fin 0)
    dbl_mul (double.fin (1 / 2)) (dbl_fabs area)

/-- The function `polygon_translate` on doubles. -/
def polygon_translate_dbl (polygon : polygon_t double) (translation : vector_t double) :
    polygon_t double :=
  { polygon with points := polygon.points.map (fun vertex => vec_add_dbl vertex translation) }

/-- The function `polygon_rotate` on doubles. -/
def polygon_rotate_dbl (M : Libm double) (polygon : polygon_t double) (angle : double)
    (point : vector_t double) : polygon_t double :=
  let p1 := polygon_translate_dbl polygon (vec_negate_dbl point)
  let p2 := { p1 with points := p1.points.map (fun vertex => vec_rotate_dbl M vertex angle) }
  polygon_translate_dbl p2 point

/-- The function `polygon_get_center` on doubles. -/
def polygon_get_center_dbl (polygon : polygon_t double) : vector_t double :=
  polygon_centroid_dbl polygon

/-- The function `polygon_set_center` on doubles. -/
def polygon_set_center_dbl (polygon : polygon_t double) (centroid : vector_t double) :
    polygon_t double :=
  polygon_translate_dbl polygon (vec_subtract_dbl centroid (polygon_get_center_dbl polygon))

/-- The function `polygon_set_rotation` on doubles. -/
def polygon_set_rotation_dbl (M : Libm double) (polygon : polygon_t double) (rot : double) :
    polygon_t double :=
  let p1 := polygon_rotate_dbl M polygon (dbl_sub rot polygon.rotation)
    (polygon_get_center_dbl polygon)
  { p1 with rotation := rot }

/-- The quotient `1.0 / body->mass` on doubles; the mass `INFINITY` gives 0. -/
def mass_reciprocal_dbl : mass_t double → double
  | mass_t.finite m => dbl_div (double.fin 1) m
  | mass_t.infinity => dbl_div (double.fin 1) double.pinf

/-- The function `body_init` on doubles. -/
def body_init_dbl (shape : List (vector_t double)) (mass : mass_t double)
    (color : rgb_color_t double) : body_t double :=
  { poly := polygon_init_dbl shape VEC_ZERO_dbl (double.fin 0) color.r color.g color.b,
    mass := mass, force := VEC_ZERO_dbl, impulse := VEC_ZERO_dbl, removed := false,
    rotate_with_velocity := false, info := none }

/-- The function `body_add_force` on doubles. -/
def body_add_force_dbl (body : body_t double) (force : vector_t double) : body_t double :=
  { body with force := vec_add_dbl body.force force }

/-- The function `body_add_impulse` on doubles. -/
def body_add_impulse_dbl (body : body_t double) (impulse : vector_t double) : body_t double :=
  { body with impulse := vec_add_dbl body.impulse impulse }

/-- The function `get_new_velocity` on doubles. -/
def get_new_velocity_dbl (body : body_t double) (dt : double) : vector_t double :=
  let acceleration_force := vec_multiply_dbl (mass_reciprocal_dbl body.mass) body.force
  let velocity_change_impulse := vec_multiply_dbl (mass_reciprocal_dbl body.mass) body.impulse
  let velocity_change_force := vec_multiply_dbl dt acceleration_force
  let velocity_change := vec_add_dbl velocity_change_impulse velocity_change_force
  vec_add_dbl body.poly.velocity velocity_change

/-- The function `body_tick` on doubles. -/
def body_tick_dbl (M : Libm double) (body : body_t double) (dt : double) : body_t double :=
  let new_velocity := get_new_velocity_dbl body dt
  let update_velocity :=
    vec_multiply_dbl (double.fin (1 / 2)) (vec_add_dbl body.poly.velocity new_velocity)
  let displacement := vec_multiply_dbl dt update_velocity
  let b1 := { body with poly := polygon_translate_dbl body.poly displacement }
  let b2 :=
    if b1.rotate_with_velocity then
      { b1 with
        poly := polygon_set_rotation_dbl M b1.poly (M.atan2 new_velocity.y new_velocity.x) }
    else b1
  let b3 := { b2 with poly := { b2.poly with velocity := ⟨new_velocity.x, new_velocity.y⟩ } }
  { b3 with force := VEC_ZERO_dbl, impulse := VEC_ZERO_dbl }

/-- The function `get_edges` on doubles. -/
def get_edges_dbl (shape : List (vector_t double)) : List (vector_t double) :=
  (List.range shape.length).map
    (fun i =>
      vec_subtract_dbl (list_get_dbl shape (i % shape.length))
        (list_get_dbl shape ((i + 1) % shape.length)))

/-- The function `get_max_min_projections` on doubles; `none` for the failed
assertion of `list_get(shape, 0)` on an empty shape. -/
def get_max_min_projections_dbl (shape : List (vector_t double)) (unit_axis : vector_t double) :
    Option (vector_t double) :=
  if shape.length = 0 then none
  else
    let max_projection := vec_dot_dbl (list_get_dbl shape 0) unit_axis
    let min_projection := max_projection
    let st := (List.range' 1 (shape.length - 1)).foldl
      (fun (st : double × double) (i : Nat) =>
        let projection := vec_dot_dbl (list_get_dbl shape i) unit_axis
        if dbl_lt st.1 projection then (projection, st.2)
        else if dbl_lt projection st.2 then (st.1, projection)
        else st)
      (max_projection, min_projection)
    some ⟨st.1, st.2⟩

/-- The loop of `compare_collision` on doubles, over the remaining edges. -/
def compare_collision_loop_dbl (M : Libm double) (shape1 shape2 : List (vector_t double)) :
    List (vector_t double) → collision_info_t double → double →
      Option (collision_info_t double × double)
  | [], compare, min_overlap => some ({ compare with collided := true }, min_overlap)
  | edge :: rest, compare, min_overlap =>
    let axis : vector_t double := ⟨dbl_neg edge.y, edge.x⟩
    let unit_axis := vec_multiply_dbl (dbl_div (double.fin 1) (M.sqrt (vec_dot_dbl axis axis))) axis
    match get_max_min_projections_dbl shape1 unit_axis,
        get_max_min_projections_dbl shape2 unit_axis with
    | some max_min_projections_shape1, some max_min_projections_shape2 =>
      let overlap :=
        dbl_sub (dbl_fmin max_min_projections_shape1.x max_min_projections_shape2.x)
          (dbl_fmax max_min_projections_shape1.y max_min_projections_shape2.y)
      if dbl_le overlap (double.fin 0) then some (compare, min_overlap)
      else if dbl_lt overlap min_overlap then
        compare_collision_loop_dbl M shape1 shape2 rest { compare with axis := unit_axis } overlap
      else compare_collision_loop_dbl M shape1 shape2 rest compare min_overlap
    | _, _ => none

/-- The function `compare_collision` on doubles. -/
def compare_collision_dbl (M : Libm double) (shape1 shape2 : List (vector_t double))
    (min_overlap : double) : Option (collision_info_t double × double) :=
  compare_collision_loop_dbl M shape1 shape2 (get_edges_dbl shape1)
    { collided := false, axis := VEC_ZERO_dbl } min_overlap

/-- The function `character_shot_velocity` on doubles. -/
def character_shot_velocity_dbl (M : Libm double) (shot_start_point shot_end_point : vector_t double)
    (max_speed : double) : vector_t double :=
  if vec_equals_dbl shot_start_point shot_end_point then VEC_ZERO_dbl
  else
    let direction0 := vec_subtract_dbl shot_end_point shot_start_point
    let direction : vector_t double := ⟨dbl_mul (double.fin (-1)) direction0.x, direction0.y⟩
    let vec_magnitude0 := vec_get_length_dbl M direction
    let shot_unit := vec_multiply_dbl (dbl_div (double.fin 1) vec_magnitude0) direction
    let vec_magnitude :=
      if dbl_lt (double.fin 60) vec_magnitude0 then double.fin 60 else vec_magnitude0
    let magnitude_percentage := dbl_div vec_magnitude (double.fin 60)
    vec_multiply_dbl (dbl_mul max_speed magnitude_percentage) shot_unit

/-- The function `body_get_shape` on doubles. -/
def body_get_shape_dbl (body : body_t double) : List (vector_t double) := body.poly.points

/-- The function `body_get_velocity` on doubles. -/
def body_get_velocity_dbl (body : body_t double) : vector_t double := body.poly.velocity

/-- The function `find_collision` on doubles. -/
def find_collision_dbl (M : Libm double) (body1 body2 : body_t double) :
    Option (collision_info_t double) :=
  let shape1 := body_get_shape_dbl body1
  let shape2 := body_get_shape_dbl body2
  match compare_collision_dbl M shape1 shape2 (double.fin MAX_FINITE) with
  | none => none
  | some (collision1, c1_overlap) =>
    match compare_collision_dbl M shape2 shape1 (double.fin MAX_FINITE) with
    | none => none
    | some (collision2, c2_overlap) =>
      if !collision1.collided then some collision1
      else if !collision2.collided then some collision2
      else if dbl_lt c1_overlap c2_overlap then some collision1
      else some collision2

/-! ## Fixtures on doubles -/

/-- The vector whose coordinates are the doubles that the two decimal constants
denote. -/
def vec_dbl (x y : ℚ) : vector_t double := ⟨dbl x, dbl y⟩

/-- A static body (mass `INFINITY`, black) on the given vertices. -/
def static_body_dbl (shape : List (vector_t double)) : body_t double :=
  body_init_dbl shape mass_t.infinity ⟨double.fin 0, double.fin 0, double.fin 0⟩

/-- A fresh body of the given finite mass on the unit square. -/
def square_body_dbl (mass : ℚ) : body_t double :=
  body_init_dbl [vec_dbl 0 0, vec_dbl 1 0, vec_dbl 1 1, vec_dbl 0 1]
    (mass_t.finite (dbl mass)) ⟨double.fin 1, double.fin 1, double.fin 1⟩

/-- A polygon at rest, white, with rotation 0, on the given vertices. -/
def polygon_dbl (points : List (vector_t double)) : polygon_t double :=
  polygon_init_dbl points VEC_ZERO_dbl (double.fin 0) (double.fin 1) (double.fin 1)
    (double.fin 1)

/-- The rational value of a finite double; 0 stands in for an infinity or NaN. -/
def dbl_value : double → ℚ
  | double.fin q => q
  | _ => 0

/-- The rational coordinates of a vector of finite doubles. -/
def vec_value (v : vector_t double) : vector_t ℚ := ⟨dbl_value v.x, dbl_value v.y⟩

section TiltedFixtures

variable {K : Type} [LinearOrderedField K]

/-- The square with the vertices (0,0), (4,3), (1,7), (-3,4), of side 5, moved by
`(x, y)`, counterclockwise. -/
def tilted_square (x y : K) : List (vector_t K) :=
  [⟨x, y⟩, ⟨x + 4, y + 3⟩, ⟨x + 1, y + 7⟩, ⟨x - 3, y + 4⟩]

/-- The square with the vertices (0,0), (2,5), (-3,7), (-5,2), moved by `(x, y)`,
counterclockwise. -/
def steep_square (x y : K) : List (vector_t K) :=
  [⟨x, y⟩, ⟨x + 2, y + 5⟩, ⟨x - 3, y + 7⟩, ⟨x - 5, y + 2⟩]

/-- The quadrilateral (0,0), (5,4), (1,9), (-4,5), counterclockwise. -/
def slanted_quad : List (vector_t K) := [⟨0, 0⟩, ⟨5, 4⟩, ⟨1, 9⟩, ⟨-4, 5⟩]

/-- The quadrilateral `(5, 4 - 2^(-50))`, `(10, 8 - 2^(-50))`, (6,13), (1,9),
counterclockwise: the vertex (5,4) of `slanted_quad` lies inside it. -/
def lowered_quad : List (vector_t K) :=
  [⟨5, 4 - 1 / 2 ^ 50⟩, ⟨10, 8 - 1 / 2 ^ 50⟩, ⟨6, 13⟩, ⟨1, 9⟩]

/-- A static body (infinite mass, black) on the given vertices. -/
def static_body (shape : List (vector_t K)) : body_t K :=
  body_init shape mass_t.infinity ⟨0, 0, 0⟩

end TiltedFixtures

/-- The unit axis that the loop of `compare_collision` computes from an entry of
`get_edges`, on doubles. -/
def edge_unit_axis_dbl (M : Libm double) (edge : vector_t double) : vector_t double :=
  let axis : vector_t double := ⟨dbl_neg edge.y, edge.x⟩
  vec_multiply_dbl (dbl_div (double.fin 1) (M.sqrt (vec_dot_dbl axis axis))) axis

/-- The value `overlap` that the loop of `compare_collision` computes for an entry
of `get_edges`, on doubles; `none` when a projection aborts on an empty shape. -/
def edge_overlap_dbl (M : Libm double) (shape1 shape2 : List (vector_t double))
    (edge : vector_t double) : Option double :=
  match get_max_min_projections_dbl shape1 (edge_unit_axis_dbl M edge),
      get_max_min_projections_dbl shape2 (edge_unit_axis_dbl M edge) with
  | some max_min_projections_shape1, some max_min_projections_shape2 =>
    some (dbl_sub (dbl_fmin max_min_projections_shape1.x max_min_projections_shape2.x)
      (dbl_fmax max_min_projections_shape1.y max_min_projections_shape2.y))
  | _, _ => none

section PolygonTheorems

variable {K : Type} [LinearOrderedField K]

/-! ## polygon.c: shoelace sums and translation -/

theorem sum_range_cyclic (n : Nat) (f : Nat → K) :
    ∑ i in Finset.range n, f ((i + 1) % n) = ∑ i in Finset.range n, f i := by
  cases n with
  | zero => simp
  | succ m =>
    rw [Finset.sum_range_succ, Finset.sum_range_succ', Nat.mod_self]
    congr 1
    apply Finset.sum_congr rfl
    intro i hi
    rw [Nat.mod_eq_of_lt (by simpa using (Finset.mem_range.mp hi))]

theorem sum_range_cyclic_sub (n : Nat) (f : Nat → K) :
    ∑ i in Finset.range n, (f i - f ((i + 1) % n)) = 0 := by
  rw [Finset.sum_sub_distrib, sum_range_cyclic, sub_self]

theorem centroid_loop_eq_sum (points : List (vector_t K)) :
    centroid_loop points =
      (∑ i in Finset.range (list_size points),
          vec_cross (list_get points i) (list_get points ((i + 1) % list_size points)),
       ⟨∑ i in Finset.range (list_size points),
          ((list_get points ((i + 1) % list_size points)).x + (list_get points i).x) *
            vec_cross (list_get points i) (list_get points ((i + 1) % list_size points)),
        ∑ i in Finset.range (list_size points),
          ((list_get points ((i + 1) % list_size points)).y + (list_get points i).y) *
            vec_cross (list_get points i) (list_get points ((i + 1) % list_size points))⟩) := by
  unfold centroid_loop
  generalize list_size points = n
  suffices h : ∀ k : Nat,
      (List.range k).foldl
        (fun (st : K × vector_t K) (i : Nat) =>
          (st.1 + vec_cross (list_get points i) (list_get points ((i + 1) % n)),
            (⟨st.2.x + ((list_get points ((i + 1) % n)).x + (list_get points i).x) *
                vec_cross (list_get points i) (list_get points ((i + 1) % n)),
              st.2.y + ((list_get points ((i + 1) % n)).y + (list_get points i).y) *
                vec_cross (list_get points i) (list_get points ((i + 1) % n))⟩ : vector_t K)))
        (0, ⟨0, 0⟩) =
      (∑ i in Finset.range k, vec_cross (list_get points i) (list_get points ((i + 1) % n)),
       ⟨∑ i in Finset.range k,
          ((list_get points ((i + 1) % n)).x + (list_get points i).x) *
            vec_cross (list_get points i) (list_get points ((i + 1) % n)),
        ∑ i in Finset.range k,
          ((list_get points ((i + 1) % n)).y + (list_get points i).y) *
            vec_cross (list_get points i) (list_get points ((i + 1) % n))⟩) from h n
  intro k
  induction k with
  | zero => simp
  | succ k ih =>
    rw [List.range_succ, List.foldl_append, ih]
    simp [Finset.sum_range_succ]

theorem list_get_map_add (points : List (vector_t K)) (d : vector_t K) (i : Nat)
    (hi : i < list_size points) :
    list_get (points.map (fun vertex => vec_add vertex d)) i = vec_add (list_get points i) d := by
  unfold list_get
  unfold list_size at hi
  rw [List.getD_eq_getElem _ _ (by simpa using hi), List.getD_eq_getElem _ _ hi,
    List.getElem_map]

theorem centroid_loop_translate (points : List (vector_t K)) (d : vector_t K) :
    centroid_loop (points.map (fun vertex => vec_add vertex d)) =
      ((centroid_loop points).1,
       ⟨(centroid_loop points).2.x + 3 * d.x * (centroid_loop points).1,
        (centroid_loop points).2.y + 3 * d.y * (centroid_loop points).1⟩) := by
  rw [centroid_loop_eq_sum, centroid_loop_eq_sum]
  have hlen : list_size (points.map (fun vertex => vec_add vertex d)) = list_size points := by
    simp [list_size]
  rw [hlen]
  set n := list_size points with hn
  have hget : ∀ i, i < n → list_get (points.map (fun vertex => vec_add vertex d)) i =
      vec_add (list_get points i) d := fun i hi => list_get_map_add points d i hi
  have hnext : ∀ i, i < n → (i + 1) % n < n := fun i hi =>
    Nat.mod_lt _ (Nat.lt_of_le_of_lt (Nat.zero_le i) hi)
  have h1 : ∑ i in Finset.range n,
        vec_cross (list_get (points.map (fun vertex => vec_add vertex d)) i)
          (list_get (points.map (fun vertex => vec_add vertex d)) ((i + 1) % n)) =
      ∑ i in Finset.range n, vec_cross (list_get points i) (list_get points ((i + 1) % n)) := by
    rw [← sub_eq_zero, ← Finset.sum_sub_distrib]
    rw [← sum_range_cyclic_sub n (fun i => vec_cross (list_get points i) d)]
    apply Finset.sum_congr rfl
    intro i hi
    have hi2 := Finset.mem_range.mp hi
    rw [hget i hi2, hget _ (hnext i hi2)]
    simp only [vec_cross, vec_add]
    ring
  have h2 : ∑ i in Finset.range n,
        ((list_get (points.map (fun vertex => vec_add vertex d)) ((i + 1) % n)).x +
            (list_get (points.map (fun vertex => vec_add vertex d)) i).x) *
          vec_cross (list_get (points.map (fun vertex => vec_add vertex d)) i)
            (list_get (points.map (fun vertex => vec_add vertex d)) ((i + 1) % n)) =
      ∑ i in Finset.range n,
          ((list_get points ((i + 1) % n)).x + (list_get points i).x) *
            vec_cross (list_get points i) (list_get points ((i + 1) % n)) +
        3 * d.x *
          ∑ i in Finset.range n, vec_cross (list_get points i) (list_get points ((i + 1) % n)) := by
    rw [Finset.mul_sum, ← Finset.sum_add_distrib, ← sub_eq_zero, ← Finset.sum_sub_distrib]
    rw [← sum_range_cyclic_sub n (fun i =>
      (list_get points i).x * (list_get points i).x * d.y -
        d.x * (list_get points i).x * (list_get points i).y +
        2 * d.x * vec_cross (list_get points i) d)]
    apply Finset.sum_congr rfl
    intro i hi
    have hi2 := Finset.mem_range.mp hi
    rw [hget i hi2, hget _ (hnext i hi2)]
    simp only [vec_cross, vec_add]
    ring
  have h3 : ∑ i in Finset.range n,
        ((list_get (points.map (fun vertex => vec_add vertex d)) ((i + 1) % n)).y +
            (list_get (points.map (fun vertex => vec_add vertex d)) i).y) *
          vec_cross (list_get (points.map (fun vertex => vec_add vertex d)) i)
            (list_get (points.map (fun vertex => vec_add vertex d)) ((i + 1) % n)) =
      ∑ i in Finset.range n,
          ((list_get points ((i + 1) % n)).y + (list_get points i).y) *
            vec_cross (list_get points i) (list_get points ((i + 1) % n)) +
        3 * d.y *
          ∑ i in Finset.range n, vec_cross (list_get points i) (list_get points ((i + 1) % n)) := by
    rw [Finset.mul_sum, ← Finset.sum_add_distrib, ← sub_eq_zero, ← Finset.sum_sub_distrib]
    rw [← sum_range_cyclic_sub n (fun i =>
      d.y * (list_get points i).x * (list_get points i).y -
        (list_get points i).y * (list_get points i).y * d.x +
        2 * d.y * vec_cross (list_get points i) d)]
    apply Finset.sum_congr rfl
    intro i hi
    have hi2 := Finset.mem_range.mp hi
    rw [hget i hi2, hget _ (hnext i hi2)]
    simp only [vec_cross, vec_add]
    ring
  rw [h1, h2, h3]

theorem signed_area_translate (points : List (vector_t K)) (d : vector_t K) :
    signed_area (points.map (fun vertex => vec_add vertex d)) = signed_area points := by
  unfold signed_area
  rw [centroid_loop_translate]

theorem polygon_centroid_translate (polygon : polygon_t K) (d : vector_t K)
    (harea : signed_area polygon.points ≠ 0) :
    polygon_centroid (polygon_translate polygon d) = vec_add (polygon_centroid polygon) d := by
  unfold polygon_centroid polygon_translate
  simp only [centroid_loop_translate]
  unfold signed_area at harea
  have h6 : (CENTROID_SCALE : K) * ((centroid_loop polygon.points).1 * (1 / 2)) ≠ 0 := by
    unfold CENTROID_SCALE
    exact mul_ne_zero (by norm_num) harea
  unfold vec_add
  ext
  · simp only
    rw [div_add' _ _ _ h6]
    congr 1
    unfold CENTROID_SCALE
    ring
  · simp only
    rw [div_add' _ _ _ h6]
    congr 1
    unfold CENTROID_SCALE
    ring

end PolygonTheorems

section BodyTheorems

variable {K : Type} [LinearOrderedField K]

/-! ## body.c: the integration step -/

theorem body_tick_velocity_eq (M : Libm K) (body : body_t K) (dt : K) :
    body_get_velocity (body_tick M body dt) = get_new_velocity body dt := by
  unfold body_tick
  by_cases h : body.rotate_with_velocity = true <;>
    simp [h, body_get_velocity, body_set_velocity, polygon_set_velocity, polygon_get_velocity]

theorem get_new_velocity_finite (body : body_t K) (m dt : K)
    (hmass : body.mass = mass_t.finite m) :
    get_new_velocity body dt =
      ⟨(body_get_velocity body).x + dt * (body.force.x / m) + body.impulse.x / m,
       (body_get_velocity body).y + dt * (body.force.y / m) + body.impulse.y / m⟩ := by
  simp only [get_new_velocity, hmass, mass_reciprocal, vec_add, vec_multiply]
  ext <;> simp only <;> ring

theorem get_new_velocity_infinite (body : body_t K) (dt : K)
    (hmass : body.mass = mass_t.infinity) :
    get_new_velocity body dt = body_get_velocity body := by
  simp only [get_new_velocity, hmass, mass_reciprocal, vec_add, vec_multiply]
  ext <;> simp

theorem body_tick_force_impulse (M : Libm K) (body : body_t K) (dt : K) :
    (body_tick M body dt).force = VEC_ZERO ∧ (body_tick M body dt).impulse = VEC_ZERO := by
  unfold body_tick
  simp

theorem body_tick_mass (M : Libm K) (body : body_t K) (dt : K) :
    (body_tick M body dt).mass = body.mass := by
  unfold body_tick
  by_cases h : body.rotate_with_velocity = true <;> simp [h, body_set_velocity]

theorem body_tick_flag (M : Libm K) (body : body_t K) (dt : K) :
    (body_tick M body dt).rotate_with_velocity = body.rotate_with_velocity := by
  unfold body_tick
  by_cases h : body.rotate_with_velocity = true <;> simp [h, body_set_velocity]

theorem body_tick_points_of_unset (M : Libm K) (body : body_t K) (dt : K)
    (hflag : body.rotate_with_velocity = false) :
    (body_tick M body dt).poly.points =
      body.poly.points.map (fun vertex => vec_add vertex
        (vec_multiply dt (vec_multiply VELOCITY_AVG_FACTOR
          (vec_add (body_get_velocity body) (get_new_velocity body dt))))) := by
  unfold body_tick
  simp [hflag, body_set_velocity, polygon_set_velocity, polygon_translate]

/-- In exact arithmetic, for a body of finite non-zero mass `m` with velocity `v`,
pending force `F` and pending impulse `J`, the velocity after `body_tick(body, dt)`
is `v + dt * (F / m) + J / m`, in each component. -/
theorem body_tick_velocity_exact (M : Libm K) (body : body_t K) (m dt : K)
    (hmass : body.mass = mass_t.finite m) (_hm : m ≠ 0) :
    body_get_velocity (body_tick M body dt) =
      ⟨(body_get_velocity body).x + dt * (body.force.x / m) + body.impulse.x / m,
       (body_get_velocity body).y + dt * (body.force.y / m) + body.impulse.y / m⟩ := by
  rw [body_tick_velocity_eq, get_new_velocity_finite body m dt hmass]

/-- C2: when `rotate_with_velocity` is unset, `body_tick(body, dt)` keeps the number
and order of the vertices and moves each of them by `dt * 0.5 * (v_old + v_new)`,
with `v_old` the velocity before the tick and `v_new` the velocity after it. -/
theorem body_tick_vertices (M : Libm K) (body : body_t K) (dt : K)
    (hflag : body.rotate_with_velocity = false) :
    list_size (body_get_shape (body_tick M body dt)) = list_size (body_get_shape body) ∧
    ∀ i, i < list_size (body_get_shape body) →
      list_get (body_get_shape (body_tick M body dt)) i =
        ⟨(list_get (body_get_shape body) i).x +
            dt * (1 / 2) *
              ((body_get_velocity body).x + (body_get_velocity (body_tick M body dt)).x),
         (list_get (body_get_shape body) i).y +
            dt * (1 / 2) *
              ((body_get_velocity body).y + (body_get_velocity (body_tick M body dt)).y)⟩ := by
  rw [body_tick_velocity_eq]
  simp only [body_get_shape, polygon_get_points, list_size, list_get,
    body_tick_points_of_unset M body dt hflag, List.length_map]
  refine ⟨trivial, fun i hi => ?_⟩
  rw [List.getD_eq_getElem _ _ (by simpa using hi), List.getD_eq_getElem _ _ hi,
    List.getElem_map]
  simp only [vec_add, vec_multiply, VELOCITY_AVG_FACTOR]
  ext <;> simp only <;> ring

theorem body_tick_vertices_witness :
    body_get_shape (body_tick libm_unused (body_add_force square_body ⟨4, 0⟩) 1) =
      ([⟨1, 0⟩, ⟨2, 0⟩, ⟨2, 1⟩, ⟨1, 1⟩] : List (vector_t ℚ)) := by
  have h := body_tick_vertices libm_unused (body_add_force square_body ⟨4, 0⟩) 1 rfl
  apply List.ext_getElem
  · simpa [list_size] using h.1
  · intro i h1 h2
    have hi : i < 4 := by simpa using h2
    have h3 := h.2 i (by simpa [list_size, body_get_shape, polygon_get_points] using hi)
    simp only [list_get] at h3
    rw [List.getD_eq_getElem _ _ h1] at h3
    rw [h3, body_tick_velocity_eq]
    interval_cases i <;>
      norm_num [body_get_shape, polygon_get_points, body_add_force, square_body, body_init,
        body_init_with_info, polygon_init, unit_square, get_new_velocity, body_get_velocity,
        polygon_get_velocity, mass_reciprocal, vec_add, vec_multiply, VEC_ZERO]

/-- C5: a body of infinite mass keeps its velocity through `body_tick`, whatever
force and impulse are pending; in particular after `body_add_force`, after
`body_add_impulse`, and after both, for every force, impulse and `dt`. -/
theorem body_tick_infinite_mass (M : Libm K) (body : body_t K) (f j : vector_t K) (dt : K)
    (hmass : body.mass = mass_t.infinity) :
    body_get_velocity (body_tick M body dt) = body_get_velocity body ∧
    body_get_velocity (body_tick M (body_add_force body f) dt) = body_get_velocity body ∧
    body_get_velocity (body_tick M (body_add_impulse body j) dt) = body_get_velocity body ∧
    body_get_velocity (body_tick M (body_add_impulse (body_add_force body f) j) dt) =
      body_get_velocity body := by
  refine ⟨?_, ?_, ?_, ?_⟩ <;> rw [body_tick_velocity_eq, get_new_velocity_infinite] <;>
    first | rfl | exact hmass

theorem body_tick_infinite_mass_witness :
    body_get_velocity
        (body_tick libm_unused
          (body_add_impulse (body_add_force (body_set_velocity wall_body ⟨3, 4⟩) ⟨1000, 5⟩)
            ⟨7, 10000⟩) 2) =
      body_get_velocity (body_set_velocity wall_body ⟨3, 4⟩) :=
  (body_tick_infinite_mass libm_unused (body_set_velocity wall_body ⟨3, 4⟩) ⟨1000, 5⟩
    ⟨7, 10000⟩ 2 rfl).2.2.2

/-- C6: after `body_tick` the force and the impulse accumulators are both zero,
and a further `body_tick` with nothing added in between leaves the velocity of a
body of finite non-zero mass unchanged, whatever was pending before the first
tick. -/
theorem body_tick_frame_scoped (M : Libm K) (body : body_t K) (m dt dt2 : K)
    (hmass : body.mass = mass_t.finite m) (_hm : m ≠ 0) :
    (body_tick M body dt).force = VEC_ZERO ∧
    (body_tick M body dt).impulse = VEC_ZERO ∧
    body_get_velocity (body_tick M (body_tick M body dt) dt2) =
      body_get_velocity (body_tick M body dt) := by
  refine ⟨(body_tick_force_impulse M body dt).1, (body_tick_force_impulse M body dt).2, ?_⟩
  have hm2 : (body_tick M body dt).mass = mass_t.finite m := by
    rw [body_tick_mass, hmass]
  rw [body_tick_velocity_eq M (body_tick M body dt),
    get_new_velocity_finite _ m dt2 hm2, (body_tick_force_impulse M body dt).1,
    (body_tick_force_impulse M body dt).2]
  ext <;> simp [VEC_ZERO]

theorem body_tick_frame_scoped_witness :
    (body_tick libm_unused (body_add_force square_body ⟨4, 0⟩) 3).force = VEC_ZERO ∧
    (body_tick libm_unused (body_add_force square_body ⟨4, 0⟩) 3).impulse = VEC_ZERO ∧
    body_get_velocity
        (body_tick libm_unused (body_tick libm_unused (body_add_force square_body ⟨4, 0⟩) 3) 3) =
      body_get_velocity (body_tick libm_unused (body_add_force square_body ⟨4, 0⟩) 3) :=
  body_tick_frame_scoped libm_unused (body_add_force square_body ⟨4, 0⟩) 2 3 3 rfl
    (by norm_num)

/-- C3, amended: in exact arithmetic, for a body of finite non-zero mass `m` on a
polygon of non-zero signed area, with zero velocity, no pending force, no pending
impulse and `rotate_with_velocity` unset, after `body_add_impulse(body, J)` and
one `body_tick(body, dt)` the velocity is `J / m` and the centroid has moved by
`0.5 * (J / m) * dt`. -/
theorem impulse_only_step (M : Libm K) (body : body_t K) (J : vector_t K) (m dt : K)
    (hmass : body.mass = mass_t.finite m) (_hm : m ≠ 0)
    (harea : signed_area body.poly.points ≠ 0)
    (hvel : body_get_velocity body = VEC_ZERO)
    (hforce : body.force = VEC_ZERO) (himpulse : body.impulse = VEC_ZERO)
    (hflag : body.rotate_with_velocity = false) :
    body_get_velocity (body_tick M (body_add_impulse body J) dt) = ⟨J.x / m, J.y / m⟩ ∧
    body_get_centroid (body_tick M (body_add_impulse body J) dt) =
      ⟨(body_get_centroid body).x + 1 / 2 * (J.x / m) * dt,
       (body_get_centroid body).y + 1 / 2 * (J.y / m) * dt⟩ := by
  have hv : get_new_velocity (body_add_impulse body J) dt = ⟨J.x / m, J.y / m⟩ := by
    rw [get_new_velocity_finite (body_add_impulse body J) m dt hmass]
    have hvel2 : body_get_velocity (body_add_impulse body J) = VEC_ZERO := hvel
    rw [hvel2]
    simp [body_add_impulse, hforce, himpulse, vec_add, VEC_ZERO]
  refine ⟨by rw [body_tick_velocity_eq, hv], ?_⟩
  have hpts := body_tick_points_of_unset M (body_add_impulse body J) dt hflag
  have hvel2 : body_get_velocity (body_add_impulse body J) = VEC_ZERO := hvel
  rw [hv, hvel2] at hpts
  have hpoly : (body_add_impulse body J).poly = body.poly := rfl
  rw [hpoly] at hpts
  have hc : polygon_centroid (body_tick M (body_add_impulse body J) dt).poly =
      polygon_centroid (polygon_translate body.poly
        (vec_multiply dt (vec_multiply VELOCITY_AVG_FACTOR
          (vec_add VEC_ZERO (⟨J.x / m, J.y / m⟩ : vector_t K))))) := by
    unfold polygon_centroid polygon_translate
    rw [hpts]
  unfold body_get_centroid polygon_get_center
  rw [hc, polygon_centroid_translate _ _ harea]
  simp only [vec_add, vec_multiply, VELOCITY_AVG_FACTOR, VEC_ZERO]
  ext <;> simp only <;> ring

theorem impulse_only_step_witness :
    body_get_velocity (body_tick libm_unused (body_add_impulse square_body ⟨2, 4⟩) 3) =
      (⟨2 / 2, 4 / 2⟩ : vector_t ℚ) ∧
    body_get_centroid (body_tick libm_unused (body_add_impulse square_body ⟨2, 4⟩) 3) =
      ⟨(body_get_centroid square_body).x + 1 / 2 * (2 / 2) * 3,
       (body_get_centroid square_body).y + 1 / 2 * (4 / 2) * 3⟩ :=
  impulse_only_step libm_unused square_body ⟨2, 4⟩ 2 3 rfl (by norm_num)
    (by
      norm_num [signed_area, centroid_loop, square_body, body_init,
        body_init_with_info, polygon_init, unit_square, list_size, list_get, vec_cross,
        List.range, List.range.loop])
    rfl rfl rfl rfl

/-! ## body.c: repeated force steps -/

theorem force_steps_succ (M : Libm K) (F : vector_t K) (dt : K) (n : Nat) (body : body_t K) :
    force_steps M F dt (n + 1) body =
      body_tick M (body_add_force (force_steps M F dt n body) F) dt := by
  unfold force_steps
  rw [Function.iterate_succ_apply']

theorem force_steps_state (M : Libm K) (F : vector_t K) (dt m : K) (body : body_t K)
    (hmass : body.mass = mass_t.finite m)
    (hvel : body_get_velocity body = VEC_ZERO)
    (hforce : body.force = VEC_ZERO) (himpulse : body.impulse = VEC_ZERO)
    (hflag : body.rotate_with_velocity = false) (n : Nat) :
    (force_steps M F dt n body).mass = mass_t.finite m ∧
    (force_steps M F dt n body).rotate_with_velocity = false ∧
    (force_steps M F dt n body).force = VEC_ZERO ∧
    (force_steps M F dt n body).impulse = VEC_ZERO ∧
    body_get_velocity (force_steps M F dt n body) =
      ⟨n * dt * (F.x / m), n * dt * (F.y / m)⟩ ∧
    (force_steps M F dt n body).poly.points =
      body.poly.points.map (fun vertex => vec_add vertex
        ⟨1 / 2 * (F.x / m) * (n * dt) ^ 2, 1 / 2 * (F.y / m) * (n * dt) ^ 2⟩) := by
  induction n with
  | zero =>
    refine ⟨hmass, hflag, hforce, himpulse, ?_, ?_⟩
    · simp only [force_steps, Function.iterate_zero, id_eq, hvel, VEC_ZERO]
      ext <;> simp
    · simp only [force_steps, Function.iterate_zero, id_eq, vec_add]
      conv_lhs => rw [← List.map_id body.poly.points]
      apply List.map_congr_left
      intro a _
      ext <;> simp
  | succ k ih =>
    obtain ⟨h1, h2, h3, h4, h5, h6⟩ := ih
    rw [force_steps_succ]
    set b := force_steps M F dt k body with hb
    have hmass2 : (body_add_force b F).mass = mass_t.finite m := h1
    have hflag2 : (body_add_force b F).rotate_with_velocity = false := h2
    have hvel2 : body_get_velocity (body_add_force b F) =
        ⟨k * dt * (F.x / m), k * dt * (F.y / m)⟩ := h5
    have hnew : get_new_velocity (body_add_force b F) dt =
        ⟨(k + 1 : Nat) * dt * (F.x / m), (k + 1 : Nat) * dt * (F.y / m)⟩ := by
      rw [get_new_velocity_finite _ m dt hmass2, hvel2]
      simp only [body_add_force, h3, h4, vec_add, VEC_ZERO]
      push_cast
      ext <;> simp only <;> ring
    refine ⟨?_, ?_, (body_tick_force_impulse M _ dt).1, (body_tick_force_impulse M _ dt).2,
      ?_, ?_⟩
    · rw [body_tick_mass, hmass2]
    · rw [body_tick_flag, hflag2]
    · rw [body_tick_velocity_eq, hnew]
    · rw [body_tick_points_of_unset M _ dt hflag2, hnew, hvel2]
      have hp : (body_add_force b F).poly.points = b.poly.points := rfl
      rw [hp, h6, List.map_map]
      apply List.map_congr_left
      intro a _
      simp only [Function.comp, vec_add, vec_multiply, VELOCITY_AVG_FACTOR]
      push_cast
      ext <;> simp only <;> ring

/-- C4, amended: in exact arithmetic, for a body of finite non-zero mass `m` with
zero velocity, no pending force, no pending impulse and `rotate_with_velocity`
unset, after `n` repetitions of `body_add_force(body, F); body_tick(body, dt)`
the velocity is `n * dt * (F / m)`, the vertex count is unchanged and every
vertex has moved by `0.5 * (F / m) * (n * dt)^2`. -/
theorem force_only_steps (M : Libm K) (body : body_t K) (F : vector_t K) (m dt : K) (n : Nat)
    (hmass : body.mass = mass_t.finite m) (_hm : m ≠ 0)
    (hvel : body_get_velocity body = VEC_ZERO)
    (hforce : body.force = VEC_ZERO) (himpulse : body.impulse = VEC_ZERO)
    (hflag : body.rotate_with_velocity = false) :
    body_get_velocity (force_steps M F dt n body) =
      ⟨n * dt * (F.x / m), n * dt * (F.y / m)⟩ ∧
    list_size (body_get_shape (force_steps M F dt n body)) = list_size (body_get_shape body) ∧
    ∀ i, i < list_size (body_get_shape body) →
      list_get (body_get_shape (force_steps M F dt n body)) i =
        ⟨(list_get (body_get_shape body) i).x + 1 / 2 * (F.x / m) * (n * dt) ^ 2,
         (list_get (body_get_shape body) i).y + 1 / 2 * (F.y / m) * (n * dt) ^ 2⟩ := by
  obtain ⟨_, _, _, _, h5, h6⟩ :=
    force_steps_state M F dt m body hmass hvel hforce himpulse hflag n
  refine ⟨h5, ?_, ?_⟩
  · simp [body_get_shape, polygon_get_points, list_size, h6]
  · intro i hi
    simp only [body_get_shape, polygon_get_points, h6]
    exact list_get_map_add body.poly.points _ i hi

theorem force_only_steps_witness :
    body_get_velocity (force_steps libm_unused ⟨4, 2⟩ 3 5 square_body) =
      (⟨((5 : Nat) : ℚ) * 3 * (4 / 2), ((5 : Nat) : ℚ) * 3 * (2 / 2)⟩ : vector_t ℚ) :=
  (force_only_steps libm_unused square_body ⟨4, 2⟩ 2 3 5 rfl (by norm_num) rfl rfl rfl rfl).1

end BodyTheorems

section CollisionTheorems

variable {K : Type} [LinearOrderedField K]

/-! ## collision.c: projections -/

theorem foldl_range'_list_get (g : K × K → vector_t K → K × K) (t : List (vector_t K)) :
    ∀ (pre : List (vector_t K)) (s : K × K),
      (List.range' pre.length t.length).foldl (fun st i => g st (list_get (pre ++ t) i)) s =
        t.foldl g s := by
  induction t with
  | nil => intro pre s; simp [List.range']
  | cons b t ih =>
    intro pre s
    have hb : list_get (pre ++ b :: t) pre.length = b := by
      unfold list_get
      rw [List.getD_eq_getElem?_getD, List.getElem?_append_right (le_refl _)]
      simp
    have h := ih (pre ++ [b]) (g s b)
    simp only [List.length_append, List.length_singleton, List.append_assoc,
      List.singleton_append] at h
    simp only [List.length_cons, List.range', List.foldl_cons, hb]
    exact h

theorem projection_fold (proj : vector_t K → K) (t : List (vector_t K)) :
    ∀ (mx mn : K), mn ≤ mx →
      t.foldl
        (fun (st : K × K) (v : vector_t K) =>
          if proj v > st.1 then (proj v, st.2)
          else if proj v < st.2 then (st.1, proj v)
          else st)
        (mx, mn) =
      ((t.map proj).foldl max mx, (t.map proj).foldl min mn) := by
  induction t with
  | nil => intro mx mn _; rfl
  | cons b t ih =>
    intro mx mn h
    simp only [List.foldl_cons, List.map_cons]
    by_cases h1 : proj b > mx
    · rw [if_pos h1, ih _ _ (le_trans h (le_of_lt h1)), max_eq_right (le_of_lt h1),
        min_eq_left (le_trans h (le_of_lt h1))]
    · rw [if_neg h1]
      have h1b : proj b ≤ mx := not_lt.mp h1
      by_cases h2 : proj b < mn
      · rw [if_pos h2, ih _ _ h1b, max_eq_left h1b, min_eq_right (le_of_lt h2)]
      · rw [if_neg h2, ih _ _ h, max_eq_left h1b, min_eq_left (not_lt.mp h2)]

theorem get_max_min_projections_eq (shape : List (vector_t K)) (u : vector_t K)
    (hne : shape ≠ []) :
    get_max_min_projections shape u = some ⟨proj_max shape u, proj_min shape u⟩ := by
  cases shape with
  | nil => exact absurd rfl hne
  | cons a t =>
    unfold get_max_min_projections proj_max proj_min
    have h0 : list_get (a :: t) 0 = a := rfl
    have hsz : list_size (a :: t) = t.length + 1 := rfl
    rw [if_neg (by rw [hsz]; exact Nat.succ_ne_zero _)]
    simp only [h0, hsz, Nat.add_sub_cancel, List.map_cons, List.foldl_cons, max_self, min_self]
    have h := foldl_range'_list_get
      (fun (st : K × K) (v : vector_t K) =>
          if vec_dot v u > st.1 then (vec_dot v u, st.2)
          else if vec_dot v u < st.2 then (st.1, vec_dot v u)
          else st) t [a] (vec_dot a u, vec_dot a u)
    simp only [List.length_singleton, List.singleton_append] at h
    rw [h, projection_fold (fun v => vec_dot v u) t _ _ (le_refl _)]

theorem foldl_max_ge_init (l : List K) : ∀ a : K, a ≤ l.foldl max a := by
  induction l with
  | nil => intro a; exact le_refl a
  | cons b l ih => intro a; exact le_trans (le_max_left a b) (ih (max a b))

theorem foldl_max_ge_mem (l : List K) : ∀ (a c : K), c ∈ l → c ≤ l.foldl max a := by
  induction l with
  | nil => intro a c hc; simp at hc
  | cons b l ih =>
    intro a c hc
    rcases List.mem_cons.mp hc with h | h
    · subst h
      exact le_trans (le_max_right a c) (foldl_max_ge_init l _)
    · exact ih _ c h

theorem foldl_max_mem (l : List K) : ∀ a : K, l.foldl max a = a ∨ l.foldl max a ∈ l := by
  induction l with
  | nil => intro a; exact Or.inl rfl
  | cons b l ih =>
    intro a
    rcases ih (max a b) with h | h
    · rcases max_choice a b with h2 | h2
      · left; simp only [List.foldl_cons]; rw [h, h2]
      · right; simp only [List.foldl_cons]; rw [h, h2]; exact List.mem_cons_self _ _
    · right; exact List.mem_cons_of_mem _ h

theorem foldl_min_le_init (l : List K) : ∀ a : K, l.foldl min a ≤ a := by
  induction l with
  | nil => intro a; exact le_refl a
  | cons b l ih => intro a; exact le_trans (ih (min a b)) (min_le_left a b)

theorem foldl_min_le_mem (l : List K) : ∀ (a c : K), c ∈ l → l.foldl min a ≤ c := by
  induction l with
  | nil => intro a c hc; simp at hc
  | cons b l ih =>
    intro a c hc
    rcases List.mem_cons.mp hc with h | h
    · subst h
      exact le_trans (foldl_min_le_init l _) (min_le_right a c)
    · exact ih _ c h

theorem foldl_min_mem (l : List K) : ∀ a : K, l.foldl min a = a ∨ l.foldl min a ∈ l := by
  induction l with
  | nil => intro a; exact Or.inl rfl
  | cons b l ih =>
    intro a
    rcases ih (min a b) with h | h
    · rcases min_choice a b with h2 | h2
      · left; simp only [List.foldl_cons]; rw [h, h2]
      · right; simp only [List.foldl_cons]; rw [h, h2]; exact List.mem_cons_self _ _
    · right; exact List.mem_cons_of_mem _ h

theorem list_get_zero_mem (shape : List (vector_t K)) (hne : shape ≠ []) :
    list_get shape 0 ∈ shape := by
  cases shape with
  | nil => exact absurd rfl hne
  | cons a t => exact List.mem_cons_self _ _

theorem proj_max_ge (shape : List (vector_t K)) (u v : vector_t K) (hv : v ∈ shape) :
    vec_dot v u ≤ proj_max shape u :=
  foldl_max_ge_mem _ _ _ (List.mem_map_of_mem _ hv)

theorem proj_max_attained (shape : List (vector_t K)) (u : vector_t K) (hne : shape ≠ []) :
    ∃ v ∈ shape, proj_max shape u = vec_dot v u := by
  rcases foldl_max_mem (shape.map (fun v => vec_dot v u)) (vec_dot (list_get shape 0) u)
    with h | h
  · exact ⟨list_get shape 0, list_get_zero_mem shape hne, h⟩
  · obtain ⟨v, hv, hvu⟩ := List.mem_map.mp h
    exact ⟨v, hv, hvu.symm⟩

theorem proj_min_le (shape : List (vector_t K)) (u v : vector_t K) (hv : v ∈ shape) :
    proj_min shape u ≤ vec_dot v u :=
  foldl_min_le_mem _ _ _ (List.mem_map_of_mem _ hv)

theorem proj_min_attained (shape : List (vector_t K)) (u : vector_t K) (hne : shape ≠ []) :
    ∃ v ∈ shape, proj_min shape u = vec_dot v u := by
  rcases foldl_min_mem (shape.map (fun v => vec_dot v u)) (vec_dot (list_get shape 0) u)
    with h | h
  · exact ⟨list_get shape 0, list_get_zero_mem shape hne, h⟩
  · obtain ⟨v, hv, hvu⟩ := List.mem_map.mp h
    exact ⟨v, hv, hvu.symm⟩

theorem foldl_max_neg (l : List K) :
    ∀ a : K, (l.map (fun c => -c)).foldl max (-a) = -(l.foldl min a) := by
  induction l with
  | nil => intro a; rfl
  | cons b l ih =>
    intro a
    simp only [List.map_cons, List.foldl_cons, max_neg_neg]
    exact ih (min a b)

theorem foldl_min_neg (l : List K) :
    ∀ a : K, (l.map (fun c => -c)).foldl min (-a) = -(l.foldl max a) := by
  induction l with
  | nil => intro a; rfl
  | cons b l ih =>
    intro a
    simp only [List.map_cons, List.foldl_cons, min_neg_neg]
    exact ih (max a b)

theorem foldl_max_mul (c : K) (hc : 0 ≤ c) (l : List K) :
    ∀ a : K, (l.map (fun b => c * b)).foldl max (c * a) = c * l.foldl max a := by
  induction l with
  | nil => intro a; rfl
  | cons b l ih =>
    intro a
    simp only [List.map_cons, List.foldl_cons]
    rw [← mul_max_of_nonneg _ _ hc]
    exact ih (max a b)

theorem foldl_min_mul (c : K) (hc : 0 ≤ c) (l : List K) :
    ∀ a : K, (l.map (fun b => c * b)).foldl min (c * a) = c * l.foldl min a := by
  induction l with
  | nil => intro a; rfl
  | cons b l ih =>
    intro a
    simp only [List.map_cons, List.foldl_cons]
    rw [← mul_min_of_nonneg _ _ hc]
    exact ih (min a b)

theorem vec_dot_negate (v u : vector_t K) : vec_dot v (vec_negate u) = -(vec_dot v u) := by
  simp only [vec_dot, vec_negate]
  ring

theorem vec_dot_multiply (c : K) (v u : vector_t K) :
    vec_dot v (vec_multiply c u) = c * vec_dot v u := by
  simp only [vec_dot, vec_multiply]
  ring

theorem proj_max_negate (shape : List (vector_t K)) (u : vector_t K) :
    proj_max shape (vec_negate u) = -(proj_min shape u) := by
  unfold proj_max proj_min
  rw [← foldl_max_neg, List.map_map, vec_dot_negate]
  congr 1
  apply List.map_congr_left
  intro v _
  exact vec_dot_negate v u

theorem proj_min_negate (shape : List (vector_t K)) (u : vector_t K) :
    proj_min shape (vec_negate u) = -(proj_max shape u) := by
  unfold proj_max proj_min
  rw [← foldl_min_neg, List.map_map, vec_dot_negate]
  congr 1
  apply List.map_congr_left
  intro v _
  exact vec_dot_negate v u

theorem proj_max_multiply (shape : List (vector_t K)) (u : vector_t K) (c : K) (hc : 0 ≤ c) :
    proj_max shape (vec_multiply c u) = c * proj_max shape u := by
  unfold proj_max
  rw [← foldl_max_mul c hc, List.map_map, vec_dot_multiply]
  congr 1
  apply List.map_congr_left
  intro v _
  exact vec_dot_multiply c v u

theorem proj_min_multiply (shape : List (vector_t K)) (u : vector_t K) (c : K) (hc : 0 ≤ c) :
    proj_min shape (vec_multiply c u) = c * proj_min shape u := by
  unfold proj_min
  rw [← foldl_min_mul c hc, List.map_map, vec_dot_multiply]
  congr 1
  apply List.map_congr_left
  intro v _
  exact vec_dot_multiply c v u

theorem proj_overlap_negate (A B : List (vector_t K)) (u : vector_t K) :
    proj_overlap A B (vec_negate u) = proj_overlap A B u := by
  unfold proj_overlap
  rw [proj_max_negate, proj_max_negate, proj_min_negate, proj_min_negate, min_neg_neg,
    max_neg_neg]
  ring

theorem proj_overlap_multiply (A B : List (vector_t K)) (u : vector_t K) (c : K) (hc : 0 ≤ c) :
    proj_overlap A B (vec_multiply c u) = c * proj_overlap A B u := by
  unfold proj_overlap
  rw [proj_max_multiply _ _ _ hc, proj_max_multiply _ _ _ hc, proj_min_multiply _ _ _ hc,
    proj_min_multiply _ _ _ hc, ← mul_min_of_nonneg _ _ hc, ← mul_max_of_nonneg _ _ hc]
  ring

theorem proj_overlap_comm (A B : List (vector_t K)) (u : vector_t K) :
    proj_overlap B A u = proj_overlap A B u := by
  unfold proj_overlap
  rw [min_comm, max_comm]

/-! ## collision.c: unit normals -/

theorem edge_unit_axis_unit (M : Libm K) (hM : sqrt_exact M) (e : vector_t K)
    (he : e ≠ VEC_ZERO) :
    is_unit_normal (edge_unit_axis M e) e := by
  have hpos : 0 < e.x * e.x + e.y * e.y := by
    by_contra hcon
    have h0 : e.x * e.x + e.y * e.y = 0 :=
      le_antisymm (not_lt.mp hcon) (add_nonneg (mul_self_nonneg _) (mul_self_nonneg _))
    have hx : e.x = 0 := by nlinarith [mul_self_nonneg e.x, mul_self_nonneg e.y]
    have hy : e.y = 0 := by nlinarith [mul_self_nonneg e.x, mul_self_nonneg e.y]
    apply he
    ext
    · exact hx
    · exact hy
  have hN : vec_dot (⟨-e.y, e.x⟩ : vector_t K) ⟨-e.y, e.x⟩ = e.x * e.x + e.y * e.y := by
    simp only [vec_dot]
    ring
  obtain ⟨hr, hrr⟩ := hM _ hpos
  unfold is_unit_normal edge_unit_axis
  rw [hN]
  have hr0 : M.sqrt (e.x * e.x + e.y * e.y) ≠ 0 := ne_of_gt hr
  constructor
  · simp only [vec_dot, vec_multiply]
    field_simp
    nlinarith [hrr]
  · simp only [vec_dot, vec_multiply]
    ring

theorem unit_normal_cases (M : Libm K) (hM : sqrt_exact M) (u e : vector_t K)
    (he : e ≠ VEC_ZERO) (hu : is_unit_normal u e) :
    u = edge_unit_axis M e ∨ u = vec_negate (edge_unit_axis M e) := by
  have hpos : 0 < e.x * e.x + e.y * e.y := by
    by_contra hcon
    have h0 : e.x * e.x + e.y * e.y = 0 :=
      le_antisymm (not_lt.mp hcon) (add_nonneg (mul_self_nonneg _) (mul_self_nonneg _))
    have hx : e.x = 0 := by nlinarith [mul_self_nonneg e.x, mul_self_nonneg e.y]
    have hy : e.y = 0 := by nlinarith [mul_self_nonneg e.x, mul_self_nonneg e.y]
    apply he
    ext
    · exact hx
    · exact hy
  have hN : vec_dot (⟨-e.y, e.x⟩ : vector_t K) ⟨-e.y, e.x⟩ = e.x * e.x + e.y * e.y := by
    simp only [vec_dot]
    ring
  obtain ⟨hr, hrr⟩ := hM _ hpos
  obtain ⟨h1, h2⟩ := hu
  simp only [vec_dot] at h1 h2
  set r := M.sqrt (e.x * e.x + e.y * e.y) with hrdef
  have hr0 : r ≠ 0 := ne_of_gt hr
  set s := -u.x * e.y + u.y * e.x with hs
  have hss : s * s = r * r := by
    rw [hrr, hs]
    linear_combination (e.x * e.x + e.y * e.y) * h1 -
      (u.x * e.x + u.y * e.y) * h2
  have hx : u.x * (r * r) = s * (-e.y) := by
    rw [hrr, hs]
    linear_combination (e.x) * h2
  have hy : u.y * (r * r) = s * e.x := by
    rw [hrr, hs]
    linear_combination (e.y) * h2
  have hcases : s = r ∨ s = -r := by
    have h3 : (s - r) * (s + r) = 0 := by linear_combination hss
    rcases mul_eq_zero.mp h3 with h | h
    · left; linear_combination h
    · right; linear_combination h
  unfold edge_unit_axis
  rw [hN, ← hrdef]
  rcases hcases with h | h
  · left
    rw [h] at hx hy
    ext
    · simp only [vec_multiply]
      field_simp
      have := mul_right_cancel₀ hr0 (by linear_combination hx : u.x * r * r = -e.y * r)
      linear_combination this
    · simp only [vec_multiply]
      field_simp
      have := mul_right_cancel₀ hr0 (by linear_combination hy : u.y * r * r = e.x * r)
      linear_combination this
  · right
    rw [h] at hx hy
    ext
    · simp only [vec_multiply, vec_negate]
      field_simp
      have := mul_right_cancel₀ hr0 (by linear_combination hx : u.x * r * r = e.y * r)
      linear_combination this
    · simp only [vec_multiply, vec_negate]
      field_simp
      have := mul_right_cancel₀ hr0 (by linear_combination hy : u.y * r * r = -e.x * r)
      linear_combination this

/-! ## collision.c: the sweep loop -/

theorem compare_collision_loop_cons (M : Libm K) (shape1 shape2 : List (vector_t K))
    (h1 : shape1 ≠ []) (h2 : shape2 ≠ []) (e : vector_t K) (rest : List (vector_t K))
    (cmp : collision_info_t K) (mo : K) :
    compare_collision_loop M shape1 shape2 (e :: rest) cmp mo =
      if proj_overlap shape1 shape2 (edge_unit_axis M e) ≤ 0 then some (cmp, mo)
      else if proj_overlap shape1 shape2 (edge_unit_axis M e) < mo then
        compare_collision_loop M shape1 shape2 rest { cmp with axis := edge_unit_axis M e }
          (proj_overlap shape1 shape2 (edge_unit_axis M e))
      else compare_collision_loop M shape1 shape2 rest cmp mo := by
  rw [compare_collision_loop]
  simp only [get_max_min_projections_eq _ _ h1, get_max_min_projections_eq _ _ h2]
  rfl

theorem compare_collision_loop_spec (M : Libm K) (shape1 shape2 : List (vector_t K))
    (h1 : shape1 ≠ []) (h2 : shape2 ≠ []) (edges : List (vector_t K)) :
    ∀ (cmp : collision_info_t K) (mo : K), cmp.collided = false →
      ∃ (r : collision_info_t K) (mo2 : K),
        compare_collision_loop M shape1 shape2 edges cmp mo = some (r, mo2) ∧
        (r.collided = true ↔
          ∀ e ∈ edges, 0 < proj_overlap shape1 shape2 (edge_unit_axis M e)) ∧
        (r.collided = true →
          mo2 ≤ mo ∧
          (∀ e ∈ edges, mo2 ≤ proj_overlap shape1 shape2 (edge_unit_axis M e)) ∧
          ((mo2 = mo ∧ r.axis = cmp.axis) ∨
            (mo2 < mo ∧ ∃ e ∈ edges, r.axis = edge_unit_axis M e ∧
              proj_overlap shape1 shape2 (edge_unit_axis M e) = mo2))) := by
  induction edges with
  | nil =>
    intro cmp mo _
    refine ⟨{ cmp with collided := true }, mo, rfl, ?_, ?_⟩
    · simp
    · intro _
      exact ⟨le_refl _, by simp, Or.inl ⟨rfl, rfl⟩⟩
  | cons e rest ih =>
    intro cmp mo hc
    rw [compare_collision_loop_cons M shape1 shape2 h1 h2]
    by_cases hle : proj_overlap shape1 shape2 (edge_unit_axis M e) ≤ 0
    · rw [if_pos hle]
      refine ⟨cmp, mo, rfl, ?_, ?_⟩
      · rw [hc]
        constructor
        · intro h; exact absurd h (by simp)
        · intro h
          exact absurd (h e (List.mem_cons_self _ _)) (not_lt.mpr hle)
      · intro h; rw [hc] at h; exact absurd h (by simp)
    · rw [if_neg hle]
      have hpos : 0 < proj_overlap shape1 shape2 (edge_unit_axis M e) := not_le.mp hle
      by_cases hlt : proj_overlap shape1 shape2 (edge_unit_axis M e) < mo
      · rw [if_pos hlt]
        obtain ⟨r, mo2, hr, hiff, himp⟩ :=
          ih { cmp with axis := edge_unit_axis M e }
            (proj_overlap shape1 shape2 (edge_unit_axis M e)) hc
        refine ⟨r, mo2, hr, ?_, ?_⟩
        · rw [hiff]
          constructor
          · intro h e2 he2
            rcases List.mem_cons.mp he2 with h3 | h3
            · rw [h3]; exact hpos
            · exact h e2 h3
          · intro h e2 he2
            exact h e2 (List.mem_cons_of_mem _ he2)
        · intro hcol
          obtain ⟨ha, hb, hd⟩ := himp hcol
          refine ⟨le_trans ha (le_of_lt hlt), ?_, Or.inr ⟨lt_of_le_of_lt ha hlt, ?_⟩⟩
          · intro e2 he2
            rcases List.mem_cons.mp he2 with h3 | h3
            · rw [h3]; exact ha
            · exact hb e2 h3
          · rcases hd with ⟨h4, h5⟩ | ⟨_, e2, he2, h6, h7⟩
            · exact ⟨e, List.mem_cons_self _ _, h5, h4.symm⟩
            · exact ⟨e2, List.mem_cons_of_mem _ he2, h6, h7⟩
      · rw [if_neg hlt]
        obtain ⟨r, mo2, hr, hiff, himp⟩ := ih cmp mo hc
        refine ⟨r, mo2, hr, ?_, ?_⟩
        · rw [hiff]
          constructor
          · intro h e2 he2
            rcases List.mem_cons.mp he2 with h3 | h3
            · rw [h3]; exact hpos
            · exact h e2 h3
          · intro h e2 he2
            exact h e2 (List.mem_cons_of_mem _ he2)
        · intro hcol
          obtain ⟨ha, hb, hd⟩ := himp hcol
          refine ⟨ha, ?_, ?_⟩
          · intro e2 he2
            rcases List.mem_cons.mp he2 with h3 | h3
            · rw [h3]; exact le_trans ha (not_lt.mp hlt)
            · exact hb e2 h3
          · rcases hd with h4 | ⟨h4, e2, he2, h6, h7⟩
            · exact Or.inl h4
            · exact Or.inr ⟨h4, e2, List.mem_cons_of_mem _ he2, h6, h7⟩

/-- What `find_collision` returns on two non-empty shapes, in terms of the entries
of `get_edges`: it returns a record; the record is a collision exactly when every
edge axis of both shapes has positive overlap; and the axis of a collision is
either untouched (`VEC_ZERO`, when no overlap is below `DBL_MAX`) or the axis of
an edge whose overlap is the least among all edges of both shapes. -/
theorem find_collision_spec (M : Libm K) (body1 body2 : body_t K)
    (h1 : body_get_shape body1 ≠ []) (h2 : body_get_shape body2 ≠ []) :
    ∃ r : collision_info_t K, find_collision M body1 body2 = some r ∧
      (r.collided = true ↔
        (∀ e ∈ get_edges (body_get_shape body1),
          0 < proj_overlap (body_get_shape body1) (body_get_shape body2) (edge_unit_axis M e)) ∧
        (∀ e ∈ get_edges (body_get_shape body2),
          0 < proj_overlap (body_get_shape body1) (body_get_shape body2)
            (edge_unit_axis M e))) ∧
      (r.collided = true →
        (r.axis = VEC_ZERO ∧
          ∀ e, e ∈ get_edges (body_get_shape body1) ∨ e ∈ get_edges (body_get_shape body2) →
            DBL_MAX ≤ proj_overlap (body_get_shape body1) (body_get_shape body2)
              (edge_unit_axis M e)) ∨
        (∃ e0, (e0 ∈ get_edges (body_get_shape body1) ∨ e0 ∈ get_edges (body_get_shape body2)) ∧
          r.axis = edge_unit_axis M e0 ∧
          proj_overlap (body_get_shape body1) (body_get_shape body2) (edge_unit_axis M e0) <
            DBL_MAX ∧
          ∀ e, e ∈ get_edges (body_get_shape body1) ∨ e ∈ get_edges (body_get_shape body2) →
            proj_overlap (body_get_shape body1) (body_get_shape body2) (edge_unit_axis M e0) ≤
              proj_overlap (body_get_shape body1) (body_get_shape body2)
                (edge_unit_axis M e))) := by
  set s1 := body_get_shape body1 with hs1
  set s2 := body_get_shape body2 with hs2
  obtain ⟨r1, c1, hr1, hiff1, himp1⟩ :=
    compare_collision_loop_spec M s1 s2 h1 h2 (get_edges s1)
      { collided := false, axis := VEC_ZERO } DBL_MAX rfl
  obtain ⟨r2, c2, hr2, hiff2, himp2⟩ :=
    compare_collision_loop_spec M s2 s1 h2 h1 (get_edges s2)
      { collided := false, axis := VEC_ZERO } DBL_MAX rfl
  simp only [proj_overlap_comm s1 s2] at hiff2 himp2
  have hfc : find_collision M body1 body2 =
      if !r1.collided then some r1
      else if !r2.collided then some r2
      else if c1 < c2 then some r1
      else some r2 := by
    unfold find_collision compare_collision
    simp only [← hs1, ← hs2, hr1, hr2]
  rw [hfc]
  by_cases hc1 : r1.collided = true
  · by_cases hc2 : r2.collided = true
    · obtain ⟨ha1, hb1, hd1⟩ := himp1 hc1
      obtain ⟨ha2, hb2, hd2⟩ := himp2 hc2
      simp only [hc1, hc2, Bool.not_true, Bool.false_eq_true, if_false]
      by_cases hlt : c1 < c2
      · rw [if_pos hlt]
        refine ⟨r1, rfl, ?_, ?_⟩
        · simp only [hc1, true_iff]
          exact ⟨hiff1.mp hc1, hiff2.mp hc2⟩
        · intro _
          right
          rcases hd1 with ⟨h4, _⟩ | ⟨_, e0, he0, h6, h7⟩
          · exact absurd (lt_of_lt_of_le hlt ha2) (by rw [h4]; exact lt_irrefl _)
          · refine ⟨e0, Or.inl he0, h6, ?_, ?_⟩
            · rw [h7]; exact lt_of_lt_of_le hlt ha2
            · intro e he
              rw [h7]
              rcases he with he | he
              · exact hb1 e he
              · exact le_trans (le_of_lt hlt) (hb2 e he)
      · rw [if_neg hlt]
        have hle : c2 ≤ c1 := not_lt.mp hlt
        refine ⟨r2, rfl, ?_, ?_⟩
        · simp only [hc2, true_iff]
          exact ⟨hiff1.mp hc1, hiff2.mp hc2⟩
        · intro _
          rcases hd2 with ⟨h4, h5⟩ | ⟨h8, e0, he0, h6, h7⟩
          · left
            refine ⟨h5, ?_⟩
            intro e he
            rw [← h4]
            rcases he with he | he
            · exact le_trans hle (hb1 e he)
            · exact hb2 e he
          · right
            refine ⟨e0, Or.inr he0, h6, ?_, ?_⟩
            · rw [h7]; exact h8
            · intro e he
              rw [h7]
              rcases he with he | he
              · exact le_trans hle (hb1 e he)
              · exact hb2 e he
    · have hc2f : r2.collided = false := by simpa using hc2
      simp only [hc1, hc2f, Bool.not_true, Bool.not_false, Bool.false_eq_true, if_false, if_true]
      refine ⟨r2, rfl, ?_, ?_⟩
      · rw [hc2f]
        constructor
        · intro h; exact absurd h (by simp)
        · intro h; exact absurd (hiff2.mpr h.2) hc2
      · intro h; rw [hc2f] at h; exact absurd h (by simp)
  · have hc1f : r1.collided = false := by simpa using hc1
    simp only [hc1f, Bool.not_false, if_true]
    refine ⟨r1, rfl, ?_, ?_⟩
    · rw [hc1f]
      constructor
      · intro h; exact absurd h (by simp)
      · intro h; exact absurd (hiff1.mpr h.1) hc1
    · intro h; rw [hc1f] at h; exact absurd h (by simp)

/-! ## collision.c: edges and their unit normals -/

theorem mem_get_edges (shape : List (vector_t K)) (e : vector_t K) :
    e ∈ get_edges shape ↔
      ∃ i, i < list_size shape ∧
        e = vec_subtract (list_get shape i) (list_get shape ((i + 1) % list_size shape)) := by
  unfold get_edges
  simp only [List.mem_map, List.mem_range]
  constructor
  · rintro ⟨i, hi, rfl⟩
    exact ⟨i, hi, by rw [Nat.mod_eq_of_lt hi]⟩
  · rintro ⟨i, hi, rfl⟩
    exact ⟨i, hi, by rw [Nat.mod_eq_of_lt hi]⟩

theorem vec_subtract_swap (a b : vector_t K) :
    vec_subtract a b = vec_negate (vec_subtract b a) := by
  simp only [vec_subtract, vec_negate]
  ext <;> simp only <;> ring

theorem is_unit_normal_negate (u e : vector_t K) :
    is_unit_normal u (vec_negate e) ↔ is_unit_normal u e := by
  unfold is_unit_normal
  rw [vec_dot_negate, neg_eq_zero]

theorem is_unit_normal_swap (u a b : vector_t K) :
    is_unit_normal u (vec_subtract a b) ↔ is_unit_normal u (vec_subtract b a) := by
  rw [vec_subtract_swap a b, is_unit_normal_negate]

theorem vec_subtract_ne_zero (a b : vector_t K) (h : a ≠ b) : vec_subtract a b ≠ VEC_ZERO := by
  intro h0
  apply h
  have hx : a.x - b.x = 0 := congrArg vector_t.x h0
  have hy : a.y - b.y = 0 := congrArg vector_t.y h0
  ext
  · exact sub_eq_zero.mp hx
  · exact sub_eq_zero.mp hy

/-- A statement about the overlap along the axis of every entry of `get_edges`
is a statement about the overlap along every unit normal of every edge. -/
theorem forall_edges_iff_forall_normals (M : Libm K) (hM : sqrt_exact M)
    (shape A B : List (vector_t K)) (hz : no_zero_length_edge shape) (P : K → Prop) :
    (∀ e ∈ get_edges shape, P (proj_overlap A B (edge_unit_axis M e))) ↔
      ∀ i, i < list_size shape → ∀ u, is_unit_normal u (edge_vector shape i) →
        P (proj_overlap A B u) := by
  constructor
  · intro h i hi u hu
    have hmem := (mem_get_edges shape _).mpr ⟨i, hi, rfl⟩
    have hne := vec_subtract_ne_zero _ _ (hz i hi)
    have hu2 : is_unit_normal u
        (vec_subtract (list_get shape i) (list_get shape ((i + 1) % list_size shape))) :=
      (is_unit_normal_swap _ _ _).mp hu
    rcases unit_normal_cases M hM u _ hne hu2 with h3 | h3
    · rw [h3]; exact h _ hmem
    · rw [h3, proj_overlap_negate]; exact h _ hmem
  · intro h e he
    obtain ⟨i, hi, rfl⟩ := (mem_get_edges shape e).mp he
    apply h i hi
    have hne := vec_subtract_ne_zero _ _ (hz i hi)
    exact (is_unit_normal_swap _ _ _).mp (edge_unit_axis_unit M hM _ hne)

theorem edge_axis_is_normal (M : Libm K) (hM : sqrt_exact M) (shape : List (vector_t K))
    (hz : no_zero_length_edge shape) (e : vector_t K) (he : e ∈ get_edges shape) :
    ∃ i, i < list_size shape ∧ is_unit_normal (edge_unit_axis M e) (edge_vector shape i) := by
  obtain ⟨i, hi, rfl⟩ := (mem_get_edges shape e).mp he
  refine ⟨i, hi, ?_⟩
  have hne := vec_subtract_ne_zero _ _ (hz i hi)
  exact (is_unit_normal_swap _ _ _).mp (edge_unit_axis_unit M hM _ hne)

theorem sqrt_exact_mul_self (M : Libm K) (hM : sqrt_exact M) (c : K) (hc : 0 < c) :
    M.sqrt (c * c) = c := by
  obtain ⟨h1, h2⟩ := hM (c * c) (mul_pos hc hc)
  have h3 : (M.sqrt (c * c) - c) * (M.sqrt (c * c) + c) = 0 := by linear_combination h2
  rcases mul_eq_zero.mp h3 with h | h
  · linear_combination h
  · exact absurd h (ne_of_gt (add_pos h1 hc))

theorem compare_collision_nil_right (M : Libm K) (shape1 : List (vector_t K)) (mo : K)
    (h : shape1 ≠ []) : compare_collision M shape1 [] mo = none := by
  unfold compare_collision
  have hedges : get_edges shape1 ≠ [] := by
    intro h0
    have hlen : (get_edges shape1).length = shape1.length := by
      simp [get_edges, list_size]
    rw [h0] at hlen
    exact h (List.length_eq_zero.mp hlen.symm)
  cases hE : get_edges shape1 with
  | nil => exact absurd hE hedges
  | cons e rest =>
    simp only
    rw [compare_collision_loop]
    simp [get_max_min_projections, list_size]

/-- When `find_collision` returns a record and one of the two shapes has a vertex,
both have: a projection of an empty shape aborts. -/
theorem find_collision_some_ne_nil (M : Libm K) (body1 body2 : body_t K)
    (r : collision_info_t K) (hr : find_collision M body1 body2 = some r)
    (h : body_get_shape body1 ≠ [] ∨ body_get_shape body2 ≠ []) :
    body_get_shape body1 ≠ [] ∧ body_get_shape body2 ≠ [] := by
  by_contra hcon
  have hcases : (body_get_shape body1 ≠ [] ∧ body_get_shape body2 = []) ∨
      (body_get_shape body1 = [] ∧ body_get_shape body2 ≠ []) := by
    by_cases h1 : body_get_shape body1 = []
    · right
      exact ⟨h1, h.resolve_left (not_not.mpr h1)⟩
    · left
      refine ⟨h1, ?_⟩
      by_contra h2
      exact hcon ⟨h1, h2⟩
  unfold find_collision at hr
  simp only at hr
  rcases hcases with ⟨h1, h2⟩ | ⟨h1, h2⟩
  · rw [h2, compare_collision_nil_right M _ _ h1] at hr
    simp at hr
  · rw [h1, compare_collision_nil_right M _ _ h2] at hr
    cases hfirst : compare_collision M [] (body_get_shape body2) DBL_MAX with
    | none => rw [hfirst] at hr; simp at hr
    | some v => rw [hfirst] at hr; simp at hr

omit [LinearOrderedField K] in
theorem ne_nil_of_range (A B : List (vector_t K)) (P Q : Nat → Prop)
    (h : (∃ i, i < list_size A ∧ P i) ∨ (∃ j, j < list_size B ∧ Q j)) :
    A ≠ [] ∨ B ≠ [] := by
  rcases h with ⟨i, hi, _⟩ | ⟨j, hj, _⟩
  · left
    intro h0
    rw [h0] at hi
    simp [list_size] at hi
  · right
    intro h0
    rw [h0] at hj
    simp [list_size] at hj

/-- The criterion of the separating-axis test in exact arithmetic with an exact
square root: for two bodies on non-empty polygons without zero-length edge,
`find_collision` returns a record,
and it reports a collision if and only if along every unit normal of every edge
of the first shape and of every edge of the second shape the projection
intervals of the two vertex sets overlap by a strictly positive amount,
`min(maxA, maxB) - max(minA, minB) > 0`. -/
theorem separating_axis_criterion_exact (M : Libm K) (hM : sqrt_exact M)
    (body1 body2 : body_t K)
    (h1 : body_get_shape body1 ≠ []) (h2 : body_get_shape body2 ≠ [])
    (hz1 : no_zero_length_edge (body_get_shape body1))
    (hz2 : no_zero_length_edge (body_get_shape body2)) :
    ∃ r : collision_info_t K, find_collision M body1 body2 = some r ∧
      (r.collided = true ↔
        (∀ i, i < list_size (body_get_shape body1) →
          ∀ u, is_unit_normal u (edge_vector (body_get_shape body1) i) →
            0 < proj_overlap (body_get_shape body1) (body_get_shape body2) u) ∧
        (∀ j, j < list_size (body_get_shape body2) →
          ∀ u, is_unit_normal u (edge_vector (body_get_shape body2) j) →
            0 < proj_overlap (body_get_shape body1) (body_get_shape body2) u)) := by
  obtain ⟨r, hr, hiff, _⟩ := find_collision_spec M body1 body2 h1 h2
  refine ⟨r, hr, ?_⟩
  rw [hiff, forall_edges_iff_forall_normals M hM _ _ _ hz1 (fun c => 0 < c),
    forall_edges_iff_forall_normals M hM _ _ _ hz2 (fun c => 0 < c)]

/-- The axis of least penetration in exact arithmetic with an exact square root:
when `find_collision` reports a collision of two polygons without zero-length edge,
and the projection overlap along the unit normal of at least one edge is below
`DBL_MAX`, the returned axis is a unit normal of some edge of one of the two
shapes, and the overlap along it is at most the overlap along every unit normal
of every edge of both shapes. -/
theorem least_penetration_axis_exact (M : Libm K) (hM : sqrt_exact M)
    (body1 body2 : body_t K) (r : collision_info_t K)
    (hz1 : no_zero_length_edge (body_get_shape body1))
    (hz2 : no_zero_length_edge (body_get_shape body2))
    (hrange :
      (∃ i, i < list_size (body_get_shape body1) ∧
        ∃ u, is_unit_normal u (edge_vector (body_get_shape body1) i) ∧
          proj_overlap (body_get_shape body1) (body_get_shape body2) u < DBL_MAX) ∨
      (∃ j, j < list_size (body_get_shape body2) ∧
        ∃ u, is_unit_normal u (edge_vector (body_get_shape body2) j) ∧
          proj_overlap (body_get_shape body1) (body_get_shape body2) u < DBL_MAX))
    (hr : find_collision M body1 body2 = some r) (hc : r.collided = true) :
    ((∃ i, i < list_size (body_get_shape body1) ∧
        is_unit_normal r.axis (edge_vector (body_get_shape body1) i)) ∨
      (∃ j, j < list_size (body_get_shape body2) ∧
        is_unit_normal r.axis (edge_vector (body_get_shape body2) j))) ∧
    (∀ i, i < list_size (body_get_shape body1) →
      ∀ u, is_unit_normal u (edge_vector (body_get_shape body1) i) →
        proj_overlap (body_get_shape body1) (body_get_shape body2) r.axis ≤
          proj_overlap (body_get_shape body1) (body_get_shape body2) u) ∧
    (∀ j, j < list_size (body_get_shape body2) →
      ∀ u, is_unit_normal u (edge_vector (body_get_shape body2) j) →
        proj_overlap (body_get_shape body1) (body_get_shape body2) r.axis ≤
          proj_overlap (body_get_shape body1) (body_get_shape body2) u) := by
  obtain ⟨h1, h2⟩ := find_collision_some_ne_nil M body1 body2 r hr
    (ne_nil_of_range _ _ _ _ hrange)
  obtain ⟨r2, hr2, _, himp⟩ := find_collision_spec M body1 body2 h1 h2
  rw [hr] at hr2
  have hrr : r = r2 := Option.some.inj hr2
  subst hrr
  rcases himp hc with ⟨_, hall⟩ | ⟨e0, he0, hax, _, hmin⟩
  · exfalso
    rcases hrange with ⟨i, hi, u, hu, hlt⟩ | ⟨j, hj, u, hu, hlt⟩
    · have h3 := (forall_edges_iff_forall_normals M hM _ (body_get_shape body1)
        (body_get_shape body2) hz1 (fun c => DBL_MAX ≤ c)).mp
        (fun e he => hall e (Or.inl he)) i hi u hu
      exact absurd hlt (not_lt.mpr h3)
    · have h3 := (forall_edges_iff_forall_normals M hM _ (body_get_shape body1)
        (body_get_shape body2) hz2 (fun c => DBL_MAX ≤ c)).mp
        (fun e he => hall e (Or.inr he)) j hj u hu
      exact absurd hlt (not_lt.mpr h3)
  · rw [hax]
    refine ⟨?_, ?_, ?_⟩
    · rcases he0 with he0 | he0
      · exact Or.inl (edge_axis_is_normal M hM _ hz1 e0 he0)
      · exact Or.inr (edge_axis_is_normal M hM _ hz2 e0 he0)
    · exact (forall_edges_iff_forall_normals M hM _ (body_get_shape body1)
        (body_get_shape body2) hz1
        (fun c => proj_overlap (body_get_shape body1) (body_get_shape body2)
          (edge_unit_axis M e0) ≤ c)).mp (fun e he => hmin e (Or.inl he))
    · exact (forall_edges_iff_forall_normals M hM _ (body_get_shape body1)
        (body_get_shape body2) hz2
        (fun c => proj_overlap (body_get_shape body1) (body_get_shape body2)
          (edge_unit_axis M e0) ≤ c)).mp (fun e he => hmin e (Or.inr he))

/-- C9, amended: in exact arithmetic with an exact square root, when
`find_collision` reports a collision of two polygons whose cyclically
consecutive vertices are all distinct, and the projection overlap along the unit
normal of at least one edge is below `DBL_MAX`, the returned axis is a unit
vector: its dot product with itself and its length `vec_get_length` are both
exactly 1. -/
theorem find_collision_axis_unit (M : Libm K) (hM : sqrt_exact M)
    (body1 body2 : body_t K) (r : collision_info_t K)
    (hz1 : no_zero_length_edge (body_get_shape body1))
    (hz2 : no_zero_length_edge (body_get_shape body2))
    (hrange :
      (∃ i, i < list_size (body_get_shape body1) ∧
        ∃ u, is_unit_normal u (edge_vector (body_get_shape body1) i) ∧
          proj_overlap (body_get_shape body1) (body_get_shape body2) u < DBL_MAX) ∨
      (∃ j, j < list_size (body_get_shape body2) ∧
        ∃ u, is_unit_normal u (edge_vector (body_get_shape body2) j) ∧
          proj_overlap (body_get_shape body1) (body_get_shape body2) u < DBL_MAX))
    (hr : find_collision M body1 body2 = some r) (hc : r.collided = true) :
    vec_dot r.axis r.axis = 1 ∧ vec_get_length M r.axis = 1 := by
  obtain ⟨h1, h2⟩ := find_collision_some_ne_nil M body1 body2 r hr
    (ne_nil_of_range _ _ _ _ hrange)
  obtain ⟨r2, hr2, _, himp⟩ := find_collision_spec M body1 body2 h1 h2
  rw [hr] at hr2
  have hrr : r = r2 := Option.some.inj hr2
  subst hrr
  have hunit : vec_dot r.axis r.axis = 1 := by
    rcases himp hc with ⟨_, hall⟩ | ⟨e0, he0, hax, _, _⟩
    · exfalso
      rcases hrange with ⟨i, hi, u, hu, hlt⟩ | ⟨j, hj, u, hu, hlt⟩
      · have h3 := (forall_edges_iff_forall_normals M hM _ (body_get_shape body1)
          (body_get_shape body2) hz1 (fun c => DBL_MAX ≤ c)).mp
          (fun e he => hall e (Or.inl he)) i hi u hu
        exact absurd hlt (not_lt.mpr h3)
      · have h3 := (forall_edges_iff_forall_normals M hM _ (body_get_shape body1)
          (body_get_shape body2) hz2 (fun c => DBL_MAX ≤ c)).mp
          (fun e he => hall e (Or.inr he)) j hj u hu
        exact absurd hlt (not_lt.mpr h3)
    · rw [hax]
      rcases he0 with he0 | he0
      · obtain ⟨i, _, hn⟩ := edge_axis_is_normal M hM _ hz1 e0 he0
        exact hn.1
      · obtain ⟨i, _, hn⟩ := edge_axis_is_normal M hM _ hz2 e0 he0
        exact hn.1
  refine ⟨hunit, ?_⟩
  unfold vec_get_length
  unfold vec_dot at hunit
  rw [hunit]
  have := sqrt_exact_mul_self M hM 1 one_pos
  rwa [mul_one] at this

/-! ## collision.c: axis-parallel squares -/

theorem real_sqrt_exact :
    sqrt_exact (Libm.mk Real.sqrt Real.cos Real.sin (fun y x => Complex.arg ⟨x, y⟩)) := by
  intro x hx
  exact ⟨Real.sqrt_pos.mpr hx, Real.mul_self_sqrt (le_of_lt hx)⟩

theorem static_square_shape (x y side : K) :
    body_get_shape (static_square x y side) = square_at x y side := rfl

theorem square_at_ne_nil (x y side : K) : square_at x y side ≠ [] := by
  simp [square_at]

theorem edge_vector_square (x y side : K) :
    edge_vector (square_at x y side) 0 = ⟨side, 0⟩ ∧
    edge_vector (square_at x y side) 1 = ⟨0, side⟩ ∧
    edge_vector (square_at x y side) 2 = ⟨-side, 0⟩ ∧
    edge_vector (square_at x y side) 3 = ⟨0, -side⟩ := by
  refine ⟨?_, ?_, ?_, ?_⟩ <;>
    simp [edge_vector, square_at, list_get, list_size, vec_subtract]

theorem no_zero_length_edge_square (x y side : K) (hs : side ≠ 0) :
    no_zero_length_edge (square_at x y side) := by
  intro i hi
  have hi4 : i < 4 := hi
  interval_cases i <;>
    simp [square_at, list_get, list_size, hs]

theorem unit_normal_horizontal (u : vector_t K) (c : K) (hc : c ≠ 0) :
    is_unit_normal u ⟨c, 0⟩ ↔ u = ⟨0, 1⟩ ∨ u = ⟨0, -1⟩ := by
  unfold is_unit_normal vec_dot
  constructor
  · rintro ⟨h1, h2⟩
    have hx : u.x = 0 := by
      have : u.x * c = 0 := by linear_combination h2
      rcases mul_eq_zero.mp this with h | h
      · exact h
      · exact absurd h hc
    have hy : u.y * u.y = 1 := by rw [hx] at h1; linear_combination h1
    rcases mul_self_eq_one_iff.mp hy with h | h
    · left; ext
      · exact hx
      · exact h
    · right; ext
      · exact hx
      · exact h
  · rintro (h | h) <;> rw [h] <;> simp

theorem unit_normal_vertical (u : vector_t K) (c : K) (hc : c ≠ 0) :
    is_unit_normal u ⟨0, c⟩ ↔ u = ⟨1, 0⟩ ∨ u = ⟨-1, 0⟩ := by
  unfold is_unit_normal vec_dot
  constructor
  · rintro ⟨h1, h2⟩
    have hy : u.y = 0 := by
      have : u.y * c = 0 := by linear_combination h2
      rcases mul_eq_zero.mp this with h | h
      · exact h
      · exact absurd h hc
    have hx : u.x * u.x = 1 := by rw [hy] at h1; linear_combination h1
    rcases mul_self_eq_one_iff.mp hx with h | h
    · left; ext
      · exact h
      · exact hy
    · right; ext
      · exact h
      · exact hy
  · rintro (h | h) <;> rw [h] <;> simp

/-- The unit normals of the edges of an axis-parallel square are the four axis
directions. -/
theorem forall_normals_square (x y side : K) (hs : side ≠ 0) (Q : vector_t K → Prop) :
    (∀ i, i < list_size (square_at x y side) →
        ∀ u, is_unit_normal u (edge_vector (square_at x y side) i) → Q u) ↔
      (Q ⟨0, 1⟩ ∧ Q ⟨0, -1⟩) ∧ (Q ⟨1, 0⟩ ∧ Q ⟨-1, 0⟩) := by
  obtain ⟨e0, e1, e2, e3⟩ := edge_vector_square x y side
  have hns : -side ≠ 0 := neg_ne_zero.mpr hs
  constructor
  · intro h
    refine ⟨⟨?_, ?_⟩, ?_, ?_⟩
    · exact h 0 (by simp [list_size, square_at]) _
        (by rw [e0]; exact (unit_normal_horizontal _ _ hs).mpr (Or.inl rfl))
    · exact h 0 (by simp [list_size, square_at]) _
        (by rw [e0]; exact (unit_normal_horizontal _ _ hs).mpr (Or.inr rfl))
    · exact h 1 (by simp [list_size, square_at]) _
        (by rw [e1]; exact (unit_normal_vertical _ _ hs).mpr (Or.inl rfl))
    · exact h 1 (by simp [list_size, square_at]) _
        (by rw [e1]; exact (unit_normal_vertical _ _ hs).mpr (Or.inr rfl))
  · rintro ⟨⟨h1, h2⟩, h3, h4⟩ i hi u hu
    have hi4 : i < 4 := hi
    interval_cases i
    · rw [e0] at hu
      rcases (unit_normal_horizontal _ _ hs).mp hu with h | h <;> rw [h] <;> assumption
    · rw [e1] at hu
      rcases (unit_normal_vertical _ _ hs).mp hu with h | h <;> rw [h] <;> assumption
    · rw [e2] at hu
      rcases (unit_normal_horizontal _ _ hns).mp hu with h | h <;> rw [h] <;> assumption
    · rw [e3] at hu
      rcases (unit_normal_vertical _ _ hns).mp hu with h | h <;> rw [h] <;> assumption

theorem proj_square_x (x y side : K) (hs : 0 ≤ side) :
    proj_max (square_at x y side) ⟨1, 0⟩ = x + side ∧
    proj_min (square_at x y side) ⟨1, 0⟩ = x := by
  have h1 : x ≤ x + side := le_add_of_nonneg_right hs
  constructor
  · simp [proj_max, square_at, list_get, vec_dot, max_eq_right h1, hs]
  · simp [proj_min, square_at, list_get, vec_dot, min_eq_left h1, hs]

theorem proj_square_y (x y side : K) (hs : 0 ≤ side) :
    proj_max (square_at x y side) ⟨0, 1⟩ = y + side ∧
    proj_min (square_at x y side) ⟨0, 1⟩ = y := by
  have h1 : y ≤ y + side := le_add_of_nonneg_right hs
  constructor
  · simp [proj_max, square_at, list_get, vec_dot, max_eq_right h1, hs]
  · simp [proj_min, square_at, list_get, vec_dot, min_eq_left h1, hs]

theorem proj_overlap_square_x (a b s c d t : K) (hs : 0 ≤ s) (ht : 0 ≤ t) :
    proj_overlap (square_at a b s) (square_at c d t) ⟨1, 0⟩ = min (a + s) (c + t) - max a c := by
  unfold proj_overlap
  rw [(proj_square_x a b s hs).1, (proj_square_x a b s hs).2, (proj_square_x c d t ht).1,
    (proj_square_x c d t ht).2]

theorem proj_overlap_square_y (a b s c d t : K) (hs : 0 ≤ s) (ht : 0 ≤ t) :
    proj_overlap (square_at a b s) (square_at c d t) ⟨0, 1⟩ = min (b + s) (d + t) - max b d := by
  unfold proj_overlap
  rw [(proj_square_y a b s hs).1, (proj_square_y a b s hs).2, (proj_square_y c d t ht).1,
    (proj_square_y c d t ht).2]

theorem proj_overlap_square_neg_x (a b s c d t : K) (hs : 0 ≤ s) (ht : 0 ≤ t) :
    proj_overlap (square_at a b s) (square_at c d t) ⟨-1, 0⟩ =
      min (a + s) (c + t) - max a c := by
  have h : (⟨-1, 0⟩ : vector_t K) = vec_negate ⟨1, 0⟩ := by simp [vec_negate]
  rw [h, proj_overlap_negate, proj_overlap_square_x a b s c d t hs ht]

theorem proj_overlap_square_neg_y (a b s c d t : K) (hs : 0 ≤ s) (ht : 0 ≤ t) :
    proj_overlap (square_at a b s) (square_at c d t) ⟨0, -1⟩ =
      min (b + s) (d + t) - max b d := by
  have h : (⟨0, -1⟩ : vector_t K) = vec_negate ⟨0, 1⟩ := by simp [vec_negate]
  rw [h, proj_overlap_negate, proj_overlap_square_y a b s c d t hs ht]

/-- A statement about the overlap of two axis-parallel squares along every unit
normal of every edge of a third one is a statement about the two coordinate
overlaps. -/
theorem forall_normals_squares (x y side a b s c d t : K) (hside : side ≠ 0) (hs : 0 ≤ s)
    (ht : 0 ≤ t) (P : K → Prop) :
    (∀ i, i < list_size (square_at x y side) →
        ∀ u, is_unit_normal u (edge_vector (square_at x y side) i) →
          P (proj_overlap (square_at a b s) (square_at c d t) u)) ↔
      P (min (b + s) (d + t) - max b d) ∧ P (min (a + s) (c + t) - max a c) := by
  rw [forall_normals_square x y side hside
    (fun u => P (proj_overlap (square_at a b s) (square_at c d t) u))]
  simp only [proj_overlap_square_x a b s c d t hs ht, proj_overlap_square_y a b s c d t hs ht,
    proj_overlap_square_neg_x a b s c d t hs ht, proj_overlap_square_neg_y a b s c d t hs ht,
    and_self]

theorem DBL_MAX_pos : (0 : K) < DBL_MAX := by
  unfold DBL_MAX
  apply mul_pos
  · norm_num
  · positivity

theorem overlapping_squares_collide (M : Libm K) (hM : sqrt_exact M) :
    ∃ r : collision_info_t K,
      find_collision M (static_square 0 0 1) (static_square (1 / 2) (1 / 2) 1) = some r ∧
        r.collided = true := by
  obtain ⟨r, hr, hiff, _⟩ := find_collision_spec M (static_square (0 : K) 0 1)
    (static_square (1 / 2) (1 / 2) 1) (square_at_ne_nil _ _ _) (square_at_ne_nil _ _ _)
  refine ⟨r, hr, hiff.mpr ⟨?_, ?_⟩⟩
  · rw [static_square_shape, static_square_shape,
      forall_edges_iff_forall_normals M hM _ _ _
        (no_zero_length_edge_square _ _ _ one_ne_zero) (fun c => 0 < c),
      forall_normals_squares _ _ _ _ _ _ _ _ _ one_ne_zero zero_le_one zero_le_one]
    norm_num [min_def, max_def]
  · rw [static_square_shape, static_square_shape,
      forall_edges_iff_forall_normals M hM _ _ _
        (no_zero_length_edge_square _ _ _ one_ne_zero) (fun c => 0 < c),
      forall_normals_squares _ _ _ _ _ _ _ _ _ one_ne_zero zero_le_one zero_le_one]
    norm_num [min_def, max_def]

theorem overlapping_squares_range :
    (∃ i, i < list_size (body_get_shape (static_square (0 : K) 0 1)) ∧
      ∃ u, is_unit_normal u (edge_vector (body_get_shape (static_square (0 : K) 0 1)) i) ∧
        proj_overlap (body_get_shape (static_square (0 : K) 0 1))
          (body_get_shape (static_square (1 / 2 : K) (1 / 2) 1)) u < DBL_MAX) ∨
    (∃ j, j < list_size (body_get_shape (static_square (1 / 2 : K) (1 / 2) 1)) ∧
      ∃ u, is_unit_normal u
          (edge_vector (body_get_shape (static_square (1 / 2 : K) (1 / 2) 1)) j) ∧
        proj_overlap (body_get_shape (static_square (0 : K) 0 1))
          (body_get_shape (static_square (1 / 2 : K) (1 / 2) 1)) u < DBL_MAX) := by
  left
  refine ⟨0, by simp [list_size, static_square_shape, square_at], ⟨0, 1⟩, ?_, ?_⟩
  · rw [static_square_shape, (edge_vector_square _ _ _).1]
    exact (unit_normal_horizontal _ _ one_ne_zero).mpr (Or.inl rfl)
  · rw [static_square_shape, static_square_shape,
      proj_overlap_square_y _ _ _ _ _ _ zero_le_one zero_le_one]
    have h : min ((0 : K) + 1) (1 / 2 + 1) - max 0 (1 / 2) = 1 / 2 := by
      norm_num [min_def, max_def]
    rw [h]
    unfold DBL_MAX
    have h2 : (1 : K) ≤ 2 ^ 971 := one_le_pow₀ (by norm_num)
    have h3 : (1 : K) ≤ 2 ^ 53 - 1 := by norm_num
    nlinarith

/-- In exact arithmetic, the square with corners `(-DBL_MAX, -DBL_MAX)` and
`(DBL_MAX, DBL_MAX)` against itself: every edge overlap is `2 * DBL_MAX`, so no
overlap is below the initial `*min_overlap` and the axis stays `VEC_ZERO` while
the record reports a collision.  The exact statements about the returned axis
therefore assume an overlap below `DBL_MAX`. -/
theorem huge_square_axis_zero (M : Libm K) (hM : sqrt_exact M) :
    ∃ r : collision_info_t K,
      find_collision M (static_square (-DBL_MAX) (-DBL_MAX) (2 * DBL_MAX))
        (static_square (-DBL_MAX) (-DBL_MAX) (2 * DBL_MAX)) = some r ∧
      r.collided = true ∧ r.axis = VEC_ZERO := by
  have hD : (0 : K) < DBL_MAX := DBL_MAX_pos
  have h2D : (2 : K) * DBL_MAX ≠ 0 := by positivity
  have h2D0 : (0 : K) ≤ 2 * DBL_MAX := by positivity
  have hval : min (-DBL_MAX + 2 * DBL_MAX) (-DBL_MAX + 2 * DBL_MAX) -
      max (-DBL_MAX) (-DBL_MAX) = (2 : K) * DBL_MAX := by
    rw [min_self, max_self]; ring
  obtain ⟨r, hr, hiff, himp⟩ := find_collision_spec M
    (static_square (-DBL_MAX : K) (-DBL_MAX) (2 * DBL_MAX))
    (static_square (-DBL_MAX) (-DBL_MAX) (2 * DBL_MAX))
    (square_at_ne_nil _ _ _) (square_at_ne_nil _ _ _)
  simp only [static_square_shape] at hiff himp
  have hall : ∀ (P : K → Prop), P (2 * DBL_MAX) →
      ∀ e ∈ get_edges (square_at (-DBL_MAX : K) (-DBL_MAX) (2 * DBL_MAX)),
        P (proj_overlap (square_at (-DBL_MAX) (-DBL_MAX) (2 * DBL_MAX))
          (square_at (-DBL_MAX) (-DBL_MAX) (2 * DBL_MAX)) (edge_unit_axis M e)) := by
    intro P hP
    rw [forall_edges_iff_forall_normals M hM _ _ _
        (no_zero_length_edge_square _ _ _ h2D) P,
      forall_normals_squares _ _ _ _ _ _ _ _ _ h2D h2D0 h2D0, hval]
    exact ⟨hP, hP⟩
  have hcol : r.collided = true :=
    hiff.mpr ⟨hall (fun c => 0 < c) (by positivity), hall (fun c => 0 < c) (by positivity)⟩
  refine ⟨r, hr, hcol, ?_⟩
  rcases himp hcol with ⟨h0, _⟩ | ⟨e0, he0, _, hlt, _⟩
  · exact h0
  · exfalso
    have hge := hall (fun c => DBL_MAX ≤ c) (by linarith) e0 (by tauto)
    exact absurd hlt (not_lt.mpr hge)

theorem find_collision_axis_unit_witness :
    ∃ r : collision_info_t ℝ,
      find_collision (Libm.mk Real.sqrt Real.cos Real.sin (fun y x => Complex.arg ⟨x, y⟩))
        (static_square 0 0 1) (static_square (1 / 2) (1 / 2) 1) = some r ∧
      r.collided = true ∧
      vec_dot r.axis r.axis = 1 ∧
      vec_get_length (Libm.mk Real.sqrt Real.cos Real.sin (fun y x => Complex.arg ⟨x, y⟩))
        r.axis = 1 := by
  obtain ⟨r, hr, hc⟩ := overlapping_squares_collide
    (Libm.mk Real.sqrt Real.cos Real.sin (fun y x => Complex.arg ⟨x, y⟩)) real_sqrt_exact
  exact ⟨r, hr, hc,
    find_collision_axis_unit _ real_sqrt_exact (static_square 0 0 1)
      (static_square (1 / 2) (1 / 2) 1) r
      (no_zero_length_edge_square _ _ _ one_ne_zero)
      (no_zero_length_edge_square _ _ _ one_ne_zero) overlapping_squares_range hr hc⟩

/-! ## Convex rings: the ring is the intersection of the half-planes of its edges -/

theorem cyclic_transition (N : Nat) (T : Nat → Prop) (k0 k1 : Nat) (h0 : k0 < N) (h1 : k1 < N)
    (hT0 : T k0) (hT1 : ¬ T k1) :
    ∃ k, k < N ∧ T k ∧ ¬ T ((k + 1) % N) := by
  by_contra hcon
  have hstep : ∀ k, k < N → T k → T ((k + 1) % N) := by
    intro k hk hTk
    by_contra h
    exact hcon ⟨k, hk, hTk, h⟩
  have hNpos : 0 < N := Nat.lt_of_le_of_lt (Nat.zero_le _) h0
  have hall : ∀ j : Nat, T ((k0 + j) % N) := by
    intro j
    induction j with
    | zero => rw [Nat.add_zero, Nat.mod_eq_of_lt h0]; exact hT0
    | succ j ih =>
      have h2 := hstep _ (Nat.mod_lt _ hNpos) ih
      have h3 : ((k0 + j) % N + 1) % N = (k0 + (j + 1)) % N := by
        rw [Nat.add_mod, Nat.mod_mod, ← Nat.add_mod, Nat.add_assoc]
      rw [h3] at h2
      exact h2
  have h4 := hall (k1 + (N - k0))
  have h5 : (k0 + (k1 + (N - k0))) % N = k1 := by
    have : k0 + (k1 + (N - k0)) = k1 + N := by omega
    rw [this, Nat.add_mod_right, Nat.mod_eq_of_lt h1]
  rw [h5] at h4
  exact hT1 h4

theorem cyclic_transition_back (N : Nat) (T : Nat → Prop) (k0 k1 : Nat) (h0 : k0 < N)
    (h1 : k1 < N) (hT0 : T k0) (hT1 : ¬ T k1) :
    ∃ k, k < N ∧ ¬ T k ∧ T ((k + 1) % N) := by
  obtain ⟨k, hk, h2, h3⟩ := cyclic_transition N (fun k => ¬ T k) k1 k0 h1 h0 hT1
    (by simpa using hT0)
  exact ⟨k, hk, h2, by simpa using h3⟩

theorem mem_iff_list_get (shape : List (vector_t K)) (v : vector_t K) :
    v ∈ shape ↔ ∃ k, k < list_size shape ∧ list_get shape k = v := by
  unfold list_size list_get
  constructor
  · intro h
    obtain ⟨k, hk, hv⟩ := List.mem_iff_getElem.mp h
    exact ⟨k, hk, by rw [List.getD_eq_getElem _ _ hk]; exact hv⟩
  · rintro ⟨k, hk, hv⟩
    rw [List.getD_eq_getElem _ _ hk] at hv
    rw [← hv]
    exact List.getElem_mem _

theorem all_collinear_area (shape : List (vector_t K)) (h : all_collinear shape) :
    (centroid_loop shape).1 = 0 := by
  obtain ⟨m, c, hm, hline⟩ := h
  rw [centroid_loop_eq_sum]
  simp only
  set n := list_size shape with hn
  have hnext : ∀ i, i < n → (i + 1) % n < n := fun i hi =>
    Nat.mod_lt _ (Nat.lt_of_le_of_lt (Nat.zero_le i) hi)
  have hy : m.y * ∑ i in Finset.range n,
      vec_cross (list_get shape i) (list_get shape ((i + 1) % n)) = 0 := by
    rw [Finset.mul_sum, ← sum_range_cyclic_sub n (fun i => c * (list_get shape i).x)]
    apply Finset.sum_congr rfl
    intro i hi
    have hi2 := Finset.mem_range.mp hi
    have h1 := hline i hi2
    have h2 := hline _ (hnext i hi2)
    simp only [vec_dot] at h1 h2
    simp only [vec_cross]
    linear_combination (list_get shape i).x * h2 - (list_get shape ((i + 1) % n)).x * h1
  have hx : m.x * ∑ i in Finset.range n,
      vec_cross (list_get shape i) (list_get shape ((i + 1) % n)) = 0 := by
    rw [Finset.mul_sum, ← sum_range_cyclic_sub n (fun i => -(c * (list_get shape i).y))]
    apply Finset.sum_congr rfl
    intro i hi
    have hi2 := Finset.mem_range.mp hi
    have h1 := hline i hi2
    have h2 := hline _ (hnext i hi2)
    simp only [vec_dot] at h1 h2
    simp only [vec_cross]
    linear_combination (list_get shape ((i + 1) % n)).y * h1 - (list_get shape i).y * h2
  by_contra hne
  apply hm
  ext
  · exact (mul_eq_zero.mp hx).resolve_right hne
  · exact (mul_eq_zero.mp hy).resolve_right hne

theorem vec_ne_zero_of_dot_ne (n p q : vector_t K) (h : vec_dot p n ≠ vec_dot q n) :
    n ≠ VEC_ZERO := by
  intro h0
  apply h
  rw [h0]
  simp [vec_dot, VEC_ZERO]

theorem edge_vector_eq (shape : List (vector_t K)) (i : Nat) :
    edge_vector shape i =
      vec_subtract (list_get shape ((i + 1) % list_size shape)) (list_get shape i) := rfl

theorem dot_self_pos (n : vector_t K) (hn : n ≠ VEC_ZERO) : 0 < n.x * n.x + n.y * n.y := by
  by_contra hcon
  have h0 : n.x * n.x + n.y * n.y = 0 :=
    le_antisymm (not_lt.mp hcon) (add_nonneg (mul_self_nonneg _) (mul_self_nonneg _))
  have hx : n.x = 0 := by nlinarith [mul_self_nonneg n.x, mul_self_nonneg n.y]
  have hy : n.y = 0 := by nlinarith [mul_self_nonneg n.x, mul_self_nonneg n.y]
  apply hn
  ext
  · exact hx
  · exact hy

/-- An edge that is perpendicular to `n` and has a point strictly above and a
point strictly below (in direction `n`) on its left is the zero vector. -/
theorem flat_edge_zero (n E p q : vector_t K) (hn : n ≠ VEC_ZERO) (hE : vec_dot E n = 0)
    (hp : 0 ≤ vec_cross E p) (hq : 0 ≤ vec_cross E q)
    (hpn : 0 < vec_dot p n) (hqn : vec_dot q n < 0) : E = VEC_ZERO := by
  have hnn := dot_self_pos n hn
  simp only [vec_dot, vec_cross] at hE hp hq hpn hqn
  have hI1 : (n.x * n.x + n.y * n.y) * (E.x * p.y - E.y * p.x) =
      -(n.x * E.y - n.y * E.x) * (p.x * n.x + p.y * n.y) := by
    linear_combination (n.x * p.y - n.y * p.x) * hE
  have hI2 : (n.x * n.x + n.y * n.y) * (E.x * q.y - E.y * q.x) =
      -(n.x * E.y - n.y * E.x) * (q.x * n.x + q.y * n.y) := by
    linear_combination (n.x * q.y - n.y * q.x) * hE
  have h1 : 0 ≤ -(n.x * E.y - n.y * E.x) * (p.x * n.x + p.y * n.y) := by
    rw [← hI1]; exact mul_nonneg (le_of_lt hnn) hp
  have h2 : 0 ≤ -(n.x * E.y - n.y * E.x) * (q.x * n.x + q.y * n.y) := by
    rw [← hI2]; exact mul_nonneg (le_of_lt hnn) hq
  have hk1 : n.x * E.y - n.y * E.x ≤ 0 := by
    by_contra hcon
    have := mul_pos (not_le.mp hcon) hpn
    linarith
  have hk2 : 0 ≤ n.x * E.y - n.y * E.x := by
    by_contra hcon
    have := mul_pos_of_neg_of_neg (not_le.mp hcon) hqn
    linarith
  have hk : n.x * E.y - n.y * E.x = 0 := le_antisymm hk1 hk2
  have hEE : (n.x * n.x + n.y * n.y) * (E.x * E.x + E.y * E.y) = 0 := by
    linear_combination (n.x * E.y - n.y * E.x) * hk + (E.x * n.x + E.y * n.y) * hE
  have hE0 : E.x * E.x + E.y * E.y = 0 := (mul_eq_zero.mp hEE).resolve_left (ne_of_gt hnn)
  by_contra hne
  exact absurd hE0 (ne_of_gt (dot_self_pos E hne))

/-- At a vertex where the ring leaves downwards along `E` and arrives from below
along `E'` (both measured in direction `n`), a point strictly above on the left
of both edges forces the two edges to be parallel. -/
theorem corner_cross_zero (n E E' d : vector_t K) (hE : vec_dot E n < 0)
    (hE' : 0 < vec_dot E' n) (hd : 0 < vec_dot d n) (h1 : 0 ≤ vec_cross E d)
    (h2 : 0 ≤ vec_cross E' d) (h3 : 0 ≤ vec_cross E (vec_negate E')) :
    vec_cross E E' = 0 := by
  simp only [vec_dot, vec_cross, vec_negate] at *
  have hI : (E.x * d.y - E.y * d.x) * (E'.x * n.x + E'.y * n.y) -
      (E'.x * d.y - E'.y * d.x) * (E.x * n.x + E.y * n.y) =
      (E.x * E'.y - E.y * E'.x) * (d.x * n.x + d.y * n.y) := by ring
  have hpos : 0 ≤ (E.x * E'.y - E.y * E'.x) * (d.x * n.x + d.y * n.y) := by
    rw [← hI]
    have t1 := mul_nonneg h1 (le_of_lt hE')
    have t2 := mul_nonneg h2 (le_of_lt (neg_pos.mpr hE))
    linarith
  have hge : 0 ≤ E.x * E'.y - E.y * E'.x := by
    by_contra hcon
    have := mul_neg_of_neg_of_pos (not_le.mp hcon) hd
    linarith
  linarith

theorem corner_on_line (n E E' p : vector_t K) (hE : vec_dot E n < 0)
    (hE' : 0 < vec_dot E' n) (h0 : vec_cross E E' = 0) (h1 : 0 ≤ vec_cross E p)
    (h2 : 0 ≤ vec_cross E' p) : vec_cross E p = 0 := by
  simp only [vec_dot, vec_cross] at *
  have hI : (E.x * p.y - E.y * p.x) * (E'.x * n.x + E'.y * n.y) -
      (E'.x * p.y - E'.y * p.x) * (E.x * n.x + E.y * n.y) =
      (E.x * E'.y - E.y * E'.x) * (p.x * n.x + p.y * n.y) := by ring
  rw [h0, zero_mul] at hI
  have t1 := mul_nonneg h1 (le_of_lt hE')
  have t2 := mul_nonneg h2 (le_of_lt (neg_pos.mpr hE))
  have t3 : (E.x * p.y - E.y * p.x) * (E'.x * n.x + E'.y * n.y) = 0 := by linarith
  exact (mul_eq_zero.mp t3).resolve_right (ne_of_gt hE')

/-- A point on the left of every edge of a convex counterclockwise ring that is
not contained in a line cannot lie strictly beyond all vertices in any
direction. -/
theorem no_strict_support (shape : List (vector_t K)) (hconv : convex_ccw shape)
    (hnc : ¬ all_collinear shape) (x n : vector_t K) (hx : in_all_halfplanes shape x)
    (hn : ∀ k, k < list_size shape → vec_dot (list_get shape k) n < vec_dot x n) : False := by
  have hne : shape ≠ [] := by
    intro h0
    apply hnc
    refine ⟨⟨1, 0⟩, 0, ?_, ?_⟩
    · intro h
      have := congrArg vector_t.x h
      simp [VEC_ZERO] at this
    · intro k hk
      rw [h0] at hk
      simp [list_size] at hk
  obtain ⟨a, ha_mem, ha_max⟩ := proj_max_attained shape n hne
  obtain ⟨k0, hk0, hk0a⟩ := (mem_iff_list_get shape a).mp ha_mem
  have hmax : ∀ k, k < list_size shape → vec_dot (list_get shape k) n ≤ vec_dot a n := by
    intro k hk
    rw [← ha_max]
    exact proj_max_ge shape n _ ((mem_iff_list_get _ _).mpr ⟨k, hk, rfl⟩)
  have hxa : vec_dot a n < vec_dot x n := by rw [← hk0a]; exact hn k0 hk0
  have hn0 : n ≠ VEC_ZERO := vec_ne_zero_of_dot_ne n a x (ne_of_lt hxa)
  have hex1 : ∃ k1, k1 < list_size shape ∧ list_get shape k1 ≠ a := by
    by_contra hcon
    push_neg at hcon
    exact hnc ⟨n, vec_dot a n, hn0, fun k hk => by rw [hcon k hk]⟩
  obtain ⟨k1, hk1, hk1a⟩ := hex1
  have hexw : ∃ j, j < list_size shape ∧ vec_dot (list_get shape j) n < vec_dot a n := by
    by_contra hcon
    push_neg at hcon
    exact hnc ⟨n, vec_dot a n, hn0, fun k hk => le_antisymm (hmax k hk) (hcon k hk)⟩
  obtain ⟨jw, hjw, hwn⟩ := hexw
  obtain ⟨k, hk, hTk, hTk2⟩ := cyclic_transition (list_size shape)
    (fun k => list_get shape k = a) k0 k1 hk0 hk1 hk0a hk1a
  obtain ⟨k', hk', hTk3, hTk4⟩ := cyclic_transition_back (list_size shape)
    (fun k => list_get shape k = a) k0 k1 hk0 hk1 hk0a hk1a
  have hNpos : 0 < list_size shape := Nat.lt_of_le_of_lt (Nat.zero_le _) hk0
  have hbN : (k + 1) % list_size shape < list_size shape := Nat.mod_lt _ hNpos
  have hA := hx k hk
  rw [edge_vector_eq, hTk] at hA
  have hB := hx k' hk'
  rw [edge_vector_eq, hTk4] at hB
  have hconvk : ∀ j, j < list_size shape →
      0 ≤ vec_cross (vec_subtract (list_get shape ((k + 1) % list_size shape)) a)
        (vec_subtract (list_get shape j) a) := by
    intro j hj
    have := hconv k hk j hj
    rw [edge_vector_eq, hTk] at this
    exact this
  have hconvk' : ∀ j, j < list_size shape →
      0 ≤ vec_cross (vec_subtract a (list_get shape k'))
        (vec_subtract (list_get shape j) (list_get shape k')) := by
    intro j hj
    have := hconv k' hk' j hj
    rw [edge_vector_eq, hTk4] at this
    exact this
  set b := list_get shape ((k + 1) % list_size shape) with hb
  set c := list_get shape k' with hc
  have hble := hmax _ hbN
  have hcle := hmax k' hk'
  rw [← hb] at hble
  rw [← hc] at hcle
  rcases eq_or_lt_of_le hble with hbeq | hblt
  · -- the edge leaving `a` runs along the supporting line
    have hz := flat_edge_zero n (vec_subtract b a) (vec_subtract x a)
      (vec_subtract (list_get shape jw) a) hn0
      (by simp only [vec_dot, vec_subtract] at hbeq ⊢; linarith)
      hA (hconvk jw hjw)
      (by simp only [vec_dot, vec_subtract] at hxa ⊢; linarith)
      (by simp only [vec_dot, vec_subtract] at hwn ⊢; linarith)
    apply hTk2
    have h1 := congrArg vector_t.x hz
    have h2 := congrArg vector_t.y hz
    simp only [vec_subtract, VEC_ZERO] at h1 h2
    ext
    · exact sub_eq_zero.mp h1
    · exact sub_eq_zero.mp h2
  · rcases eq_or_lt_of_le hcle with hceq | hclt
    · -- the edge arriving at `a` runs along the supporting line
      have hz := flat_edge_zero n (vec_subtract a c) (vec_subtract x c)
        (vec_subtract (list_get shape jw) c) hn0
        (by simp only [vec_dot, vec_subtract] at hceq ⊢; linarith)
        hB (hconvk' jw hjw)
        (by simp only [vec_dot, vec_subtract] at hxa hceq ⊢; linarith)
        (by simp only [vec_dot, vec_subtract] at hwn hceq ⊢; linarith)
      apply hTk3
      have h1 := congrArg vector_t.x hz
      have h2 := congrArg vector_t.y hz
      simp only [vec_subtract, VEC_ZERO] at h1 h2
      ext
      · exact (sub_eq_zero.mp h1).symm
      · exact (sub_eq_zero.mp h2).symm
    · -- a proper corner at `a`
      have hE : vec_dot (vec_subtract b a) n < 0 := by
        simp only [vec_dot, vec_subtract] at hblt ⊢; linarith
      have hE' : 0 < vec_dot (vec_subtract a c) n := by
        simp only [vec_dot, vec_subtract] at hclt ⊢; linarith
      have hd : 0 < vec_dot (vec_subtract x a) n := by
        simp only [vec_dot, vec_subtract] at hxa ⊢; linarith
      have hB2 : 0 ≤ vec_cross (vec_subtract a c) (vec_subtract x a) := by
        simp only [vec_cross, vec_subtract] at hB ⊢; linarith
      have h3 : 0 ≤ vec_cross (vec_subtract b a) (vec_negate (vec_subtract a c)) := by
        have := hconvk k' hk'
        rw [← hc] at this
        simp only [vec_cross, vec_subtract, vec_negate] at this ⊢
        linarith
      have h0 := corner_cross_zero n _ _ _ hE hE' hd hA hB2 h3
      apply hnc
      refine ⟨⟨-(vec_subtract b a).y, (vec_subtract b a).x⟩,
        vec_dot a ⟨-(vec_subtract b a).y, (vec_subtract b a).x⟩, ?_, ?_⟩
      · intro hm
        have h1 := congrArg vector_t.x hm
        have h2 := congrArg vector_t.y hm
        simp only [VEC_ZERO] at h1 h2
        simp only [vec_dot] at hE
        rw [h2, neg_eq_zero.mp h1] at hE
        simp at hE
      · intro j hj
        have hj1 := hconvk j hj
        have hj2 : 0 ≤ vec_cross (vec_subtract a c) (vec_subtract (list_get shape j) a) := by
          have := hconvk' j hj
          simp only [vec_cross, vec_subtract] at this ⊢
          linarith
        have hline := corner_on_line n _ _ _ hE hE' h0 hj1 hj2
        simp only [vec_cross, vec_subtract, vec_dot] at hline ⊢
        linarith

/-! ## collision.c: a separating edge -/

theorem proj_overlap_multiply_nonpos (A B : List (vector_t K)) (a : vector_t K) (c : K)
    (h : proj_overlap A B a ≤ 0) : proj_overlap A B (vec_multiply c a) ≤ 0 := by
  rcases le_or_lt 0 c with hc | hc
  · rw [proj_overlap_multiply A B a c hc]
    exact mul_nonpos_of_nonneg_of_nonpos hc h
  · have hneg : vec_multiply c a = vec_negate (vec_multiply (-c) a) := by
      simp only [vec_multiply, vec_negate]
      ext <;> simp only <;> ring
    rw [hneg, proj_overlap_negate, proj_overlap_multiply A B a (-c) (le_of_lt (neg_pos.mpr hc))]
    exact mul_nonpos_of_nonneg_of_nonpos (le_of_lt (neg_pos.mpr hc)) h

/-- If every vertex of `Q` lies on or to the left of the directed edge `j` of `Q`
and every vertex of `P` lies strictly to its right, the sweep finds a non-positive
overlap at that edge. -/
theorem edge_separates (M : Libm K) (P Q : List (vector_t K)) (hP : P ≠ []) (hQ : Q ≠ [])
    (j : Nat) (hj : j < list_size Q)
    (hin : ∀ k, k < list_size Q →
      0 ≤ vec_cross (edge_vector Q j) (vec_subtract (list_get Q k) (list_get Q j)))
    (hout : ∀ k, k < list_size P →
      vec_cross (edge_vector Q j) (vec_subtract (list_get P k) (list_get Q j)) < 0) :
    ∃ e ∈ get_edges Q, proj_overlap P Q (edge_unit_axis M e) ≤ 0 := by
  refine ⟨vec_subtract (list_get Q j) (list_get Q ((j + 1) % list_size Q)),
    (mem_get_edges Q _).mpr ⟨j, hj, rfl⟩, ?_⟩
  unfold edge_unit_axis
  apply proj_overlap_multiply_nonpos
  set a : vector_t K :=
    ⟨-(vec_subtract (list_get Q j) (list_get Q ((j + 1) % list_size Q))).y,
      (vec_subtract (list_get Q j) (list_get Q ((j + 1) % list_size Q))).x⟩ with ha
  obtain ⟨q, hq, hqmax⟩ := proj_max_attained Q a hQ
  obtain ⟨p, hp, hpmin⟩ := proj_min_attained P a hP
  obtain ⟨kq, hkq, hkq2⟩ := (mem_iff_list_get Q q).mp hq
  obtain ⟨kp, hkp, hkp2⟩ := (mem_iff_list_get P p).mp hp
  have h1 := hin kq hkq
  have h2 := hout kp hkp
  rw [hkq2, edge_vector_eq] at h1
  rw [hkp2, edge_vector_eq] at h2
  have hlt : vec_dot q a < vec_dot p a := by
    simp only [ha, vec_dot, vec_cross, vec_subtract] at h1 h2 ⊢
    linarith
  unfold proj_overlap
  have h3 : min (proj_max P a) (proj_max Q a) ≤ vec_dot q a := by
    rw [← hqmax]; exact min_le_right _ _
  have h4 : vec_dot p a ≤ max (proj_min P a) (proj_min Q a) := by
    rw [← hpmin]; exact le_max_left _ _
  linarith

theorem ne_nil_of_not_collinear (shape : List (vector_t K)) (hnc : ¬ all_collinear shape) :
    shape ≠ [] := by
  intro h0
  apply hnc
  refine ⟨⟨1, 0⟩, 0, ?_, ?_⟩
  · intro h
    have := congrArg vector_t.x h
    simp [VEC_ZERO] at this
  · intro k hk
    rw [h0] at hk
    simp [list_size] at hk

theorem polygon_area_eq (polygon : polygon_t K) :
    polygon_area polygon =
      if list_size polygon.points < 3 then 0
      else 1 / 2 * |(centroid_loop polygon.points).1| := by
  unfold polygon_area
  simp only
  congr 2
  rw [centroid_loop_eq_sum]
  simp only
  generalize list_size polygon.points = n
  suffices h : ∀ k : Nat,
      (List.range k).foldl
        (fun (area : K) (i : Nat) =>
          area + vec_cross (list_get polygon.points i)
            (list_get polygon.points ((i + 1) % n))) 0 =
      ∑ i in Finset.range k,
        vec_cross (list_get polygon.points i) (list_get polygon.points ((i + 1) % n)) by
    rw [h n]
  intro k
  induction k with
  | zero => simp
  | succ k ih => rw [List.range_succ, List.foldl_append, ih, Finset.sum_range_succ]; rfl

theorem not_collinear_of_area (polygon : polygon_t K) (h : polygon_area polygon ≠ 0) :
    ¬ all_collinear polygon.points := by
  intro hcol
  apply h
  rw [polygon_area_eq, all_collinear_area _ hcol]
  simp

end CollisionTheorems

section SeparationTheorems

/-! ## Convex rings in the real plane -/

theorem clm_apply_pair (f : ℝ × ℝ →L[ℝ] ℝ) (q : ℝ × ℝ) :
    f q = q.1 * f (1, 0) + q.2 * f (0, 1) := by
  have hq : q = q.1 • ((1 : ℝ), (0 : ℝ)) + q.2 • ((0 : ℝ), (1 : ℝ)) := by
    ext <;> simp
  conv_lhs => rw [hq]
  rw [map_add, map_smul, map_smul]
  simp [smul_eq_mul]

/-- A point on the left of every edge of a convex counterclockwise ring that is
not contained in a line belongs to the filled polygon. -/
theorem halfplanes_subset_filled (shape : List (vector_t ℝ)) (hconv : convex_ccw shape)
    (hnc : ¬ all_collinear shape) (x : vector_t ℝ) (hx : in_all_halfplanes shape x) :
    (x.x, x.y) ∈ filled_polygon shape := by
  by_contra hnot
  unfold filled_polygon at hnot
  have hfin : (Set.image (fun v : vector_t ℝ => (v.x, v.y)) {v | v ∈ shape}).Finite :=
    (List.finite_toSet shape).image _
  obtain ⟨f, u, hfx, hfb⟩ := geometric_hahn_banach_point_closed
    (convex_convexHull ℝ _) hfin.isClosed_convexHull hnot
  apply no_strict_support shape hconv hnc x ⟨-f (1, 0), -f (0, 1)⟩ hx
  intro k hk
  have hmem : list_get shape k ∈ shape := (mem_iff_list_get shape _).mpr ⟨k, hk, rfl⟩
  have h1 := hfb ((list_get shape k).x, (list_get shape k).y)
    (subset_convexHull ℝ _ ⟨list_get shape k, hmem, rfl⟩)
  rw [clm_apply_pair] at h1 hfx
  simp only [vec_dot] at h1 hfx ⊢
  linarith

theorem convex_edge_halfplane (shape : List (vector_t ℝ)) (i : Nat) :
    Convex ℝ (edge_halfplane shape i) := by
  intro p hp q hq a b ha hb hab
  unfold edge_halfplane at hp hq ⊢
  simp only [Set.mem_setOf_eq, vec_cross, vec_subtract] at hp hq ⊢
  simp only [Prod.fst_add, Prod.snd_add, Prod.smul_fst, Prod.smul_snd, smul_eq_mul]
  have hb2 : b = 1 - a := by linarith
  subst hb2
  have h1 := mul_nonneg ha hp
  have h2 := mul_nonneg hb hq
  nlinarith [h1, h2]

theorem vertex_mem_edge_halfplane (shape : List (vector_t ℝ)) (hconv : convex_ccw shape)
    (i k : Nat) (hi : i < list_size shape) (hk : k < list_size shape) :
    ((list_get shape k).x, (list_get shape k).y) ∈ edge_halfplane shape i :=
  hconv i hi k hk

/-- The separating-axis argument: if every edge axis of two convex counterclockwise
rings (neither contained in a line) has positive overlap, the filled polygons meet.
By Helly's theorem the half-planes of all edges have a common point unless at most
three of them have none; such a triple contains an edge of one ring whose line has
the other ring strictly on its right. -/
theorem positive_overlaps_meet (M : Libm ℝ) (s1 s2 : List (vector_t ℝ))
    (hc1 : convex_ccw s1) (hc2 : convex_ccw s2)
    (hn1 : ¬ all_collinear s1) (hn2 : ¬ all_collinear s2)
    (hpos1 : ∀ e ∈ get_edges s1, 0 < proj_overlap s1 s2 (edge_unit_axis M e))
    (hpos2 : ∀ e ∈ get_edges s2, 0 < proj_overlap s1 s2 (edge_unit_axis M e)) :
    ∃ q, q ∈ filled_polygon s1 ∧ q ∈ filled_polygon s2 := by
  classical
  have hne1 : s1 ≠ [] := ne_nil_of_not_collinear s1 hn1
  have hne2 : s2 ≠ [] := ne_nil_of_not_collinear s2 hn2
  have hlen1 : 0 < list_size s1 := List.length_pos.mpr hne1
  have hlen2 : 0 < list_size s2 := List.length_pos.mpr hne2
  set F : Fin (list_size s1) ⊕ Fin (list_size s2) → Set (ℝ × ℝ) :=
    Sum.elim (fun i => edge_halfplane s1 i.val) (fun j => edge_halfplane s2 j.val) with hF
  have hconvF : ∀ z ∈ (Finset.univ : Finset (Fin (list_size s1) ⊕ Fin (list_size s2))),
      Convex ℝ (F z) := by
    intro z _
    cases z <;> exact convex_edge_halfplane _ _
  have hinter : ∀ I ⊆ (Finset.univ : Finset (Fin (list_size s1) ⊕ Fin (list_size s2))),
      I.card ≤ Module.finrank ℝ (ℝ × ℝ) + 1 → (⋂ z ∈ I, F z).Nonempty := by
    intro I _ hcard
    have hcard3 : I.card ≤ 3 := by simpa using hcard
    by_contra hempty
    have hno : ∀ q : ℝ × ℝ, ∃ z ∈ I, q ∉ F z := by
      intro q
      by_contra h
      push_neg at h
      exact hempty ⟨q, by simp only [Set.mem_iInter]; exact h⟩
    have hex1 : ∃ i0, Sum.inl i0 ∈ I := by
      by_contra h
      push_neg at h
      obtain ⟨z, hz, hzq⟩ := hno ((list_get s2 0).x, (list_get s2 0).y)
      cases z with
      | inl i => exact h i hz
      | inr j => exact hzq (vertex_mem_edge_halfplane s2 hc2 j.val 0 j.isLt hlen2)
    have hex2 : ∃ j0, Sum.inr j0 ∈ I := by
      by_contra h
      push_neg at h
      obtain ⟨z, hz, hzq⟩ := hno ((list_get s1 0).x, (list_get s1 0).y)
      cases z with
      | inl i => exact hzq (vertex_mem_edge_halfplane s1 hc1 i.val 0 i.isLt hlen1)
      | inr j => exact h j hz
    obtain ⟨i0, hi0⟩ := hex1
    obtain ⟨j0, hj0⟩ := hex2
    have hsplit : (∀ z ∈ I, z = Sum.inr j0 ∨ ∃ i, z = Sum.inl i) ∨
        (∀ z ∈ I, z = Sum.inl i0 ∨ ∃ j, z = Sum.inr j) := by
      by_contra h
      push_neg at h
      obtain ⟨⟨z1, hz1, hz1a, hz1b⟩, ⟨z2, hz2, hz2a, hz2b⟩⟩ := h
      cases z1 with
      | inl i => exact hz1b i rfl
      | inr j1 =>
        cases z2 with
        | inr j => exact hz2b j rfl
        | inl i1 =>
          have hsub : ({Sum.inl i0, Sum.inl i1, Sum.inr j0, Sum.inr j1} :
              Finset (Fin (list_size s1) ⊕ Fin (list_size s2))) ⊆ I := by
            intro z hz
            simp only [Finset.mem_insert, Finset.mem_singleton] at hz
            rcases hz with rfl | rfl | rfl | rfl <;> assumption
          have hi : i0 ≠ i1 := fun h => hz2a (by rw [h])
          have hj : j0 ≠ j1 := fun h => hz1a (by rw [h])
          have hc4 : ({Sum.inl i0, Sum.inl i1, Sum.inr j0, Sum.inr j1} :
              Finset (Fin (list_size s1) ⊕ Fin (list_size s2))).card = 4 := by
            rw [Finset.card_insert_of_not_mem, Finset.card_insert_of_not_mem,
              Finset.card_pair]
            · simpa using hj
            · simp
            · simp [hi]
          have := Finset.card_le_card hsub
          omega
    rcases hsplit with h | h
    · have hout : ∀ k, k < list_size s1 →
          vec_cross (edge_vector s2 j0.val)
            (vec_subtract (list_get s1 k) (list_get s2 j0.val)) < 0 := by
        intro k hk
        by_contra hge
        push_neg at hge
        obtain ⟨z, hz, hzq⟩ := hno ((list_get s1 k).x, (list_get s1 k).y)
        rcases h z hz with rfl | ⟨i, rfl⟩
        · exact hzq hge
        · exact hzq (vertex_mem_edge_halfplane s1 hc1 i.val k i.isLt hk)
      obtain ⟨e, he, hle⟩ := edge_separates M s1 s2 hne1 hne2 j0.val j0.isLt
        (fun k hk => hc2 j0.val j0.isLt k hk) hout
      exact absurd (hpos2 e he) (not_lt.mpr hle)
    · have hout : ∀ k, k < list_size s2 →
          vec_cross (edge_vector s1 i0.val)
            (vec_subtract (list_get s2 k) (list_get s1 i0.val)) < 0 := by
        intro k hk
        by_contra hge
        push_neg at hge
        obtain ⟨z, hz, hzq⟩ := hno ((list_get s2 k).x, (list_get s2 k).y)
        rcases h z hz with rfl | ⟨j, rfl⟩
        · exact hzq hge
        · exact hzq (vertex_mem_edge_halfplane s2 hc2 j.val k j.isLt hk)
      obtain ⟨e, he, hle⟩ := edge_separates M s2 s1 hne2 hne1 i0.val i0.isLt
        (fun k hk => hc1 i0.val i0.isLt k hk) hout
      rw [proj_overlap_comm] at hle
      exact absurd (hpos1 e he) (not_lt.mpr hle)
  obtain ⟨q, hq⟩ := Convex.helly_theorem' hconvF hinter
  simp only [Set.mem_iInter] at hq
  refine ⟨q, ?_, ?_⟩
  · exact halfplanes_subset_filled s1 hc1 hn1 ⟨q.1, q.2⟩
      (fun i hi => hq (Sum.inl ⟨i, hi⟩) (Finset.mem_univ _))
  · exact halfplanes_subset_filled s2 hc2 hn2 ⟨q.1, q.2⟩
      (fun j hj => hq (Sum.inr ⟨j, hj⟩) (Finset.mem_univ _))

/-- C10, amended: in exact arithmetic (over the real numbers), for two bodies on
convex counterclockwise vertex rings of non-zero area, if `find_collision`
reports a collision then the two filled polygons (the convex hulls of the vertex
lists) have a point in common; equivalently, no collision is reported between
disjoint convex polygons. -/
theorem find_collision_sound (M : Libm ℝ) (body1 body2 : body_t ℝ) (r : collision_info_t ℝ)
    (hc1 : convex_ccw (body_get_shape body1)) (hc2 : convex_ccw (body_get_shape body2))
    (ha1 : polygon_area body1.poly ≠ 0) (ha2 : polygon_area body2.poly ≠ 0)
    (hr : find_collision M body1 body2 = some r) (hcol : r.collided = true) :
    (filled_polygon (body_get_shape body1) ∩ filled_polygon (body_get_shape body2)).Nonempty ∧
    ¬ Disjoint (filled_polygon (body_get_shape body1))
      (filled_polygon (body_get_shape body2)) := by
  have hn1 : ¬ all_collinear (body_get_shape body1) := not_collinear_of_area _ ha1
  have hn2 : ¬ all_collinear (body_get_shape body2) := not_collinear_of_area _ ha2
  obtain ⟨r2, hr2, hiff, _⟩ := find_collision_spec M body1 body2
    (ne_nil_of_not_collinear _ hn1) (ne_nil_of_not_collinear _ hn2)
  rw [hr] at hr2
  have hrr : r = r2 := Option.some.inj hr2
  subst hrr
  obtain ⟨hpos1, hpos2⟩ := hiff.mp hcol
  obtain ⟨q, hq1, hq2⟩ := positive_overlaps_meet M _ _ hc1 hc2 hn1 hn2 hpos1 hpos2
  have hne : (filled_polygon (body_get_shape body1) ∩
      filled_polygon (body_get_shape body2)).Nonempty := ⟨q, hq1, hq2⟩
  exact ⟨hne, fun hd => Set.Nonempty.ne_empty hne (Set.disjoint_iff_inter_eq_empty.mp hd)⟩

theorem convex_ccw_square (x y side : ℝ) (hs : 0 ≤ side) : convex_ccw (square_at x y side) := by
  intro i hi k hk
  have hi4 : i < 4 := hi
  have hk4 : k < 4 := hk
  have h2 : 0 ≤ side * side := mul_nonneg hs hs
  interval_cases i <;> interval_cases k <;>
    simp [edge_vector, square_at, list_get, list_size, vec_subtract, vec_cross, h2]

theorem polygon_area_square (x y side : ℝ) (hs : side ≠ 0) :
    polygon_area (static_square x y side).poly ≠ 0 := by
  rw [polygon_area_eq, centroid_loop_eq_sum]
  have h3 : ¬ list_size (static_square x y side).poly.points < 3 := by
    simp [static_square, body_init, body_init_with_info, polygon_init, square_at, list_size]
  rw [if_neg h3]
  have hsum : ∑ i in Finset.range (list_size (static_square x y side).poly.points),
      vec_cross (list_get (static_square x y side).poly.points i)
        (list_get (static_square x y side).poly.points
          ((i + 1) % list_size (static_square x y side).poly.points)) = 2 * (side * side) := by
    simp [static_square, body_init, body_init_with_info, polygon_init, square_at, list_size,
      list_get, vec_cross, Finset.sum_range_succ]
    ring
  simp only [hsum]
  have : 0 < side * side := mul_self_pos.mpr hs
  rw [abs_of_pos (by linarith)]
  linarith

theorem find_collision_sound_witness :
    ∃ r : collision_info_t ℝ,
      find_collision (Libm.mk Real.sqrt Real.cos Real.sin (fun y x => Complex.arg ⟨x, y⟩))
        (static_square 0 0 1) (static_square (1 / 2) (1 / 2) 1) = some r ∧
      r.collided = true ∧
      (filled_polygon (body_get_shape (static_square (0 : ℝ) 0 1)) ∩
        filled_polygon (body_get_shape (static_square (1 / 2 : ℝ) (1 / 2) 1))).Nonempty := by
  obtain ⟨r, hr, hc⟩ := overlapping_squares_collide
    (Libm.mk Real.sqrt Real.cos Real.sin (fun y x => Complex.arg ⟨x, y⟩)) real_sqrt_exact
  exact ⟨r, hr, hc,
    (find_collision_sound _ (static_square 0 0 1) (static_square (1 / 2) (1 / 2) 1) r
      (convex_ccw_square _ _ _ zero_le_one) (convex_ccw_square _ _ _ zero_le_one)
      (polygon_area_square _ _ _ one_ne_zero) (polygon_area_square _ _ _ one_ne_zero)
      hr hc).1⟩

end SeparationTheorems


section ShapeTheorems

variable {K : Type} [LinearOrderedField K]

/-! ## body.c: replacing the shape -/

theorem body_set_shape_fields (body : body_t K) (shape : List (vector_t K)) :
    body_get_velocity (body_set_shape body shape) = body_get_velocity body ∧
    body_get_color (body_set_shape body shape) = body_get_color body ∧
    body_get_shape (body_set_shape body shape) = shape ∧
    body_get_rotation (body_set_shape body shape) = 0 ∧
    (body_set_shape body shape).poly.rotation_speed = body_get_rotation body := by
  refine ⟨rfl, rfl, rfl, rfl, rfl⟩

/-- C17 fails on the code: `body_set_shape` passes the current rotation to
`polygon_init` in the place of the rotation speed.  For the body of rotation 1
(and rotation speed 0) obtained by `body_set_rotation`, the rotation after
`body_set_shape` is 0 and the rotation speed is 1; velocity and colour are kept. -/
theorem body_set_shape_rotation :
    body_get_rotation (body_set_rotation libm_unused square_body 1) = 1 ∧
    (body_set_rotation libm_unused square_body 1).poly.rotation_speed = 0 ∧
    body_get_rotation
      (body_set_shape (body_set_rotation libm_unused square_body 1) unit_square) = 0 ∧
    (body_set_shape (body_set_rotation libm_unused square_body 1) unit_square).poly.rotation_speed
      = 1 ∧
    body_get_velocity
      (body_set_shape (body_set_rotation libm_unused square_body 1) unit_square) =
        body_get_velocity (body_set_rotation libm_unused square_body 1) ∧
    body_get_color
      (body_set_shape (body_set_rotation libm_unused square_body 1) unit_square) =
        body_get_color (body_set_rotation libm_unused square_body 1) := by
  refine ⟨rfl, rfl, rfl, rfl, rfl, rfl⟩

/-! ## polygon.c: moving the centroid -/

/-- C18, amended: in exact arithmetic, for a body on a polygon of non-zero signed
area and every target point, after `body_set_centroid` / `polygon_set_center` the
centroid is the target, the vertex count is unchanged and every vertex has moved
by `target - old_centroid`. -/
theorem polygon_set_center_spec (body : body_t K) (target : vector_t K)
    (harea : signed_area body.poly.points ≠ 0) :
    polygon_centroid (polygon_set_center body.poly target) = target ∧
    body_get_centroid (body_set_centroid body target) = target ∧
    list_size (polygon_set_center body.poly target).points = list_size body.poly.points ∧
    ∀ i, i < list_size body.poly.points →
      list_get (polygon_set_center body.poly target).points i =
        vec_add (list_get body.poly.points i)
          (vec_subtract target (polygon_centroid body.poly)) := by
  have hc : polygon_centroid (polygon_set_center body.poly target) = target := by
    unfold polygon_set_center polygon_get_center
    rw [polygon_centroid_translate _ _ harea]
    simp only [vec_add, vec_subtract]
    ext <;> simp only <;> ring
  refine ⟨hc, hc, ?_, ?_⟩
  · simp [polygon_set_center, polygon_translate, list_size]
  · intro i hi
    exact list_get_map_add body.poly.points _ i hi

theorem polygon_set_center_spec_witness :
    body_get_centroid (body_set_centroid square_body ⟨5, 7⟩) = (⟨5, 7⟩ : vector_t ℚ) :=
  (polygon_set_center_spec square_body ⟨5, 7⟩
    (by
      norm_num [signed_area, centroid_loop, square_body, body_init,
        body_init_with_info, polygon_init, unit_square, list_size, list_get, vec_cross,
        List.range, List.range.loop])).2.1

/-! ## polygon.c: rotations -/

theorem polygon_rotate_zero (M : Libm K) (hc : M.cos 0 = 1) (hs : M.sin 0 = 0)
    (polygon : polygon_t K) (point : vector_t K) :
    polygon_rotate M polygon 0 point = polygon := by
  unfold polygon_rotate polygon_translate
  simp only [List.map_map]
  have hid : polygon.points.map
      ((fun vertex => vec_add vertex point) ∘ (fun vertex => vec_rotate M vertex 0) ∘
        fun vertex => vec_add vertex (vec_negate point)) = polygon.points := by
    conv_rhs => rw [← List.map_id polygon.points]
    apply List.map_congr_left
    intro v _
    simp only [Function.comp, vec_add, vec_rotate, vec_negate, hc, hs, id]
    ext <;> simp only <;> ring
  rw [hid]

theorem polygon_set_rotation_same (M : Libm K) (hc : M.cos 0 = 1) (hs : M.sin 0 = 0)
    (polygon : polygon_t K) (t : K) (h : polygon.rotation = t) :
    polygon_set_rotation M polygon t = polygon := by
  subst h
  show { polygon_rotate M polygon (polygon.rotation - polygon.rotation)
      (polygon_get_center polygon) with rotation := polygon.rotation } = polygon
  rw [sub_self, polygon_rotate_zero M hc hs]

/-- C19, amended: in exact arithmetic, with `cos 0 = 1` and `sin 0 = 0`, a second
`polygon_set_rotation` with the same angle changes nothing: the polygon, in
particular every vertex and the stored rotation, is as after the first call. -/
theorem polygon_set_rotation_idempotent (M : Libm K) (hc : M.cos 0 = 1) (hs : M.sin 0 = 0)
    (polygon : polygon_t K) (t : K) :
    polygon_set_rotation M (polygon_set_rotation M polygon t) t =
      polygon_set_rotation M polygon t ∧
    (polygon_set_rotation M (polygon_set_rotation M polygon t) t).points =
      (polygon_set_rotation M polygon t).points ∧
    (polygon_set_rotation M (polygon_set_rotation M polygon t) t).rotation = t ∧
    (polygon_set_rotation M polygon t).rotation = t := by
  have hrot : (polygon_set_rotation M polygon t).rotation = t := rfl
  have h : polygon_set_rotation M (polygon_set_rotation M polygon t) t =
      polygon_set_rotation M polygon t :=
    polygon_set_rotation_same M hc hs _ t hrot
  refine ⟨h, by rw [h], rfl, rfl⟩

theorem polygon_set_rotation_idempotent_witness :
    (polygon_set_rotation (Libm.mk Real.sqrt Real.cos Real.sin (fun y x => Complex.arg ⟨x, y⟩))
        (polygon_set_rotation
          (Libm.mk Real.sqrt Real.cos Real.sin (fun y x => Complex.arg ⟨x, y⟩))
          (static_square 0 0 1).poly 2) 2).points =
      (polygon_set_rotation (Libm.mk Real.sqrt Real.cos Real.sin (fun y x => Complex.arg ⟨x, y⟩))
        (static_square 0 0 1).poly 2).points :=
  (polygon_set_rotation_idempotent
    (Libm.mk Real.sqrt Real.cos Real.sin (fun y x => Complex.arg ⟨x, y⟩))
    Real.cos_zero Real.sin_zero (static_square 0 0 1).poly 2).2.1

end ShapeTheorems

/-! # Theorems about scene.c -/

section SceneTheorems

variable {K : Type} [LinearOrderedField K] {E : Type}

/-! ## scene.c: the cleanup loops -/

theorem job_lists_body_iff (bodies : List Nat) (body : Nat) :
    job_lists_body bodies body = true ↔ body ∈ bodies := by
  induction bodies with
  | nil => simp [job_lists_body]
  | cons a rest ih =>
    unfold job_lists_body
    by_cases h : a = body
    · simp [h]
    · rw [if_neg h, ih]
      constructor
      · intro h2; exact List.mem_cons_of_mem _ h2
      · intro h2
        rcases List.mem_cons.mp h2 with h3 | h3
        · exact absurd h3.symm h
        · exact h3

theorem size_inc_dec (j : Nat) (hj : j < SIZE_WIDTH) : size_inc (size_dec j) = j := by
  unfold size_inc size_dec SIZE_WIDTH at *
  norm_num at *
  omega

theorem size_inc_lt (j : Nat) (hj : j + 1 < SIZE_WIDTH) : size_inc j = j + 1 := by
  unfold size_inc
  exact Nat.mod_eq_of_lt hj

theorem size_dec_pos (n : Nat) (h0 : 0 < n) (hn : n < SIZE_WIDTH) : size_dec n = n - 1 := by
  unfold size_dec SIZE_WIDTH at *
  norm_num at *
  omega

theorem remove_jobs_of_spec (body : Nat) (rest : List force_job_t) :
    ∀ (kept : List force_job_t) (fuel : Nat) (log : List event_t),
      rest.length ≤ fuel → (kept ++ rest).length < SIZE_WIDTH →
      remove_jobs_of body fuel kept.length (kept ++ rest) log =
        some (kept ++ rest.filter (fun job => !job_lists_body job.bodies body),
          log ++ (rest.filter (fun job => job_lists_body job.bodies body)).map
            event_t.freed_job) := by
  induction rest with
  | nil =>
    intro kept fuel log _ _
    cases fuel <;> simp [remove_jobs_of]
  | cons job rest ih =>
    intro kept fuel log hfuel hlen
    cases fuel with
    | zero => simp at hfuel
    | succ fuel =>
      have hget : (kept ++ job :: rest)[kept.length]? = some job := by
        rw [List.getElem?_append_right (le_refl _)]
        simp
      have hfuel2 : rest.length ≤ fuel := by simpa using hfuel
      have hk : kept.length < SIZE_WIDTH := by
        simp only [List.length_append, List.length_cons] at hlen
        omega
      unfold remove_jobs_of
      simp only [hget]
      by_cases hl : job_lists_body job.bodies body = true
      · rw [if_pos hl, size_inc_dec _ hk]
        have herase : list_remove (kept ++ job :: rest) kept.length = kept ++ rest := by
          unfold list_remove
          rw [List.eraseIdx_append_of_length_le (le_refl _)]
          simp
        rw [herase, ih kept fuel _ hfuel2 (by
          simp only [List.length_append, List.length_cons] at hlen ⊢
          omega)]
        simp [List.filter_cons, hl]
      · rw [if_neg hl]
        have hk1 : kept.length + 1 < SIZE_WIDTH := by
          simp only [List.length_append, List.length_cons] at hlen
          omega
        rw [size_inc_lt _ hk1]
        have h2 := ih (kept ++ [job]) fuel log hfuel2 (by simpa using hlen)
        simp only [List.length_append, List.length_singleton, List.append_assoc,
          List.singleton_append] at h2
        rw [h2]
        simp [List.filter_cons, hl]

omit [LinearOrderedField K] in
theorem removed_bodies_cons (body : Nat × body_t K) (rest : List (Nat × body_t K)) :
    removed_bodies (body :: rest) =
      if body.2.removed then body.1 :: removed_bodies rest else removed_bodies rest := by
  unfold removed_bodies
  by_cases h : body.2.removed = true <;> simp [List.filter_cons, h]

theorem filter_then_integrate_cons (M : Libm K) (dt : K) (body : Nat × body_t K)
    (rest : List (Nat × body_t K)) :
    filter_then_integrate M dt (body :: rest) =
      if body.2.removed then filter_then_integrate M dt rest
      else (body.1, body_tick M body.2 dt) :: filter_then_integrate M dt rest := by
  unfold filter_then_integrate
  by_cases h : body.2.removed = true <;> simp [List.filter_cons, h]

theorem jobs_without_cons (body : Nat) (removed : List Nat) (force_jobs : List force_job_t) :
    jobs_without (body :: removed) force_jobs =
      jobs_without removed
        (force_jobs.filter (fun job => !job_lists_body job.bodies body)) := by
  unfold jobs_without
  rw [List.filter_filter]
  apply List.filter_congr
  intro job _
  simp only [List.all_cons]
  exact Bool.and_comm _ _

theorem jobs_without_nil (force_jobs : List force_job_t) :
    jobs_without [] force_jobs = force_jobs := by
  unfold jobs_without
  simp

/-- The body loop from index `done.length`, when the entries before it are
`done` and the entries from it on are `rest`: it returns, leaves `done` followed
by the survivors of `rest`, each ticked once, decrements the counter once per
removed body, and takes out the jobs that list a removed body. -/
theorem body_loop_spec (M : Libm K) (dt : K) (rest : List (Nat × body_t K)) :
    ∀ (done : List (Nat × body_t K)) (scene : scene_t K) (log : List event_t) (fuel : Nat),
      scene.bodies = done ++ rest → rest.length ≤ fuel →
      scene.force_jobs.length < SIZE_WIDTH →
      body_loop M dt fuel (done.length : Int) scene log =
        some ({ num_bodies := size_dec^[(removed_bodies rest).length] scene.num_bodies,
                bodies := done ++ filter_then_integrate M dt rest,
                force_jobs := jobs_without (removed_bodies rest) scene.force_jobs },
          log ++ body_pass_events scene.force_jobs rest) := by
  induction rest with
  | nil =>
    intro done scene log fuel hb _ _
    have hlen : ¬ ((done.length : Int) < (scene.bodies.length : Int)) := by
      rw [hb]; simp
    have h1 : removed_bodies ([] : List (Nat × body_t K)) = [] := rfl
    have h2 : filter_then_integrate M dt ([] : List (Nat × body_t K)) = [] := rfl
    rw [List.append_nil] at hb
    rw [h1, h2, jobs_without_nil, List.append_nil, ← hb]
    simp only [List.length_nil, Function.iterate_zero, id_eq]
    cases fuel <;> simp [body_loop, hlen, body_pass_events]
  | cons body rest ih =>
    intro done scene log fuel hb hfuel hjobs
    cases fuel with
    | zero => simp at hfuel
    | succ fuel =>
      have hfuel2 : rest.length ≤ fuel := by simpa using hfuel
      have hlt : (done.length : Int) < (scene.bodies.length : Int) := by
        rw [hb]; simp
      have hget : scene.bodies[(done.length : Int).toNat]? = some body := by
        rw [hb, Int.toNat_ofNat, List.getElem?_append_right (le_refl _)]
        simp
      unfold body_loop
      rw [if_pos hlt]
      simp only [hget]
      by_cases hr : body.2.removed = true
      · have hr2 : body_is_removed body.2 = true := hr
        rw [if_pos hr2]
        have hjobs_eq := remove_jobs_of_spec body.1 scene.force_jobs [] scene.force_jobs.length
          log (le_refl _) (by simpa using hjobs)
        simp only [List.length_nil, List.nil_append] at hjobs_eq
        rw [hjobs_eq]
        simp only
        have hidx : (done.length : Int) - 1 + 1 = (done.length : Int) := by omega
        have herase : list_remove scene.bodies (done.length : Int).toNat = done ++ rest := by
          unfold list_remove
          rw [hb, Int.toNat_ofNat, List.eraseIdx_append_of_length_le (le_refl _)]
          simp
        rw [hidx, herase]
        have h2 := ih done
          { num_bodies := size_dec scene.num_bodies, bodies := done ++ rest,
            force_jobs := (scene.force_jobs.filter
              (fun job => !job_lists_body job.bodies body.1)) }
          (log ++ (scene.force_jobs.filter (fun job => job_lists_body job.bodies body.1)).map
              event_t.freed_job ++ [event_t.freed_body body.1])
          fuel rfl hfuel2
          (lt_of_le_of_lt (List.length_filter_le _ _) hjobs)
        rw [h2, removed_bodies_cons, if_pos hr, filter_then_integrate_cons, if_pos hr,
          jobs_without_cons]
        rw [body_pass_events.eq_2, if_pos hr]
        dsimp only
        rw [List.length_cons, Function.iterate_succ_apply, List.append_assoc, List.append_assoc,
          List.append_assoc]
      · have hr2 : ¬ body_is_removed body.2 = true := hr
        rw [if_neg hr2]
        have hset : scene.bodies.set (done.length : Int).toNat
            (body.1, body_tick M body.2 dt) =
            (done ++ [(body.1, body_tick M body.2 dt)]) ++ rest := by
          rw [hb, Int.toNat_ofNat, List.set_append_right _ _ (le_refl _)]
          simp
        have hidx : (done.length : Int) + 1 =
            ((done ++ [(body.1, body_tick M body.2 dt)]).length : Int) := by
          simp
        rw [hidx]
        have h2 := ih (done ++ [(body.1, body_tick M body.2 dt)])
          { scene with bodies := (scene.bodies.set (done.length : Int).toNat
              (body.1, body_tick M body.2 dt)) }
          (log ++ [event_t.ticked body.1]) fuel hset hfuel2 hjobs
        rw [h2, removed_bodies_cons, if_neg hr, filter_then_integrate_cons, if_neg hr]
        rw [body_pass_events.eq_2, if_neg hr]
        dsimp only
        rw [List.append_assoc, List.append_assoc, List.singleton_append]

end SceneTheorems

section SceneClaims

variable {K : Type} [LinearOrderedField K] {E : Type}

omit [LinearOrderedField K] in
theorem removed_bodies_of_none (bodies : List (Nat × body_t K))
    (h : ∀ p ∈ bodies, p.2.removed = false) : removed_bodies bodies = [] := by
  unfold removed_bodies
  rw [List.map_eq_nil_iff, List.filter_eq_nil_iff]
  intro p hp
  simp [h p hp]

omit [LinearOrderedField K] in
theorem removed_bodies_append (l1 l2 : List (Nat × body_t K)) :
    removed_bodies (l1 ++ l2) = removed_bodies l1 ++ removed_bodies l2 := by
  unfold removed_bodies
  simp

theorem filter_then_integrate_append (M : Libm K) (dt : K) (l1 l2 : List (Nat × body_t K)) :
    filter_then_integrate M dt (l1 ++ l2) =
      filter_then_integrate M dt l1 ++ filter_then_integrate M dt l2 := by
  unfold filter_then_integrate
  simp

theorem mem_jobs_without (removed : List Nat) (force_jobs : List force_job_t)
    (job : force_job_t) :
    job ∈ jobs_without removed force_jobs ↔
      job ∈ force_jobs ∧ ∀ body ∈ removed, body ∉ job.bodies := by
  unfold jobs_without
  rw [List.mem_filter, List.all_eq_true]
  constructor
  · rintro ⟨h1, h2⟩
    refine ⟨h1, fun body hbody hmem => ?_⟩
    have h3 := h2 body hbody
    rw [(job_lists_body_iff job.bodies body).mpr hmem] at h3
    simp at h3
  · rintro ⟨h1, h2⟩
    refine ⟨h1, fun body hbody => ?_⟩
    have h3 := h2 body hbody
    rw [← job_lists_body_iff] at h3
    simpa using h3

/-- The whole body pass of `scene_tick`: it returns, with the survivors each
ticked once, the counter decremented once per removed body, and the jobs that
list a removed body taken out. -/
theorem scene_body_pass_spec (M : Libm K) (dt : K) (scene : scene_t K) (log : List event_t)
    (hjobs : scene.force_jobs.length < SIZE_WIDTH) :
    scene_body_pass M dt scene log =
      some ({ num_bodies := size_dec^[(removed_bodies scene.bodies).length] scene.num_bodies,
              bodies := filter_then_integrate M dt scene.bodies,
              force_jobs := jobs_without (removed_bodies scene.bodies) scene.force_jobs },
        log ++ body_pass_events scene.force_jobs scene.bodies) := by
  have h := body_loop_spec M dt scene.bodies [] scene log scene.bodies.length
    (by simp) (le_refl _) hjobs
  simpa [scene_body_pass] using h

/-- C13: when exactly one stored body `b` is flagged removed and `N` registered
jobs list `b`, the cleanup pass of `scene_tick` returns and leaves the registry
with exactly the jobs that list `b` taken out: the result is the old registry
filtered by "does not list `b`" (so the other jobs keep their order), it is `N`
shorter, no remaining job lists `b`, and every job not listing `b` remains. -/
theorem scene_tick_prunes_jobs (M : Libm K) (dt : K) (scene : scene_t K) (log : List event_t)
    (pre post : List (Nat × body_t K)) (b : Nat) (body : body_t K) (N : Nat)
    (hbodies : scene.bodies = pre ++ (b, body) :: post)
    (hremoved : body.removed = true)
    (hothers : ∀ p ∈ pre ++ post, p.2.removed = false)
    (hN : (scene.force_jobs.filter (fun job => job_lists_body job.bodies b)).length = N)
    (hjobs : scene.force_jobs.length < SIZE_WIDTH) :
    ∃ scene2 log2, scene_body_pass M dt scene log = some (scene2, log2) ∧
      scene2.force_jobs = scene.force_jobs.filter (fun job => !job_lists_body job.bodies b) ∧
      scene2.force_jobs.length + N = scene.force_jobs.length ∧
      List.Sublist scene2.force_jobs scene.force_jobs ∧
      (∀ job ∈ scene2.force_jobs, b ∉ job.bodies) ∧
      (∀ job ∈ scene.force_jobs, b ∉ job.bodies → job ∈ scene2.force_jobs) := by
  have hrem : removed_bodies scene.bodies = [b] := by
    rw [hbodies, removed_bodies_append, removed_bodies_cons, if_pos hremoved,
      removed_bodies_of_none pre (fun p hp => hothers p (List.mem_append_left _ hp)),
      removed_bodies_of_none post (fun p hp => hothers p (List.mem_append_right _ hp))]
    rfl
  have hreg : jobs_without (removed_bodies scene.bodies) scene.force_jobs =
      scene.force_jobs.filter (fun job => !job_lists_body job.bodies b) := by
    rw [hrem, jobs_without_cons, jobs_without_nil]
  refine ⟨_, _, scene_body_pass_spec M dt scene log hjobs, hreg, ?_, ?_, ?_, ?_⟩
  · show (jobs_without (removed_bodies scene.bodies) scene.force_jobs).length + N = _
    rw [hreg, ← hN]
    have h := List.length_eq_length_filter_add (l := scene.force_jobs)
      (fun job => job_lists_body job.bodies b)
    omega
  · show List.Sublist (jobs_without (removed_bodies scene.bodies) scene.force_jobs) _
    rw [hreg]
    exact List.filter_sublist _
  · intro job hjob
    have h := (mem_jobs_without _ _ job).mp hjob
    exact h.2 b (by rw [hrem]; exact List.mem_singleton_self b)
  · intro job hjob hb
    refine (mem_jobs_without _ _ job).mpr ⟨hjob, ?_⟩
    intro body hbody
    rw [hrem, List.mem_singleton] at hbody
    rw [hbody]
    exact hb

end SceneClaims

section SceneClaims2

variable {K : Type} [LinearOrderedField K] {E : Type}

theorem scene_tick_prunes_jobs_witness :
    ∃ scene2 log2, scene_body_pass libm_unused 1 gc_scene [] = some (scene2, log2) ∧
      scene2.force_jobs = [⟨0, 0, [1]⟩] ∧ scene2.force_jobs.length + 2 = 3 := by
  obtain ⟨scene2, log2, h1, h2, h3, _⟩ :=
    scene_tick_prunes_jobs libm_unused 1 gc_scene [] [(1, square_body)] [] 2
      (body_remove square_body) 2 rfl rfl
      (by intro p hp; simp at hp; subst hp; rfl) rfl (by norm_num [gc_scene, SIZE_WIDTH])
  exact ⟨scene2, log2, h1, h2, h3⟩

theorem size_dec_iterate (r : Nat) : ∀ n : Nat, r ≤ n → n < SIZE_WIDTH →
    size_dec^[r] n = n - r := by
  induction r with
  | zero => intro n _ _; rfl
  | succ r ih =>
    intro n hr hn
    rw [Function.iterate_succ_apply, size_dec_pos n (by omega) hn, ih (n - 1) (by omega) (by omega)]
    omega

theorem ticked_bodies_append (l1 l2 : List event_t) :
    ticked_bodies (l1 ++ l2) = ticked_bodies l1 ++ ticked_bodies l2 := by
  induction l1 with
  | nil => rfl
  | cons e rest ih =>
    cases e <;> simp [ticked_bodies, ih]

theorem ticked_bodies_freed_jobs (jobs : List force_job_t) :
    ticked_bodies (jobs.map event_t.freed_job) = [] := by
  induction jobs with
  | nil => rfl
  | cons job rest ih => simpa [ticked_bodies] using ih

theorem ticked_bodies_ran_jobs (jobs : List force_job_t) :
    ticked_bodies (jobs.map event_t.ran_job) = [] := by
  induction jobs with
  | nil => rfl
  | cons job rest ih => simpa [ticked_bodies] using ih

omit [LinearOrderedField K] in
theorem ticked_bodies_body_pass_events (bodies : List (Nat × body_t K)) :
    ∀ force_jobs : List force_job_t,
      ticked_bodies (body_pass_events force_jobs bodies) =
        (bodies.filter (fun body => !body.2.removed)).map Prod.fst := by
  induction bodies with
  | nil => intro force_jobs; rfl
  | cons body rest ih =>
    intro force_jobs
    rw [body_pass_events.eq_2]
    by_cases hr : body.2.removed = true
    · rw [if_pos hr, ticked_bodies_append, ticked_bodies_append, ticked_bodies_freed_jobs, ih]
      simp [List.filter_cons, hr, ticked_bodies]
    · rw [if_neg hr, ticked_bodies_append, ih]
      simp [List.filter_cons, hr, ticked_bodies]

omit [LinearOrderedField K] in
theorem removed_bodies_length_add (bodies : List (Nat × body_t K)) :
    (removed_bodies bodies).length +
      (bodies.filter (fun body => !body.2.removed)).length = bodies.length := by
  unfold removed_bodies
  rw [List.length_map]
  have h := List.length_eq_length_filter_add (l := bodies) (fun body => body.2.removed)
  omega

theorem filter_then_integrate_length (M : Libm K) (dt : K) (bodies : List (Nat × body_t K)) :
    (filter_then_integrate M dt bodies).length =
      (bodies.filter (fun body => !body.2.removed)).length := by
  unfold filter_then_integrate
  rw [List.length_map]

theorem filter_then_integrate_addresses (M : Libm K) (dt : K)
    (bodies : List (Nat × body_t K)) :
    (filter_then_integrate M dt bodies).map Prod.fst =
      (bodies.filter (fun body => !body.2.removed)).map Prod.fst := by
  unfold filter_then_integrate
  rw [List.map_map]
  rfl

/-- C14: the body loop of `scene_tick` returns, for every body list and every
pattern of removed flags, and it leaves exactly the bodies that were not flagged
removed, in their original order, each advanced by one `body_tick`; the bodies
ticked during the pass are the unflagged ones, once each and in order; on a
scene whose counter is the length of its body list, `scene_bodies` decreases by
the number of removed bodies and is again the length of the list. -/
theorem scene_tick_filter_then_integrate (M : Libm K) (dt : K) (scene : scene_t K)
    (log : List event_t)
    (hjobs : scene.force_jobs.length < SIZE_WIDTH)
    (hcount : scene.num_bodies = scene.bodies.length)
    (hsize : scene.bodies.length < SIZE_WIDTH) :
    ∃ scene2 log2, scene_body_pass M dt scene log = some (scene2, log2) ∧
      scene2.bodies = filter_then_integrate M dt scene.bodies ∧
      ticked_bodies log2 = ticked_bodies log ++
        (scene.bodies.filter (fun body => !body.2.removed)).map Prod.fst ∧
      scene_bodies scene2 + (removed_bodies scene.bodies).length = scene_bodies scene ∧
      scene_bodies scene2 = scene2.bodies.length := by
  have hlen := removed_bodies_length_add scene.bodies
  have hnum : size_dec^[(removed_bodies scene.bodies).length] scene.num_bodies =
      scene.num_bodies - (removed_bodies scene.bodies).length :=
    size_dec_iterate _ _ (by omega) (by omega)
  refine ⟨_, _, scene_body_pass_spec M dt scene log hjobs, rfl, ?_, ?_, ?_⟩
  · rw [ticked_bodies_append, ticked_bodies_body_pass_events]
  · show size_dec^[(removed_bodies scene.bodies).length] scene.num_bodies + _ = scene.num_bodies
    rw [hnum]
    omega
  · show size_dec^[(removed_bodies scene.bodies).length] scene.num_bodies =
      (filter_then_integrate M dt scene.bodies).length
    rw [hnum, filter_then_integrate_length]
    omega

theorem scene_tick_filter_then_integrate_witness :
    ∃ scene2 log2, scene_body_pass libm_unused 1 gc_scene [] = some (scene2, log2) ∧
      scene2.bodies = filter_then_integrate libm_unused 1 gc_scene.bodies ∧
      ticked_bodies log2 = [1] ∧ scene_bodies scene2 = 1 := by
  obtain ⟨scene2, log2, h1, h2, h3, h4, _⟩ :=
    scene_tick_filter_then_integrate libm_unused 1 gc_scene []
      (by norm_num [gc_scene, SIZE_WIDTH]) rfl (by norm_num [gc_scene, SIZE_WIDTH])
  refine ⟨scene2, log2, h1, h2, ?_, ?_⟩
  · rw [h3]
    rfl
  · have h5 : (removed_bodies gc_scene.bodies).length = 1 := rfl
    have h6 : scene_bodies gc_scene = 2 := rfl
    omega

end SceneClaims2

section SceneOrder

variable {K : Type} [LinearOrderedField K] {E : Type}

omit [LinearOrderedField K] in
/-- The job phase when callbacks only append to the registry: if it returns,
the registry has only grown and the jobs run from index `i` on are the final
registry from index `i` on, in order. -/
theorem run_jobs_spec (forces_job_run : force_job_t → world_t K E → world_t K E)
    (hext : ∀ job world, ∃ extra,
      (forces_job_run job world).scene.force_jobs = world.scene.force_jobs ++ extra) :
    ∀ (fuel i : Nat) (world : world_t K E) (log : List event_t) (world1 : world_t K E)
      (log1 : List event_t),
      run_jobs forces_job_run fuel i world log = some (world1, log1) →
      (∃ extra, world1.scene.force_jobs = world.scene.force_jobs ++ extra) ∧
      log1 = log ++ (world1.scene.force_jobs.drop i).map event_t.ran_job := by
  intro fuel
  induction fuel with
  | zero =>
    intro i world log world1 log1 h
    unfold run_jobs at h
    cases hget : world.scene.force_jobs[i]? with
    | none =>
      rw [hget] at h
      simp only [Option.some.injEq, Prod.mk.injEq] at h
      obtain ⟨h1, h2⟩ := h
      subst h1
      subst h2
      refine ⟨⟨[], by simp⟩, ?_⟩
      rw [List.drop_eq_nil_of_le (List.getElem?_eq_none_iff.mp hget)]
      simp
    | some job =>
      rw [hget] at h
      simp at h
  | succ fuel ih =>
    intro i world log world1 log1 h
    unfold run_jobs at h
    cases hget : world.scene.force_jobs[i]? with
    | none =>
      rw [hget] at h
      simp only [Option.some.injEq, Prod.mk.injEq] at h
      obtain ⟨h1, h2⟩ := h
      subst h1
      subst h2
      refine ⟨⟨[], by simp⟩, ?_⟩
      rw [List.drop_eq_nil_of_le (List.getElem?_eq_none_iff.mp hget)]
      simp
    | some job =>
      rw [hget] at h
      simp only at h
      obtain ⟨⟨extra1, he1⟩, hlog⟩ := ih _ _ _ _ _ h
      obtain ⟨extra0, he0⟩ := hext job world
      have hreg : world1.scene.force_jobs = world.scene.force_jobs ++ (extra0 ++ extra1) := by
        rw [he1, he0, List.append_assoc]
      have hi : i < world.scene.force_jobs.length := by
        by_contra hcon
        rw [List.getElem?_eq_none_iff.mpr (not_lt.mp hcon)] at hget
        simp at hget
      have hget1 : world1.scene.force_jobs[i]? = some job := by
        rw [hreg, List.getElem?_append_left hi, hget]
      have hi1 : i < world1.scene.force_jobs.length := by
        by_contra hcon
        rw [List.getElem?_eq_none_iff.mpr (not_lt.mp hcon)] at hget1
        simp at hget1
      have hdrop : world1.scene.force_jobs.drop i =
          job :: world1.scene.force_jobs.drop (i + 1) := by
        rw [List.drop_eq_getElem_cons hi1]
        congr 1
        rw [List.getElem?_eq_getElem hi1] at hget1
        exact Option.some.inj hget1
      refine ⟨⟨_, hreg⟩, ?_⟩
      rw [hlog, hdrop]
      simp

omit [LinearOrderedField K] in
/-- A property of the world that every callback preserves holds after the job
phase. -/
theorem run_jobs_invariant (forces_job_run : force_job_t → world_t K E → world_t K E)
    (P : world_t K E → Prop) (hP : ∀ job world, P world → P (forces_job_run job world)) :
    ∀ (fuel i : Nat) (world : world_t K E) (log : List event_t) (world1 : world_t K E)
      (log1 : List event_t),
      run_jobs forces_job_run fuel i world log = some (world1, log1) → P world → P world1 := by
  intro fuel
  induction fuel with
  | zero =>
    intro i world log world1 log1 h hw
    unfold run_jobs at h
    cases hget : world.scene.force_jobs[i]? with
    | none =>
      rw [hget] at h
      simp only [Option.some.injEq, Prod.mk.injEq] at h
      rw [← h.1]
      exact hw
    | some job =>
      rw [hget] at h
      simp at h
  | succ fuel ih =>
    intro i world log world1 log1 h hw
    unfold run_jobs at h
    cases hget : world.scene.force_jobs[i]? with
    | none =>
      rw [hget] at h
      simp only [Option.some.injEq, Prod.mk.injEq] at h
      rw [← h.1]
      exact hw
    | some job =>
      rw [hget] at h
      exact ih _ _ _ _ _ h (hP job world hw)

omit [LinearOrderedField K] in
/-- The job phase returns when callbacks leave the registry as it is and the
fuel covers the jobs still to run. -/
theorem run_jobs_returns (forces_job_run : force_job_t → world_t K E → world_t K E)
    (hkeep : ∀ job world,
      (forces_job_run job world).scene.force_jobs = world.scene.force_jobs) :
    ∀ (fuel i : Nat) (world : world_t K E) (log : List event_t),
      world.scene.force_jobs.length ≤ i + fuel →
      ∃ world1 log1, run_jobs forces_job_run fuel i world log = some (world1, log1) := by
  intro fuel
  induction fuel with
  | zero =>
    intro i world log hlen
    unfold run_jobs
    rw [List.getElem?_eq_none_iff.mpr (by omega)]
    exact ⟨_, _, rfl⟩
  | succ fuel ih =>
    intro i world log hlen
    unfold run_jobs
    cases hget : world.scene.force_jobs[i]? with
    | none => exact ⟨_, _, rfl⟩
    | some job =>
      simp only
      exact ih (i + 1) _ _ (by rw [hkeep]; omega)

theorem remove_jobs_of_log (body : Nat) :
    ∀ (fuel j : Nat) (force_jobs : List force_job_t) (log : List event_t)
      (force_jobs2 : List force_job_t) (log2 : List event_t),
      remove_jobs_of body fuel j force_jobs log = some (force_jobs2, log2) →
      ∀ job, event_t.ran_job job ∈ log2 → event_t.ran_job job ∈ log := by
  intro fuel
  induction fuel with
  | zero =>
    intro j force_jobs log force_jobs2 log2 h job hjob
    unfold remove_jobs_of at h
    cases hget : force_jobs[j]? with
    | none =>
      rw [hget] at h
      simp only [Option.some.injEq, Prod.mk.injEq] at h
      rw [h.2]
      exact hjob
    | some force_job =>
      rw [hget] at h
      simp at h
  | succ fuel ih =>
    intro j force_jobs log force_jobs2 log2 h job hjob
    unfold remove_jobs_of at h
    cases hget : force_jobs[j]? with
    | none =>
      rw [hget] at h
      simp only [Option.some.injEq, Prod.mk.injEq] at h
      rw [h.2]
      exact hjob
    | some force_job =>
      rw [hget] at h
      simp only at h
      by_cases hl : job_lists_body force_job.bodies body = true
      · rw [if_pos hl] at h
        have h2 := ih _ _ _ _ _ h job hjob
        simpa using h2
      · rw [if_neg hl] at h
        exact ih _ _ _ _ _ h job hjob

theorem body_loop_log (M : Libm K) (dt : K) :
    ∀ (fuel : Nat) (i : Int) (scene : scene_t K) (log : List event_t) (scene2 : scene_t K)
      (log2 : List event_t),
      body_loop M dt fuel i scene log = some (scene2, log2) →
      ∀ job, event_t.ran_job job ∈ log2 → event_t.ran_job job ∈ log := by
  intro fuel
  induction fuel with
  | zero =>
    intro i scene log scene2 log2 h job hjob
    unfold body_loop at h
    by_cases hlt : i < (scene.bodies.length : Int)
    · rw [if_pos hlt] at h
      simp at h
    · rw [if_neg hlt] at h
      simp only [Option.some.injEq, Prod.mk.injEq] at h
      rw [h.2]
      exact hjob
  | succ fuel ih =>
    intro i scene log scene2 log2 h job hjob
    unfold body_loop at h
    by_cases hlt : i < (scene.bodies.length : Int)
    · rw [if_pos hlt] at h
      cases hget : scene.bodies[i.toNat]? with
      | none =>
        rw [hget] at h
        simp at h
      | some body =>
        rw [hget] at h
        dsimp only at h
        by_cases hr : body_is_removed body.2 = true
        · rw [if_pos hr] at h
          cases hrem : remove_jobs_of body.1 scene.force_jobs.length 0 scene.force_jobs log with
          | none =>
            rw [hrem] at h
            simp at h
          | some res =>
            obtain ⟨force_jobs, log1⟩ := res
            rw [hrem] at h
            dsimp only at h
            have h2 := ih _ _ _ _ _ h job hjob
            have h3 : event_t.ran_job job ∈ log1 := by simpa using h2
            exact remove_jobs_of_log body.1 _ _ _ _ _ _ hrem job h3
        · rw [if_neg hr] at h
          have h2 := ih _ _ _ _ _ h job hjob
          simpa using h2
    · rw [if_neg hlt] at h
      simp only [Option.some.injEq, Prod.mk.injEq] at h
      rw [h.2]
      exact hjob

end SceneOrder

section SceneOrderClaims

variable {K : Type} [LinearOrderedField K] {E : Type}

omit [LinearOrderedField K] in
theorem live_address_not_removed (bodies : List (Nat × body_t K))
    (hnodup : (bodies.map Prod.fst).Nodup) (b : Nat) (body : body_t K)
    (hmem : (b, body) ∈ bodies) (hremoved : body.removed = true) :
    b ∉ (bodies.filter (fun body => !body.2.removed)).map Prod.fst := by
  induction bodies with
  | nil => simp at hmem
  | cons p rest ih =>
    rw [List.map_cons, List.nodup_cons] at hnodup
    intro hcon
    rcases List.mem_cons.mp hmem with h1 | h1
    · rw [List.filter_cons] at hcon
      have hp : p.2.removed = true := by rw [← h1]; exact hremoved
      simp only [hp, Bool.not_true, Bool.false_eq_true, if_false] at hcon
      apply hnodup.1
      obtain ⟨q, hq, hqb⟩ := List.mem_map.mp hcon
      have hq2 := (List.mem_filter.mp hq).1
      have hb : p.1 = b := by rw [← h1]
      rw [hb, ← hqb]
      exact List.mem_map_of_mem _ hq2
    · by_cases hp : p.2.removed = true
      · rw [List.filter_cons] at hcon
        simp only [hp, Bool.not_true, Bool.false_eq_true, if_false] at hcon
        exact ih hnodup.2 h1 hcon
      · rw [List.filter_cons] at hcon
        have hp2 : (!p.2.removed) = true := by simpa using hp
        rw [if_pos hp2, List.map_cons] at hcon
        rcases List.mem_cons.mp hcon with h2 | h2
        · apply hnodup.1
          rw [← h2]
          exact List.mem_map_of_mem Prod.fst h1
        · exact ih hnodup.2 h1 h2

omit [LinearOrderedField K] in
theorem mem_removed_bodies (bodies : List (Nat × body_t K)) (b : Nat) (body : body_t K)
    (hmem : (b, body) ∈ bodies) (hremoved : body.removed = true) :
    b ∈ removed_bodies bodies := by
  unfold removed_bodies
  exact List.mem_map.mpr ⟨(b, body), List.mem_filter.mpr ⟨hmem, hremoved⟩, rfl⟩

omit [LinearOrderedField K] in
theorem ran_job_not_mem_body_pass_events (bodies : List (Nat × body_t K)) :
    ∀ (force_jobs : List force_job_t) (job : force_job_t),
      event_t.ran_job job ∉ body_pass_events force_jobs bodies := by
  induction bodies with
  | nil => intro force_jobs job; simp [body_pass_events]
  | cons body rest ih =>
    intro force_jobs job
    rw [body_pass_events.eq_2]
    by_cases hr : body.2.removed = true
    · rw [if_pos hr]
      simp [ih]
    · rw [if_neg hr]
      simp [ih]

omit [LinearOrderedField K] in
/-- The scene operations only append to the registry of jobs. -/
theorem scene_ops_registry (world world1 : world_t K E) (h : scene_ops world world1) :
    ∃ extra, world1.scene.force_jobs = world.scene.force_jobs ++ extra := by
  induction h with
  | refl => exact ⟨[], by simp⟩
  | add_body w1 body _ ih => exact ih
  | remove_body w1 index scene2 _ hrem ih =>
    obtain ⟨extra, he⟩ := ih
    refine ⟨extra, ?_⟩
    unfold scene_remove_body at hrem
    cases hget : w1.scene.bodies[index]? with
    | none =>
      rw [hget] at hrem
      simp at hrem
    | some new =>
      rw [hget] at hrem
      simp only [Option.some.injEq] at hrem
      rw [← hrem]
      exact he
  | add_bodies_force_creator w1 forcer aux bodies _ ih =>
    obtain ⟨extra, he⟩ := ih
    refine ⟨extra ++ [{ forcer := forcer, aux := aux, bodies := bodies }], ?_⟩
    simp only [scene_add_bodies_force_creator]
    rw [he, List.append_assoc]
  | write_body w1 index old new address _ _ ih => exact ih
  | write_aux w1 aux _ ih => exact ih

omit [LinearOrderedField K] in
/-- The job phase returns when the callbacks never let the registry grow beyond
`N` jobs and the fuel covers `N` callbacks; the registry then holds at most `N`
jobs. -/
theorem run_jobs_total (forces_job_run : force_job_t → world_t K E → world_t K E) (N : Nat)
    (hN : ∀ job w, w.scene.force_jobs.length ≤ N →
      (forces_job_run job w).scene.force_jobs.length ≤ N) :
    ∀ (fuel i : Nat) (world : world_t K E) (log : List event_t),
      world.scene.force_jobs.length ≤ N → N ≤ i + fuel →
      ∃ world1 log1, run_jobs forces_job_run fuel i world log = some (world1, log1) ∧
        world1.scene.force_jobs.length ≤ N := by
  intro fuel
  induction fuel with
  | zero =>
    intro i world log hlen hfuel
    unfold run_jobs
    rw [List.getElem?_eq_none_iff.mpr (by omega)]
    exact ⟨_, _, rfl, hlen⟩
  | succ fuel ih =>
    intro i world log hlen hfuel
    unfold run_jobs
    cases hget : world.scene.force_jobs[i]? with
    | none => exact ⟨_, _, rfl, hlen⟩
    | some job =>
      simp only
      exact ih (i + 1) _ _ (hN job world hlen) (by omega)

/-- C15: tick order. For callbacks that act through the scene operations and never
let the registry grow beyond `N < 2^64` jobs, `scene_tick` returns, and its log is
the job phase followed by the body pass: the job phase runs one callback per
registered job, in registration order, with no body integrated during it, and
the body pass runs no job. If a job `J` registered at the start lists `b` and `b`
is flagged removed when the job phase ends, then `J` and all other jobs still
ran, `b` is not ticked in this tick and is no longer in the scene, `J` is no
longer registered and no remaining job lists `b`; the next tick returns as well,
and no job that lists `b` runs in it, unless a callback registers a new one. -/
theorem scene_tick_order (forces_job_run : force_job_t → world_t K E → world_t K E)
    (M : Libm K) (fuel N : Nat) (world : world_t K E) (dt : K) (J : force_job_t) (b : Nat)
    (hcb : ∀ job w, scene_ops w (forces_job_run job w))
    (hN : ∀ job w, w.scene.force_jobs.length ≤ N →
      (forces_job_run job w).scene.force_jobs.length ≤ N)
    (hlen : world.scene.force_jobs.length ≤ N) (hfuel : N ≤ fuel) (hsize : N < SIZE_WIDTH)
    (hJ : J ∈ world.scene.force_jobs) (hbJ : b ∈ J.bodies) :
    ∃ world1 log1 scene2 log2,
      run_jobs forces_job_run fuel 0 world [] = some (world1, log1) ∧
      scene_tick forces_job_run M fuel world dt =
        some ({ world1 with scene := scene2 }, log1 ++ log2) ∧
      log1 = world1.scene.force_jobs.map event_t.ran_job ∧
      event_t.ran_job J ∈ log1 ∧
      (∀ job ∈ world.scene.force_jobs, event_t.ran_job job ∈ log1) ∧
      ticked_bodies log1 = [] ∧
      (∀ job, event_t.ran_job job ∉ log2) ∧
      (∀ body : body_t K, (b, body) ∈ world1.scene.bodies → body.removed = true →
        (world1.scene.bodies.map Prod.fst).Nodup →
        b ∉ ticked_bodies log2 ∧
        b ∉ scene2.bodies.map Prod.fst ∧
        J ∉ scene2.force_jobs ∧
        (∀ job ∈ scene2.force_jobs, b ∉ job.bodies) ∧
        (∀ (fuel2 : Nat) (dt2 : K), N ≤ fuel2 →
          (∀ job w, ∀ j ∈ (forces_job_run job w).scene.force_jobs,
            j ∈ w.scene.force_jobs ∨ b ∉ j.bodies) →
          ∃ world3 log3,
            scene_tick forces_job_run M fuel2 { world1 with scene := scene2 } dt2 =
              some (world3, log3) ∧
            ∀ job, event_t.ran_job job ∈ log3 → b ∉ job.bodies)) := by
  have hext : ∀ job w, ∃ extra,
      (forces_job_run job w).scene.force_jobs = w.scene.force_jobs ++ extra :=
    fun job w => scene_ops_registry _ _ (hcb job w)
  obtain ⟨world1, log1, hrun, hlen1⟩ :=
    run_jobs_total forces_job_run N hN fuel 0 world [] hlen (by omega)
  obtain ⟨⟨extra, hreg⟩, hlog⟩ := run_jobs_spec forces_job_run hext _ _ _ _ _ _ hrun
  rw [List.nil_append, List.drop_zero] at hlog
  have hjobs : world1.scene.force_jobs.length < SIZE_WIDTH := lt_of_le_of_lt hlen1 hsize
  have hpass := scene_body_pass_spec M dt world1.scene log1 hjobs
  refine ⟨world1, log1,
    (⟨size_dec^[(removed_bodies world1.scene.bodies).length] world1.scene.num_bodies,
      filter_then_integrate M dt world1.scene.bodies,
      jobs_without (removed_bodies world1.scene.bodies) world1.scene.force_jobs⟩ : scene_t K),
    body_pass_events world1.scene.force_jobs world1.scene.bodies, hrun, ?_, hlog, ?_, ?_, ?_,
    ?_, ?_⟩
  · unfold scene_tick
    rw [hrun]
    dsimp only
    rw [hpass]
  · rw [hlog, hreg]
    exact List.mem_map_of_mem _ (List.mem_append_left _ hJ)
  · intro job hjob
    rw [hlog, hreg]
    exact List.mem_map_of_mem _ (List.mem_append_left _ hjob)
  · rw [hlog]
    exact ticked_bodies_ran_jobs _
  · intro job
    exact ran_job_not_mem_body_pass_events _ _ _
  · intro body hflag hremoved hnodup
    have hkept : ∀ job ∈ jobs_without (removed_bodies world1.scene.bodies)
        world1.scene.force_jobs, b ∉ job.bodies := by
      intro job hjob
      exact ((mem_jobs_without _ _ job).mp hjob).2 b
        (mem_removed_bodies _ b body hflag hremoved)
    refine ⟨?_, ?_, ?_, hkept, ?_⟩
    · rw [ticked_bodies_body_pass_events]
      exact live_address_not_removed _ hnodup b body hflag hremoved
    · show b ∉ (filter_then_integrate M dt world1.scene.bodies).map Prod.fst
      rw [filter_then_integrate_addresses]
      exact live_address_not_removed _ hnodup b body hflag hremoved
    · intro hcon
      exact hkept J hcon hbJ
    · intro fuel2 dt2 hfuel2 hnew
      have hlen2 : (jobs_without (removed_bodies world1.scene.bodies)
          world1.scene.force_jobs).length ≤ N := by
        unfold jobs_without
        exact le_trans (List.length_filter_le _ _) hlen1
      obtain ⟨world2, log2, hrun2, hlen3⟩ :=
        run_jobs_total forces_job_run N hN fuel2 0
          { world1 with
            scene := { num_bodies := size_dec^[(removed_bodies world1.scene.bodies).length]
                        world1.scene.num_bodies,
                       bodies := filter_then_integrate M dt world1.scene.bodies,
                       force_jobs := jobs_without (removed_bodies world1.scene.bodies)
                        world1.scene.force_jobs } } [] hlen2 (by omega)
      have hpass2 := scene_body_pass_spec M dt2 world2.scene log2
        (lt_of_le_of_lt hlen3 hsize)
      refine ⟨{ world2 with
          scene := { num_bodies := size_dec^[(removed_bodies world2.scene.bodies).length]
                      world2.scene.num_bodies,
                     bodies := filter_then_integrate M dt2 world2.scene.bodies,
                     force_jobs := jobs_without (removed_bodies world2.scene.bodies)
                      world2.scene.force_jobs } },
        log2 ++ body_pass_events world2.scene.force_jobs world2.scene.bodies, ?_, ?_⟩
      · unfold scene_tick
        rw [hrun2]
        dsimp only
        rw [hpass2]
      · intro job hjob
        have hjob2 : event_t.ran_job job ∈ log2 := by
          rcases List.mem_append.mp hjob with h | h
          · exact h
          · exact absurd h (ran_job_not_mem_body_pass_events _ _ _)
        obtain ⟨_, hlog2⟩ := run_jobs_spec forces_job_run hext _ _ _ _ _ _ hrun2
        rw [List.nil_append, List.drop_zero] at hlog2
        rw [hlog2] at hjob2
        obtain ⟨j, hj, hjeq⟩ := List.mem_map.mp hjob2
        have hjj : j = job := by injection hjeq
        rw [hjj] at hj
        have hinv := run_jobs_invariant forces_job_run
          (fun w => ∀ j ∈ w.scene.force_jobs, b ∉ j.bodies)
          (fun job0 w hw j hj0 => by
            rcases hnew job0 w j hj0 with h1 | h1
            · exact hw j h1
            · exact h1)
          _ _ _ _ _ _ hrun2 hkept
        exact hinv job hj

theorem scene_tick_order_witness :
    ∃ scene2 log2,
      scene_tick flag_run libm_unused 1 flag_world 1 =
        some ({ flag_world_flagged with scene := scene2 },
          [event_t.ran_job ⟨0, 0, [1]⟩] ++ log2) ∧
      1 ∉ ticked_bodies log2 ∧ 1 ∉ scene2.bodies.map Prod.fst ∧
      (⟨0, 0, [1]⟩ : force_job_t) ∉ scene2.force_jobs := by
  obtain ⟨world1, log1, scene2, log2, hrun, htick, _, _, _, _, _, hb⟩ :=
    scene_tick_order flag_run libm_unused 1 1 flag_world 1 ⟨0, 0, [1]⟩ 1
      (by
        intro job w
        unfold flag_run
        cases hrem : scene_remove_body w.scene 0 with
        | none => exact scene_ops.refl w
        | some scene => exact scene_ops.remove_body w w 0 scene (scene_ops.refl w) hrem)
      (by
        intro job w hw
        unfold flag_run scene_remove_body
        cases w.scene.bodies[0]? <;> simpa using hw)
      (by simp [flag_world, scene_add_bodies_force_creator, scene_add_body, scene_init])
      (le_refl _) (by norm_num [SIZE_WIDTH])
      (by simp [flag_world, scene_add_bodies_force_creator, scene_add_body, scene_init])
      (by simp)
  have hval : run_jobs flag_run 1 0 flag_world [] =
      some (flag_world_flagged, [event_t.ran_job ⟨0, 0, [1]⟩]) := rfl
  rw [hval] at hrun
  simp only [Option.some.injEq, Prod.mk.injEq] at hrun
  obtain ⟨hw, hl⟩ := hrun
  subst hw
  subst hl
  obtain ⟨h2, h3, h4, _⟩ := hb (body_remove square_body) (by simp [flag_world_flagged]) rfl
    (by simp [flag_world_flagged])
  exact ⟨scene2, log2, htick, h2, h3, h4⟩

end SceneOrderClaims

section SceneAdded

variable {K : Type} [LinearOrderedField K] {E : Type}

/-- C16, counterexample: a job callback adds an unflagged body on the unit
square with velocity (1, 0) during the job phase; the same `scene_tick` with
`dt = 1` integrates it: a `ticked` event is logged for it and its vertices at
the end of the tick are those it was added with moved by (1, 0). -/
theorem scene_tick_added_body_counterexample :
    ∃ world1 log, scene_tick spawn_run libm_unused 1 spawn_world 1 = some (world1, log) ∧
      ticked_bodies log = [7] ∧
      body_get_shape spawn_body.2 = [⟨0, 0⟩, ⟨1, 0⟩, ⟨1, 1⟩, ⟨0, 1⟩] ∧
      (scene_get_body world1.scene 0).map (fun p => body_get_shape p.2) =
        some [⟨1, 0⟩, ⟨2, 0⟩, ⟨2, 1⟩, ⟨1, 1⟩] := by
  have hrun : run_jobs spawn_run 1 0 spawn_world [] =
      some (spawn_world_added, [event_t.ran_job ⟨0, 0, []⟩]) := rfl
  have hpass := scene_body_pass_spec libm_unused 1 spawn_world_added.scene
    [event_t.ran_job ⟨0, 0, []⟩] (by norm_num [spawn_world_added, SIZE_WIDTH])
  refine ⟨{ scene := ⟨1, [(7, body_tick libm_unused spawn_body.2 1)], [⟨0, 0, []⟩]⟩, aux := () },
    [event_t.ran_job ⟨0, 0, []⟩, event_t.ticked 7], ?_, rfl, rfl, ?_⟩
  · unfold scene_tick
    rw [hrun]
    dsimp only
    rw [hpass]
    rfl
  · have hget : scene_get_body
        (⟨1, [(7, body_tick libm_unused spawn_body.2 1)], [⟨0, 0, []⟩]⟩ : scene_t ℚ) 0 =
        some (7, body_tick libm_unused spawn_body.2 1) := rfl
    dsimp only
    rw [hget]
    norm_num [body_tick, body_get_shape, polygon_get_points, spawn_body, body_set_velocity,
      polygon_set_velocity, square_body, body_init, body_init_with_info, polygon_init,
      unit_square, get_new_velocity, body_get_velocity, polygon_get_velocity, mass_reciprocal,
      vec_add, vec_multiply, VEC_ZERO, polygon_translate, VELOCITY_AVG_FACTOR]

/-- C16, amended: a body that is in the scene and not flagged removed when the
job phase of a `scene_tick` ends, in particular one that a callback added during
that job phase, is integrated in that same tick: the tick returns, the body is
advanced by exactly one `body_tick`, and it is ticked once, in list order. -/
theorem scene_tick_added_body (forces_job_run : force_job_t → world_t K E → world_t K E)
    (M : Libm K) (fuel : Nat) (world world1 : world_t K E) (dt : K) (log1 : List event_t)
    (pre post : List (Nat × body_t K)) (b : Nat) (body : body_t K)
    (hrun : run_jobs forces_job_run fuel 0 world [] = some (world1, log1))
    (hjobs : world1.scene.force_jobs.length < SIZE_WIDTH)
    (hbodies : world1.scene.bodies = pre ++ (b, body) :: post)
    (hlive : body.removed = false) :
    ∃ scene2 log2,
      scene_tick forces_job_run M fuel world dt =
        some ({ world1 with scene := scene2 }, log1 ++ log2) ∧
      scene2.bodies = filter_then_integrate M dt pre ++
        (b, body_tick M body dt) :: filter_then_integrate M dt post ∧
      ticked_bodies log2 = (pre.filter (fun body => !body.2.removed)).map Prod.fst ++
        b :: (post.filter (fun body => !body.2.removed)).map Prod.fst := by
  have hpass := scene_body_pass_spec M dt world1.scene log1 hjobs
  refine ⟨(⟨size_dec^[(removed_bodies world1.scene.bodies).length] world1.scene.num_bodies,
      filter_then_integrate M dt world1.scene.bodies,
      jobs_without (removed_bodies world1.scene.bodies) world1.scene.force_jobs⟩ : scene_t K),
    body_pass_events world1.scene.force_jobs world1.scene.bodies, ?_, ?_, ?_⟩
  · unfold scene_tick
    rw [hrun]
    dsimp only
    rw [hpass]
  · show filter_then_integrate M dt world1.scene.bodies = _
    rw [hbodies, filter_then_integrate_append, filter_then_integrate_cons]
    simp [hlive]
  · rw [ticked_bodies_body_pass_events, hbodies]
    simp [List.filter_cons, hlive]

theorem scene_tick_added_body_witness :
    ∃ scene2 log2,
      scene_tick spawn_run libm_unused 1 spawn_world 1 =
        some ({ spawn_world_added with scene := scene2 },
          [event_t.ran_job ⟨0, 0, []⟩] ++ log2) ∧
      scene2.bodies = [(7, body_tick libm_unused spawn_body.2 1)] ∧
      ticked_bodies log2 = [7] := by
  obtain ⟨scene2, log2, h1, h2, h3⟩ :=
    scene_tick_added_body spawn_run libm_unused 1 spawn_world spawn_world_added 1
      [event_t.ran_job ⟨0, 0, []⟩] [] [] 7 spawn_body.2 rfl
      (by norm_num [spawn_world_added, SIZE_WIDTH]) rfl rfl
  exact ⟨scene2, log2, h1, h2, h3⟩

theorem size_dec_mod (len : Nat) (h : 1 ≤ len) :
    size_dec (len % SIZE_WIDTH) = (len - 1) % SIZE_WIDTH := by
  unfold size_dec SIZE_WIDTH
  norm_num
  omega

theorem size_inc_mod (len : Nat) : size_inc (len % SIZE_WIDTH) = (len + 1) % SIZE_WIDTH := by
  unfold size_inc SIZE_WIDTH
  norm_num

omit [LinearOrderedField K] in
theorem scene_ops_invariant (world world1 : world_t K E) (h : scene_ops world world1)
    (hinv : scene_count_invariant world.scene) : scene_count_invariant world1.scene := by
  induction h with
  | refl => exact hinv
  | add_body w1 body _ ih =>
    unfold scene_count_invariant scene_add_body at *
    dsimp only
    rw [ih, size_inc_mod, List.length_append, List.length_singleton]
  | remove_body w1 index scene2 _ hrem ih =>
    unfold scene_count_invariant scene_remove_body at *
    cases hget : w1.scene.bodies[index]? with
    | none =>
      rw [hget] at hrem
      simp at hrem
    | some new =>
      rw [hget] at hrem
      simp only [Option.some.injEq] at hrem
      rw [← hrem]
      dsimp only
      rw [List.length_set]
      exact ih
  | add_bodies_force_creator w1 forcer aux bodies _ ih => exact ih
  | write_body w1 index old new address _ _ ih =>
    unfold scene_count_invariant at *
    dsimp only
    rw [List.length_set]
    exact ih
  | write_aux w1 aux _ ih => exact ih

theorem body_loop_invariant (M : Libm K) (dt : K) :
    ∀ (fuel : Nat) (i : Int) (scene : scene_t K) (log : List event_t) (scene2 : scene_t K)
      (log2 : List event_t),
      body_loop M dt fuel i scene log = some (scene2, log2) →
      scene_count_invariant scene → scene_count_invariant scene2 := by
  intro fuel
  induction fuel with
  | zero =>
    intro i scene log scene2 log2 h hinv
    unfold body_loop at h
    by_cases hlt : i < (scene.bodies.length : Int)
    · rw [if_pos hlt] at h
      simp at h
    · rw [if_neg hlt] at h
      simp only [Option.some.injEq, Prod.mk.injEq] at h
      rw [← h.1]
      exact hinv
  | succ fuel ih =>
    intro i scene log scene2 log2 h hinv
    unfold body_loop at h
    by_cases hlt : i < (scene.bodies.length : Int)
    · rw [if_pos hlt] at h
      cases hget : scene.bodies[i.toNat]? with
      | none =>
        rw [hget] at h
        simp at h
      | some body =>
        rw [hget] at h
        dsimp only at h
        have hi : i.toNat < scene.bodies.length := by
          by_contra hcon
          rw [List.getElem?_eq_none_iff.mpr (not_lt.mp hcon)] at hget
          simp at hget
        by_cases hr : body_is_removed body.2 = true
        · rw [if_pos hr] at h
          cases hrem : remove_jobs_of body.1 scene.force_jobs.length 0 scene.force_jobs log with
          | none =>
            rw [hrem] at h
            simp at h
          | some res =>
            obtain ⟨force_jobs, log1⟩ := res
            rw [hrem] at h
            dsimp only at h
            refine ih _ _ _ _ _ h ?_
            unfold scene_count_invariant at *
            dsimp only
            unfold list_remove
            rw [hinv, size_dec_mod _ (by omega), List.length_eraseIdx, if_pos hi]
        · rw [if_neg hr] at h
          refine ih _ _ _ _ _ h ?_
          unfold scene_count_invariant at *
          dsimp only
          rw [List.length_set]
          exact hinv
    · rw [if_neg hlt] at h
      simp only [Option.some.injEq, Prod.mk.injEq] at h
      rw [← h.1]
      exact hinv

theorem scene_tick_invariant (forces_job_run : force_job_t → world_t K E → world_t K E)
    (M : Libm K) (hcb : ∀ job world, scene_ops world (forces_job_run job world))
    (fuel : Nat) (world world1 : world_t K E) (dt : K) (log : List event_t)
    (htick : scene_tick forces_job_run M fuel world dt = some (world1, log))
    (hinv : scene_count_invariant world.scene) : scene_count_invariant world1.scene := by
  unfold scene_tick at htick
  cases hrun : run_jobs forces_job_run fuel 0 world [] with
  | none =>
    rw [hrun] at htick
    simp at htick
  | some res =>
    obtain ⟨world2, log2⟩ := res
    rw [hrun] at htick
    dsimp only at htick
    have h2 : scene_count_invariant world2.scene :=
      run_jobs_invariant forces_job_run (fun w => scene_count_invariant w.scene)
        (fun job w hw => scene_ops_invariant _ _ (hcb job w) hw) _ _ _ _ _ _ hrun hinv
    cases hpass : scene_body_pass M dt world2.scene log2 with
    | none =>
      rw [hpass] at htick
      simp at htick
    | some res2 =>
      obtain ⟨scene3, log3⟩ := res2
      rw [hpass] at htick
      simp only [Option.some.injEq, Prod.mk.injEq] at htick
      rw [← htick.1]
      exact body_loop_invariant M dt _ _ _ _ _ _ hpass h2

/-- C29: in every world reachable from `scene_init` by `scene_add_body`,
`scene_remove_body`, `scene_add_bodies_force_creator` and `scene_tick` (whose
callbacks act through the same operations), the counter is the number of stored
bodies as a `size_t`; so while fewer than `2^64` bodies are stored,
`scene_bodies` is the length of the body list and `scene_get_body` accepts
exactly the indices of stored bodies. -/
theorem scene_count_invariant_reachable
    (forces_job_run : force_job_t → world_t K E → world_t K E) (M : Libm K)
    (hcb : ∀ job world, scene_ops world (forces_job_run job world))
    (world : world_t K E) (hreach : scene_reachable forces_job_run M world) :
    scene_count_invariant world.scene ∧
    (world.scene.bodies.length < SIZE_WIDTH →
      scene_bodies world.scene = world.scene.bodies.length ∧
      ∀ i, (scene_get_body world.scene i).isSome = true ↔ i < world.scene.bodies.length) := by
  have hinv : scene_count_invariant world.scene := by
    induction hreach with
    | init aux =>
      unfold scene_count_invariant scene_init
      rfl
    | ops w w1 _ hops ih => exact scene_ops_invariant _ _ hops ih
    | tick w w1 fuel dt log _ htick ih =>
      exact scene_tick_invariant forces_job_run M hcb fuel w w1 dt log htick ih
  refine ⟨hinv, fun hsize => ?_⟩
  have hnum : world.scene.num_bodies = world.scene.bodies.length := by
    unfold scene_count_invariant at hinv
    rw [hinv, Nat.mod_eq_of_lt hsize]
  refine ⟨hnum, fun i => ?_⟩
  unfold scene_get_body
  rw [hnum]
  constructor
  · intro h
    by_contra hcon
    rw [if_neg hcon] at h
    simp at h
  · intro h
    rw [if_pos h, List.getElem?_eq_getElem h]
    rfl

theorem scene_count_invariant_reachable_witness :
    scene_count_invariant ({ spawn_world with
      scene := scene_add_body spawn_world.scene spawn_body }).scene := by
  have h := scene_count_invariant_reachable spawn_run libm_unused
    (fun job w => scene_ops.add_body w w spawn_body (scene_ops.refl w))
    { spawn_world with scene := scene_add_body spawn_world.scene spawn_body }
    (scene_reachable.ops _ _
      (scene_reachable.ops _ _ (scene_reachable.init ())
        (scene_ops.add_bodies_force_creator _ _ 0 0 [] (scene_ops.refl _)))
      (scene_ops.add_body _ _ spawn_body (scene_ops.refl _)))
  exact h.1

end SceneAdded

section SceneLookup

variable {K : Type}

/-! ## scene.c: the body counter -/

/-- C24: on a scene whose counter is the length of its body list,
`scene_get_body` fails exactly for the indices `i >= scene_bodies`, and for
`i < scene_bodies` it returns the `i`-th stored body; `scene_add_body` stores the
new body at the end, at index `scene_bodies`, and leaves the bodies at the
indices before it in place. -/
theorem scene_get_body_spec (scene : scene_t K) (i : Nat)
    (hcount : scene.num_bodies = scene.bodies.length) :
    (scene_get_body scene i = none ↔ scene_bodies scene ≤ i) ∧
    (i < scene_bodies scene →
      scene_get_body scene i = scene.bodies[i]? ∧ (scene_get_body scene i).isSome = true) ∧
    (∀ body : Nat × body_t K, scene.bodies.length + 1 < SIZE_WIDTH →
      scene_bodies (scene_add_body scene body) = scene_bodies scene + 1 ∧
      scene_get_body (scene_add_body scene body) (scene_bodies scene) = some body ∧
      (i < scene_bodies scene →
        scene_get_body (scene_add_body scene body) i = scene_get_body scene i)) := by
  unfold scene_get_body scene_bodies scene_add_body
  refine ⟨?_, ?_, ?_⟩
  · constructor
    · intro h
      by_contra hcon
      rw [if_pos (not_le.mp hcon)] at h
      rw [List.getElem?_eq_none_iff] at h
      omega
    · intro h
      rw [if_neg (not_lt.mpr h)]
  · intro h
    rw [if_pos h]
    refine ⟨rfl, ?_⟩
    rw [List.getElem?_eq_getElem (by omega)]
    rfl
  · intro body hsize
    have hinc : size_inc scene.num_bodies = scene.num_bodies + 1 :=
      size_inc_lt _ (by omega)
    dsimp only
    rw [hinc]
    refine ⟨rfl, ?_, ?_⟩
    · rw [if_pos (Nat.lt_succ_self _), hcount, List.getElem?_append_right (le_refl _)]
      simp
    · intro h
      rw [if_pos h, if_pos (Nat.lt_succ_of_lt h), List.getElem?_append_left (by omega)]

theorem scene_get_body_spec_witness :
    scene_get_body gc_scene 2 = none ∧ scene_get_body gc_scene 0 = some (1, square_body) := by
  have h := scene_get_body_spec gc_scene 2 rfl
  have h0 := scene_get_body_spec gc_scene 0 rfl
  refine ⟨h.1.mpr (le_refl _), ?_⟩
  rw [(h0.2.1 (by decide)).1]
  rfl

end SceneLookup

/-! # Theorems about polygon.c: translation, centroid, rotation -/

section CentroidClaims

variable {K : Type} [LinearOrderedField K]

/-- C21: translating a polygon by `v` and then by `vec_negate v` gives back the
polygon: the same number of vertices, in the same order, each with its original
coordinates. -/
theorem polygon_translate_round_trip (polygon : polygon_t K) (v : vector_t K) :
    polygon_translate (polygon_translate polygon v) (vec_negate v) = polygon ∧
    list_size (polygon_get_points (polygon_translate (polygon_translate polygon v)
      (vec_negate v))) = list_size (polygon_get_points polygon) ∧
    ∀ i, list_get (polygon_get_points (polygon_translate (polygon_translate polygon v)
      (vec_negate v))) i = list_get (polygon_get_points polygon) i := by
  have h : polygon_translate (polygon_translate polygon v) (vec_negate v) = polygon := by
    unfold polygon_translate
    simp only [List.map_map]
    have hid : polygon.points.map
        ((fun vertex => vec_add vertex (vec_negate v)) ∘ fun vertex => vec_add vertex v) =
        polygon.points := by
      conv_rhs => rw [← List.map_id polygon.points]
      apply List.map_congr_left
      intro w _
      simp only [Function.comp, vec_add, vec_negate, id]
      ext <;> simp only <;> ring
    rw [hid]
  rw [h]
  exact ⟨rfl, rfl, fun _ => rfl⟩

theorem centroid_loop_triangle (a b c : vector_t K) :
    centroid_loop [a, b, c] =
      (vec_cross a b + vec_cross b c + vec_cross c a,
       ⟨(b.x + a.x) * vec_cross a b + (c.x + b.x) * vec_cross b c +
          (a.x + c.x) * vec_cross c a,
        (b.y + a.y) * vec_cross a b + (c.y + b.y) * vec_cross b c +
          (a.y + c.y) * vec_cross c a⟩) := by
  simp [centroid_loop, list_size, list_get, List.range_succ]

theorem polygon_centroid_of_triangle (polygon : polygon_t K) (a b c : vector_t K)
    (hpoints : polygon.points = [a, b, c]) (harea : signed_area [a, b, c] ≠ 0) :
    polygon_centroid polygon = ⟨(a.x + b.x + c.x) / 3, (a.y + b.y + c.y) / 3⟩ := by
  unfold signed_area at harea
  rw [centroid_loop_triangle] at harea
  unfold polygon_centroid
  rw [hpoints, centroid_loop_triangle]
  have h6 : (CENTROID_SCALE : K) * ((vec_cross a b + vec_cross b c + vec_cross c a) * (1 / 2))
      ≠ 0 := by
    unfold CENTROID_SCALE
    exact mul_ne_zero (by norm_num) harea
  ext
  · simp only
    rw [div_eq_div_iff h6 (by norm_num)]
    unfold CENTROID_SCALE vec_cross
    ring
  · simp only
    rw [div_eq_div_iff h6 (by norm_num)]
    unfold CENTROID_SCALE vec_cross
    ring

theorem signed_area_triangle_reverse (a b c : vector_t K) :
    signed_area [c, b, a] = -signed_area [a, b, c] := by
  unfold signed_area
  rw [centroid_loop_triangle, centroid_loop_triangle]
  unfold vec_cross
  ring

/-- C27, amended: in exact arithmetic, for a triangle of non-zero signed area
`polygon_centroid` returns the mean of the three vertices, and so it does for the
same triangle listed in the opposite winding, whose signed area has the opposite
sign. -/
theorem polygon_centroid_triangle (polygon reversed : polygon_t K) (a b c : vector_t K)
    (hpoints : polygon.points = [a, b, c]) (hreversed : reversed.points = [c, b, a])
    (harea : signed_area polygon.points ≠ 0) :
    polygon_centroid polygon = ⟨(a.x + b.x + c.x) / 3, (a.y + b.y + c.y) / 3⟩ ∧
    signed_area reversed.points = -signed_area polygon.points ∧
    polygon_centroid reversed = ⟨(a.x + b.x + c.x) / 3, (a.y + b.y + c.y) / 3⟩ := by
  rw [hpoints] at harea
  refine ⟨polygon_centroid_of_triangle polygon a b c hpoints harea, ?_, ?_⟩
  · rw [hpoints, hreversed]
    exact signed_area_triangle_reverse a b c
  · rw [polygon_centroid_of_triangle reversed c b a hreversed
      (by rw [signed_area_triangle_reverse]; exact neg_ne_zero.mpr harea)]
    ext <;> simp only <;> ring

theorem polygon_centroid_triangle_witness :
    polygon_centroid triangle_polygon = ⟨1, 2⟩ ∧
    polygon_centroid (polygon_init [⟨0, 6⟩, ⟨3, 0⟩, ⟨0, 0⟩] ⟨0, 0⟩ 0 1 1 1 : polygon_t ℚ) =
      ⟨1, 2⟩ := by
  have h := polygon_centroid_triangle triangle_polygon
    (polygon_init [⟨0, 6⟩, ⟨3, 0⟩, ⟨0, 0⟩] ⟨0, 0⟩ 0 1 1 1) ⟨0, 0⟩ ⟨3, 0⟩ ⟨0, 6⟩ rfl rfl
    (by
      unfold signed_area triangle_polygon polygon_init
      rw [centroid_loop_triangle]
      norm_num [vec_cross])
  refine ⟨?_, ?_⟩
  · rw [h.1]
    norm_num
  · rw [h.2.2]
    norm_num

/-- C23, counterexample: `body_init` and `body_init_with_info` return a body for
vertex lists of length 0, 1 and 2; the shape of the body is the given list. -/
theorem body_init_short_shape_counterexample :
    body_get_shape (body_init ([] : List (vector_t ℚ)) (mass_t.finite 1) WHITE) = [] ∧
    body_get_shape (body_init [⟨0, 0⟩] (mass_t.finite 1) WHITE) = [⟨0, 0⟩] ∧
    body_get_shape (body_init_with_info [⟨0, 0⟩, ⟨1, 0⟩] (mass_t.finite 1) WHITE none) =
      [⟨0, 0⟩, ⟨1, 0⟩] :=
  ⟨rfl, rfl, rfl⟩

/-- C23, amended: `body_init` and `body_init_with_info` check no vertex count.
For every vertex list, of any length, they return a body on that list, at rest,
with no pending force or impulse and not flagged removed. -/
theorem body_init_any_shape (shape : List (vector_t K)) (mass : mass_t K)
    (color : rgb_color_t K) (info : Option Nat) :
    body_get_shape (body_init shape mass color) = shape ∧
    body_get_shape (body_init_with_info shape mass color info) = shape ∧
    body_get_velocity (body_init shape mass color) = VEC_ZERO ∧
    (body_init shape mass color).force = VEC_ZERO ∧
    (body_init shape mass color).impulse = VEC_ZERO ∧
    body_is_removed (body_init shape mass color) = false :=
  ⟨rfl, rfl, rfl, rfl, rfl, rfl⟩

end CentroidClaims

section RotationClaims

variable {K : Type} [LinearOrderedField K]

theorem list_get_map (f : vector_t K → vector_t K) (points : List (vector_t K)) (i : Nat)
    (hi : i < list_size points) :
    list_get (points.map f) i = f (list_get points i) := by
  unfold list_get
  unfold list_size at hi
  rw [List.getD_eq_getElem _ _ (by simpa using hi), List.getD_eq_getElem _ _ hi,
    List.getElem_map]

theorem centroid_loop_rotate (M : Libm K) (angle : K)
    (hunit : M.cos angle * M.cos angle + M.sin angle * M.sin angle = 1)
    (points : List (vector_t K)) :
    centroid_loop (points.map (fun vertex => vec_rotate M vertex angle)) =
      ((centroid_loop points).1, vec_rotate M (centroid_loop points).2 angle) := by
  rw [centroid_loop_eq_sum, centroid_loop_eq_sum]
  have hlen : list_size (points.map (fun vertex => vec_rotate M vertex angle)) =
      list_size points := by
    simp [list_size]
  rw [hlen]
  set n := list_size points with hn
  have hget : ∀ i, i < n → list_get (points.map (fun vertex => vec_rotate M vertex angle)) i =
      vec_rotate M (list_get points i) angle := fun i hi => list_get_map _ points i hi
  have hnext : ∀ i, i < n → (i + 1) % n < n := fun i hi =>
    Nat.mod_lt _ (Nat.lt_of_le_of_lt (Nat.zero_le i) hi)
  have hcross : ∀ v w : vector_t K,
      vec_cross (vec_rotate M v angle) (vec_rotate M w angle) = vec_cross v w := by
    intro v w
    simp only [vec_cross, vec_rotate]
    linear_combination (v.x * w.y - v.y * w.x) * hunit
  have h1 : ∑ i in Finset.range n,
        vec_cross (list_get (points.map (fun vertex => vec_rotate M vertex angle)) i)
          (list_get (points.map (fun vertex => vec_rotate M vertex angle)) ((i + 1) % n)) =
      ∑ i in Finset.range n, vec_cross (list_get points i) (list_get points ((i + 1) % n)) := by
    apply Finset.sum_congr rfl
    intro i hi
    have hi2 := Finset.mem_range.mp hi
    rw [hget i hi2, hget _ (hnext i hi2), hcross]
  have h2 : ∑ i in Finset.range n,
        ((list_get (points.map (fun vertex => vec_rotate M vertex angle)) ((i + 1) % n)).x +
            (list_get (points.map (fun vertex => vec_rotate M vertex angle)) i).x) *
          vec_cross (list_get (points.map (fun vertex => vec_rotate M vertex angle)) i)
            (list_get (points.map (fun vertex => vec_rotate M vertex angle)) ((i + 1) % n)) =
      (∑ i in Finset.range n,
          ((list_get points ((i + 1) % n)).x + (list_get points i).x) *
            vec_cross (list_get points i) (list_get points ((i + 1) % n))) * M.cos angle -
        (∑ i in Finset.range n,
          ((list_get points ((i + 1) % n)).y + (list_get points i).y) *
            vec_cross (list_get points i) (list_get points ((i + 1) % n))) * M.sin angle := by
    rw [Finset.sum_mul, Finset.sum_mul, ← Finset.sum_sub_distrib]
    apply Finset.sum_congr rfl
    intro i hi
    have hi2 := Finset.mem_range.mp hi
    rw [hget i hi2, hget _ (hnext i hi2), hcross]
    simp only [vec_rotate]
    ring
  have h3 : ∑ i in Finset.range n,
        ((list_get (points.map (fun vertex => vec_rotate M vertex angle)) ((i + 1) % n)).y +
            (list_get (points.map (fun vertex => vec_rotate M vertex angle)) i).y) *
          vec_cross (list_get (points.map (fun vertex => vec_rotate M vertex angle)) i)
            (list_get (points.map (fun vertex => vec_rotate M vertex angle)) ((i + 1) % n)) =
      (∑ i in Finset.range n,
          ((list_get points ((i + 1) % n)).x + (list_get points i).x) *
            vec_cross (list_get points i) (list_get points ((i + 1) % n))) * M.sin angle +
        (∑ i in Finset.range n,
          ((list_get points ((i + 1) % n)).y + (list_get points i).y) *
            vec_cross (list_get points i) (list_get points ((i + 1) % n))) * M.cos angle := by
    rw [Finset.sum_mul, Finset.sum_mul, ← Finset.sum_add_distrib]
    apply Finset.sum_congr rfl
    intro i hi
    have hi2 := Finset.mem_range.mp hi
    rw [hget i hi2, hget _ (hnext i hi2), hcross]
    simp only [vec_rotate]
    ring
  rw [h1, h2, h3]
  rfl

theorem signed_area_rotate (M : Libm K) (angle : K)
    (hunit : M.cos angle * M.cos angle + M.sin angle * M.sin angle = 1)
    (polygon : polygon_t K) (point : vector_t K) :
    signed_area (polygon_rotate M polygon angle point).points = signed_area polygon.points := by
  unfold polygon_rotate polygon_translate
  simp only
  rw [signed_area_translate]
  unfold signed_area
  rw [centroid_loop_rotate M angle hunit]
  exact signed_area_translate polygon.points (vec_negate point)

theorem polygon_centroid_eq_of_points (p q : polygon_t K) (h : p.points = q.points) :
    polygon_centroid p = polygon_centroid q := by
  unfold polygon_centroid
  rw [h]

/-- Rotating a polygon of non-zero signed area about its centroid leaves the
centroid where it is. -/
theorem polygon_centroid_rotate (M : Libm K) (angle : K)
    (hunit : M.cos angle * M.cos angle + M.sin angle * M.sin angle = 1)
    (polygon : polygon_t K) (harea : signed_area polygon.points ≠ 0) :
    polygon_centroid (polygon_rotate M polygon angle (polygon_centroid polygon)) =
      polygon_centroid polygon := by
  set c := polygon_centroid polygon with hc
  have h0 : polygon_centroid (polygon_translate polygon (vec_negate c)) = VEC_ZERO := by
    rw [polygon_centroid_translate polygon _ harea, ← hc]
    unfold vec_add vec_negate VEC_ZERO
    ext <;> simp
  have harea1 : signed_area (polygon_translate polygon (vec_negate c)).points ≠ 0 := by
    unfold polygon_translate
    simp only
    rw [signed_area_translate]
    exact harea
  -- the polygon turned about the origin
  have hrot : polygon_centroid
      { polygon_translate polygon (vec_negate c) with
        points := ((polygon_translate polygon (vec_negate c)).points.map
          (fun vertex => vec_rotate M vertex angle)) } = VEC_ZERO := by
    unfold polygon_centroid at h0 ⊢
    simp only
    rw [centroid_loop_rotate M angle hunit]
    simp only [vec_rotate]
    have hx := congrArg vector_t.x h0
    have hy := congrArg vector_t.y h0
    simp only [VEC_ZERO] at hx hy
    unfold signed_area at harea1
    have h6 : (CENTROID_SCALE : K) *
        ((centroid_loop (polygon_translate polygon (vec_negate c)).points).1 * (1 / 2)) ≠ 0 := by
      unfold CENTROID_SCALE
      exact mul_ne_zero (by norm_num) harea1
    rw [div_eq_zero_iff] at hx hy
    have hx0 := hx.resolve_right h6
    have hy0 := hy.resolve_right h6
    rw [hx0, hy0]
    unfold VEC_ZERO
    ext <;> simp
  have harea2 : signed_area
      ({ polygon_translate polygon (vec_negate c) with
        points := ((polygon_translate polygon (vec_negate c)).points.map
          (fun vertex => vec_rotate M vertex angle)) } : polygon_t K).points ≠ 0 := by
    simp only
    unfold signed_area
    rw [centroid_loop_rotate M angle hunit]
    exact harea1
  have h := polygon_centroid_translate _ c harea2
  rw [hrot] at h
  have hfinal : polygon_rotate M polygon angle c =
      polygon_translate { polygon_translate polygon (vec_negate c) with
        points := ((polygon_translate polygon (vec_negate c)).points.map
          (fun vertex => vec_rotate M vertex angle)) } c := rfl
  rw [hfinal, h]
  unfold vec_add VEC_ZERO
  ext <;> simp

end RotationClaims

section RotationClaims2

variable {K : Type} [LinearOrderedField K]

theorem polygon_rotate_rotate (M : Libm K) (htrig : trig_exact M) (polygon : polygon_t K)
    (x y : K) (point : vector_t K) :
    (polygon_rotate M (polygon_rotate M polygon x point) y point).points =
      (polygon_rotate M polygon (y + x) point).points := by
  obtain ⟨_, _, _, hcos, hsin⟩ := htrig
  unfold polygon_rotate polygon_translate
  simp only [List.map_map]
  apply List.map_congr_left
  intro v _
  simp only [Function.comp, vec_add, vec_rotate, vec_negate, hcos, hsin]
  ext <;> simp only <;> ring

theorem polygon_rotate_fields (M : Libm K) (polygon : polygon_t K) (angle : K)
    (point : vector_t K) :
    polygon_rotate M polygon angle point =
      { polygon with points := (polygon_rotate M polygon angle point).points } := rfl

/-- C20, amended: in exact arithmetic with exact trigonometry (`cos 0 = 1`,
`sin 0 = 0`, the Pythagorean identity and the addition formulas), on a polygon of
non-zero signed area `polygon_set_rotation` to `a` and then to `t` gives the same
polygon, vertices and stored rotation, as `polygon_set_rotation` to `t` alone; in
particular setting the rotation to 0 and then back to the current rotation
restores the polygon. -/
theorem polygon_set_rotation_independent (M : Libm K) (htrig : trig_exact M)
    (polygon : polygon_t K) (a t : K) (harea : signed_area polygon.points ≠ 0) :
    polygon_set_rotation M (polygon_set_rotation M polygon a) t =
      polygon_set_rotation M polygon t ∧
    polygon_get_points (polygon_set_rotation M (polygon_set_rotation M polygon a) t) =
      polygon_get_points (polygon_set_rotation M polygon t) ∧
    polygon_get_rotation (polygon_set_rotation M (polygon_set_rotation M polygon a) t) = t ∧
    polygon_set_rotation M (polygon_set_rotation M polygon 0) polygon.rotation = polygon := by
  have hmain : ∀ a t : K, polygon_set_rotation M (polygon_set_rotation M polygon a) t =
      polygon_set_rotation M polygon t := by
    intro a t
    have hunit := htrig.2.2.1
    have hcenter : polygon_get_center (polygon_set_rotation M polygon a) =
        polygon_centroid polygon := by
      unfold polygon_get_center
      rw [polygon_centroid_eq_of_points (polygon_set_rotation M polygon a)
        (polygon_rotate M polygon (a - polygon.rotation) (polygon_centroid polygon)) rfl]
      exact polygon_centroid_rotate M _ (hunit _) polygon harea
    have hpoints : (polygon_rotate M (polygon_set_rotation M polygon a)
          (t - (polygon_set_rotation M polygon a).rotation)
          (polygon_get_center (polygon_set_rotation M polygon a))).points =
        (polygon_rotate M polygon (t - polygon.rotation) (polygon_centroid polygon)).points := by
      rw [hcenter]
      have hrot : (polygon_set_rotation M polygon a).rotation = a := rfl
      rw [hrot]
      have hsame : (polygon_rotate M (polygon_set_rotation M polygon a) (t - a)
            (polygon_centroid polygon)).points =
          (polygon_rotate M (polygon_rotate M polygon (a - polygon.rotation)
            (polygon_centroid polygon)) (t - a) (polygon_centroid polygon)).points := rfl
      rw [hsame, polygon_rotate_rotate M htrig]
      have hsum : t - a + (a - polygon.rotation) = t - polygon.rotation := by ring
      rw [hsum]
    show ({ polygon_rotate M (polygon_set_rotation M polygon a)
          (t - (polygon_set_rotation M polygon a).rotation)
          (polygon_get_center (polygon_set_rotation M polygon a)) with rotation := t } :
        polygon_t K) =
      { polygon_rotate M polygon (t - polygon.rotation) (polygon_get_center polygon) with
        rotation := t }
    rw [polygon_rotate_fields M (polygon_set_rotation M polygon a), hpoints,
      polygon_rotate_fields M polygon]
    rfl
  refine ⟨hmain a t, ?_, ?_, ?_⟩
  · rw [hmain a t]
  · rfl
  · rw [hmain 0 polygon.rotation]
    exact polygon_set_rotation_same M htrig.1 htrig.2.1 polygon _ rfl

theorem polygon_set_rotation_independent_witness :
    polygon_set_rotation (Libm.mk Real.sqrt Real.cos Real.sin (fun y x => Complex.arg ⟨x, y⟩))
        (polygon_set_rotation
          (Libm.mk Real.sqrt Real.cos Real.sin (fun y x => Complex.arg ⟨x, y⟩))
          (polygon_init [⟨0, 0⟩, ⟨3, 0⟩, ⟨0, 6⟩] ⟨0, 0⟩ 0 1 1 1) 1) 2 =
      polygon_set_rotation (Libm.mk Real.sqrt Real.cos Real.sin (fun y x => Complex.arg ⟨x, y⟩))
        (polygon_init [⟨0, 0⟩, ⟨3, 0⟩, ⟨0, 6⟩] ⟨0, 0⟩ 0 1 1 1) 2 :=
  (polygon_set_rotation_independent
    (Libm.mk Real.sqrt Real.cos Real.sin (fun y x => Complex.arg ⟨x, y⟩))
    ⟨Real.cos_zero, Real.sin_zero, fun x => by
        have h := Real.cos_sq_add_sin_sq x
        rw [sq, sq] at h
        exact h,
      Real.cos_add, Real.sin_add⟩
    (polygon_init [⟨0, 0⟩, ⟨3, 0⟩, ⟨0, 6⟩] ⟨0, 0⟩ 0 1 1 1) 1 2
    (by
      unfold signed_area polygon_init
      rw [centroid_loop_triangle]
      norm_num [vec_cross])).1

end RotationClaims2

section ShotClaims

variable {K : Type} [LinearOrderedField K]

theorem vec_get_length_multiply (M : Libm K) (hM : sqrt_exact M) (h0 : M.sqrt 0 = 0)
    (k : K) (hk : 0 ≤ k) (v : vector_t K) :
    vec_get_length M (vec_multiply k v) = k * vec_get_length M v := by
  unfold vec_get_length vec_multiply
  simp only
  have hq : 0 ≤ v.x * v.x + v.y * v.y := add_nonneg (mul_self_nonneg _) (mul_self_nonneg _)
  rcases hq.eq_or_lt with hq0 | hqpos
  · have h1 : k * v.x * (k * v.x) + k * v.y * (k * v.y) = 0 := by
      have h2 : k * v.x * (k * v.x) + k * v.y * (k * v.y) =
          k * k * (v.x * v.x + v.y * v.y) := by ring
      rw [h2, ← hq0, mul_zero]
    rw [h1, ← hq0, h0, mul_zero]
  · rcases hk.eq_or_lt with hk0 | hkpos
    · rw [← hk0]
      simp [h0]
    · have hsq : k * v.x * (k * v.x) + k * v.y * (k * v.y) =
          k * k * (v.x * v.x + v.y * v.y) := by ring
      have hpos : 0 < k * k * (v.x * v.x + v.y * v.y) :=
        mul_pos (mul_pos hkpos hkpos) hqpos
      rw [hsq]
      obtain ⟨hs1, hs2⟩ := hM _ hpos
      obtain ⟨hr1, hr2⟩ := hM _ hqpos
      have heq : M.sqrt (k * k * (v.x * v.x + v.y * v.y)) *
            M.sqrt (k * k * (v.x * v.x + v.y * v.y)) =
          (k * M.sqrt (v.x * v.x + v.y * v.y)) * (k * M.sqrt (v.x * v.x + v.y * v.y)) := by
        rw [hs2]
        have : k * M.sqrt (v.x * v.x + v.y * v.y) * (k * M.sqrt (v.x * v.x + v.y * v.y)) =
            k * k * (M.sqrt (v.x * v.x + v.y * v.y) * M.sqrt (v.x * v.x + v.y * v.y)) := by
          ring
        rw [this, hr2]
      have hkr : 0 < k * M.sqrt (v.x * v.x + v.y * v.y) := mul_pos hkpos hr1
      rcases mul_self_eq_mul_self_iff.mp heq with h | h
      · exact h
      · exfalso
        rw [h] at hs1
        linarith

theorem vec_equals_iff (v1 v2 : vector_t K) : vec_equals v1 v2 = true ↔ v1 = v2 := by
  unfold vec_equals
  rw [Bool.and_eq_true, decide_eq_true_iff, decide_eq_true_iff]
  constructor
  · rintro ⟨h1, h2⟩
    ext
    · exact h1
    · exact h2
  · intro h
    rw [h]
    exact ⟨rfl, rfl⟩

/-- C25, amended: in exact arithmetic with an exact square root, for
`max_speed >= 0`, the vector returned by `character_shot_velocity` has length
`max_speed * min(|end - start|, 60) / 60`,
which is at most `max_speed`; it is the zero vector when start equals end, and
otherwise it is a non-negative multiple (positive when `max_speed > 0`) of
`(-(end.x - start.x), end.y - start.y)`. -/
theorem character_shot_velocity_spec (M : Libm K) (hM : sqrt_exact M) (h0 : M.sqrt 0 = 0)
    (shot_start_point shot_end_point : vector_t K) (max_speed : K) (hspeed : 0 ≤ max_speed) :
    vec_get_length M (character_shot_velocity M shot_start_point shot_end_point max_speed) =
      max_speed *
        min (vec_get_length M (vec_subtract shot_end_point shot_start_point))
          MAX_SHOT_MAGNITUDE / MAX_SHOT_MAGNITUDE ∧
    vec_get_length M (character_shot_velocity M shot_start_point shot_end_point max_speed) ≤
      max_speed ∧
    (shot_start_point = shot_end_point →
      character_shot_velocity M shot_start_point shot_end_point max_speed = VEC_ZERO) ∧
    (shot_start_point ≠ shot_end_point → ∃ k : K, 0 ≤ k ∧ (0 < max_speed → 0 < k) ∧
      character_shot_velocity M shot_start_point shot_end_point max_speed =
        vec_multiply k ⟨-(shot_end_point.x - shot_start_point.x),
          shot_end_point.y - shot_start_point.y⟩) := by
  have h60 : (0 : K) < MAX_SHOT_MAGNITUDE := by unfold MAX_SHOT_MAGNITUDE; norm_num
  by_cases heq : shot_start_point = shot_end_point
  · have hres : character_shot_velocity M shot_start_point shot_end_point max_speed =
        VEC_ZERO := by
      unfold character_shot_velocity
      rw [if_pos ((vec_equals_iff _ _).mpr heq)]
    have hlen0 : vec_get_length M (VEC_ZERO : vector_t K) = 0 := by
      unfold vec_get_length VEC_ZERO
      simp [h0]
    have hsub : vec_get_length M (vec_subtract shot_end_point shot_start_point) = 0 := by
      rw [heq]
      unfold vec_get_length vec_subtract
      simp [h0]
    rw [hres, hlen0, hsub]
    refine ⟨?_, hspeed, fun _ => rfl, fun h => absurd heq h⟩
    rw [min_eq_left (le_of_lt h60), mul_zero, zero_div]
  · set d : vector_t K := ⟨-(shot_end_point.x - shot_start_point.x),
      shot_end_point.y - shot_start_point.y⟩ with hd
    set L := vec_get_length M d with hL
    have hqpos : 0 < d.x * d.x + d.y * d.y := by
      have hne : d.x ≠ 0 ∨ d.y ≠ 0 := by
        by_contra hcon
        push_neg at hcon
        apply heq
        have hx : shot_end_point.x - shot_start_point.x = 0 := by
          have := hcon.1
          simp only [hd] at this
          linarith
        have hy : shot_end_point.y - shot_start_point.y = 0 := hcon.2
        ext
        · linarith
        · linarith
      rcases hne with h | h
      · exact add_pos_of_pos_of_nonneg (mul_self_pos.mpr h) (mul_self_nonneg _)
      · exact add_pos_of_nonneg_of_pos (mul_self_nonneg _) (mul_self_pos.mpr h)
    obtain ⟨hLpos, hLsq⟩ := hM _ hqpos
    have hLpos2 : 0 < L := hLpos
    have hsubL : vec_get_length M (vec_subtract shot_end_point shot_start_point) = L := by
      rw [hL]
      unfold vec_get_length vec_subtract
      simp only [hd]
      congr 1
      ring
    have hclamp : (if L > MAX_SHOT_MAGNITUDE then MAX_SHOT_MAGNITUDE else L) =
        min L MAX_SHOT_MAGNITUDE := by
      by_cases hgt : L > MAX_SHOT_MAGNITUDE
      · rw [if_pos hgt, min_eq_right (le_of_lt hgt)]
      · rw [if_neg hgt, min_eq_left (not_lt.mp hgt)]
    have hres : character_shot_velocity M shot_start_point shot_end_point max_speed =
        vec_multiply (max_speed * (min L MAX_SHOT_MAGNITUDE / MAX_SHOT_MAGNITUDE) * (1 / L)) d := by
      unfold character_shot_velocity
      have hne : ¬ vec_equals shot_start_point shot_end_point = true := by
        rw [vec_equals_iff]
        exact heq
      rw [if_neg hne]
      have hdir : (⟨-1 * (vec_subtract shot_end_point shot_start_point).x,
          (vec_subtract shot_end_point shot_start_point).y⟩ : vector_t K) = d := by
        rw [hd]
        unfold vec_subtract
        ext <;> simp
      simp only [hdir, ← hL, hclamp]
      unfold vec_multiply
      ext <;> simp only <;> ring
    have hmin_nonneg : 0 ≤ min L MAX_SHOT_MAGNITUDE := le_min (le_of_lt hLpos2) (le_of_lt h60)
    have hk : 0 ≤ max_speed * (min L MAX_SHOT_MAGNITUDE / MAX_SHOT_MAGNITUDE) * (1 / L) :=
      mul_nonneg (mul_nonneg hspeed (div_nonneg hmin_nonneg (le_of_lt h60)))
        (div_nonneg zero_le_one (le_of_lt hLpos2))
    have hlen : vec_get_length M
        (character_shot_velocity M shot_start_point shot_end_point max_speed) =
        max_speed * min L MAX_SHOT_MAGNITUDE / MAX_SHOT_MAGNITUDE := by
      rw [hres, vec_get_length_multiply M hM h0 _ hk, ← hL]
      field_simp
      ring
    refine ⟨?_, ?_, fun h => absurd h heq, fun _ => ⟨_, hk, ?_, hres⟩⟩
    · rw [hlen, hsubL]
    · rw [hlen, mul_div_assoc]
      have h1 : min L MAX_SHOT_MAGNITUDE / MAX_SHOT_MAGNITUDE ≤ 1 := by
        rw [div_le_one h60]
        exact min_le_right _ _
      calc max_speed * (min L MAX_SHOT_MAGNITUDE / MAX_SHOT_MAGNITUDE)
          ≤ max_speed * 1 := mul_le_mul_of_nonneg_left h1 hspeed
        _ = max_speed := mul_one _
    · intro hpos
      have hmin_pos : 0 < min L MAX_SHOT_MAGNITUDE := lt_min hLpos2 h60
      exact mul_pos (mul_pos hpos (div_pos hmin_pos h60)) (div_pos zero_lt_one hLpos2)

theorem character_shot_velocity_spec_witness :
    vec_get_length (Libm.mk Real.sqrt Real.cos Real.sin (fun y x => Complex.arg ⟨x, y⟩))
        (character_shot_velocity
          (Libm.mk Real.sqrt Real.cos Real.sin (fun y x => Complex.arg ⟨x, y⟩))
          ⟨0, 0⟩ ⟨3, 4⟩ 10) ≤ 10 :=
  (character_shot_velocity_spec
    (Libm.mk Real.sqrt Real.cos Real.sin (fun y x => Complex.arg ⟨x, y⟩))
    real_sqrt_exact Real.sqrt_zero ⟨0, 0⟩ ⟨3, 4⟩ 10 (by norm_num)).2.1

end ShotClaims

section MoveClaims

variable {K : Type} [LinearOrderedField K]

theorem centroid_loop_quad (a b c d : vector_t K) :
    centroid_loop [a, b, c, d] =
      (vec_cross a b + vec_cross b c + vec_cross c d + vec_cross d a,
       ⟨(b.x + a.x) * vec_cross a b + (c.x + b.x) * vec_cross b c +
          (d.x + c.x) * vec_cross c d + (a.x + d.x) * vec_cross d a,
        (b.y + a.y) * vec_cross a b + (c.y + b.y) * vec_cross b c +
          (d.y + c.y) * vec_cross c d + (a.y + d.y) * vec_cross d a⟩) := by
  simp [centroid_loop, list_size, list_get, List.range_succ]

/-- The step `polygon_move` turns the vertices by the whole stored rotation after
the update, not by the increment `rotation_speed * time_elapsed`. -/
theorem polygon_move_eq (M : Libm K) (polygon : polygon_t K) (time_elapsed : K) :
    polygon_get_points (polygon_move M polygon time_elapsed) =
      polygon_get_points (polygon_rotate M
        (polygon_translate polygon (vec_multiply time_elapsed polygon.velocity))
        (polygon.rotation + polygon.rotation_speed * time_elapsed)
        (polygon_centroid
          (polygon_translate polygon (vec_multiply time_elapsed polygon.velocity)))) ∧
    polygon_get_rotation (polygon_move M polygon time_elapsed) =
      polygon.rotation + polygon.rotation_speed * time_elapsed :=
  ⟨rfl, rfl⟩

/-- C28 fails on the code: `polygon_move` turns the vertices by the whole stored
rotation, not by the increment. The unit square, set to rotation pi/2 by
`polygon_set_rotation`, has velocity zero and rotation speed zero; `polygon_move`
with `dt = 1` leaves the stored rotation at pi/2 but turns the vertices by a
further quarter turn, although the claimed translation is zero and the claimed
rotation increment is zero. -/
theorem polygon_move_rotation_increment :
    polygon_get_points
        (polygon_set_rotation
          (Libm.mk Real.sqrt Real.cos Real.sin (fun y x => Complex.arg ⟨x, y⟩))
          (polygon_init [⟨0, 0⟩, ⟨1, 0⟩, ⟨1, 1⟩, ⟨0, 1⟩] ⟨0, 0⟩ 0 1 1 1) (Real.pi / 2)) =
      [⟨1, 0⟩, ⟨1, 1⟩, ⟨0, 1⟩, ⟨0, 0⟩] ∧
    polygon_get_points
        (polygon_move (Libm.mk Real.sqrt Real.cos Real.sin (fun y x => Complex.arg ⟨x, y⟩))
          (polygon_set_rotation
            (Libm.mk Real.sqrt Real.cos Real.sin (fun y x => Complex.arg ⟨x, y⟩))
            (polygon_init [⟨0, 0⟩, ⟨1, 0⟩, ⟨1, 1⟩, ⟨0, 1⟩] ⟨0, 0⟩ 0 1 1 1) (Real.pi / 2)) 1) =
      [⟨1, 1⟩, ⟨0, 1⟩, ⟨0, 0⟩, ⟨1, 0⟩] ∧
    polygon_get_rotation
        (polygon_move (Libm.mk Real.sqrt Real.cos Real.sin (fun y x => Complex.arg ⟨x, y⟩))
          (polygon_set_rotation
            (Libm.mk Real.sqrt Real.cos Real.sin (fun y x => Complex.arg ⟨x, y⟩))
            (polygon_init [⟨0, 0⟩, ⟨1, 0⟩, ⟨1, 1⟩, ⟨0, 1⟩] ⟨0, 0⟩ 0 1 1 1) (Real.pi / 2)) 1) =
      Real.pi / 2 := by
  have hset : polygon_set_rotation
      (Libm.mk Real.sqrt Real.cos Real.sin (fun y x => Complex.arg ⟨x, y⟩))
      (polygon_init [⟨0, 0⟩, ⟨1, 0⟩, ⟨1, 1⟩, ⟨0, 1⟩] ⟨0, 0⟩ 0 1 1 1) (Real.pi / 2) =
      { points := [⟨1, 0⟩, ⟨1, 1⟩, ⟨0, 1⟩, ⟨0, 0⟩], velocity := ⟨0, 0⟩, rotation_speed := 0,
        color := ⟨1, 1, 1⟩, rotation := Real.pi / 2 } := by
    unfold polygon_set_rotation polygon_get_center polygon_centroid polygon_init
    simp only [centroid_loop_quad]
    simp only [polygon_rotate, polygon_translate, INITIAL_ROTANG, sub_zero, List.map_cons,
      List.map_nil, vec_rotate, vec_add, vec_negate, vec_cross, CENTROID_SCALE,
      Real.cos_pi_div_two, Real.sin_pi_div_two]
    norm_num
  rw [hset]
  refine ⟨rfl, ?_, ?_⟩
  · unfold polygon_move polygon_get_points polygon_get_rotation polygon_centroid
    simp only [polygon_translate, vec_multiply, List.map_cons, List.map_nil, vec_add, mul_zero,
      add_zero, centroid_loop_quad]
    simp only [polygon_rotate, polygon_translate, List.map_cons,
      List.map_nil, vec_rotate, vec_add, vec_negate, vec_cross, CENTROID_SCALE,
      Real.cos_pi_div_two, Real.sin_pi_div_two]
    norm_num
  · unfold polygon_move polygon_get_rotation polygon_rotate polygon_translate
    simp

end MoveClaims

/-! # Theorems about collision.c: symmetry, ground truth, tie-break, separation -/

section SymmetryClaims

variable {K : Type} [LinearOrderedField K]

theorem find_collision_congr (M : Libm K) (body1 body2 body3 body4 : body_t K)
    (h1 : body_get_shape body1 = body_get_shape body3)
    (h2 : body_get_shape body2 = body_get_shape body4) :
    find_collision M body1 body2 = find_collision M body3 body4 := by
  unfold find_collision
  rw [h1, h2]

theorem find_collision_none_of_nil (M : Libm K) (body1 body2 : body_t K)
    (h : ¬ (body_get_shape body1 ≠ [] ∧ body_get_shape body2 ≠ []))
    (hone : body_get_shape body1 ≠ [] ∨ body_get_shape body2 ≠ []) :
    find_collision M body1 body2 = none := by
  cases hfc : find_collision M body1 body2 with
  | none => rfl
  | some r => exact absurd (find_collision_some_ne_nil M body1 body2 r hfc hone) h

/-- The two sweeps of `find_collision` on non-empty shapes: both return, each
reports a collision exactly when all its edge overlaps are positive, and a
reported collision comes with the final `*min_overlap`, which is the overlap
along the recorded axis when it is below `DBL_MAX`; otherwise the axis is
`VEC_ZERO`. -/
theorem sweep_axis_overlap (M : Libm K) (shape1 shape2 : List (vector_t K))
    (h1 : shape1 ≠ []) (h2 : shape2 ≠ []) :
    ∃ (r : collision_info_t K) (c : K),
      compare_collision M shape1 shape2 DBL_MAX = some (r, c) ∧
      (r.collided = true →
        (c = DBL_MAX ∧ r.axis = VEC_ZERO) ∨
        (c < DBL_MAX ∧ proj_overlap shape1 shape2 r.axis = c)) := by
  obtain ⟨r, c, hr, _, himp⟩ :=
    compare_collision_loop_spec M shape1 shape2 h1 h2 (get_edges shape1)
      { collided := false, axis := VEC_ZERO } DBL_MAX rfl
  refine ⟨r, c, hr, fun hc => ?_⟩
  obtain ⟨_, _, hd⟩ := himp hc
  rcases hd with ⟨h4, h5⟩ | ⟨h4, e, _, h6, h7⟩
  · exact Or.inl ⟨h4, h5⟩
  · right
    refine ⟨h4, ?_⟩
    rw [h6]
    exact h7

/-- C11: `find_collision(A, B)` and `find_collision(B, A)` fail together or return
records with the same collided flag, and when a collision is reported the
projection overlap of the two shapes along the axis of the one record equals the
overlap along the axis of the other. -/
theorem find_collision_symmetric (M : Libm K) (body1 body2 : body_t K) :
    (find_collision M body1 body2).map (fun r => r.collided) =
      (find_collision M body2 body1).map (fun r => r.collided) ∧
    ∀ r r2 : collision_info_t K, find_collision M body1 body2 = some r →
      find_collision M body2 body1 = some r2 → r.collided = true →
      proj_overlap (body_get_shape body1) (body_get_shape body2) r.axis =
        proj_overlap (body_get_shape body1) (body_get_shape body2) r2.axis := by
  by_cases hne : body_get_shape body1 ≠ [] ∧ body_get_shape body2 ≠ []
  · obtain ⟨h1, h2⟩ := hne
    set s1 := body_get_shape body1 with hs1
    set s2 := body_get_shape body2 with hs2
    obtain ⟨r1, c1, hr1, himp1⟩ := sweep_axis_overlap M s1 s2 h1 h2
    obtain ⟨q1, d1, hq1, himp2⟩ := sweep_axis_overlap M s2 s1 h2 h1
    rw [proj_overlap_comm s1 s2] at himp2
    have hfc : find_collision M body1 body2 =
        if !r1.collided then some r1
        else if !q1.collided then some q1
        else if c1 < d1 then some r1
        else some q1 := by
      unfold find_collision
      simp only [← hs1, ← hs2, hr1, hq1]
    have hfc2 : find_collision M body2 body1 =
        if !q1.collided then some q1
        else if !r1.collided then some r1
        else if d1 < c1 then some q1
        else some r1 := by
      unfold find_collision
      simp only [← hs1, ← hs2, hr1, hq1]
    rw [hfc, hfc2]
    by_cases hc1 : r1.collided = true
    · by_cases hc2 : q1.collided = true
      · simp only [hc1, hc2, Bool.not_true, Bool.false_eq_true, if_false]
        have ho1 := himp1 hc1
        have ho2 := himp2 hc2
        rcases lt_trichotomy c1 d1 with hlt | heq | hgt
        · rw [if_pos hlt, if_neg (not_lt.mpr (le_of_lt hlt))]
          refine ⟨rfl, ?_⟩
          intro r r2 hr hr2 _
          rw [← Option.some.inj hr, ← Option.some.inj hr2]
        · rw [if_neg (by rw [heq]; exact lt_irrefl _), if_neg (by rw [heq]; exact lt_irrefl _)]
          refine ⟨by simp [hc1, hc2], ?_⟩
          intro r r2 hr hr2 _
          rw [← Option.some.inj hr, ← Option.some.inj hr2]
          rcases ho1 with ⟨ha, hb⟩ | ⟨ha, hb⟩
          · rcases ho2 with ⟨ha2, hb2⟩ | ⟨ha2, _⟩
            · rw [hb, hb2]
            · rw [← heq, ha] at ha2
              exact absurd ha2 (lt_irrefl _)
          · rcases ho2 with ⟨ha2, _⟩ | ⟨_, hb2⟩
            · rw [heq, ha2] at ha
              exact absurd ha (lt_irrefl _)
            · rw [hb, hb2, heq]
        · rw [if_neg (not_lt.mpr (le_of_lt hgt)), if_pos hgt]
          refine ⟨rfl, ?_⟩
          intro r r2 hr hr2 _
          rw [← Option.some.inj hr, ← Option.some.inj hr2]
      · have hc2f : q1.collided = false := by simpa using hc2
        simp only [hc1, hc2f, Bool.not_true, Bool.not_false, Bool.false_eq_true, if_false,
          if_true]
        refine ⟨trivial, ?_⟩
        intro r r2 hr _ hcol
        rw [← Option.some.inj hr, hc2f] at hcol
        exact absurd hcol (by simp)
    · have hc1f : r1.collided = false := by simpa using hc1
      by_cases hc2 : q1.collided = true
      · simp only [hc1f, hc2, Bool.not_true, Bool.not_false, Bool.false_eq_true, if_false,
          if_true]
        refine ⟨trivial, ?_⟩
        intro r r2 hr _ hcol
        rw [← Option.some.inj hr, hc1f] at hcol
        exact absurd hcol (by simp)
      · have hc2f : q1.collided = false := by simpa using hc2
        simp only [hc1f, hc2f, Bool.not_false, if_true]
        refine ⟨by simp [hc1f, hc2f], ?_⟩
        intro r r2 hr _ hcol
        rw [← Option.some.inj hr, hc1f] at hcol
        exact absurd hcol (by simp)
  · by_cases hone : body_get_shape body1 ≠ [] ∨ body_get_shape body2 ≠ []
    · have hn1 := find_collision_none_of_nil M body1 body2 hne hone
      have hn2 := find_collision_none_of_nil M body2 body1
        (fun h => hne ⟨h.2, h.1⟩) (Or.symm hone)
      rw [hn1, hn2]
      refine ⟨rfl, ?_⟩
      intro r r2 hr
      simp at hr
    · push_neg at hone
      have hsame := find_collision_congr M body1 body2 body2 body1
        (by rw [hone.1, hone.2]) (by rw [hone.1, hone.2])
      rw [hsame]
      refine ⟨rfl, ?_⟩
      intro r r2 hr hr2 _
      rw [hr] at hr2
      rw [Option.some.inj hr2]

theorem find_collision_symmetric_witness :
    (find_collision (Libm.mk Real.sqrt Real.cos Real.sin (fun y x => Complex.arg ⟨x, y⟩))
        (static_square 0 0 1) (static_square (1 / 2) (1 / 2) 1)).map (fun r => r.collided) =
      (find_collision (Libm.mk Real.sqrt Real.cos Real.sin (fun y x => Complex.arg ⟨x, y⟩))
        (static_square (1 / 2) (1 / 2) 1) (static_square 0 0 1)).map (fun r => r.collided) :=
  (find_collision_symmetric _ (static_square 0 0 1) (static_square (1 / 2) (1 / 2) 1)).1

end SymmetryClaims

section GroundTruthClaims

variable {K : Type} [LinearOrderedField K]

theorem half_lt_DBL_MAX : (1 / 2 : K) < DBL_MAX := by
  unfold DBL_MAX
  have h2 : (1 : K) ≤ 2 ^ 971 := one_le_pow₀ (by norm_num)
  have h3 : (1 : K) ≤ 2 ^ 53 - 1 := by norm_num
  nlinarith

theorem separated_squares_not_collide (M : Libm K) (hM : sqrt_exact M) :
    ∃ r : collision_info_t K,
      find_collision M (static_square 0 0 1) (static_square 2 2 1) = some r ∧
        r.collided = false := by
  obtain ⟨r, hr, hiff, _⟩ := find_collision_spec M (static_square (0 : K) 0 1)
    (static_square 2 2 1) (square_at_ne_nil _ _ _) (square_at_ne_nil _ _ _)
  refine ⟨r, hr, ?_⟩
  by_contra hcon
  have hcol : r.collided = true := by simpa using hcon
  have h1 := (hiff.mp hcol).1
  rw [static_square_shape, static_square_shape,
    forall_edges_iff_forall_normals M hM _ _ _
      (no_zero_length_edge_square _ _ _ one_ne_zero) (fun c => 0 < c),
    forall_normals_squares _ _ _ _ _ _ _ _ _ one_ne_zero zero_le_one zero_le_one] at h1
  norm_num [min_def, max_def] at h1

theorem overlapping_squares_axis (M : Libm K) (hM : sqrt_exact M) :
    ∃ r : collision_info_t K,
      find_collision M (static_square 0 0 1) (static_square (1 / 2) (1 / 2) 1) = some r ∧
        r.collided = true ∧
        (r.axis = ⟨0, 1⟩ ∨ r.axis = ⟨0, -1⟩ ∨ r.axis = ⟨1, 0⟩ ∨ r.axis = ⟨-1, 0⟩) := by
  obtain ⟨r0, hr0, hc0⟩ := overlapping_squares_collide M hM
  obtain ⟨r, hr, _, himp⟩ := find_collision_spec M (static_square (0 : K) 0 1)
    (static_square (1 / 2) (1 / 2) 1) (square_at_ne_nil _ _ _) (square_at_ne_nil _ _ _)
  rw [hr0] at hr
  have hrr : r0 = r := Option.some.inj hr
  subst hrr
  refine ⟨r0, hr0, hc0, ?_⟩
  simp only [static_square_shape] at himp
  have hnormal : ∀ (x y : K) (e : vector_t K), e ∈ get_edges (square_at x y 1) →
      (edge_unit_axis M e = ⟨0, 1⟩ ∨ edge_unit_axis M e = ⟨0, -1⟩ ∨
        edge_unit_axis M e = ⟨1, 0⟩ ∨ edge_unit_axis M e = ⟨-1, 0⟩) := by
    intro x y e he
    obtain ⟨i, hi, hu⟩ := edge_axis_is_normal M hM _
      (no_zero_length_edge_square x y 1 one_ne_zero) e he
    exact (forall_normals_square x y 1 one_ne_zero
      (fun u => u = ⟨0, 1⟩ ∨ u = ⟨0, -1⟩ ∨ u = ⟨1, 0⟩ ∨ u = ⟨-1, 0⟩)).mpr
      ⟨⟨Or.inl rfl, Or.inr (Or.inl rfl)⟩, Or.inr (Or.inr (Or.inl rfl)),
        Or.inr (Or.inr (Or.inr rfl))⟩ i hi _ hu
  rcases himp hc0 with ⟨_, hall⟩ | ⟨e0, he0, hax, _, _⟩
  · exfalso
    have h1 : ∀ e ∈ get_edges (square_at (0 : K) 0 1),
        DBL_MAX ≤ proj_overlap (square_at 0 0 1) (square_at (1 / 2) (1 / 2) 1)
          (edge_unit_axis M e) := fun e he => hall e (Or.inl he)
    rw [forall_edges_iff_forall_normals M hM _ _ _
        (no_zero_length_edge_square _ _ _ one_ne_zero) (fun c => DBL_MAX ≤ c),
      forall_normals_squares _ _ _ _ _ _ _ _ _ one_ne_zero zero_le_one zero_le_one] at h1
    have h2 : min ((0 : K) + 1) (1 / 2 + 1) - max 0 (1 / 2) = 1 / 2 := by
      norm_num [min_def, max_def]
    rw [h2] at h1
    exact absurd h1.1 (not_le.mpr half_lt_DBL_MAX)
  · rw [hax]
    rcases he0 with he | he
    · exact hnormal _ _ e0 he
    · exact hnormal _ _ e0 he

/-- C12: with an exact square root, `find_collision` on the unit squares with
corners (0,0)-(1,1) and (2,2)-(3,3) reports no collision, and on the unit squares
with corners (0,0)-(1,1) and (0.5,0.5)-(1.5,1.5) it reports a collision whose
axis is one of (0,1), (0,-1), (1,0), (-1,0), a unit normal of an edge of the
squares parallel to the y axis or to the x axis. -/
theorem find_collision_ground_truth (M : Libm K) (hM : sqrt_exact M) :
    (∃ r : collision_info_t K,
      find_collision M (static_square 0 0 1) (static_square 2 2 1) = some r ∧
        r.collided = false) ∧
    (∃ r : collision_info_t K,
      find_collision M (static_square 0 0 1) (static_square (1 / 2) (1 / 2) 1) = some r ∧
        r.collided = true ∧
        (r.axis = ⟨0, 1⟩ ∨ r.axis = ⟨0, -1⟩ ∨ r.axis = ⟨1, 0⟩ ∨ r.axis = ⟨-1, 0⟩)) :=
  ⟨separated_squares_not_collide M hM, overlapping_squares_axis M hM⟩

theorem find_collision_ground_truth_witness :
    (∃ r : collision_info_t ℝ,
      find_collision (Libm.mk Real.sqrt Real.cos Real.sin (fun y x => Complex.arg ⟨x, y⟩))
        (static_square 0 0 1) (static_square 2 2 1) = some r ∧ r.collided = false) ∧
    (∃ r : collision_info_t ℝ,
      find_collision (Libm.mk Real.sqrt Real.cos Real.sin (fun y x => Complex.arg ⟨x, y⟩))
        (static_square 0 0 1) (static_square (1 / 2) (1 / 2) 1) = some r ∧
        r.collided = true ∧
        (r.axis = ⟨0, 1⟩ ∨ r.axis = ⟨0, -1⟩ ∨ r.axis = ⟨1, 0⟩ ∨ r.axis = ⟨-1, 0⟩)) :=
  find_collision_ground_truth _ real_sqrt_exact

end GroundTruthClaims

section TieBreakClaims

variable {K : Type} [LinearOrderedField K]

/-- The sweep loop when every remaining edge has a positive overlap: it reports a
collision and either no overlap was below `*min_overlap`, which keeps its value
and leaves the axis as it was, or the final `*min_overlap` is the least overlap
and the axis is that of the first edge attaining it. -/
theorem compare_collision_loop_first_min (M : Libm K) (shape1 shape2 : List (vector_t K))
    (h1 : shape1 ≠ []) (h2 : shape2 ≠ []) (edges : List (vector_t K)) :
    ∀ (cmp : collision_info_t K) (mo : K),
      (∀ e ∈ edges, 0 < proj_overlap shape1 shape2 (edge_unit_axis M e)) →
      ∃ (r : collision_info_t K) (mo2 : K),
        compare_collision_loop M shape1 shape2 edges cmp mo = some (r, mo2) ∧
        ((mo2 = mo ∧ r.axis = cmp.axis ∧
            ∀ e ∈ edges, mo ≤ proj_overlap shape1 shape2 (edge_unit_axis M e)) ∨
          (mo2 < mo ∧ ∃ (pre : List (vector_t K)) (e : vector_t K) (post : List (vector_t K)),
            edges = pre ++ e :: post ∧ r.axis = edge_unit_axis M e ∧
            proj_overlap shape1 shape2 (edge_unit_axis M e) = mo2 ∧
            (∀ e2 ∈ pre, mo2 < proj_overlap shape1 shape2 (edge_unit_axis M e2)) ∧
            (∀ e2 ∈ post, mo2 ≤ proj_overlap shape1 shape2 (edge_unit_axis M e2)))) := by
  induction edges with
  | nil =>
    intro cmp mo _
    exact ⟨{ cmp with collided := true }, mo, rfl, Or.inl ⟨rfl, rfl, by simp⟩⟩
  | cons e rest ih =>
    intro cmp mo hpos
    have hposr : ∀ e2 ∈ rest, 0 < proj_overlap shape1 shape2 (edge_unit_axis M e2) :=
      fun e2 he2 => hpos e2 (List.mem_cons_of_mem _ he2)
    have hpe : 0 < proj_overlap shape1 shape2 (edge_unit_axis M e) :=
      hpos e (List.mem_cons_self _ _)
    rw [compare_collision_loop_cons M shape1 shape2 h1 h2, if_neg (not_le.mpr hpe)]
    by_cases hlt : proj_overlap shape1 shape2 (edge_unit_axis M e) < mo
    · rw [if_pos hlt]
      obtain ⟨r, mo2, hr, hd⟩ := ih { cmp with axis := edge_unit_axis M e }
        (proj_overlap shape1 shape2 (edge_unit_axis M e)) hposr
      refine ⟨r, mo2, hr, Or.inr ?_⟩
      rcases hd with ⟨ha, hb, hc⟩ | ⟨ha, pre, e1, post, hsplit, hb, hc, hd1, hd2⟩
      · refine ⟨by rw [ha]; exact hlt, [], e, rest, rfl, hb, ha.symm, by simp, ?_⟩
        intro e2 he2
        rw [ha]
        exact hc e2 he2
      · refine ⟨lt_trans ha hlt, e :: pre, e1, post, by rw [hsplit]; rfl, hb, hc, ?_, hd2⟩
        intro e2 he2
        rcases List.mem_cons.mp he2 with h | h
        · rw [h]; exact ha
        · exact hd1 e2 h
    · rw [if_neg hlt]
      have hle : mo ≤ proj_overlap shape1 shape2 (edge_unit_axis M e) := not_lt.mp hlt
      obtain ⟨r, mo2, hr, hd⟩ := ih cmp mo hposr
      refine ⟨r, mo2, hr, ?_⟩
      rcases hd with ⟨ha, hb, hc⟩ | ⟨ha, pre, e1, post, hsplit, hb, hc, hd1, hd2⟩
      · left
        refine ⟨ha, hb, ?_⟩
        intro e2 he2
        rcases List.mem_cons.mp he2 with h | h
        · rw [h]; exact hle
        · exact hc e2 h
      · right
        refine ⟨ha, e :: pre, e1, post, by rw [hsplit]; rfl, hb, hc, ?_, hd2⟩
        intro e2 he2
        rcases List.mem_cons.mp he2 with h | h
        · rw [h]; exact lt_of_lt_of_le ha hle
        · exact hd1 e2 h

/-- One sweep of `find_collision` that reports a collision: its final
`*min_overlap` is `DBL_MAX` with the axis `VEC_ZERO` when no edge overlap is below
`DBL_MAX`, and otherwise it is the least edge overlap, with the axis of the first
edge attaining it. -/
theorem compare_collision_first_min (M : Libm K) (shape1 shape2 : List (vector_t K))
    (h1 : shape1 ≠ []) (h2 : shape2 ≠ []) (r : collision_info_t K) (c : K)
    (hr : compare_collision M shape1 shape2 DBL_MAX = some (r, c))
    (hcol : r.collided = true) :
    (c = DBL_MAX ∧ r.axis = VEC_ZERO ∧
        ∀ e ∈ get_edges shape1, DBL_MAX ≤ proj_overlap shape1 shape2 (edge_unit_axis M e)) ∨
      (c < DBL_MAX ∧ ∃ (pre : List (vector_t K)) (e : vector_t K) (post : List (vector_t K)),
        get_edges shape1 = pre ++ e :: post ∧ r.axis = edge_unit_axis M e ∧
        proj_overlap shape1 shape2 (edge_unit_axis M e) = c ∧
        (∀ e2 ∈ pre, c < proj_overlap shape1 shape2 (edge_unit_axis M e2)) ∧
        (∀ e2 ∈ post, c ≤ proj_overlap shape1 shape2 (edge_unit_axis M e2))) := by
  obtain ⟨r0, c0, hr0, hiff, _⟩ :=
    compare_collision_loop_spec M shape1 shape2 h1 h2 (get_edges shape1)
      { collided := false, axis := VEC_ZERO } DBL_MAX rfl
  have hr1 : compare_collision_loop M shape1 shape2 (get_edges shape1)
      { collided := false, axis := VEC_ZERO } DBL_MAX = some (r, c) := hr
  rw [hr1] at hr0
  have hpair := Option.some.inj hr0
  have hrr : r = r0 := congrArg Prod.fst hpair
  subst hrr
  obtain ⟨r2, c2, hr2, hd⟩ :=
    compare_collision_loop_first_min M shape1 shape2 h1 h2 (get_edges shape1)
      { collided := false, axis := VEC_ZERO } DBL_MAX (hiff.mp hcol)
  rw [hr1] at hr2
  have hpair2 := Option.some.inj hr2
  have hrr2 : r = r2 := congrArg Prod.fst hpair2
  have hcc2 : c = c2 := congrArg Prod.snd hpair2
  subst hrr2
  subst hcc2
  exact hd

end TieBreakClaims

section SeparatingLineClaims

variable {K : Type} [LinearOrderedField K]

theorem proj_min_lt_max_of_not_collinear (shape : List (vector_t K)) (u : vector_t K)
    (hu : vec_dot u u = 1) (hnc : ¬ all_collinear shape) :
    proj_min shape u < proj_max shape u := by
  by_contra hcon
  have hle : proj_max shape u ≤ proj_min shape u := not_lt.mp hcon
  apply hnc
  refine ⟨u, proj_max shape u, ?_, ?_⟩
  · intro h0
    rw [h0] at hu
    simp [vec_dot, VEC_ZERO] at hu
  · intro k hk
    have hmem : list_get shape k ∈ shape := (mem_iff_list_get shape _).mpr ⟨k, hk, rfl⟩
    have h1 := proj_max_ge shape u _ hmem
    have h2 := proj_min_le shape u _ hmem
    exact le_antisymm h1 (le_trans hle h2)

/-- A unit axis along which the projection overlap of two shapes that are not
flat is not positive separates their vertex sets. -/
theorem nonpositive_overlap_separates (A B : List (vector_t K)) (u : vector_t K)
    (hu : vec_dot u u = 1) (hA : ¬ all_collinear A) (hB : ¬ all_collinear B)
    (hov : proj_overlap A B u ≤ 0) :
    ∃ c : K, ((∀ p ∈ A, vec_dot p u ≤ c) ∧ (∀ q ∈ B, c ≤ vec_dot q u)) ∨
      ((∀ q ∈ B, vec_dot q u ≤ c) ∧ (∀ p ∈ A, c ≤ vec_dot p u)) := by
  have hltA := proj_min_lt_max_of_not_collinear A u hu hA
  have hltB := proj_min_lt_max_of_not_collinear B u hu hB
  unfold proj_overlap at hov
  have hle : min (proj_max A u) (proj_max B u) ≤ max (proj_min A u) (proj_min B u) := by
    linarith
  rcases le_total (proj_max A u) (proj_max B u) with h | h
  · rw [min_eq_left h] at hle
    rcases le_max_iff.mp hle with h2 | h2
    · exact absurd h2 (not_le.mpr hltA)
    · refine ⟨proj_max A u, Or.inl ⟨fun p hp => proj_max_ge A u p hp, fun q hq => ?_⟩⟩
      exact le_trans h2 (proj_min_le B u q hq)
  · rw [min_eq_right h] at hle
    rcases le_max_iff.mp hle with h2 | h2
    · refine ⟨proj_max B u, Or.inr ⟨fun q hq => proj_max_ge B u q hq, fun p hp => ?_⟩⟩
      exact le_trans h2 (proj_min_le A u p hp)
    · exact absurd h2 (not_le.mpr hltB)

/-- A sweep that reports no collision has met an edge whose overlap is not
positive. -/
theorem not_collided_edge (M : Libm K) (body1 body2 : body_t K) (r : collision_info_t K)
    (h1 : body_get_shape body1 ≠ []) (h2 : body_get_shape body2 ≠ [])
    (hr : find_collision M body1 body2 = some r) (hcol : r.collided = false) :
    (∃ e ∈ get_edges (body_get_shape body1),
      proj_overlap (body_get_shape body1) (body_get_shape body2) (edge_unit_axis M e) ≤ 0) ∨
    (∃ e ∈ get_edges (body_get_shape body2),
      proj_overlap (body_get_shape body1) (body_get_shape body2) (edge_unit_axis M e) ≤ 0) := by
  obtain ⟨r2, hr2, hiff, _⟩ := find_collision_spec M body1 body2 h1 h2
  rw [hr] at hr2
  have hrr : r = r2 := Option.some.inj hr2
  subst hrr
  by_contra hcon
  push_neg at hcon
  have htrue := hiff.mpr ⟨hcon.1, hcon.2⟩
  rw [hcol] at htrue
  exact absurd htrue (by simp)

theorem separated_interiors_disjoint (s1 s2 : List (vector_t ℝ)) (u : vector_t ℝ) (c : ℝ)
    (hu : vec_dot u u = 1) (h1 : ∀ p ∈ s1, vec_dot p u ≤ c) (h2 : ∀ q ∈ s2, c ≤ vec_dot q u) :
    interior (filled_polygon s1) ∩ interior (filled_polygon s2) = ∅ := by
  have hlin : IsLinearMap ℝ (fun q : ℝ × ℝ => q.1 * u.x + q.2 * u.y) := by
    constructor
    · intro x y
      simp only [Prod.fst_add, Prod.snd_add]
      ring
    · intro a x
      simp only [Prod.smul_fst, Prod.smul_snd, smul_eq_mul]
      ring
  have hsub1 : filled_polygon s1 ⊆ {q : ℝ × ℝ | q.1 * u.x + q.2 * u.y ≤ c} := by
    unfold filled_polygon
    apply convexHull_min
    · rintro q ⟨v, hv, rfl⟩
      exact h1 v hv
    · exact convex_halfSpace_le hlin c
  have hsub2 : filled_polygon s2 ⊆ {q : ℝ × ℝ | c ≤ q.1 * u.x + q.2 * u.y} := by
    unfold filled_polygon
    apply convexHull_min
    · rintro q ⟨v, hv, rfl⟩
      exact h2 v hv
    · exact convex_halfSpace_ge hlin c
  apply Set.eq_empty_of_forall_not_mem
  rintro x ⟨hx1, hx2⟩
  have hge : c ≤ x.1 * u.x + x.2 * u.y := hsub2 (interior_subset hx2)
  have hnhds : interior (filled_polygon s1) ∈ nhds x := isOpen_interior.mem_nhds hx1
  have hcont : ContinuousAt (fun t : ℝ => x + t • ((u.x, u.y) : ℝ × ℝ)) 0 := by
    apply Continuous.continuousAt
    continuity
  have hpre : Set.preimage (fun t : ℝ => x + t • ((u.x, u.y) : ℝ × ℝ))
      (interior (filled_polygon s1)) ∈ nhds (0 : ℝ) := by
    apply hcont.preimage_mem_nhds
    simpa using hnhds
  obtain ⟨ε, hε, hball⟩ := Metric.mem_nhds_iff.mp hpre
  have hmem : ε / 2 ∈ Metric.ball (0 : ℝ) ε := by
    rw [Metric.mem_ball, Real.dist_eq, sub_zero, abs_of_pos (by linarith)]
    linarith
  have hin := hsub1 (interior_subset (hball hmem))
  simp only [Set.mem_setOf_eq, Prod.fst_add, Prod.snd_add, Prod.smul_fst, Prod.smul_snd,
    smul_eq_mul] at hin
  simp only [vec_dot] at hu
  nlinarith

theorem no_zero_length_edge_flat : no_zero_length_edge (flat_shape : List (vector_t K)) := by
  intro i hi
  have hi3 : i < 3 := hi
  interval_cases i <;> simp [flat_shape, list_get, list_size]

theorem flat_not_collide (M : Libm K) (hM : sqrt_exact M) :
    ∃ r : collision_info_t K,
      find_collision M flat_body (static_square 0 (-1) 2) = some r ∧ r.collided = false := by
  have hne : body_get_shape (flat_body : body_t K) ≠ [] := by
    have hfs : body_get_shape (flat_body : body_t K) = flat_shape := rfl
    rw [hfs]
    simp [flat_shape]
  obtain ⟨r, hr, hiff, _⟩ := find_collision_spec M (flat_body : body_t K)
    (static_square 0 (-1) 2) hne (square_at_ne_nil _ _ _)
  refine ⟨r, hr, ?_⟩
  by_contra hcon
  have hcol : r.collided = true := by simpa using hcon
  have h1 := (hiff.mp hcol).1
  have hshape : body_get_shape (flat_body : body_t K) = flat_shape := rfl
  rw [hshape, static_square_shape,
    forall_edges_iff_forall_normals M hM _ _ _ no_zero_length_edge_flat (fun c => 0 < c)] at h1
  have h2 := h1 0 (by simp [list_size, flat_shape]) ⟨0, 1⟩
    (by
      have he : edge_vector (flat_shape : List (vector_t K)) 0 = ⟨1, 0⟩ := by
        simp [edge_vector, flat_shape, list_get, list_size, vec_subtract]
      rw [he]
      exact (unit_normal_horizontal _ _ one_ne_zero).mpr (Or.inl rfl))
  have hov : proj_overlap (flat_shape : List (vector_t K)) (square_at 0 (-1) 2) ⟨0, 1⟩ = 0 := by
    unfold proj_overlap
    rw [(proj_square_y (0 : K) (-1) 2 (by norm_num)).1,
      (proj_square_y (0 : K) (-1) 2 (by norm_num)).2]
    have hmax : proj_max (flat_shape : List (vector_t K)) ⟨0, 1⟩ = 0 := by
      simp [proj_max, flat_shape, list_get, vec_dot]
    have hmin : proj_min (flat_shape : List (vector_t K)) ⟨0, 1⟩ = 0 := by
      simp [proj_min, flat_shape, list_get, vec_dot]
    rw [hmax, hmin]
    norm_num [min_def, max_def]
  rw [hov] at h2
  exact absurd h2 (lt_irrefl _)

theorem flat_not_separated (u : vector_t K) (c : K) (hu : vec_dot u u = 1) :
    ¬ (((∀ p ∈ (flat_shape : List (vector_t K)), vec_dot p u ≤ c) ∧
        (∀ q ∈ square_at (0 : K) (-1) 2, c ≤ vec_dot q u)) ∨
      ((∀ q ∈ square_at (0 : K) (-1) 2, vec_dot q u ≤ c) ∧
        (∀ p ∈ (flat_shape : List (vector_t K)), c ≤ vec_dot p u))) := by
  have ha0 : (⟨0, 0⟩ : vector_t K) ∈ (flat_shape : List (vector_t K)) := by simp [flat_shape]
  have ha1 : (⟨1, 0⟩ : vector_t K) ∈ (flat_shape : List (vector_t K)) := by simp [flat_shape]
  have hb0 : (⟨0, -1⟩ : vector_t K) ∈ square_at (0 : K) (-1) 2 := by simp [square_at]
  have hb1 : (⟨0 + 2, -1⟩ : vector_t K) ∈ square_at (0 : K) (-1) 2 := by simp [square_at]
  have hb2 : (⟨0 + 2, -1 + 2⟩ : vector_t K) ∈ square_at (0 : K) (-1) 2 := by simp [square_at]
  have hb3 : (⟨0, -1 + 2⟩ : vector_t K) ∈ square_at (0 : K) (-1) 2 := by simp [square_at]
  simp only [vec_dot] at hu
  rintro (⟨hA, hB⟩ | ⟨hB, hA⟩)
  · have e0 := hA _ ha0
    have e1 := hA _ ha1
    have f0 := hB _ hb0
    have f1 := hB _ hb1
    have f2 := hB _ hb2
    have f3 := hB _ hb3
    simp only [vec_dot] at e0 e1 f0 f1 f2 f3
    have hy : u.y = 0 := by linarith
    have hx : u.x = 0 := by linarith
    rw [hx, hy] at hu
    norm_num at hu
  · have e0 := hA _ ha0
    have e1 := hA _ ha1
    have f0 := hB _ hb0
    have f1 := hB _ hb1
    have f2 := hB _ hb2
    have f3 := hB _ hb3
    simp only [vec_dot] at e0 e1 f0 f1 f2 f3
    have hy : u.y = 0 := by linarith
    have hx : u.x = 0 := by linarith
    rw [hx, hy] at hu
    norm_num at hu

end SeparatingLineClaims

section SeparatingLineReal

/-- C26, amended: in exact arithmetic (over the real numbers) with an exact
square root, for two polygons without zero-length edge whose vertices are not all
on one line, when `find_collision` reports no collision there are a unit normal
`u` of an edge of one of the shapes and a constant `c` with `u·p <= c` for every
vertex of one shape and `u·q >= c` for every vertex of the other, and the
interiors of the two convex hulls have no point in common. -/
theorem find_collision_separating_line (M : Libm ℝ) (hM : sqrt_exact M)
    (body1 body2 : body_t ℝ) (r : collision_info_t ℝ)
    (hz1 : no_zero_length_edge (body_get_shape body1))
    (hz2 : no_zero_length_edge (body_get_shape body2))
    (hn1 : ¬ all_collinear (body_get_shape body1))
    (hn2 : ¬ all_collinear (body_get_shape body2))
    (hr : find_collision M body1 body2 = some r) (hcol : r.collided = false) :
    (∃ (u : vector_t ℝ) (c : ℝ),
      ((∃ i, i < list_size (body_get_shape body1) ∧
          is_unit_normal u (edge_vector (body_get_shape body1) i)) ∨
        (∃ j, j < list_size (body_get_shape body2) ∧
          is_unit_normal u (edge_vector (body_get_shape body2) j))) ∧
      (((∀ p ∈ body_get_shape body1, vec_dot p u ≤ c) ∧
          (∀ q ∈ body_get_shape body2, c ≤ vec_dot q u)) ∨
        ((∀ q ∈ body_get_shape body2, vec_dot q u ≤ c) ∧
          (∀ p ∈ body_get_shape body1, c ≤ vec_dot p u)))) ∧
    interior (filled_polygon (body_get_shape body1)) ∩
      interior (filled_polygon (body_get_shape body2)) = ∅ := by
  have hne1 := ne_nil_of_not_collinear _ hn1
  have hne2 := ne_nil_of_not_collinear _ hn2
  have hkey : ∃ (u : vector_t ℝ),
      ((∃ i, i < list_size (body_get_shape body1) ∧
          is_unit_normal u (edge_vector (body_get_shape body1) i)) ∨
        (∃ j, j < list_size (body_get_shape body2) ∧
          is_unit_normal u (edge_vector (body_get_shape body2) j))) ∧
      proj_overlap (body_get_shape body1) (body_get_shape body2) u ≤ 0 := by
    rcases not_collided_edge M body1 body2 r hne1 hne2 hr hcol with ⟨e, he, hov⟩ | ⟨e, he, hov⟩
    · exact ⟨edge_unit_axis M e, Or.inl (edge_axis_is_normal M hM _ hz1 e he), hov⟩
    · exact ⟨edge_unit_axis M e, Or.inr (edge_axis_is_normal M hM _ hz2 e he), hov⟩
  obtain ⟨u, hnormal, hov⟩ := hkey
  have hu : vec_dot u u = 1 := by
    rcases hnormal with ⟨i, _, h⟩ | ⟨j, _, h⟩
    · exact h.1
    · exact h.1
  obtain ⟨c, hsep⟩ := nonpositive_overlap_separates _ _ u hu hn1 hn2 hov
  refine ⟨⟨u, c, hnormal, hsep⟩, ?_⟩
  rcases hsep with ⟨h1, h2⟩ | ⟨h1, h2⟩
  · exact separated_interiors_disjoint _ _ u c hu h1 h2
  · rw [Set.inter_comm]
    exact separated_interiors_disjoint _ _ u c hu h1 h2

theorem find_collision_separating_line_witness :
    ∃ r : collision_info_t ℝ,
      find_collision (Libm.mk Real.sqrt Real.cos Real.sin (fun y x => Complex.arg ⟨x, y⟩))
        (static_square 0 0 1) (static_square 2 2 1) = some r ∧ r.collided = false ∧
      interior (filled_polygon (body_get_shape (static_square (0 : ℝ) 0 1))) ∩
        interior (filled_polygon (body_get_shape (static_square (2 : ℝ) 2 1))) = ∅ := by
  obtain ⟨r, hr, hcol⟩ := separated_squares_not_collide
    (Libm.mk Real.sqrt Real.cos Real.sin (fun y x => Complex.arg ⟨x, y⟩)) real_sqrt_exact
  exact ⟨r, hr, hcol,
    (find_collision_separating_line _ real_sqrt_exact (static_square 0 0 1)
      (static_square 2 2 1) r
      (no_zero_length_edge_square _ _ _ one_ne_zero)
      (no_zero_length_edge_square _ _ _ one_ne_zero)
      (not_collinear_of_area _ (polygon_area_square _ _ _ one_ne_zero))
      (not_collinear_of_area _ (polygon_area_square _ _ _ one_ne_zero)) hr hcol).2⟩

end SeparatingLineReal

/-! # The double reading

The theorems of this part evaluate the functions on IEEE 754 doubles at ordinary
finite inputs and compare the result with what the exact statements say. -/

section DoubleArithmetic

/-! ## Known values of binary64 arithmetic -/

/-- The rounding model reproduces known binary64 values: the double nearest to
0.1 and to 1/3, `0.1 + 0.2`, `sqrt 2`, `(1.0 / 49) * 49`, ties to even at `2^53`,
the smallest subnormal and the underflow below it, the overflow of
`DBL_MAX + DBL_MAX`, and the divisions by zero. -/
theorem binary64_known_values :
    dbl 0.1 = double.fin (3602879701896397 / 2 ^ 55) ∧
    dbl (1 / 3) = double.fin (6004799503160661 / 2 ^ 54) ∧
    dbl_add (dbl 0.1) (dbl 0.2) = dbl 0.30000000000000004 ∧
    dbl_add (dbl 0.1) (dbl 0.2) ≠ dbl 0.3 ∧
    dbl_sqrt (dbl 2) = double.fin (6369051672525773 / 2 ^ 52) ∧
    dbl_mul (dbl_div (double.fin 1) (double.fin 49)) (double.fin 49) =
      dbl 0.9999999999999999 ∧
    dbl (2 ^ 53 + 1) = double.fin (2 ^ 53) ∧
    dbl (2 ^ 53 + 3) = double.fin (2 ^ 53 + 4) ∧
    dbl (1 / 2 ^ 1074) = double.fin (1 / 2 ^ 1074) ∧
    dbl (1 / 2 ^ 1075) = double.fin 0 ∧
    dbl_add (double.fin MAX_FINITE) (double.fin MAX_FINITE) = double.pinf ∧
    dbl_div (double.fin 1) (double.fin 0) = double.pinf ∧
    dbl_div (double.fin 0) (double.fin 0) = double.nan ∧
    dbl_div (double.fin 1) double.pinf = double.fin 0 := by
  refine ⟨by decide!, by decide!, by decide!, by decide!, by decide!, by decide!, by decide!,
    by decide!, by decide!, by decide!, by decide!, by decide!, by decide!, by decide!⟩

end DoubleArithmetic

section DoubleBody

/-- C1, counterexample: on doubles, a body of mass 49 at rest with the pending
impulse (49, 0) and no pending force has, after `body_tick` with `dt = 1`, the
velocity 0.9999999999999999 in x, not `v + dt * (F / m) + J / m = 1`: the code
multiplies by the rounded reciprocal `1.0 / 49`. -/
theorem body_tick_velocity_counterexample :
    (body_add_impulse_dbl (square_body_dbl 49) (vec_dbl 49 0)).mass =
      mass_t.finite (double.fin 49) ∧
    body_get_velocity_dbl (body_add_impulse_dbl (square_body_dbl 49) (vec_dbl 49 0)) =
      vec_dbl 0 0 ∧
    (body_add_impulse_dbl (square_body_dbl 49) (vec_dbl 49 0)).force = vec_dbl 0 0 ∧
    (body_add_impulse_dbl (square_body_dbl 49) (vec_dbl 49 0)).impulse = vec_dbl 49 0 ∧
    body_get_velocity_dbl
        (body_tick_dbl libm_dbl (body_add_impulse_dbl (square_body_dbl 49) (vec_dbl 49 0))
          (dbl 1)) = vec_dbl 0.9999999999999999 0 ∧
    vec_dbl 0.9999999999999999 0 ≠
      vec_dbl (0 + 1 * (0 / 49) + 49 / 49) (0 + 1 * (0 / 49) + 0 / 49) := by
  refine ⟨by decide!, by decide!, by decide!, by decide!, by decide!, by decide!⟩

/-- C3, counterexample: on doubles, a fresh body of mass 103 at rest on the unit
square (the divisor `6 * signed_area` of its centroid is 6), with no pending force
or impulse and `rotate_with_velocity` unset, after `body_add_impulse` with
`J = (206, 0)` and one `body_tick` with `dt = 1`, has the velocity
1.9999999999999998 in x, not `J / m = 2`.  And in
exact arithmetic a body of mass 2 that meets the conditions of the claim but
already holds the pending impulse (2, 0) ends the step with `J = (2, 0)` at the
velocity (2, 0), not `J / m = (1, 0)`. -/
theorem impulse_only_step_counterexample :
    ((square_body_dbl 103).mass = mass_t.finite (double.fin 103) ∧
      centroid_divisor_dbl (square_body_dbl 103).poly.points = double.fin 6 ∧
      body_get_velocity_dbl (square_body_dbl 103) = vec_dbl 0 0 ∧
      (square_body_dbl 103).force = vec_dbl 0 0 ∧
      (square_body_dbl 103).impulse = vec_dbl 0 0 ∧
      (square_body_dbl 103).rotate_with_velocity = false ∧
      body_get_velocity_dbl
        (body_tick_dbl libm_dbl (body_add_impulse_dbl (square_body_dbl 103) (vec_dbl 206 0))
          (dbl 1)) = vec_dbl 1.9999999999999998 0 ∧
      vec_dbl 1.9999999999999998 0 ≠ vec_dbl (206 / 103) (0 / 103)) ∧
    ((body_add_impulse square_body ⟨2, 0⟩).mass = mass_t.finite 2 ∧
      signed_area (body_add_impulse square_body ⟨2, 0⟩).poly.points ≠ 0 ∧
      body_get_velocity (body_add_impulse square_body ⟨2, 0⟩) = VEC_ZERO ∧
      (body_add_impulse square_body ⟨2, 0⟩).force = VEC_ZERO ∧
      (body_add_impulse square_body ⟨2, 0⟩).rotate_with_velocity = false ∧
      body_get_velocity
          (body_tick libm_unused
            (body_add_impulse (body_add_impulse square_body ⟨2, 0⟩) ⟨2, 0⟩) 1) =
        (⟨2, 0⟩ : vector_t ℚ) ∧
      (⟨2, 0⟩ : vector_t ℚ) ≠ ⟨2 / 2, 0 / 2⟩) := by
  refine ⟨⟨by decide!, by decide!, by decide!, by decide!, by decide!, by decide!,
    by decide!, by decide!⟩, rfl, ?_, rfl, rfl, rfl, ?_, ?_⟩
  · norm_num [signed_area, centroid_loop, body_add_impulse, square_body, body_init,
      body_init_with_info, polygon_init, unit_square, list_size, list_get, vec_cross,
      List.range, List.range.loop]
  · rw [body_tick_velocity_eq]
    norm_num [get_new_velocity, body_add_impulse, square_body, body_init,
      body_init_with_info, polygon_init, body_get_velocity, polygon_get_velocity,
      mass_reciprocal, vec_add, vec_multiply, VEC_ZERO]
  · norm_num

/-- C4, counterexample: on doubles, a fresh body of mass 98 at rest, with no
pending force or impulse and `rotate_with_velocity` unset, after one repetition
of `body_add_force` with `F = (98, 0)` and `body_tick` with `dt = 1`, has the
velocity 0.9999999999999999 in x, not `n * dt * (F / m) = 1`.  And in
exact arithmetic a body of mass 2 that meets the conditions of the claim but
already holds the pending force (2, 0) has the velocity (2, 0) after one
repetition with `F = (2, 0)` and `dt = 1`, not `n * dt * (F / m) = (1, 0)`. -/
theorem force_only_steps_counterexample :
    ((square_body_dbl 98).mass = mass_t.finite (double.fin 98) ∧
      body_get_velocity_dbl (square_body_dbl 98) = vec_dbl 0 0 ∧
      (square_body_dbl 98).force = vec_dbl 0 0 ∧
      (square_body_dbl 98).impulse = vec_dbl 0 0 ∧
      (square_body_dbl 98).rotate_with_velocity = false ∧
      body_get_velocity_dbl
        (body_tick_dbl libm_dbl (body_add_force_dbl (square_body_dbl 98) (vec_dbl 98 0))
          (dbl 1)) = vec_dbl 0.9999999999999999 0 ∧
      vec_dbl 0.9999999999999999 0 ≠ vec_dbl (1 * 1 * (98 / 98)) (1 * 1 * (0 / 98))) ∧
    ((body_add_force square_body ⟨2, 0⟩).mass = mass_t.finite 2 ∧
      body_get_velocity (body_add_force square_body ⟨2, 0⟩) = VEC_ZERO ∧
      (body_add_force square_body ⟨2, 0⟩).rotate_with_velocity = false ∧
      body_get_velocity
          (force_steps libm_unused ⟨2, 0⟩ 1 1 (body_add_force square_body ⟨2, 0⟩)) =
        (⟨2, 0⟩ : vector_t ℚ) ∧
      (⟨2, 0⟩ : vector_t ℚ) ≠
        ⟨((1 : Nat) : ℚ) * 1 * (2 / 2), ((1 : Nat) : ℚ) * 1 * (0 / 2)⟩) := by
  refine ⟨⟨by decide!, by decide!, by decide!, by decide!, by decide!, by decide!,
    by decide!⟩, rfl, rfl, rfl, ?_, ?_⟩
  · rw [force_steps_succ, body_tick_velocity_eq]
    norm_num [force_steps, get_new_velocity, body_add_force, square_body, body_init,
      body_init_with_info, polygon_init, body_get_velocity, polygon_get_velocity,
      mass_reciprocal, vec_add, vec_multiply, VEC_ZERO]
  · norm_num

/-- C1, amended: on doubles, for a body of finite mass `m` with velocity `v`,
pending force `F` and pending impulse `J`, the velocity after `body_tick(body, dt)`
is `v + ((1.0 / m) * J + dt * ((1.0 / m) * F))` in each component, evaluated in
this order with every operation rounded, whether or not the body rotates with
its velocity. -/
theorem body_tick_velocity (M : Libm double) (body : body_t double) (m dt : double)
    (hmass : body.mass = mass_t.finite m) :
    body_get_velocity_dbl (body_tick_dbl M body dt) =
      ⟨dbl_add (body_get_velocity_dbl body).x
          (dbl_add (dbl_mul (dbl_div (double.fin 1) m) body.impulse.x)
            (dbl_mul dt (dbl_mul (dbl_div (double.fin 1) m) body.force.x))),
       dbl_add (body_get_velocity_dbl body).y
          (dbl_add (dbl_mul (dbl_div (double.fin 1) m) body.impulse.y)
            (dbl_mul dt (dbl_mul (dbl_div (double.fin 1) m) body.force.y)))⟩ := by
  have hv : body_get_velocity_dbl (body_tick_dbl M body dt) =
      get_new_velocity_dbl body dt := by
    unfold body_tick_dbl body_get_velocity_dbl
    cases body.rotate_with_velocity <;> rfl
  rw [hv]
  unfold get_new_velocity_dbl
  rw [hmass]
  rfl

theorem body_tick_velocity_witness :
    body_get_velocity_dbl
        (body_tick_dbl libm_dbl
          (body_add_impulse_dbl (body_add_force_dbl (square_body_dbl 2) (vec_dbl 4 0))
            (vec_dbl 0 6)) (dbl 3)) = vec_dbl 6 3 := by
  rw [body_tick_velocity libm_dbl
    (body_add_impulse_dbl (body_add_force_dbl (square_body_dbl 2) (vec_dbl 4 0)) (vec_dbl 0 6))
    (double.fin 2) (dbl 3) (by decide!)]
  decide!

end DoubleBody

section DoubleSweep

/-! ## collision.c on doubles: the sweep loop and the tie-break -/

theorem dbl_lt_irrefl (a : double) : dbl_lt a a = false := by
  cases a <;> simp [dbl_lt]

theorem dbl_lt_asymm (a b : double) (h : dbl_lt a b = true) : dbl_lt b a = false := by
  cases a <;> cases b <;> simp_all [dbl_lt]
  exact le_of_lt h

theorem dbl_lt_trans (a b c : double) (h1 : dbl_lt a b = true) (h2 : dbl_lt b c = true) :
    dbl_lt a c = true := by
  cases a <;> cases b <;> cases c <;> simp_all [dbl_lt]
  exact lt_trans h1 h2

theorem dbl_le_false_of_lt (a b : double) (h : dbl_lt a b = true) : dbl_le b a = false := by
  cases a <;> cases b <;> simp_all [dbl_lt, dbl_le, dbl_eq]
  exact ⟨le_of_lt h, fun hba => absurd h (by rw [hba]; exact lt_irrefl _)⟩

theorem dbl_le_false_of_not_lt (o c m : double) (h1 : dbl_lt c m = true)
    (h2 : dbl_lt o m = false) : dbl_le o c = false := by
  cases o <;> cases c <;> cases m <;> simp_all [dbl_lt, dbl_le, dbl_eq]
  constructor
  · exact le_of_lt (lt_of_lt_of_le h1 h2)
  · intro h
    rw [h] at h2
    exact absurd h1 (not_lt.mpr h2)

theorem dbl_lt_false_of_le_false (a b : double) (h : dbl_le a b = false) :
    dbl_lt a b = false := by
  unfold dbl_le at h
  simp only [Bool.or_eq_false_iff] at h
  exact h.1

theorem get_max_min_projections_dbl_some (shape : List (vector_t double))
    (unit_axis : vector_t double) (h : shape ≠ []) :
    ∃ p, get_max_min_projections_dbl shape unit_axis = some p := by
  unfold get_max_min_projections_dbl
  rw [if_neg (by simpa using h)]
  exact ⟨_, rfl⟩

theorem edge_overlap_dbl_some (M : Libm double) (shape1 shape2 : List (vector_t double))
    (h1 : shape1 ≠ []) (h2 : shape2 ≠ []) (e : vector_t double) :
    ∃ o, edge_overlap_dbl M shape1 shape2 e = some o := by
  obtain ⟨p1, hp1⟩ := get_max_min_projections_dbl_some shape1 (edge_unit_axis_dbl M e) h1
  obtain ⟨p2, hp2⟩ := get_max_min_projections_dbl_some shape2 (edge_unit_axis_dbl M e) h2
  unfold edge_overlap_dbl
  rw [hp1, hp2]
  exact ⟨_, rfl⟩

/-- One iteration of the loop of `compare_collision` on doubles, in terms of the
overlap and the unit axis of the edge. -/
theorem compare_collision_loop_dbl_cons (M : Libm double)
    (shape1 shape2 : List (vector_t double)) (e : vector_t double)
    (rest : List (vector_t double)) (cmp : collision_info_t double) (mo o : double)
    (ho : edge_overlap_dbl M shape1 shape2 e = some o) :
    compare_collision_loop_dbl M shape1 shape2 (e :: rest) cmp mo =
      if dbl_le o (double.fin 0) then some (cmp, mo)
      else if dbl_lt o mo then
        compare_collision_loop_dbl M shape1 shape2 rest
          { cmp with axis := edge_unit_axis_dbl M e } o
      else compare_collision_loop_dbl M shape1 shape2 rest cmp mo := by
  unfold edge_overlap_dbl at ho
  rw [compare_collision_loop_dbl]
  unfold edge_unit_axis_dbl at ho
  cases hp1 : get_max_min_projections_dbl shape1
      (vec_multiply_dbl
        (dbl_div (double.fin 1)
          (M.sqrt (vec_dot_dbl ⟨dbl_neg e.y, e.x⟩ ⟨dbl_neg e.y, e.x⟩)))
        ⟨dbl_neg e.y, e.x⟩) with
  | none =>
    simp only [hp1] at ho
    simp at ho
  | some p1 =>
    cases hp2 : get_max_min_projections_dbl shape2
        (vec_multiply_dbl
          (dbl_div (double.fin 1)
            (M.sqrt (vec_dot_dbl ⟨dbl_neg e.y, e.x⟩ ⟨dbl_neg e.y, e.x⟩)))
          ⟨dbl_neg e.y, e.x⟩) with
    | none =>
      simp only [hp1, hp2] at ho
      simp at ho
    | some p2 =>
      simp only [hp1, hp2, Option.some.injEq] at ho
      subst ho
      simp only [hp1, hp2]
      rfl

/-- The loop of `compare_collision` on doubles returns on non-empty shapes. -/
theorem compare_collision_loop_dbl_returns (M : Libm double)
    (shape1 shape2 : List (vector_t double)) (h1 : shape1 ≠ []) (h2 : shape2 ≠ [])
    (edges : List (vector_t double)) :
    ∀ (cmp : collision_info_t double) (mo : double),
      ∃ r c, compare_collision_loop_dbl M shape1 shape2 edges cmp mo = some (r, c) := by
  induction edges with
  | nil =>
    intro cmp mo
    exact ⟨_, _, rfl⟩
  | cons e rest ih =>
    intro cmp mo
    obtain ⟨o, ho⟩ := edge_overlap_dbl_some M shape1 shape2 h1 h2 e
    rw [compare_collision_loop_dbl_cons M shape1 shape2 e rest cmp mo o ho]
    by_cases hle : dbl_le o (double.fin 0) = true
    · rw [if_pos hle]
      exact ⟨_, _, rfl⟩
    · rw [if_neg hle]
      by_cases hlt : dbl_lt o mo = true
      · rw [if_pos hlt]
        exact ih _ _
      · rw [if_neg hlt]
        exact ih _ _

/-- The result of a sweep on doubles that reports a collision: no overlap is
`<= 0`; either no overlap was below the initial `*min_overlap`, which is then
unchanged together with the axis, or the final `*min_overlap` is the overlap of
an edge that supplies the axis, the overlaps of the edges before it are not
`<=` it, and the overlaps of the edges after it are not `<` it. -/
theorem compare_collision_loop_dbl_spec (M : Libm double)
    (shape1 shape2 : List (vector_t double)) (edges : List (vector_t double)) :
    ∀ (cmp : collision_info_t double) (mo : double) (r : collision_info_t double)
      (c : double), cmp.collided = false →
      compare_collision_loop_dbl M shape1 shape2 edges cmp mo = some (r, c) →
      r.collided = true →
      (∀ e ∈ edges, ∃ o, edge_overlap_dbl M shape1 shape2 e = some o ∧
        dbl_le o (double.fin 0) = false) ∧
      ((c = mo ∧ r.axis = cmp.axis ∧
          ∀ e ∈ edges, ∀ o, edge_overlap_dbl M shape1 shape2 e = some o →
            dbl_lt o mo = false) ∨
        (dbl_lt c mo = true ∧
          ∃ (pre : List (vector_t double)) (e : vector_t double)
            (post : List (vector_t double)),
            edges = pre ++ e :: post ∧ r.axis = edge_unit_axis_dbl M e ∧
            edge_overlap_dbl M shape1 shape2 e = some c ∧
            (∀ e2 ∈ pre, ∀ o, edge_overlap_dbl M shape1 shape2 e2 = some o →
              dbl_le o c = false) ∧
            (∀ e2 ∈ post, ∀ o, edge_overlap_dbl M shape1 shape2 e2 = some o →
              dbl_lt o c = false))) := by
  induction edges with
  | nil =>
    intro cmp mo r c _ h _
    unfold compare_collision_loop_dbl at h
    simp only [Option.some.injEq, Prod.mk.injEq] at h
    obtain ⟨hr, hc⟩ := h
    refine ⟨by simp, Or.inl ⟨hc.symm, ?_, by simp⟩⟩
    rw [← hr]
  | cons e rest ih =>
    intro cmp mo r c hcmp h hcol
    cases ho : edge_overlap_dbl M shape1 shape2 e with
    | none =>
      exfalso
      unfold edge_overlap_dbl edge_unit_axis_dbl at ho
      rw [compare_collision_loop_dbl] at h
      cases hp1 : get_max_min_projections_dbl shape1
          (vec_multiply_dbl
            (dbl_div (double.fin 1)
              (M.sqrt (vec_dot_dbl ⟨dbl_neg e.y, e.x⟩ ⟨dbl_neg e.y, e.x⟩)))
            ⟨dbl_neg e.y, e.x⟩) with
      | none =>
        simp only [hp1] at h
        simp at h
      | some p1 =>
        cases hp2 : get_max_min_projections_dbl shape2
            (vec_multiply_dbl
              (dbl_div (double.fin 1)
                (M.sqrt (vec_dot_dbl ⟨dbl_neg e.y, e.x⟩ ⟨dbl_neg e.y, e.x⟩)))
              ⟨dbl_neg e.y, e.x⟩) with
        | none =>
          simp only [hp1, hp2] at h
          simp at h
        | some p2 =>
          simp only [hp1, hp2] at ho
          simp at ho
    | some o =>
      rw [compare_collision_loop_dbl_cons M shape1 shape2 e rest cmp mo o ho] at h
      by_cases hle : dbl_le o (double.fin 0) = true
      · rw [if_pos hle] at h
        simp only [Option.some.injEq, Prod.mk.injEq] at h
        rw [← h.1, hcmp] at hcol
        simp at hcol
      · rw [if_neg hle] at h
        have hle2 : dbl_le o (double.fin 0) = false := by simpa using hle
        by_cases hlt : dbl_lt o mo = true
        · rw [if_pos hlt] at h
          obtain ⟨hall, hres⟩ := ih { cmp with axis := edge_unit_axis_dbl M e } o r c hcmp h hcol
          refine ⟨?_, Or.inr ?_⟩
          · intro e2 he2
            rcases List.mem_cons.mp he2 with rfl | hmem
            · exact ⟨o, ho, hle2⟩
            · exact hall e2 hmem
          · rcases hres with ⟨hc, hax, hrest⟩ | ⟨hclt, pre, e1, post, hsplit, hax, hov, hpre, hpost⟩
            · refine ⟨by rw [hc]; exact hlt, [], e, rest, rfl, hax, by rw [hc]; exact ho,
                by simp, ?_⟩
              intro e2 he2 o2 ho2
              rw [hc]
              exact hrest e2 he2 o2 ho2
            · refine ⟨dbl_lt_trans _ _ _ hclt hlt, e :: pre, e1, post, by rw [hsplit]; rfl,
                hax, hov, ?_, hpost⟩
              intro e2 he2 o2 ho2
              rcases List.mem_cons.mp he2 with rfl | hmem
              · rw [ho] at ho2
                rw [← Option.some.inj ho2]
                exact dbl_le_false_of_lt _ _ hclt
              · exact hpre e2 hmem o2 ho2
        · rw [if_neg hlt] at h
          have hlt2 : dbl_lt o mo = false := by simpa using hlt
          obtain ⟨hall, hres⟩ := ih cmp mo r c hcmp h hcol
          refine ⟨?_, ?_⟩
          · intro e2 he2
            rcases List.mem_cons.mp he2 with rfl | hmem
            · exact ⟨o, ho, hle2⟩
            · exact hall e2 hmem
          · rcases hres with ⟨hc, hax, hrest⟩ | ⟨hclt, pre, e1, post, hsplit, hax, hov, hpre, hpost⟩
            · refine Or.inl ⟨hc, hax, ?_⟩
              intro e2 he2 o2 ho2
              rcases List.mem_cons.mp he2 with rfl | hmem
              · rw [ho] at ho2
                rw [← Option.some.inj ho2]
                exact hlt2
              · exact hrest e2 hmem o2 ho2
            · refine Or.inr ⟨hclt, e :: pre, e1, post, by rw [hsplit]; rfl, hax, hov, ?_,
                hpost⟩
              intro e2 he2 o2 ho2
              rcases List.mem_cons.mp he2 with rfl | hmem
              · rw [ho] at ho2
                rw [← Option.some.inj ho2]
                exact dbl_le_false_of_not_lt _ _ _ hclt hlt2
              · exact hpre e2 hmem o2 ho2

theorem dbl_lt_false_trans (o c1 c2 : double) (hc1 : c1 ≠ double.nan)
    (h1 : dbl_lt o c1 = false) (h2 : dbl_lt c1 c2 = false) (hc2 : c2 ≠ double.nan) :
    dbl_lt o c2 = false := by
  cases o <;> cases c1 <;> cases c2 <;> simp_all [dbl_lt]
  exact le_trans h2 h1

theorem dbl_lt_ne_nan (a b : double) (h : dbl_lt a b = true) : a ≠ double.nan := by
  intro hn
  rw [hn] at h
  cases b <;> simp [dbl_lt] at h

/-- The loop of `compare_collision` on doubles returns on non-empty shapes, and
it reports a collision exactly when no edge has an overlap `<= 0`. -/
theorem compare_collision_loop_dbl_iff (M : Libm double)
    (shape1 shape2 : List (vector_t double)) (h1 : shape1 ≠ []) (h2 : shape2 ≠ [])
    (edges : List (vector_t double)) :
    ∀ (cmp : collision_info_t double) (mo : double), cmp.collided = false →
      ∃ r c, compare_collision_loop_dbl M shape1 shape2 edges cmp mo = some (r, c) ∧
        (r.collided = true ↔
          ∀ e ∈ edges, ∃ o, edge_overlap_dbl M shape1 shape2 e = some o ∧
            dbl_le o (double.fin 0) = false) := by
  induction edges with
  | nil =>
    intro cmp mo _
    exact ⟨_, _, rfl, by simp⟩
  | cons e rest ih =>
    intro cmp mo hcmp
    obtain ⟨o, ho⟩ := edge_overlap_dbl_some M shape1 shape2 h1 h2 e
    rw [compare_collision_loop_dbl_cons M shape1 shape2 e rest cmp mo o ho]
    by_cases hle : dbl_le o (double.fin 0) = true
    · rw [if_pos hle]
      refine ⟨_, _, rfl, ?_⟩
      rw [hcmp]
      constructor
      · intro h
        simp at h
      · intro h
        obtain ⟨o2, ho2, hle2⟩ := h e (List.mem_cons_self _ _)
        rw [ho] at ho2
        rw [Option.some.inj ho2, hle2] at hle
        simp at hle
    · rw [if_neg hle]
      have hle2 : dbl_le o (double.fin 0) = false := by simpa using hle
      have hstep : ∀ (cmp2 : collision_info_t double) (mo2 : double), cmp2.collided = false →
          ∃ r c, compare_collision_loop_dbl M shape1 shape2 rest cmp2 mo2 = some (r, c) ∧
            (r.collided = true ↔
              ∀ e2 ∈ e :: rest, ∃ o2, edge_overlap_dbl M shape1 shape2 e2 = some o2 ∧
                dbl_le o2 (double.fin 0) = false) := by
        intro cmp2 mo2 hcmp2
        obtain ⟨r, c, hr, hiff⟩ := ih cmp2 mo2 hcmp2
        refine ⟨r, c, hr, ?_⟩
        rw [hiff]
        constructor
        · intro h e2 he2
          rcases List.mem_cons.mp he2 with rfl | hmem
          · exact ⟨o, ho, hle2⟩
          · exact h e2 hmem
        · intro h e2 he2
          exact h e2 (List.mem_cons_of_mem _ he2)
      by_cases hlt : dbl_lt o mo = true
      · rw [if_pos hlt]
        exact hstep _ _ hcmp
      · rw [if_neg hlt]
        exact hstep _ _ hcmp

/-- The record that `find_collision` returns on doubles, from the results of its
two sweeps. -/
theorem find_collision_dbl_eq (M : Libm double) (body1 body2 : body_t double)
    (r1 r2 : collision_info_t double) (c1 c2 : double)
    (hr1 : compare_collision_dbl M (body_get_shape_dbl body1) (body_get_shape_dbl body2)
      (double.fin MAX_FINITE) = some (r1, c1))
    (hr2 : compare_collision_dbl M (body_get_shape_dbl body2) (body_get_shape_dbl body1)
      (double.fin MAX_FINITE) = some (r2, c2)) :
    find_collision_dbl M body1 body2 =
      if r1.collided = false then some r1
      else if r2.collided = false then some r2
      else if dbl_lt c1 c2 = true then some r1
      else some r2 := by
  unfold find_collision_dbl
  simp only [hr1, hr2]
  cases r1.collided <;> cases r2.collided <;> simp

/-- A sweep on doubles that reports a collision ends with a `*min_overlap` that is
not NaN and that no overlap of an edge is below. -/
theorem compare_collision_dbl_least (M : Libm double)
    (shape1 shape2 : List (vector_t double)) (r : collision_info_t double) (c : double)
    (hr : compare_collision_dbl M shape1 shape2 (double.fin MAX_FINITE) = some (r, c))
    (hcol : r.collided = true) :
    c ≠ double.nan ∧
    ∀ e ∈ get_edges_dbl shape1, ∀ o, edge_overlap_dbl M shape1 shape2 e = some o →
      dbl_lt o c = false := by
  unfold compare_collision_dbl at hr
  obtain ⟨_, hres⟩ := compare_collision_loop_dbl_spec M shape1 shape2 _ _ _ r c rfl hr hcol
  rcases hres with ⟨hc, _, hall⟩ | ⟨hclt, pre, e1, post, hsplit, _, hov, hpre, hpost⟩
  · refine ⟨by rw [hc]; simp, ?_⟩
    rw [hc]
    exact hall
  · refine ⟨dbl_lt_ne_nan _ _ hclt, ?_⟩
    intro e he o ho
    rw [hsplit] at he
    rcases List.mem_append.mp he with hmem | hmem
    · exact dbl_lt_false_of_le_false _ _ (hpre e hmem o ho)
    · rcases List.mem_cons.mp hmem with rfl | hmem2
      · rw [hov] at ho
        rw [← Option.some.inj ho]
        exact dbl_lt_irrefl _
      · exact hpost e hmem2 o ho

end DoubleSweep

section DoubleSweepClaims

/-- C7, amended: on doubles, for two bodies on non-empty polygons `find_collision`
returns a record, and it reports a collision if and only if for every edge of
the first shape and for every edge of the second shape the overlap
`fmin(maxA, maxB) - fmax(minA, minB)` that the sweep computes along the unit axis
of the edge is not `<= 0` (it is positive or NaN). -/
theorem find_collision_collided_iff (M : Libm double) (body1 body2 : body_t double)
    (h1 : body_get_shape_dbl body1 ≠ []) (h2 : body_get_shape_dbl body2 ≠ []) :
    ∃ r : collision_info_t double, find_collision_dbl M body1 body2 = some r ∧
      (r.collided = true ↔
        (∀ e ∈ get_edges_dbl (body_get_shape_dbl body1),
          ∃ o, edge_overlap_dbl M (body_get_shape_dbl body1) (body_get_shape_dbl body2) e =
              some o ∧ dbl_le o (double.fin 0) = false) ∧
        (∀ e ∈ get_edges_dbl (body_get_shape_dbl body2),
          ∃ o, edge_overlap_dbl M (body_get_shape_dbl body2) (body_get_shape_dbl body1) e =
              some o ∧ dbl_le o (double.fin 0) = false)) := by
  obtain ⟨r1, c1, hr1, hiff1⟩ := compare_collision_loop_dbl_iff M _ _ h1 h2
    (get_edges_dbl (body_get_shape_dbl body1)) { collided := false, axis := VEC_ZERO_dbl }
    (double.fin MAX_FINITE) rfl
  obtain ⟨r2, c2, hr2, hiff2⟩ := compare_collision_loop_dbl_iff M _ _ h2 h1
    (get_edges_dbl (body_get_shape_dbl body2)) { collided := false, axis := VEC_ZERO_dbl }
    (double.fin MAX_FINITE) rfl
  have hfc := find_collision_dbl_eq M body1 body2 r1 r2 c1 c2 hr1 hr2
  rw [← hiff1, ← hiff2]
  by_cases hc1 : r1.collided = false
  · rw [if_pos hc1] at hfc
    exact ⟨r1, hfc, by simp [hc1]⟩
  · rw [if_neg hc1] at hfc
    have hc1t : r1.collided = true := by simpa using hc1
    by_cases hc2 : r2.collided = false
    · rw [if_pos hc2] at hfc
      exact ⟨r2, hfc, by simp [hc2]⟩
    · rw [if_neg hc2] at hfc
      have hc2t : r2.collided = true := by simpa using hc2
      by_cases hlt : dbl_lt c1 c2 = true
      · rw [if_pos hlt] at hfc
        exact ⟨r1, hfc, by simp [hc1t, hc2t]⟩
      · rw [if_neg hlt] at hfc
        exact ⟨r2, hfc, by simp [hc1t, hc2t]⟩

theorem find_collision_collided_iff_witness :
    ∃ r : collision_info_t double,
      find_collision_dbl libm_dbl
        (static_body_dbl [vec_dbl 0 0, vec_dbl 1 0, vec_dbl 1 1, vec_dbl 0 1])
        (static_body_dbl [vec_dbl 0.5 0.5, vec_dbl 1.5 0.5, vec_dbl 1.5 1.5, vec_dbl 0.5 1.5]) =
          some r ∧
      (r.collided = true ↔
        (∀ e ∈ get_edges_dbl (body_get_shape_dbl
            (static_body_dbl [vec_dbl 0 0, vec_dbl 1 0, vec_dbl 1 1, vec_dbl 0 1])),
          ∃ o, edge_overlap_dbl libm_dbl
              (body_get_shape_dbl
                (static_body_dbl [vec_dbl 0 0, vec_dbl 1 0, vec_dbl 1 1, vec_dbl 0 1]))
              (body_get_shape_dbl
                (static_body_dbl [vec_dbl 0.5 0.5, vec_dbl 1.5 0.5, vec_dbl 1.5 1.5,
                  vec_dbl 0.5 1.5])) e = some o ∧ dbl_le o (double.fin 0) = false) ∧
        (∀ e ∈ get_edges_dbl (body_get_shape_dbl
            (static_body_dbl [vec_dbl 0.5 0.5, vec_dbl 1.5 0.5, vec_dbl 1.5 1.5,
              vec_dbl 0.5 1.5])),
          ∃ o, edge_overlap_dbl libm_dbl
              (body_get_shape_dbl
                (static_body_dbl [vec_dbl 0.5 0.5, vec_dbl 1.5 0.5, vec_dbl 1.5 1.5,
                  vec_dbl 0.5 1.5]))
              (body_get_shape_dbl
                (static_body_dbl [vec_dbl 0 0, vec_dbl 1 0, vec_dbl 1 1, vec_dbl 0 1])) e =
                some o ∧ dbl_le o (double.fin 0) = false)) :=
  find_collision_collided_iff libm_dbl
    (static_body_dbl [vec_dbl 0 0, vec_dbl 1 0, vec_dbl 1 1, vec_dbl 0 1])
    (static_body_dbl [vec_dbl 0.5 0.5, vec_dbl 1.5 0.5, vec_dbl 1.5 1.5, vec_dbl 0.5 1.5])
    (by decide!) (by decide!)

/-- C8, amended: on doubles, when `find_collision` reports a collision and the
overlap that a sweep computes for at least one edge is below `DBL_MAX`, the
returned axis is the unit axis that the sweep computes for some edge of one of
the two shapes (the normal `(-e.y, e.x)` times `1 / sqrt` of its squared length,
each operation rounded), and no edge of either shape has a computed overlap below
the overlap `c` computed for that edge. -/
theorem find_collision_least_penetration (M : Libm double) (body1 body2 : body_t double)
    (r : collision_info_t double)
    (hrange :
      (∃ e ∈ get_edges_dbl (body_get_shape_dbl body1), ∃ o,
        edge_overlap_dbl M (body_get_shape_dbl body1) (body_get_shape_dbl body2) e = some o ∧
          dbl_lt o (double.fin MAX_FINITE) = true) ∨
      (∃ e ∈ get_edges_dbl (body_get_shape_dbl body2), ∃ o,
        edge_overlap_dbl M (body_get_shape_dbl body2) (body_get_shape_dbl body1) e = some o ∧
          dbl_lt o (double.fin MAX_FINITE) = true))
    (hr : find_collision_dbl M body1 body2 = some r) (hc : r.collided = true) :
    ∃ c : double,
      ((∃ e ∈ get_edges_dbl (body_get_shape_dbl body1), r.axis = edge_unit_axis_dbl M e ∧
          edge_overlap_dbl M (body_get_shape_dbl body1) (body_get_shape_dbl body2) e =
            some c) ∨
        (∃ e ∈ get_edges_dbl (body_get_shape_dbl body2), r.axis = edge_unit_axis_dbl M e ∧
          edge_overlap_dbl M (body_get_shape_dbl body2) (body_get_shape_dbl body1) e =
            some c)) ∧
      (∀ e ∈ get_edges_dbl (body_get_shape_dbl body1), ∀ o,
        edge_overlap_dbl M (body_get_shape_dbl body1) (body_get_shape_dbl body2) e = some o →
          dbl_lt o c = false) ∧
      (∀ e ∈ get_edges_dbl (body_get_shape_dbl body2), ∀ o,
        edge_overlap_dbl M (body_get_shape_dbl body2) (body_get_shape_dbl body1) e = some o →
          dbl_lt o c = false) := by
  cases hr1 : compare_collision_dbl M (body_get_shape_dbl body1) (body_get_shape_dbl body2)
      (double.fin MAX_FINITE) with
  | none =>
    unfold find_collision_dbl at hr
    simp [hr1] at hr
  | some res1 =>
    obtain ⟨r1, c1⟩ := res1
    cases hr2 : compare_collision_dbl M (body_get_shape_dbl body2) (body_get_shape_dbl body1)
        (double.fin MAX_FINITE) with
    | none =>
      unfold find_collision_dbl at hr
      simp [hr1, hr2] at hr
    | some res2 =>
      obtain ⟨r2, c2⟩ := res2
      have hfc := find_collision_dbl_eq M body1 body2 r1 r2 c1 c2 hr1 hr2
      rw [hr] at hfc
      by_cases hc1 : r1.collided = false
      · rw [if_pos hc1] at hfc
        rw [← Option.some.inj hfc, hc] at hc1
        simp at hc1
      · rw [if_neg hc1] at hfc
        have hc1t : r1.collided = true := by simpa using hc1
        by_cases hc2 : r2.collided = false
        · rw [if_pos hc2] at hfc
          rw [← Option.some.inj hfc, hc] at hc2
          simp at hc2
        · rw [if_neg hc2] at hfc
          have hc2t : r2.collided = true := by simpa using hc2
          obtain ⟨hn1, hleast1⟩ := compare_collision_dbl_least M _ _ r1 c1 hr1 hc1t
          obtain ⟨hn2, hleast2⟩ := compare_collision_dbl_least M _ _ r2 c2 hr2 hc2t
          have hs1 := (compare_collision_loop_dbl_spec M _ _ _ _ _ r1 c1 rfl hr1 hc1t).2
          have hs2 := (compare_collision_loop_dbl_spec M _ _ _ _ _ r2 c2 rfl hr2 hc2t).2
          by_cases hlt : dbl_lt c1 c2 = true
          · rw [if_pos hlt] at hfc
            have hrr : r = r1 := Option.some.inj hfc
            refine ⟨c1, Or.inl ?_, hleast1, ?_⟩
            · rcases hs1 with ⟨hc1m, _, _⟩ | ⟨_, pre, e1, post, hsplit, hax, hov, _, _⟩
              · exfalso
                rw [hc1m] at hlt
                rcases hs2 with ⟨hc2m, _, _⟩ | ⟨hc2lt, _⟩
                · rw [hc2m, dbl_lt_irrefl] at hlt
                  simp at hlt
                · rw [dbl_lt_asymm _ _ hc2lt] at hlt
                  simp at hlt
              · refine ⟨e1, ?_, by rw [hrr]; exact hax, hov⟩
                rw [hsplit]
                simp
            · intro e he o ho
              exact dbl_lt_false_of_le_false _ _
                (dbl_le_false_of_not_lt o c1 c2 hlt (hleast2 e he o ho))
          · rw [if_neg hlt] at hfc
            have hlt2 : dbl_lt c1 c2 = false := by simpa using hlt
            have hrr : r = r2 := Option.some.inj hfc
            refine ⟨c2, Or.inr ?_, ?_, hleast2⟩
            · rcases hs2 with ⟨hc2m, _, hall2⟩ | ⟨_, pre, e1, post, hsplit, hax, hov, _, _⟩
              · exfalso
                rcases hs1 with ⟨hc1m, _, hall1⟩ | ⟨hc1lt, _⟩
                · rcases hrange with ⟨e, he, o, ho, hlo⟩ | ⟨e, he, o, ho, hlo⟩
                  · rw [hall1 e he o ho] at hlo
                    simp at hlo
                  · rw [hall2 e he o ho] at hlo
                    simp at hlo
                · rw [hc2m, hc1lt] at hlt2
                  simp at hlt2
              · refine ⟨e1, ?_, by rw [hrr]; exact hax, hov⟩
                rw [hsplit]
                simp
            · intro e he o ho
              exact dbl_lt_false_trans o c1 c2 hn1 (hleast1 e he o ho) hlt2 hn2

theorem find_collision_least_penetration_witness :
    ∃ c : double,
      ((∃ e ∈ get_edges_dbl (body_get_shape_dbl
            (static_body_dbl [vec_dbl 0 0, vec_dbl 1 0, vec_dbl 1 1, vec_dbl 0 1])),
          vec_dbl 0 (-1) = edge_unit_axis_dbl libm_dbl e ∧
          edge_overlap_dbl libm_dbl
              (body_get_shape_dbl
                (static_body_dbl [vec_dbl 0 0, vec_dbl 1 0, vec_dbl 1 1, vec_dbl 0 1]))
              (body_get_shape_dbl
                (static_body_dbl [vec_dbl 0.5 0.5, vec_dbl 1.5 0.5, vec_dbl 1.5 1.5,
                  vec_dbl 0.5 1.5])) e = some c) ∨
        (∃ e ∈ get_edges_dbl (body_get_shape_dbl
            (static_body_dbl [vec_dbl 0.5 0.5, vec_dbl 1.5 0.5, vec_dbl 1.5 1.5,
              vec_dbl 0.5 1.5])),
          vec_dbl 0 (-1) = edge_unit_axis_dbl libm_dbl e ∧
          edge_overlap_dbl libm_dbl
              (body_get_shape_dbl
                (static_body_dbl [vec_dbl 0.5 0.5, vec_dbl 1.5 0.5, vec_dbl 1.5 1.5,
                  vec_dbl 0.5 1.5]))
              (body_get_shape_dbl
                (static_body_dbl [vec_dbl 0 0, vec_dbl 1 0, vec_dbl 1 1, vec_dbl 0 1])) e =
                some c)) :=
  (find_collision_least_penetration libm_dbl
    (static_body_dbl [vec_dbl 0 0, vec_dbl 1 0, vec_dbl 1 1, vec_dbl 0 1])
    (static_body_dbl [vec_dbl 0.5 0.5, vec_dbl 1.5 0.5, vec_dbl 1.5 1.5, vec_dbl 0.5 1.5])
    ⟨true, vec_dbl 0 (-1)⟩
    (Or.inl ⟨vec_dbl (-1) 0, by decide!, dbl 0.5, by decide!, by decide!⟩)
    (by decide!) rfl).imp (fun _ h => h.1)

/-- C30, amended: on doubles, for two bodies on non-empty polygons both sweeps of
`find_collision` return, and when both report a collision the record of the
sweep over the first body's edges is returned exactly when its final
`*min_overlap` is `<` that of the second sweep, and the record of the second
sweep otherwise, also on a tie.  A sweep that reports a collision either found
no edge with a computed overlap below `DBL_MAX` and ends with `DBL_MAX` and the
axis `VEC_ZERO`, or it ends with the computed overlap of an edge that supplies
the axis, where no earlier edge has an overlap `<=` it and no later edge an
overlap `<` it: the first edge attaining the least computed overlap. -/
theorem find_collision_tie_break (M : Libm double) (body1 body2 : body_t double)
    (h1 : body_get_shape_dbl body1 ≠ []) (h2 : body_get_shape_dbl body2 ≠ []) :
    ∃ (r1 r2 : collision_info_t double) (c1 c2 : double),
      compare_collision_dbl M (body_get_shape_dbl body1) (body_get_shape_dbl body2)
        (double.fin MAX_FINITE) = some (r1, c1) ∧
      compare_collision_dbl M (body_get_shape_dbl body2) (body_get_shape_dbl body1)
        (double.fin MAX_FINITE) = some (r2, c2) ∧
      (r1.collided = true → r2.collided = true →
        find_collision_dbl M body1 body2 = some (if dbl_lt c1 c2 = true then r1 else r2) ∧
        (dbl_lt c1 c2 = true → find_collision_dbl M body1 body2 = some r1) ∧
        (c1 = c2 → find_collision_dbl M body1 body2 = some r2) ∧
        (dbl_lt c2 c1 = true → find_collision_dbl M body1 body2 = some r2) ∧
        ((c1 = double.fin MAX_FINITE ∧ r1.axis = VEC_ZERO_dbl ∧
            ∀ e ∈ get_edges_dbl (body_get_shape_dbl body1), ∀ o,
              edge_overlap_dbl M (body_get_shape_dbl body1) (body_get_shape_dbl body2) e =
                some o → dbl_lt o (double.fin MAX_FINITE) = false) ∨
          (dbl_lt c1 (double.fin MAX_FINITE) = true ∧
            ∃ (pre : List (vector_t double)) (e : vector_t double)
              (post : List (vector_t double)),
              get_edges_dbl (body_get_shape_dbl body1) = pre ++ e :: post ∧
              r1.axis = edge_unit_axis_dbl M e ∧
              edge_overlap_dbl M (body_get_shape_dbl body1) (body_get_shape_dbl body2) e =
                some c1 ∧
              (∀ e2 ∈ pre, ∀ o,
                edge_overlap_dbl M (body_get_shape_dbl body1) (body_get_shape_dbl body2) e2 =
                  some o → dbl_le o c1 = false) ∧
              (∀ e2 ∈ post, ∀ o,
                edge_overlap_dbl M (body_get_shape_dbl body1) (body_get_shape_dbl body2) e2 =
                  some o → dbl_lt o c1 = false))) ∧
        ((c2 = double.fin MAX_FINITE ∧ r2.axis = VEC_ZERO_dbl ∧
            ∀ e ∈ get_edges_dbl (body_get_shape_dbl body2), ∀ o,
              edge_overlap_dbl M (body_get_shape_dbl body2) (body_get_shape_dbl body1) e =
                some o → dbl_lt o (double.fin MAX_FINITE) = false) ∨
          (dbl_lt c2 (double.fin MAX_FINITE) = true ∧
            ∃ (pre : List (vector_t double)) (e : vector_t double)
              (post : List (vector_t double)),
              get_edges_dbl (body_get_shape_dbl body2) = pre ++ e :: post ∧
              r2.axis = edge_unit_axis_dbl M e ∧
              edge_overlap_dbl M (body_get_shape_dbl body2) (body_get_shape_dbl body1) e =
                some c2 ∧
              (∀ e2 ∈ pre, ∀ o,
                edge_overlap_dbl M (body_get_shape_dbl body2) (body_get_shape_dbl body1) e2 =
                  some o → dbl_le o c2 = false) ∧
              (∀ e2 ∈ post, ∀ o,
                edge_overlap_dbl M (body_get_shape_dbl body2) (body_get_shape_dbl body1) e2 =
                  some o → dbl_lt o c2 = false)))) := by
  obtain ⟨r1, c1, hr1⟩ := compare_collision_loop_dbl_returns M _ _ h1 h2
    (get_edges_dbl (body_get_shape_dbl body1)) { collided := false, axis := VEC_ZERO_dbl }
    (double.fin MAX_FINITE)
  obtain ⟨r2, c2, hr2⟩ := compare_collision_loop_dbl_returns M _ _ h2 h1
    (get_edges_dbl (body_get_shape_dbl body2)) { collided := false, axis := VEC_ZERO_dbl }
    (double.fin MAX_FINITE)
  refine ⟨r1, r2, c1, c2, hr1, hr2, ?_⟩
  intro hcol1 hcol2
  have hfc : find_collision_dbl M body1 body2 =
      some (if dbl_lt c1 c2 = true then r1 else r2) := by
    rw [find_collision_dbl_eq M body1 body2 r1 r2 c1 c2 hr1 hr2, if_neg (by simp [hcol1]),
      if_neg (by simp [hcol2])]
    by_cases hlt : dbl_lt c1 c2 = true
    · rw [if_pos hlt, if_pos hlt]
    · rw [if_neg hlt, if_neg hlt]
  refine ⟨hfc, ?_, ?_, ?_,
    (compare_collision_loop_dbl_spec M _ _ _ _ _ r1 c1 rfl hr1 hcol1).2,
    (compare_collision_loop_dbl_spec M _ _ _ _ _ r2 c2 rfl hr2 hcol2).2⟩
  · intro hlt
    rw [hfc, if_pos hlt]
  · intro heq
    rw [hfc, heq, dbl_lt_irrefl]
    simp
  · intro hgt
    rw [hfc, dbl_lt_asymm _ _ hgt]
    simp

theorem find_collision_tie_break_witness :
    ∃ (r1 r2 : collision_info_t double) (c1 c2 : double),
      compare_collision_dbl libm_dbl
        (body_get_shape_dbl
          (static_body_dbl [vec_dbl 0 0, vec_dbl 1 0, vec_dbl 1 1, vec_dbl 0 1]))
        (body_get_shape_dbl
          (static_body_dbl [vec_dbl 0.5 0.5, vec_dbl 1.5 0.5, vec_dbl 1.5 1.5,
            vec_dbl 0.5 1.5])) (double.fin MAX_FINITE) = some (r1, c1) ∧
      compare_collision_dbl libm_dbl
        (body_get_shape_dbl
          (static_body_dbl [vec_dbl 0.5 0.5, vec_dbl 1.5 0.5, vec_dbl 1.5 1.5,
            vec_dbl 0.5 1.5]))
        (body_get_shape_dbl
          (static_body_dbl [vec_dbl 0 0, vec_dbl 1 0, vec_dbl 1 1, vec_dbl 0 1]))
        (double.fin MAX_FINITE) = some (r2, c2) ∧
      (r1.collided = true → r2.collided = true →
        find_collision_dbl libm_dbl
          (static_body_dbl [vec_dbl 0 0, vec_dbl 1 0, vec_dbl 1 1, vec_dbl 0 1])
          (static_body_dbl [vec_dbl 0.5 0.5, vec_dbl 1.5 0.5, vec_dbl 1.5 1.5,
            vec_dbl 0.5 1.5]) = some (if dbl_lt c1 c2 = true then r1 else r2)) := by
  obtain ⟨r1, r2, c1, c2, hr1, hr2, h⟩ := find_collision_tie_break libm_dbl
    (static_body_dbl [vec_dbl 0 0, vec_dbl 1 0, vec_dbl 1 1, vec_dbl 0 1])
    (static_body_dbl [vec_dbl 0.5 0.5, vec_dbl 1.5 0.5, vec_dbl 1.5 1.5, vec_dbl 0.5 1.5])
    (by decide!) (by decide!)
  exact ⟨r1, r2, c1, c2, hr1, hr2, fun a b => (h a b).1⟩

end DoubleSweepClaims

section DoubleCollision

theorem no_zero_length_edge_tilted_square (x y : ℚ) :
    no_zero_length_edge (tilted_square x y) := by
  intro i hi
  have hi4 : i < 4 := hi
  interval_cases i <;> simp [tilted_square, list_get, list_size]

/-- C7, counterexample: the squares (0,0),(4,3),(1,7),(-3,4) and
(4,3),(8,6),(5,10),(1,7) share an edge and only touch: in exact arithmetic the
overlap along the unit normal (4/5, 3/5) of that edge is 0.  On doubles
`find_collision` reports a collision: for the shared edge the unit axis is
computed as (0.8, 0.6000000000000001) and the overlap as 8.881784197001252e-16. -/
theorem find_collision_collided_iff_counterexample :
    find_collision_dbl libm_dbl
        (static_body_dbl [vec_dbl 0 0, vec_dbl 4 3, vec_dbl 1 7, vec_dbl (-3) 4])
        (static_body_dbl [vec_dbl 4 3, vec_dbl 8 6, vec_dbl 5 10, vec_dbl 1 7]) =
      some ⟨true, vec_dbl 0.8 0.6000000000000001⟩ ∧
    vec_dbl 3 (-4) ∈ get_edges_dbl [vec_dbl 0 0, vec_dbl 4 3, vec_dbl 1 7, vec_dbl (-3) 4] ∧
    edge_unit_axis_dbl libm_dbl (vec_dbl 3 (-4)) = vec_dbl 0.8 0.6000000000000001 ∧
    edge_overlap_dbl libm_dbl [vec_dbl 0 0, vec_dbl 4 3, vec_dbl 1 7, vec_dbl (-3) 4]
        [vec_dbl 4 3, vec_dbl 8 6, vec_dbl 5 10, vec_dbl 1 7] (vec_dbl 3 (-4)) =
      some (dbl 8.881784197001252e-16) ∧
    [vec_dbl 0 0, vec_dbl 4 3, vec_dbl 1 7, vec_dbl (-3) 4].map vec_value =
      tilted_square (0 : ℚ) 0 ∧
    [vec_dbl 4 3, vec_dbl 8 6, vec_dbl 5 10, vec_dbl 1 7].map vec_value =
      tilted_square (4 : ℚ) 3 ∧
    no_zero_length_edge (tilted_square (0 : ℚ) 0) ∧
    no_zero_length_edge (tilted_square (4 : ℚ) 3) ∧
    is_unit_normal (⟨4 / 5, 3 / 5⟩ : vector_t ℚ) (edge_vector (tilted_square (0 : ℚ) 0) 1) ∧
    proj_overlap (tilted_square (0 : ℚ) 0) (tilted_square 4 3) ⟨4 / 5, 3 / 5⟩ = 0 := by
  refine ⟨by decide!, by decide!, by decide!, by decide!, by decide!, by decide!,
    no_zero_length_edge_tilted_square _ _, no_zero_length_edge_tilted_square _ _, ?_,
    by decide!⟩
  unfold is_unit_normal
  exact ⟨by decide!, by decide!⟩

/-- C8, counterexample: on doubles `find_collision` reports a collision of the
square (0,0),(4,3),(1,7),(-3,4) with its copy moved by (1,1) and returns the
axis (0.8, 0.6000000000000001), whose squared length is not 1: the axis is a
unit normal of no edge. -/
theorem find_collision_least_penetration_counterexample :
    find_collision_dbl libm_dbl
        (static_body_dbl [vec_dbl 0 0, vec_dbl 4 3, vec_dbl 1 7, vec_dbl (-3) 4])
        (static_body_dbl [vec_dbl 1 1, vec_dbl 5 4, vec_dbl 2 8, vec_dbl (-2) 5]) =
      some ⟨true, vec_dbl 0.8 0.6000000000000001⟩ ∧
    [vec_dbl 0 0, vec_dbl 4 3, vec_dbl 1 7, vec_dbl (-3) 4].map vec_value =
      tilted_square (0 : ℚ) 0 ∧
    [vec_dbl 1 1, vec_dbl 5 4, vec_dbl 2 8, vec_dbl (-2) 5].map vec_value =
      tilted_square (1 : ℚ) 1 ∧
    no_zero_length_edge (tilted_square (0 : ℚ) 0) ∧
    no_zero_length_edge (tilted_square (1 : ℚ) 1) ∧
    ∀ e : vector_t ℚ, ¬ is_unit_normal (vec_value (vec_dbl 0.8 0.6000000000000001)) e := by
  refine ⟨by decide!, by decide!, by decide!, no_zero_length_edge_tilted_square _ _,
    no_zero_length_edge_tilted_square _ _, ?_⟩
  intro e h
  have h1 : vec_dot (vec_value (vec_dbl 0.8 0.6000000000000001))
      (vec_value (vec_dbl 0.8 0.6000000000000001)) ≠ 1 := by decide!
  exact h1 h.1

/-- C9, counterexample: on doubles `find_collision` reports a collision of the
triangles (0,0),(3,1),(1,3) and (1,1),(4,2),(2,4), whose vertices are all
distinct, and returns the axis (0.7071067811865475, 0.7071067811865475):
its length computed by `vec_get_length` is 0.9999999999999999 and its exact
squared length is not 1. -/
theorem find_collision_axis_unit_counterexample :
    find_collision_dbl libm_dbl
        (static_body_dbl [vec_dbl 0 0, vec_dbl 3 1, vec_dbl 1 3])
        (static_body_dbl [vec_dbl 1 1, vec_dbl 4 2, vec_dbl 2 4]) =
      some ⟨true, vec_dbl 0.7071067811865475 0.7071067811865475⟩ ∧
    [vec_dbl 0 0, vec_dbl 3 1, vec_dbl 1 3].Nodup ∧
    [vec_dbl 1 1, vec_dbl 4 2, vec_dbl 2 4].Nodup ∧
    vec_get_length_dbl libm_dbl (vec_dbl 0.7071067811865475 0.7071067811865475) =
      dbl 0.9999999999999999 ∧
    vec_dot (vec_value (vec_dbl 0.7071067811865475 0.7071067811865475))
      (vec_value (vec_dbl 0.7071067811865475 0.7071067811865475)) ≠ 1 := by
  refine ⟨by decide!, by decide!, by decide!, by decide!, by decide!⟩

/-- C30, counterexample: the square (0,0), (4,3), (1,7), (-3,4) and its copy moved
by (-0.75, -5.25).  In exact arithmetic the overlap along the unit normal of
every edge of both shapes is 5/4, so the two sweeps tie and the first edge of
the second sweep, (-4,-3), attains the minimum.  On doubles the overlaps of the
edges of the second sweep are computed as 1.2500000000000004,
1.2500000000000002, 1.2500000000000004, 1.2500000000000002, and `find_collision`
returns the axis (0.8, 0.6000000000000001) of the second edge, (3,-4), not the
axis of the first edge.  And for the rectangle with the corners `(-2^1023, 0)` and
`(2^1023, 1)` against itself both sweeps report a collision and end with
`*min_overlap` still at `DBL_MAX` and the axis `VEC_ZERO`: the long edges overflow
to an infinity and give the overlap NaN, the short edges give the overlap `+inf`,
and no edge supplies the axis that `find_collision` returns. -/
theorem find_collision_tie_break_counterexample :
    (find_collision_dbl libm_dbl
          (static_body_dbl [vec_dbl 0 0, vec_dbl 4 3, vec_dbl 1 7, vec_dbl (-3) 4])
          (static_body_dbl [vec_dbl (-0.75) (-5.25), vec_dbl 3.25 (-2.25), vec_dbl 0.25 1.75,
            vec_dbl (-3.75) (-1.25)]) =
        some ⟨true, vec_dbl 0.8 0.6000000000000001⟩ ∧
      [vec_dbl 0 0, vec_dbl 4 3, vec_dbl 1 7, vec_dbl (-3) 4].map vec_value =
        tilted_square (0 : ℚ) 0 ∧
      [vec_dbl (-0.75) (-5.25), vec_dbl 3.25 (-2.25), vec_dbl 0.25 1.75,
          vec_dbl (-3.75) (-1.25)].map vec_value = tilted_square (-3 / 4 : ℚ) (-21 / 4) ∧
      (∀ e ∈ get_edges (tilted_square (0 : ℚ) 0) ++
          get_edges (tilted_square (-3 / 4 : ℚ) (-21 / 4)),
        is_unit_normal (⟨-e.y / 5, e.x / 5⟩ : vector_t ℚ) e ∧
        proj_overlap (tilted_square (0 : ℚ) 0) (tilted_square (-3 / 4) (-21 / 4))
          ⟨-e.y / 5, e.x / 5⟩ = 5 / 4) ∧
      get_edges_dbl [vec_dbl (-0.75) (-5.25), vec_dbl 3.25 (-2.25), vec_dbl 0.25 1.75,
          vec_dbl (-3.75) (-1.25)] =
        [vec_dbl (-4) (-3), vec_dbl 3 (-4), vec_dbl 4 3, vec_dbl (-3) 4] ∧
      (get_edges_dbl [vec_dbl (-0.75) (-5.25), vec_dbl 3.25 (-2.25), vec_dbl 0.25 1.75,
          vec_dbl (-3.75) (-1.25)]).map
        (edge_overlap_dbl libm_dbl
          [vec_dbl (-0.75) (-5.25), vec_dbl 3.25 (-2.25), vec_dbl 0.25 1.75,
            vec_dbl (-3.75) (-1.25)]
          [vec_dbl 0 0, vec_dbl 4 3, vec_dbl 1 7, vec_dbl (-3) 4]) =
        [some (dbl 1.2500000000000004), some (dbl 1.2500000000000002),
          some (dbl 1.2500000000000004), some (dbl 1.2500000000000002)] ∧
      edge_unit_axis_dbl libm_dbl (vec_dbl (-4) (-3)) = vec_dbl 0.6000000000000001 (-0.8) ∧
      edge_unit_axis_dbl libm_dbl (vec_dbl 3 (-4)) = vec_dbl 0.8 0.6000000000000001 ∧
      vec_dbl 0.8 0.6000000000000001 ≠ vec_dbl 0.6000000000000001 (-0.8)) ∧
    (compare_collision_dbl libm_dbl
          [vec_dbl (-(2 ^ 1023)) 0, vec_dbl (2 ^ 1023) 0, vec_dbl (2 ^ 1023) 1,
            vec_dbl (-(2 ^ 1023)) 1]
          [vec_dbl (-(2 ^ 1023)) 0, vec_dbl (2 ^ 1023) 0, vec_dbl (2 ^ 1023) 1,
            vec_dbl (-(2 ^ 1023)) 1] (double.fin MAX_FINITE) =
        some (⟨true, VEC_ZERO_dbl⟩, double.fin MAX_FINITE) ∧
      find_collision_dbl libm_dbl
          (static_body_dbl [vec_dbl (-(2 ^ 1023)) 0, vec_dbl (2 ^ 1023) 0,
            vec_dbl (2 ^ 1023) 1, vec_dbl (-(2 ^ 1023)) 1])
          (static_body_dbl [vec_dbl (-(2 ^ 1023)) 0, vec_dbl (2 ^ 1023) 0,
            vec_dbl (2 ^ 1023) 1, vec_dbl (-(2 ^ 1023)) 1]) = some ⟨true, VEC_ZERO_dbl⟩ ∧
      ∀ e ∈ get_edges_dbl [vec_dbl (-(2 ^ 1023)) 0, vec_dbl (2 ^ 1023) 0, vec_dbl (2 ^ 1023) 1,
            vec_dbl (-(2 ^ 1023)) 1],
        edge_unit_axis_dbl libm_dbl e ≠ VEC_ZERO_dbl) := by
  refine ⟨⟨by decide!, by decide!, by decide!, ?_, by decide!, by decide!, by decide!,
    by decide!, by decide!⟩, by decide!, by decide!, by decide!⟩
  unfold is_unit_normal
  decide!

end DoubleCollision

section DoublePolygon

/-- C18, counterexample: on doubles, after `polygon_set_center` of the triangle
(0,0), (0,1), (1,0), of non-zero signed area, to the target (1,1) the centroid is
(1.0000000000000002, 1.0000000000000002), not the target. -/
theorem polygon_set_center_counterexample :
    signed_area ([vec_dbl 0 0, vec_dbl 0 1, vec_dbl 1 0].map vec_value) ≠ 0 ∧
    polygon_centroid_dbl
        (polygon_set_center_dbl (polygon_dbl [vec_dbl 0 0, vec_dbl 0 1, vec_dbl 1 0])
          (vec_dbl 1 1)) = vec_dbl 1.0000000000000002 1.0000000000000002 ∧
    vec_dbl 1.0000000000000002 1.0000000000000002 ≠ vec_dbl 1 1 := by
  refine ⟨by decide!, by decide!, by decide!⟩

/-- C19, counterexample: on doubles, with `cos 0 = 1` and `sin 0 = 0`, the second
`polygon_set_rotation` to the angle 0 of the triangle (0,0.1), (0,0.4), (0.9,0.6)
moves a vertex: after the first call the third vertex is (0.9, 0.6), after the
second it is (0.9000000000000001, 0.6). -/
theorem polygon_set_rotation_idempotent_counterexample :
    (polygon_set_rotation_dbl libm_dbl
        (polygon_dbl [vec_dbl 0 0.1, vec_dbl 0 0.4, vec_dbl 0.9 0.6]) (dbl 0)).points =
      [vec_dbl 0 0.09999999999999998, vec_dbl 0 0.4, vec_dbl 0.9 0.6] ∧
    (polygon_set_rotation_dbl libm_dbl
        (polygon_set_rotation_dbl libm_dbl
          (polygon_dbl [vec_dbl 0 0.1, vec_dbl 0 0.4, vec_dbl 0.9 0.6]) (dbl 0)) (dbl 0)).points =
      [vec_dbl 0 0.09999999999999998, vec_dbl 0 0.4, vec_dbl 0.9000000000000001 0.6] ∧
    vec_dbl 0.9000000000000001 0.6 ≠ vec_dbl 0.9 0.6 := by
  refine ⟨by decide!, by decide!, by decide!⟩

/-- C20, counterexample: on doubles, for the triangle (0,0.1), (0,0.8), (0.9,0.2)
of non-zero signed area with stored rotation 0, `polygon_set_rotation` to `a = 0`
and then to `t = 0` does not give the vertices of `polygon_set_rotation` to
`t = 0` alone, and setting the rotation to 0 and back to the current rotation 0
does not restore the original vertices. -/
theorem polygon_set_rotation_independent_counterexample :
    signed_area ([vec_dbl 0 0.1, vec_dbl 0 0.8, vec_dbl 0.9 0.2].map vec_value) ≠ 0 ∧
    (polygon_set_rotation_dbl libm_dbl
        (polygon_set_rotation_dbl libm_dbl
          (polygon_dbl [vec_dbl 0 0.1, vec_dbl 0 0.8, vec_dbl 0.9 0.2]) (dbl 0)) (dbl 0)).points =
      [vec_dbl 0 0.10000000000000003, vec_dbl 0 0.8, vec_dbl 0.9000000000000001 0.2] ∧
    (polygon_set_rotation_dbl libm_dbl
        (polygon_dbl [vec_dbl 0 0.1, vec_dbl 0 0.8, vec_dbl 0.9 0.2]) (dbl 0)).points =
      [vec_dbl 0 0.10000000000000003, vec_dbl 0 0.8, vec_dbl 0.9 0.2] ∧
    (polygon_set_rotation_dbl libm_dbl
        (polygon_set_rotation_dbl libm_dbl
          (polygon_dbl [vec_dbl 0 0.1, vec_dbl 0 0.8, vec_dbl 0.9 0.2]) (dbl 0)) (dbl 0)).points ≠
      (polygon_set_rotation_dbl libm_dbl
        (polygon_dbl [vec_dbl 0 0.1, vec_dbl 0 0.8, vec_dbl 0.9 0.2]) (dbl 0)).points ∧
    (polygon_set_rotation_dbl libm_dbl
        (polygon_set_rotation_dbl libm_dbl
          (polygon_dbl [vec_dbl 0 0.1, vec_dbl 0 0.8, vec_dbl 0.9 0.2]) (dbl 0)) (dbl 0)).points ≠
      [vec_dbl 0 0.1, vec_dbl 0 0.8, vec_dbl 0.9 0.2] := by
  refine ⟨by decide!, by decide!, by decide!, by decide!, by decide!⟩

/-- C22, counterexample: on doubles, for the collinear vertices (0,0), (1,0), (2,0)
and for the polygon without vertices the divisor `CENTROID_SCALE * signed_area`
is 0, the two divisions are executed, and `polygon_centroid` returns
(NaN, NaN): neither a defined result nor a refusal. -/
theorem polygon_centroid_guard_counterexample :
    centroid_divisor_dbl [vec_dbl 0 0, vec_dbl 1 0, vec_dbl 2 0] = double.fin 0 ∧
    polygon_centroid_dbl (polygon_dbl [vec_dbl 0 0, vec_dbl 1 0, vec_dbl 2 0]) =
      ⟨double.nan, double.nan⟩ ∧
    centroid_divisor_dbl [] = double.fin 0 ∧
    polygon_centroid_dbl (polygon_dbl []) = ⟨double.nan, double.nan⟩ := by
  refine ⟨by decide!, by decide!, by decide!, by decide!⟩

/-- C27, counterexample: on doubles, for the triangle (0,0), (0,0.1), (0.7,0.2)
of non-zero area `polygon_centroid` returns
(0.23333333333333334, 0.10000000000000002), which is neither the mean of the
three vertices nor the double nearest to it, (0.2333333333333333, 0.1). -/
theorem polygon_centroid_triangle_counterexample :
    signed_area ([vec_dbl 0 0, vec_dbl 0 0.1, vec_dbl 0.7 0.2].map vec_value) ≠ 0 ∧
    polygon_centroid_dbl (polygon_dbl [vec_dbl 0 0, vec_dbl 0 0.1, vec_dbl 0.7 0.2]) =
      vec_dbl 0.23333333333333334 0.10000000000000002 ∧
    vec_value (vec_dbl 0.23333333333333334 0.10000000000000002) ≠
      ⟨(dbl_value (dbl 0) + dbl_value (dbl 0) + dbl_value (dbl 0.7)) / 3,
       (dbl_value (dbl 0) + dbl_value (dbl 0.1) + dbl_value (dbl 0.2)) / 3⟩ ∧
    (⟨round_double ((dbl_value (dbl 0) + dbl_value (dbl 0) + dbl_value (dbl 0.7)) / 3),
      round_double ((dbl_value (dbl 0) + dbl_value (dbl 0.1) + dbl_value (dbl 0.2)) / 3)⟩ :
        vector_t double) = vec_dbl 0.2333333333333333 0.1 ∧
    dbl 0.23333333333333334 ≠ dbl 0.2333333333333333 ∧
    dbl 0.10000000000000002 ≠ dbl 0.1 := by
  refine ⟨by decide!, by decide!, by decide!, by decide!, by decide!, by decide!⟩

/-- C25, counterexample: on doubles, for the start (0,0), the end (1,60) and
`max_speed = 500` the vector returned by `character_shot_velocity` is
(-8.332176166996666, 499.93057001980003), and its squared length is larger than
`500^2`: the shot is faster than `max_speed`. -/
theorem character_shot_velocity_counterexample :
    character_shot_velocity_dbl libm_dbl (vec_dbl 0 0) (vec_dbl 1 60) (dbl 500) =
      vec_dbl (-8.332176166996666) 499.93057001980003 ∧
    500 * 500 < vec_dot (vec_value (vec_dbl (-8.332176166996666) 499.93057001980003))
      (vec_value (vec_dbl (-8.332176166996666) 499.93057001980003)) := by
  refine ⟨by decide!, by decide!⟩

end DoublePolygon

section DoubleSoundness

theorem convex_ccw_steep_square (x y : ℝ) : convex_ccw (steep_square x y) := by
  intro i hi k hk
  have hi4 : i < 4 := hi
  have hk4 : k < 4 := hk
  interval_cases i <;> interval_cases k <;>
    norm_num [edge_vector, steep_square, list_get, list_size, vec_subtract, vec_cross] <;>
    linarith

theorem polygon_area_steep_square (x y : ℝ) :
    polygon_area (static_body (steep_square x y)).poly ≠ 0 := by
  rw [polygon_area_eq, centroid_loop_eq_sum]
  have h3 : ¬ list_size (static_body (steep_square x y)).poly.points < 3 := by
    simp [static_body, body_init, body_init_with_info, polygon_init, steep_square, list_size]
  rw [if_neg h3]
  have hsum : ∑ i in Finset.range (list_size (static_body (steep_square x y)).poly.points),
      vec_cross (list_get (static_body (steep_square x y)).poly.points i)
        (list_get (static_body (steep_square x y)).poly.points
          ((i + 1) % list_size (static_body (steep_square x y)).poly.points)) = 58 := by
    simp [static_body, body_init, body_init_with_info, polygon_init, steep_square, list_size,
      list_get, vec_cross, Finset.sum_range_succ]
    ring
  simp only [hsum]
  norm_num

theorem steep_squares_disjoint :
    Disjoint (filled_polygon (steep_square (0 : ℝ) 0))
      (filled_polygon (steep_square (2 + 1 / 2 ^ 50 : ℝ) 5)) := by
  have hlin : IsLinearMap ℝ (fun q : ℝ × ℝ => 2 * q.1 + 5 * q.2) := by
    constructor
    · intro x y
      simp only [Prod.fst_add, Prod.snd_add]
      ring
    · intro a x
      simp only [Prod.smul_fst, Prod.smul_snd, smul_eq_mul]
      ring
  have hsub1 : filled_polygon (steep_square (0 : ℝ) 0) ⊆
      {q : ℝ × ℝ | 2 * q.1 + 5 * q.2 ≤ 29} := by
    unfold filled_polygon
    apply convexHull_min
    · rintro q ⟨v, hv, rfl⟩
      simp only [steep_square, Set.mem_setOf_eq, List.mem_cons, List.mem_singleton,
        List.not_mem_nil, or_false] at hv
      rcases hv with rfl | rfl | rfl | rfl <;> norm_num
    · exact convex_halfSpace_le hlin 29
  have hsub2 : filled_polygon (steep_square (2 + 1 / 2 ^ 50 : ℝ) 5) ⊆
      {q : ℝ × ℝ | 29 + 1 / 2 ^ 49 ≤ 2 * q.1 + 5 * q.2} := by
    unfold filled_polygon
    apply convexHull_min
    · rintro q ⟨v, hv, rfl⟩
      simp only [steep_square, Set.mem_setOf_eq, List.mem_cons, List.mem_singleton,
        List.not_mem_nil, or_false] at hv
      rcases hv with rfl | rfl | rfl | rfl <;> norm_num
    · exact convex_halfSpace_ge hlin _
  rw [Set.disjoint_left]
  intro q h1 h2
  have ha : 2 * q.1 + 5 * q.2 ≤ 29 := hsub1 h1
  have hb : 29 + 1 / 2 ^ 49 ≤ 2 * q.1 + 5 * q.2 := hsub2 h2
  have hpos : (0 : ℝ) < 1 / 2 ^ 49 := by positivity
  linarith

/-- C10, counterexample: the square (0,0), (2,5), (-3,7), (-5,2) and its copy moved
by `(2 + 2^(-50), 5)` are convex counterclockwise rings of non-zero area whose
vertices are doubles, and their filled polygons are disjoint (`2 x + 5 y` is at
most 29 on the first and at least `29 + 2^(-49)` on the second).  On doubles
`find_collision` reports a collision, with the axis
(0.3713906763541037, 0.9284766908852593). -/
theorem find_collision_sound_counterexample :
    find_collision_dbl libm_dbl
        (static_body_dbl [vec_dbl 0 0, vec_dbl 2 5, vec_dbl (-3) 7, vec_dbl (-5) 2])
        (static_body_dbl [vec_dbl (2 + 1 / 2 ^ 50) 5, vec_dbl (4 + 1 / 2 ^ 50) 10,
          vec_dbl (-1 + 1 / 2 ^ 50) 12, vec_dbl (-3 + 1 / 2 ^ 50) 7]) =
      some ⟨true, vec_dbl 0.3713906763541037 0.9284766908852593⟩ ∧
    [vec_dbl 0 0, vec_dbl 2 5, vec_dbl (-3) 7, vec_dbl (-5) 2].map vec_value =
      steep_square (0 : ℚ) 0 ∧
    [vec_dbl (2 + 1 / 2 ^ 50) 5, vec_dbl (4 + 1 / 2 ^ 50) 10, vec_dbl (-1 + 1 / 2 ^ 50) 12,
        vec_dbl (-3 + 1 / 2 ^ 50) 7].map vec_value = steep_square (2 + 1 / 2 ^ 50 : ℚ) 5 ∧
    convex_ccw (steep_square (0 : ℝ) 0) ∧
    convex_ccw (steep_square (2 + 1 / 2 ^ 50 : ℝ) 5) ∧
    polygon_area (static_body (steep_square (0 : ℝ) 0)).poly ≠ 0 ∧
    polygon_area (static_body (steep_square (2 + 1 / 2 ^ 50 : ℝ) 5)).poly ≠ 0 ∧
    Disjoint (filled_polygon (steep_square (0 : ℝ) 0))
      (filled_polygon (steep_square (2 + 1 / 2 ^ 50 : ℝ) 5)) := by
  exact ⟨by decide!, by decide!, by decide!, convex_ccw_steep_square _ _,
    convex_ccw_steep_square _ _, polygon_area_steep_square _ _, polygon_area_steep_square _ _,
    steep_squares_disjoint⟩

end DoubleSoundness

section DoubleCentroid

theorem dbl_div_zero_not_finite (a : double) :
    dbl_finite (dbl_div a (double.fin 0)) = false := by
  cases a with
  | fin q =>
    simp only [dbl_div, dbl_inf, dbl_sign]
    split_ifs <;> simp [dbl_finite]
  | pinf => simp [dbl_div, dbl_inf, dbl_sign, dbl_finite]
  | ninf => simp [dbl_div, dbl_inf, dbl_sign, dbl_finite]
  | nan => simp [dbl_div, dbl_finite]

/-- C22, amended: `polygon_centroid` has no guard. On doubles, whenever the divisor
`CENTROID_SCALE * signed_area` it computes is zero, it still executes both
divisions by it and returns a vector neither component of which is finite (NaN
for `0 / 0`, an infinity otherwise); the only early return for fewer than 3
vertices is that of `polygon_area`, which then returns 0. -/
theorem polygon_centroid_unguarded (polygon : polygon_t double)
    (hzero : centroid_divisor_dbl polygon.points = double.fin 0) :
    polygon_centroid_dbl polygon =
      ⟨dbl_div (centroid_loop_dbl polygon.points).2.x (double.fin 0),
       dbl_div (centroid_loop_dbl polygon.points).2.y (double.fin 0)⟩ ∧
    dbl_finite (polygon_centroid_dbl polygon).x = false ∧
    dbl_finite (polygon_centroid_dbl polygon).y = false ∧
    (polygon.points.length < 3 → polygon_area_dbl polygon = double.fin 0) := by
  have hc : polygon_centroid_dbl polygon =
      ⟨dbl_div (centroid_loop_dbl polygon.points).2.x (double.fin 0),
       dbl_div (centroid_loop_dbl polygon.points).2.y (double.fin 0)⟩ := by
    unfold centroid_divisor_dbl at hzero
    unfold polygon_centroid_dbl
    simp only [hzero]
  refine ⟨hc, ?_, ?_, ?_⟩
  · rw [hc]
    exact dbl_div_zero_not_finite _
  · rw [hc]
    exact dbl_div_zero_not_finite _
  · intro hsize
    unfold polygon_area_dbl
    simp only [hsize, if_true]

theorem polygon_centroid_unguarded_witness :
    polygon_centroid_dbl (polygon_dbl [vec_dbl 1 1, vec_dbl 3 2, vec_dbl 5 3]) =
      ⟨double.nan, double.nan⟩ ∧
    dbl_finite (polygon_centroid_dbl (polygon_dbl [vec_dbl 1 1, vec_dbl 3 2, vec_dbl 5 3])).x =
      false := by
  have h := polygon_centroid_unguarded (polygon_dbl [vec_dbl 1 1, vec_dbl 3 2, vec_dbl 5 3])
    (by decide!)
  exact ⟨by decide!, h.2.1⟩

end DoubleCentroid

section DoubleSeparation

theorem no_zero_length_edge_slanted_quad :
    no_zero_length_edge (slanted_quad : List (vector_t ℝ)) := by
  intro i hi
  have hi4 : i < 4 := hi
  interval_cases i <;> simp [slanted_quad, list_get, list_size]

theorem no_zero_length_edge_lowered_quad :
    no_zero_length_edge (lowered_quad : List (vector_t ℝ)) := by
  intro i hi
  have hi4 : i < 4 := hi
  interval_cases i <;> norm_num [lowered_quad, list_get, list_size]

theorem quads_not_separated (u : vector_t ℝ) (c : ℝ) (hu : vec_dot u u = 1) :
    ¬ (((∀ p ∈ (slanted_quad : List (vector_t ℝ)), vec_dot p u ≤ c) ∧
        (∀ q ∈ (lowered_quad : List (vector_t ℝ)), c ≤ vec_dot q u)) ∨
      ((∀ q ∈ (lowered_quad : List (vector_t ℝ)), vec_dot q u ≤ c) ∧
        (∀ p ∈ (slanted_quad : List (vector_t ℝ)), c ≤ vec_dot p u))) := by
  have ha0 : (⟨0, 0⟩ : vector_t ℝ) ∈ (slanted_quad : List (vector_t ℝ)) := by
    simp [slanted_quad]
  have ha1 : (⟨5, 4⟩ : vector_t ℝ) ∈ (slanted_quad : List (vector_t ℝ)) := by
    simp [slanted_quad]
  have ha2 : (⟨1, 9⟩ : vector_t ℝ) ∈ (slanted_quad : List (vector_t ℝ)) := by
    simp [slanted_quad]
  have ha3 : (⟨-4, 5⟩ : vector_t ℝ) ∈ (slanted_quad : List (vector_t ℝ)) := by
    simp [slanted_quad]
  have hb0 : (⟨5, 4 - 1 / 2 ^ 50⟩ : vector_t ℝ) ∈ (lowered_quad : List (vector_t ℝ)) := by
    simp [lowered_quad]
  have hb1 : (⟨10, 8 - 1 / 2 ^ 50⟩ : vector_t ℝ) ∈ (lowered_quad : List (vector_t ℝ)) := by
    simp [lowered_quad]
  have hb2 : (⟨6, 13⟩ : vector_t ℝ) ∈ (lowered_quad : List (vector_t ℝ)) := by
    simp [lowered_quad]
  have hb3 : (⟨1, 9⟩ : vector_t ℝ) ∈ (lowered_quad : List (vector_t ℝ)) := by
    simp [lowered_quad]
  simp only [vec_dot] at hu
  rintro (⟨hA, hB⟩ | ⟨hB, hA⟩)
  · have e0 := hA _ ha0
    have e1 := hA _ ha1
    have e2 := hA _ ha2
    have e3 := hA _ ha3
    have f0 := hB _ hb0
    have f1 := hB _ hb1
    have f2 := hB _ hb2
    have f3 := hB _ hb3
    simp only [vec_dot] at e0 e1 e2 e3 f0 f1 f2 f3
    norm_num at e0 e1 e2 e3 f0 f1 f2 f3
    have hy : u.y = 0 := by linarith
    have hx : u.x = 0 := by linarith
    rw [hx, hy] at hu
    norm_num at hu
  · have e0 := hA _ ha0
    have e1 := hA _ ha1
    have e2 := hA _ ha2
    have e3 := hA _ ha3
    have f0 := hB _ hb0
    have f1 := hB _ hb1
    have f2 := hB _ hb2
    have f3 := hB _ hb3
    simp only [vec_dot] at e0 e1 e2 e3 f0 f1 f2 f3
    norm_num at e0 e1 e2 e3 f0 f1 f2 f3
    have hy : u.y = 0 := by linarith
    have hx : u.x = 0 := by linarith
    rw [hx, hy] at hu
    norm_num at hu

/-- C26, counterexample: on doubles `find_collision` reports no collision of the
quadrilaterals (0,0), (5,4), (1,9), (-4,5) and `(5, 4 - 2^(-50))`,
`(10, 8 - 2^(-50))`, (6,13), (1,9), which have no zero-length edge and whose
vertices are doubles; yet the vertex (5,4) of the first lies inside the second,
along the normal of every edge the two projection intervals overlap by a
positive amount, and no unit vector `u` and constant `c` separate the two vertex
sets.  And the three collinear vertices (0,0), (1,0), (2,0) and the square with
corners (0,-1) and (2,1) are reported not collided, on doubles and in exact
arithmetic (the overlap along the normal of the first edge is 0), yet no line
separates the two vertex sets: the vertex (1,0) is the centre of the square. -/
theorem find_collision_separating_line_counterexample :
    (find_collision_dbl libm_dbl
          (static_body_dbl [vec_dbl 0 0, vec_dbl 5 4, vec_dbl 1 9, vec_dbl (-4) 5])
          (static_body_dbl [vec_dbl 5 (4 - 1 / 2 ^ 50), vec_dbl 10 (8 - 1 / 2 ^ 50), vec_dbl 6 13,
            vec_dbl 1 9]) =
        some ⟨false, vec_dbl 0.6246950475544243 (-0.7808688094430304)⟩ ∧
      [vec_dbl 0 0, vec_dbl 5 4, vec_dbl 1 9, vec_dbl (-4) 5].map vec_value =
        (slanted_quad : List (vector_t ℚ)) ∧
      [vec_dbl 5 (4 - 1 / 2 ^ 50), vec_dbl 10 (8 - 1 / 2 ^ 50), vec_dbl 6 13,
          vec_dbl 1 9].map vec_value = (lowered_quad : List (vector_t ℚ)) ∧
      no_zero_length_edge (slanted_quad : List (vector_t ℝ)) ∧
      no_zero_length_edge (lowered_quad : List (vector_t ℝ)) ∧
      (∀ e ∈ get_edges (slanted_quad : List (vector_t ℚ)) ++
          get_edges (lowered_quad : List (vector_t ℚ)),
        0 < proj_overlap (slanted_quad : List (vector_t ℚ)) lowered_quad ⟨-e.y, e.x⟩) ∧
      ¬ ∃ (u : vector_t ℝ) (c : ℝ), vec_dot u u = 1 ∧
        (((∀ p ∈ (slanted_quad : List (vector_t ℝ)), vec_dot p u ≤ c) ∧
            (∀ q ∈ (lowered_quad : List (vector_t ℝ)), c ≤ vec_dot q u)) ∨
          ((∀ q ∈ (lowered_quad : List (vector_t ℝ)), vec_dot q u ≤ c) ∧
            (∀ p ∈ (slanted_quad : List (vector_t ℝ)), c ≤ vec_dot p u)))) ∧
    (find_collision_dbl libm_dbl
          (static_body_dbl [vec_dbl 0 0, vec_dbl 1 0, vec_dbl 2 0])
          (static_body_dbl [vec_dbl 0 (-1), vec_dbl 2 (-1), vec_dbl 2 1, vec_dbl 0 1]) =
        some ⟨false, VEC_ZERO_dbl⟩ ∧
      no_zero_length_edge (body_get_shape (flat_body : body_t ℝ)) ∧
      no_zero_length_edge (body_get_shape (static_square (0 : ℝ) (-1) 2)) ∧
      (∃ r : collision_info_t ℝ,
        find_collision (Libm.mk Real.sqrt Real.cos Real.sin (fun y x => Complex.arg ⟨x, y⟩))
          flat_body (static_square 0 (-1) 2) = some r ∧ r.collided = false) ∧
      ¬ ∃ (u : vector_t ℝ) (c : ℝ), vec_dot u u = 1 ∧
        (((∀ p ∈ body_get_shape (flat_body : body_t ℝ), vec_dot p u ≤ c) ∧
            (∀ q ∈ body_get_shape (static_square (0 : ℝ) (-1) 2), c ≤ vec_dot q u)) ∨
          ((∀ q ∈ body_get_shape (static_square (0 : ℝ) (-1) 2), vec_dot q u ≤ c) ∧
            (∀ p ∈ body_get_shape (flat_body : body_t ℝ), c ≤ vec_dot p u)))) := by
  refine ⟨⟨by decide!, by decide!, by decide!, no_zero_length_edge_slanted_quad,
    no_zero_length_edge_lowered_quad, by decide!, ?_⟩,
    by decide!, no_zero_length_edge_flat, no_zero_length_edge_square _ _ _ (by norm_num),
    flat_not_collide _ real_sqrt_exact, ?_⟩
  · rintro ⟨u, c, hu, hsep⟩
    exact quads_not_separated u c hu hsep
  · rintro ⟨u, c, hu, hsep⟩
    exact flat_not_separated u c hu hsep

end DoubleSeparation

end BowFoes
